import Mathlib

/-!
# A shallow embedding of `libfs/.fs_submit.c`

The file system keeps its mounted volume in global variables: the superblock `sp`, the
root directory `root_dir`, the allocation table `fat`, the descriptor table `filedes` with its
counter `fd_cnt`.  Here the globals are the fields of one record `FsState`, threaded through every
function, together with the content of the block device.  `dir_entry` and `fat16` are scratch
pointers which every function assigns before it reads them, so they are locals here.

Conventions.
* A `uint16_t`, `uint32_t`, `size_t` value is a `Nat`, an `int`/`int32_t` value is an `Int`;
  the places where C wraps or converts are written out (`u16`, `toInt32`, `int_sub`,
  `size_sub`).
* A pointer to a directory entry or to a FAT slot is the index of the entry or slot;
  a pointer that may be `NULL` is an `Option`.
* Dereferencing `NULL` and overrunning the fixed local array `new_blk` are the outcome
  `Err.fault`; a loop that used up its fuel is `Err.timeout`.
* A file name is the C string itself: the characters before the terminating NUL.
-/

namespace LibFS

/-! ## Constants -/

/-- Modelled from the spec: `BLOCK_SIZE` is declared in `disk.h`, which is not among the sources;
the spec fixes the block size of the device to 4096 bytes. -/
def BLOCK_SIZE : Nat := 4096

/-- Modelled from the spec: `FS_FILENAME_LEN` is declared in `fs.h`, which is not among the
sources; the on-disk layout gives 16 bytes to a file name, NUL included. -/
def FS_FILENAME_LEN : Nat := 16

/-- Modelled from the spec: `FS_FILE_MAX_COUNT` is declared in `fs.h`, which is not among the
sources; the root directory holds 128 entries. -/
def FS_FILE_MAX_COUNT : Nat := 128

/-- Modelled from the spec: `FS_OPEN_MAX_COUNT` is declared in `fs.h`, which is not among the
sources; at most 32 descriptors are open at a time. -/
def FS_OPEN_MAX_COUNT : Nat := 32

/-- End-of-chain mark of the allocation table (`#define FAT_EOC 0xFFFF`). -/
def FAT_EOC : Nat := 0xFFFF

/-- The signature `"ECS150FS"` as bytes. -/
def FS_NAME : List Nat := [69, 67, 83, 49, 53, 48, 70, 83]

/-- The writer flag `'w'` stored in `unused[0]` of a directory entry. -/
def FLAG_W : Nat := 119

/-- The flag `'n'` stored in `unused[0]` when a write is over. -/
def FLAG_N : Nat := 110

/-- The flag `'o'` stored in `unused[0]` by `fs_open`. -/
def FLAG_O : Nat := 111

/-- The flag `'x'` stored in `unused[0]` by `fs_close`. -/
def FLAG_X : Nat := 120

/-! ## Machine integers -/

/-- Conversion to `uint16_t`. -/
def u16 (n : Nat) : Nat := n % 65536

/-- Conversion of an unsigned value to `int32_t` (two's complement). -/
@[irreducible]
def toInt32 (n : Nat) : Int := (((n + 2147483648) % 4294967296 : Nat) : Int) - 2147483648

/-- The difference `a - b` of two `int` values as the 32-bit machine computes it: the result
wraps around (two's complement) when it leaves the range of `int32_t`. -/
@[irreducible]
def int_sub (a b : Int) : Int := (a - b + 2147483648) % 4294967296 - 2147483648

/-- The difference `a - b` of two `size_t` values (64 bits). -/
@[irreducible]
def size_sub (a b : Nat) : Nat := (a + 18446744073709551616 - b) % 18446744073709551616

/-- The macro `clamp(x, y) (((x) <= (y)) ? (x) : (y))` on unsigned operands. -/
def clamp (x y : Nat) : Nat := if x ≤ y then x else y

/-- The macro `clamp` on signed operands. -/
def clampInt (x y : Int) : Int := if x ≤ y then x else y

/-! ## Outcomes -/

/-- What stops a call from returning: undefined behaviour or exhausted fuel. -/
inductive Err where
  | fault
  | timeout
deriving DecidableEq, Repr

deriving instance DecidableEq for Except

/-! ## The block device -/

/-- One block of the device: `BLOCK_SIZE` bytes. -/
abbrev Block := List Nat

/-- The content of the device: its blocks, addressed from 0. -/
abbrev Disk := List Block

/-- Modelled from the spec: `block_read` of `disk.h`, which is not among the sources
("read block i into a buffer"); it fails on an index past the last block. -/
def block_read (d : Disk) (i : Nat) : Option Block := d[i]?

/-- Modelled from the spec: `block_write` of `disk.h`, which is not among the sources
("write buffer to block i"); it fails on an index past the last block. -/
def block_write (d : Disk) (i : Nat) (b : Block) : Option Disk :=
  if i < d.length then some (d.set i b) else none

/-- Modelled from the spec: `block_disk_count` of `disk.h`, which is not among the sources
("block count"). -/
def block_disk_count (d : Disk) : Nat := d.length

/-- What `memcpy(dst + off, src, n)` leaves in `dst`. -/
def memcpy (dst : List Nat) (off : Nat) (src : List Nat) (n : Nat) : List Nat :=
  dst.take off ++ src.take n ++ dst.drop (off + n)

/-! ## Data structures -/

/-- The in-memory superblock: `struct SuperBlock`, with the rest of its 4096-byte buffer. -/
structure SuperBlock where
  signature : List Nat
  total_blk_count : Nat
  rdir_blk : Nat
  data_blk : Nat
  data_blk_count : Nat
  fat_blk_count : Nat
  fat_used : Nat
  rdir_used : Nat
  unused : List Nat
deriving DecidableEq, Repr

/-- One root directory entry: `struct RootDirEntry`.  `open_` is the field `open`,
`flag` is `unused[0]`. -/
structure RootDirEntry where
  filename : List Nat
  file_sz : Nat
  first_data_blk : Nat
  last_data_blk : Nat
  open_ : Nat
  flag : Nat
deriving DecidableEq, Repr

/-- One open descriptor: `struct FileDescriptor`; `file_entry` is the index of the entry it
points to. -/
structure FileDescriptor where
  file_entry : Nat
  offset : Nat
deriving DecidableEq, Repr

/-- The global state.  `mounted = false` stands for `sp`, `root_dir` and `fat` being `NULL`;
`filedes` has `FS_OPEN_MAX_COUNT` slots, `none` for `NULL`. -/
structure FsState where
  mounted : Bool
  sp : SuperBlock
  root_dir : List RootDirEntry
  fat : List Nat
  fd_cnt : Int
  filedes : List (Option FileDescriptor)
  disk : Disk
deriving DecidableEq, Repr

/-- A directory entry whose 32 bytes are zero. -/
def zero_entry : RootDirEntry :=
  { filename := [], file_sz := 0, first_data_blk := 0, last_data_blk := 0, open_ := 0, flag := 0 }

/-! ## Helpers of the source -/

/-- The descriptor slot `filedes[fd]`. -/
def fd_slot (s : FsState) (fd : Int) : Option FileDescriptor :=
  s.filedes.getD fd.toNat none

/-- The function `is_valid_fd`. -/
def is_valid_fd (s : FsState) (fd : Int) : Bool :=
  if fd < 0 ∨ fd ≥ (FS_OPEN_MAX_COUNT : Int) ∨ fd_slot s fd = none then false else true

/-- The descriptor `*filedes[fd]` of a valid `fd`. -/
def fd_get (s : FsState) (fd : Int) : FileDescriptor :=
  (fd_slot s fd).getD { file_entry := 0, offset := 0 }

/-- The scan of `get_valid_fd` from slot `i` on, `n` slots left. -/
def scan_fd (filedes : List (Option FileDescriptor)) : Nat → Nat → Int
  | 0, _ => -1
  | n + 1, i => if filedes.getD i none = none then (i : Int) else scan_fd filedes n (i + 1)

/-- The function `get_valid_fd`. -/
def get_valid_fd (s : FsState) : Int :=
  if s.fd_cnt ≥ (FS_OPEN_MAX_COUNT : Int) then -1
  else scan_fd s.filedes FS_OPEN_MAX_COUNT 0

/-- The entry `*get_dir(id)`. -/
def get_dir (s : FsState) (id : Nat) : RootDirEntry :=
  s.root_dir.getD id zero_entry

/-- The state after storing `e` through the pointer `get_dir(id)`. -/
def set_dir (s : FsState) (id : Nat) (e : RootDirEntry) : FsState :=
  { s with root_dir := s.root_dir.set id e }

/-- The state after the assignment `filedes[fd] = d`. -/
def set_fd (s : FsState) (fd : Int) (d : Option FileDescriptor) : FsState :=
  { s with filedes := s.filedes.set fd.toNat d }

/-- The function `get_fat`: the slot index behind the returned pointer, `none` for `NULL`. -/
def get_fat (s : FsState) (id : Nat) : Option Nat :=
  if s.mounted = false ∨ id = 0xFFFF then none
  else if id ≥ s.sp.data_blk_count then none
  else some id

/-- The value `*p` of a FAT slot. -/
def fat_at (s : FsState) (p : Nat) : Nat := s.fat.getD p 0

/-- The scan of `get_free_blk_idx` from slot `i` on, `n` slots left. -/
def scan_fat (fat : List Nat) : Nat → Nat → Int
  | 0, _ => -1
  | n + 1, i => if fat.getD i 0 = 0 then (i : Int) else scan_fat fat n (i + 1)

/-- The function `get_free_blk_idx`. -/
def get_free_blk_idx (s : FsState) : Int :=
  if s.mounted = false then -1
  else if (s.sp.data_blk_count : Int) - (s.sp.fat_used : Int) = 0 then -1
  else scan_fat s.fat (s.sp.data_blk_count - 1) 1

/-- The function `file_blk_count`. -/
def file_blk_count (sz : Nat) : Int :=
  if sz = 0 then 1
  else
    let k := sz / BLOCK_SIZE
    if k * BLOCK_SIZE < sz then (k : Int) + 1 else (k : Int)

/-- The loop of `get_valid_directory_entry` from entry `i` on, `n` entries left. -/
def scan_valid_entry (s : FsState) (filename : List Nat) : Nat → Nat → Int
  | 0, _ => -1
  | n + 1, i =>
    if (get_dir s i).filename = filename then -1
    else if (get_dir s i).filename = [] then (i : Int)
    else scan_valid_entry s filename n (i + 1)

/-- The function `get_valid_directory_entry` (its second argument is never read back). -/
def get_valid_directory_entry (s : FsState) (filename : List Nat) : Int :=
  if s.mounted = false then -1
  else scan_valid_entry s filename FS_FILE_MAX_COUNT 0

/-- The loop of `get_directory_entry` from entry `i` on, `n` entries left. -/
def scan_entry (s : FsState) (filename : List Nat) : Nat → Nat → Int
  | 0, _ => -1
  | n + 1, i =>
    if (get_dir s i).filename = filename then (i : Int)
    else scan_entry s filename n (i + 1)

/-- The function `get_directory_entry` (its second argument is never read back). -/
def get_directory_entry (s : FsState) (filename : List Nat) : Int :=
  if s.mounted = false then -1
  else scan_entry s filename FS_FILE_MAX_COUNT 0

/-- The loop of `erase_fat` standing at slot `p`: the FAT and `sp->fat_used` it leaves. -/
def erase_fat_loop (s : FsState) : Nat → List Nat → Nat → Nat → Except Err (List Nat × Nat)
  | 0, _, _, _ => .error .timeout
  | fuel + 1, fat, used, p =>
    if fat.getD p 0 ≠ 0xFFFF then
      match get_fat s (fat.getD p 0) with
      | none => .error .fault
      | some q => erase_fat_loop s fuel (fat.set p 0) (u16 (used + 65535)) q
    else .ok (fat.set p 0, u16 (used + 65535))

/-- The function `erase_fat`, on the pointer `id`. -/
def erase_fat (fuel : Nat) (s : FsState) (id : Option Nat) : Except Err (Int × FsState) :=
  if s.mounted = false then .ok (-1, s)
  else
    match id with
    | none => .ok (-1, s)
    | some p =>
      match erase_fat_loop s fuel s.fat s.sp.fat_used p with
      | .error e => .error e
      | .ok (fat, used) => .ok (0, { s with fat := fat, sp := { s.sp with fat_used := used } })

/-! ## Metadata blocks -/

/-- A 16-bit value as two bytes, low byte first. -/
def le16 (n : Nat) : List Nat := [n % 256, n / 256 % 256]

/-- A 32-bit value as four bytes, low byte first. -/
def le32 (n : Nat) : List Nat := [n % 256, n / 256 % 256, n / 65536 % 256, n / 16777216 % 256]

/-- The first `n` bytes of `l` followed by zeros. -/
def pad_to (n : Nat) (l : List Nat) : List Nat := (l ++ List.replicate n 0).take n

/-- The 4096 bytes behind `sp`. -/
def sp_bytes (sp : SuperBlock) : Block :=
  pad_to BLOCK_SIZE (pad_to 8 sp.signature ++ le16 sp.total_blk_count ++ le16 sp.rdir_blk
    ++ le16 sp.data_blk ++ le16 sp.data_blk_count ++ [sp.fat_blk_count % 256]
    ++ le16 sp.fat_used ++ le16 sp.rdir_used ++ sp.unused)

/-- The 32 bytes of a directory entry. -/
def entry_bytes (e : RootDirEntry) : List Nat :=
  pad_to FS_FILENAME_LEN e.filename ++ le32 e.file_sz ++ le16 e.first_data_blk
    ++ le16 e.last_data_blk ++ [e.open_ % 256, e.flag % 256] ++ List.replicate 6 0

/-- The 4096 bytes behind `root_dir`. -/
def rdir_bytes (dir : List RootDirEntry) : Block :=
  pad_to BLOCK_SIZE (dir.flatMap entry_bytes)

/-- The 4096 bytes at `fat + BLOCK_SIZE * i`. -/
def fat_bytes (fat : List Nat) (i : Nat) : Block :=
  pad_to BLOCK_SIZE (((fat.drop (BLOCK_SIZE / 2 * i)).take (BLOCK_SIZE / 2)).flatMap le16)

/-- The loop of `write_meta` over the FAT blocks, `n` blocks left from block `i`. -/
def write_fat_blocks (fat : List Nat) : Nat → Nat → Disk → Int × Disk
  | 0, _, d => (0, d)
  | n + 1, i, d =>
    match block_write d (1 + i) (fat_bytes fat i) with
    | none => (-1, d)
    | some d1 => write_fat_blocks fat n (i + 1) d1

/-- The function `write_meta`.  It reads `sp->fat_used` before it tests `sp` for `NULL`. -/
def write_meta (s : FsState) : Except Err (Int × FsState) :=
  if s.mounted = false then .error .fault
  else
    let s1 : FsState :=
      if s.sp.fat_used ≥ s.sp.data_blk_count then
        { s with sp := { s.sp with fat_used := s.sp.data_blk_count } }
      else s
    match block_write s1.disk 0 (sp_bytes s1.sp) with
    | none => .ok (-1, s1)
    | some d1 =>
      match block_write d1 s1.sp.rdir_blk (rdir_bytes s1.root_dir) with
      | none => .ok (-1, { s1 with disk := d1 })
      | some d2 =>
        .ok ((write_fat_blocks s1.fat s1.sp.fat_blk_count 0 d2).1,
             { s1 with disk := (write_fat_blocks s1.fat s1.sp.fat_blk_count 0 d2).2 })

/-! ## The interface -/

/-- The function `fs_create`.  The name is a C string, so `filename == NULL` does not arise. -/
def fs_create (s : FsState) (filename : List Nat) : Int × FsState :=
  if s.mounted = false then (-1, s)
  else if filename = [] ∨ filename.length ≥ FS_FILENAME_LEN then (-1, s)
  else
    let entry_id := get_valid_directory_entry s filename
    if entry_id < 0 then (-1, s)
    else
      let s1 := set_dir s entry_id.toNat
        { filename := filename, file_sz := 0, first_data_blk := FAT_EOC,
          last_data_blk := FAT_EOC, open_ := 0, flag := 0 }
      (0, { s1 with sp := { s1.sp with rdir_used := u16 (s1.sp.rdir_used + 1) } })

/-- The function `fs_delete`.  The walk of `erase_fat` gets `fat.length + 2` steps: a walk that
ends zeroes a non-zero slot in every step but at most two. -/
def fs_delete (s : FsState) (filename : List Nat) : Except Err (Int × FsState) :=
  let entry_id := get_directory_entry s filename
  if entry_id < 0 then .ok (-1, s)
  else
    let cur := get_dir s entry_id.toNat
    if cur.open_ > 0 then .ok (-1, s)
    else
      match (if cur.first_data_blk ≠ FAT_EOC then
               erase_fat (s.fat.length + 2) s (get_fat s cur.first_data_blk)
             else .ok (0, s)) with
      | .error e => .error e
      | .ok (_, s1) =>
        let s2 := set_dir s1 entry_id.toNat zero_entry
        let s3 : FsState := { s2 with sp := { s2.sp with rdir_used := u16 (s2.sp.rdir_used + 65535) } }
        match write_meta s3 with
        | .error e => .error e
        | .ok (_, s4) => .ok (0, s4)

/-- The function `fs_stat`. -/
def fs_stat (s : FsState) (fd : Int) : Int :=
  if is_valid_fd s fd = false then -1
  else toInt32 (get_dir s (fd_get s fd).file_entry).file_sz

/-- The function `fs_lseek`. -/
def fs_lseek (s : FsState) (fd : Int) (offset : Nat) : Int × FsState :=
  if is_valid_fd s fd = false then (-1, s)
  else if offset > (get_dir s (fd_get s fd).file_entry).file_sz then (-1, s)
  else (0, set_fd s fd (some { fd_get s fd with offset := offset }))

/-- The function `fs_open`.  When `fs_lseek` fails the descriptor is freed but its slot keeps
the pointer. -/
def fs_open (s : FsState) (filename : List Nat) : Int × FsState :=
  if s.fd_cnt ≥ (FS_OPEN_MAX_COUNT : Int) ∨ filename.length ≥ FS_FILENAME_LEN then (-1, s)
  else
    let entry_id := get_directory_entry s filename
    if entry_id < 0 then (-1, s)
    else
      let fd := get_valid_fd s
      if fd < 0 then (-1, s)
      else
        let s1 := set_fd s fd (some { file_entry := entry_id.toNat, offset := 0 })
        if (fs_lseek s1 fd 0).1 < 0 then (-1, s1)
        else
          let s2 := (fs_lseek s1 fd 0).2
          let e := get_dir s2 entry_id.toNat
          let s3 := set_dir s2 entry_id.toNat { e with open_ := (e.open_ + 1) % 256, flag := FLAG_O }
          (fd, { s3 with fd_cnt := s3.fd_cnt + 1 })

/-- The function `fs_close`. -/
def fs_close (s : FsState) (fd : Int) : Int × FsState :=
  if is_valid_fd s fd = false then (-1, s)
  else
    let id := (fd_get s fd).file_entry
    let e := get_dir s id
    let s1 := set_dir s id { e with open_ := (e.open_ + 255) % 256, flag := FLAG_X }
    (0, { set_fd s1 fd none with fd_cnt := s1.fd_cnt - 1 })

/-- The walk of `get_offset_blk`: `n` times `blk = *(get_fat(blk))`. -/
def walk_fat (s : FsState) : Nat → Nat → Except Err Nat
  | 0, blk => .ok blk
  | n + 1, blk =>
    match get_fat s blk with
    | none => .error .fault
    | some p => walk_fat s n (fat_at s p)

/-- The function `get_offset_blk`; `file_blk_count` takes its argument as `uint32_t`. -/
def get_offset_blk (s : FsState) (fd : Int) (offset : Nat) : Except Err Nat :=
  if is_valid_fd s fd = false then .ok 0
  else if offset ≥ (get_dir s (fd_get s fd).file_entry).file_sz then .ok 0
  else walk_fat s (file_blk_count (offset % 4294967296) - 1).toNat
         (get_dir s (fd_get s fd).file_entry).first_data_blk

/-- The state after `get_dir(id)->unused[0] = c`. -/
def set_flag (s : FsState) (id : Nat) (c : Nat) : FsState :=
  set_dir s id { get_dir s id with flag := c }

/-- The first step of `fs_write` on an empty file: a block is taken for it and its slot is
marked end-of-chain.  `none` when no block is free (the call then returns 0). -/
def alloc_first (s : FsState) (id : Nat) : Except Err (Option FsState) :=
  if (get_dir s id).first_data_blk = FAT_EOC then
    if get_free_blk_idx s < 0 then .ok none
    else
      let temp := (get_free_blk_idx s).toNat
      let s1 := set_dir s id { get_dir s id with first_data_blk := temp, last_data_blk := temp }
      match get_fat s1 temp with
      | none => .error .fault
      | some p =>
        .ok (some { s1 with fat := s1.fat.set p 0xFFFF,
                            sp := { s1.sp with fat_used := u16 (s1.sp.fat_used + 1) } })
  else .ok (some s)

/-- The block `fs_write` starts with and the content of `new_blk`; `none` when the write is an
append and no block is free. -/
def start_blk (s : FsState) (fd : Int) (id : Nat) (offset : Nat) :
    Except Err (Option (Nat × List Nat)) :=
  if offset = 0 then .ok (some ((get_dir s id).first_data_blk, []))
  else if offset = (get_dir s id).file_sz then
    if get_free_blk_idx s < 0 then .ok none
    else .ok (some ((get_free_blk_idx s).toNat, [(get_free_blk_idx s).toNat]))
  else
    match get_offset_blk s fd offset with
    | .error e => .error e
    | .ok b => .ok (some (b, []))

/-- The value `clamp(BLOCK_SIZE - file_sz % BLOCK_SIZE, leftover_count)` given to `buf_idx`:
the comparison is made on unsigned operands. -/
def first_len (file_sz : Nat) (leftover_count : Int) : Nat :=
  if ((BLOCK_SIZE - file_sz % BLOCK_SIZE : Nat) : Int) ≤ leftover_count % 4294967296 then
    BLOCK_SIZE - file_sz % BLOCK_SIZE
  else leftover_count.toNat

/-- The read-modify-write of the first block in `fs_write`: `buf_idx` and the device after it,
`none` when the device fails. -/
def write_first_blk (s : FsState) (id : Nat) (buf : List Nat) (leftover_count : Int)
    (write_blk : Nat) : Option (Nat × Disk) :=
  match block_read s.disk (write_blk + s.sp.data_blk) with
  | none => none
  | some bounce =>
    let buf_idx := first_len (get_dir s id).file_sz leftover_count
    match block_write s.disk (s.sp.data_blk + write_blk)
        (memcpy bounce ((get_dir s id).file_sz % BLOCK_SIZE) buf buf_idx) with
    | none => none
    | some d => some (buf_idx, d)

/-- The statement `new_blk[expand++] = write_blk`; the array has 8192 slots.  The block index
is below `data_blk_count`, so the cast to `uint16_t` keeps it. -/
def push_new_blk (temp : Int) (new_blk : List Nat) : Except Err (Option (Nat × List Nat)) :=
  if new_blk.length ≥ 8192 then .error .fault
  else .ok (some (temp.toNat, new_blk ++ [temp.toNat]))

/-- The head of the loop body of `fs_write`: the next block to write and `new_blk`, `none`
for `break`. -/
def next_write_blk (s : FsState) (write_blk : Nat) (new_blk : List Nat) :
    Except Err (Option (Nat × List Nat)) :=
  if new_blk.length > 0 then
    if get_free_blk_idx s < 0 then .ok none
    else push_new_blk (get_free_blk_idx s) new_blk
  else
    match get_fat s write_blk with
    | none => .error .fault
    | some p =>
      if fat_at s p = 0xFFFF then
        if get_free_blk_idx s < 0 then .ok none
        else push_new_blk (get_free_blk_idx s) new_blk
      else .ok (some (fat_at s p, new_blk))

/-- How the block loop of `fs_write` ends: past the loop, or by `return 0` after a failure
of the device. -/
inductive WExit where
  | finished (leftover_count : Int) (new_blk : List Nat) (disk : Disk)
  | failed (disk : Disk)
deriving DecidableEq, Repr

/-- The loop `while(leftover_count > 0)` of `fs_write`.  The FAT and the superblock do not
change in it; the device does. -/
def fs_write_loop (s : FsState) (buf : List Nat) :
    Nat → Int → Nat → List Nat → Nat → Disk → Except Err WExit
  | 0, leftover_count, _, new_blk, _, disk =>
    if leftover_count > 0 then .error .timeout
    else .ok (.finished leftover_count new_blk disk)
  | fuel + 1, leftover_count, write_blk, new_blk, buf_idx, disk =>
    if leftover_count > 0 then
      match next_write_blk s write_blk new_blk with
      | .error e => .error e
      | .ok none => .ok (.finished leftover_count new_blk disk)
      | .ok (some (wb, nb)) =>
        if leftover_count ≥ (BLOCK_SIZE : Int) then
          match block_write disk (s.sp.data_blk + wb) ((buf.drop buf_idx).take BLOCK_SIZE) with
          | none => .ok (.failed disk)
          | some d =>
            fs_write_loop s buf fuel (leftover_count - BLOCK_SIZE) wb nb (buf_idx + BLOCK_SIZE) d
        else
          match block_read disk (wb + s.sp.data_blk) with
          | none => .ok (.failed disk)
          | some bounce =>
            match block_write disk (s.sp.data_blk + wb)
                (memcpy bounce 0 (buf.drop buf_idx) leftover_count.toNat) with
            | none => .ok (.failed disk)
            | some d => fs_write_loop s buf fuel (leftover_count - BLOCK_SIZE) wb nb buf_idx d
    else .ok (.finished leftover_count new_blk disk)

/-- The loop `while(expand > 0)` of `fs_write` and the store after it: the new blocks are
linked behind the slot `p` points to.  Gives the FAT and `last_data_blk`. -/
def link_new_blks (s : FsState) : List Nat → Option Nat → List Nat → Nat →
    Except Err (List Nat × Nat)
  | [], p, fat, last =>
    match p with
    | none => .error .fault
    | some j => .ok (fat.set j 0xFFFF, last)
  | b :: rest, p, fat, _ =>
    match p with
    | none => .error .fault
    | some j => link_new_blks s rest (get_fat s b) (fat.set j b) b

/-- The end of `fs_write`, from `//update the metadata` on. -/
def fs_write_commit (s : FsState) (id : Nat) (count offset : Nat) (leftover_count : Int)
    (new_blk : List Nat) (disk : Disk) : Except Err (Int × FsState) :=
  let real_count := if leftover_count > 0 then count - leftover_count.toNat else count
  let w := get_dir s id
  let file_sz :=
    if real_count + offset > w.file_sz then (real_count + offset) % 4294967296 else w.file_sz
  match link_new_blks s new_blk (get_fat s w.last_data_blk) s.fat w.last_data_blk with
  | .error e => .error e
  | .ok (fat, last) =>
    let s1 : FsState :=
      { s with
        root_dir := s.root_dir.set id { w with file_sz := file_sz, last_data_blk := last }
        fat := fat
        sp := { s.sp with fat_used := u16 (s.sp.fat_used + new_blk.length) }
        disk := disk }
    match write_meta s1 with
    | .error e => .error e
    | .ok (_, s2) => .ok (toInt32 real_count, set_flag s2 id FLAG_N)

/-- The end of `fs_write` after its loop: `return 0` when the device failed in the loop,
the metadata update otherwise. -/
def fs_write_finish (s2 : FsState) (id count offset : Nat) :
    Except Err WExit → Except Err (Int × FsState)
  | .error e => .error e
  | .ok (.failed d1) => .ok (0, set_flag { s2 with disk := d1 } id FLAG_N)
  | .ok (.finished l nb d1) => fs_write_commit s2 id count offset l nb d1

/-- The part of `fs_write` after the first block was written (`none`: the device failed on
it): the statement `leftover_count -= buf_idx`, the loop, which gets one unit of fuel per byte
left to write, and the end.  The subtraction is made on `int32_t`: when `leftover_count` is
negative (a `count` of `2^31` or more, modulo `2^32`) and within `buf_idx` of the least
`int32_t`, the result wraps around to a positive value and the loop is entered. -/
def fs_write_blocks (s2 : FsState) (id : Nat) (buf : List Nat) (count offset : Nat)
    (leftover_count : Int) (write_blk : Nat) (new_blk : List Nat) :
    Option (Nat × Disk) → Except Err (Int × FsState)
  | none => .ok (0, set_flag s2 id FLAG_N)
  | some (buf_idx, d) =>
    fs_write_finish s2 id count offset
      (fs_write_loop s2 buf (int_sub leftover_count buf_idx).toNat
        (int_sub leftover_count buf_idx) write_blk new_blk buf_idx d)

/-- The part of `fs_write` after the starting block was chosen (`none`: an append found no free
block): the first block is written, then the others. -/
def fs_write_start (s2 : FsState) (id : Nat) (buf : List Nat) (count offset : Nat)
    (leftover_count : Int) :
    Except Err (Option (Nat × List Nat)) → Except Err (Int × FsState)
  | .error e => .error e
  | .ok none => .ok (0, set_flag s2 id FLAG_N)
  | .ok (some (write_blk, new_blk)) =>
    fs_write_blocks s2 id buf count offset leftover_count write_blk new_blk
      (write_first_blk s2 id buf leftover_count write_blk)

/-- The part of `fs_write` after the flag `'w'` was set (state `s1`) and an empty file got its
first block (`none`: no block was free, and the call returns 0 with the flag still set). -/
def fs_write_alloc (s1 : FsState) (fd : Int) (id : Nat) (buf : List Nat) (count offset : Nat)
    (leftover_count : Int) : Except Err (Option FsState) → Except Err (Int × FsState)
  | .error e => .error e
  | .ok none => .ok (0, s1)
  | .ok (some s2) =>
    fs_write_start s2 id buf count offset leftover_count (start_blk s2 fd id offset)

/-- The function `fs_write`. -/
def fs_write (s : FsState) (fd : Int) (buf : List Nat) (count : Nat) :
    Except Err (Int × FsState) :=
  if is_valid_fd s fd = false then .ok (-1, s)
  else if (get_dir s (fd_get s fd).file_entry).flag = FLAG_W then .ok (-1, s)
  else if count = 0 then .ok (0, s)
  else if (fd_get s fd).offset > (get_dir s (fd_get s fd).file_entry).file_sz then .ok (-1, s)
  else
    fs_write_alloc (set_flag s (fd_get s fd).file_entry FLAG_W) fd (fd_get s fd).file_entry
      buf count (fd_get s fd).offset (toInt32 count)
      (alloc_first (set_flag s (fd_get s fd).file_entry FLAG_W) (fd_get s fd).file_entry)

/-- The loop `while(real_count_temp > 0 && read_blk != FAT_EOC)` of `fs_read`: whether the
device served every read, and the caller's buffer. -/
def fs_read_loop (s : FsState) :
    Nat → Int → Nat → List Nat → Nat → Except Err (Bool × List Nat)
  | 0, real_count_temp, read_blk, buf, _ =>
    if real_count_temp > 0 ∧ read_blk ≠ FAT_EOC then .error .timeout else .ok (true, buf)
  | fuel + 1, real_count_temp, read_blk, buf, buf_idx =>
    if real_count_temp > 0 ∧ read_blk ≠ FAT_EOC then
      match block_read s.disk (read_blk + s.sp.data_blk) with
      | none => .ok (false, buf)
      | some blk =>
        match get_fat s read_blk with
        | none => .error .fault
        | some p =>
          if real_count_temp ≥ (BLOCK_SIZE : Int) then
            fs_read_loop s fuel (real_count_temp - BLOCK_SIZE) (fat_at s p)
              (memcpy buf buf_idx blk BLOCK_SIZE) (buf_idx + BLOCK_SIZE)
          else
            fs_read_loop s fuel (real_count_temp - BLOCK_SIZE) (fat_at s p)
              (memcpy buf buf_idx blk real_count_temp.toNat) (buf_idx + real_count_temp.toNat)
    else .ok (true, buf)

/-- The function `fs_read`: the value returned, the caller's buffer and the state.  The loop
gets one unit of fuel per byte left to read.  A negative `real_count` makes the first
`memcpy` run over the bounce buffer. -/
def fs_read (s : FsState) (fd : Int) (buf : List Nat) (count : Nat) :
    Except Err (Int × List Nat × FsState) :=
  if is_valid_fd s fd = false then .ok (-1, buf, s)
  else
    let id := (fd_get s fd).file_entry
    let offset := (fd_get s fd).offset
    let real_count : Int := toInt32 (clamp (size_sub (get_dir s id).file_sz offset) count)
    if real_count = 0 then .ok (0, buf, s)
    else
      match get_offset_blk s fd offset with
      | .error e => .error e
      | .ok read_blk =>
        if read_blk = 0 then .ok (-1, buf, s)
        else
          match block_read s.disk (read_blk + s.sp.data_blk) with
          | none => .ok (-1, buf, s)
          | some bounce =>
            if real_count < 0 then .error .fault
            else
              let n := (clampInt real_count BLOCK_SIZE).toNat
              match get_fat s read_blk with
              | none => .error .fault
              | some p =>
                match fs_read_loop s (real_count - BLOCK_SIZE).toNat (real_count - BLOCK_SIZE)
                    (fat_at s p) (memcpy buf 0 bounce n) n with
                | .error e => .error e
                | .ok (false, buf1) => .ok (-1, buf1, s)
                | .ok (true, buf1) =>
                  if (fs_lseek s fd (real_count.toNat + offset)).1 < 0 then .ok (-1, buf1, s)
                  else .ok (real_count, buf1, (fs_lseek s fd (real_count.toNat + offset)).2)

/-! ## Mounting and unmounting -/

/-- The 16-bit value stored at offset `off` of `b`, low byte first. -/
def rd16 (b : List Nat) (off : Nat) : Nat := b.getD off 0 + 256 * b.getD (off + 1) 0

/-- The 32-bit value stored at offset `off` of `b`, low byte first. -/
def rd32 (b : List Nat) (off : Nat) : Nat :=
  b.getD off 0 + 256 * b.getD (off + 1) 0 + 65536 * b.getD (off + 2) 0
    + 16777216 * b.getD (off + 3) 0

/-- The superblock that the 4096 bytes `b` are once they are read into `sp`: the packed layout
of `struct SuperBlock`. -/
def sp_of_bytes (b : Block) : SuperBlock :=
  { signature := b.take 8
    total_blk_count := rd16 b 8
    rdir_blk := rd16 b 10
    data_blk := rd16 b 12
    data_blk_count := rd16 b 14
    fat_blk_count := b.getD 16 0
    fat_used := rd16 b 17
    rdir_used := rd16 b 19
    unused := b.drop 21 }

/-- The directory entry that the 32 bytes at the head of `b` are: the packed layout of
`struct RootDirEntry`.  The name is the C string in the 16 bytes of `filename`; `fs_create`
stores names of at most 15 characters, so the field holds a NUL. -/
def entry_of_bytes (b : List Nat) : RootDirEntry :=
  { filename := (b.take FS_FILENAME_LEN).takeWhile (fun c => c ≠ 0)
    file_sz := rd32 b 16
    first_data_blk := rd16 b 20
    last_data_blk := rd16 b 22
    open_ := b.getD 24 0
    flag := b.getD 25 0 }

/-- The first `n` directory entries of the bytes `b` read into `root_dir`. -/
def entries_of_bytes : Nat → List Nat → List RootDirEntry
  | 0, _ => []
  | n + 1, b => entry_of_bytes b :: entries_of_bytes n (b.drop 32)

/-- The first `n` 16-bit slots of the bytes `b` read into `fat`. -/
def slots_of_bytes : Nat → List Nat → List Nat
  | 0, _ => []
  | n + 1, b => rd16 b 0 :: slots_of_bytes n (b.drop 2)

/-- The loop of `fs_mount` over the FAT blocks, `n` blocks left from block `i`: the slots read
into `fat + BLOCK_SIZE * i` and beyond, `none` when a read fails. -/
def read_fat_blocks (d : Disk) : Nat → Nat → Option (List Nat)
  | 0, _ => some []
  | n + 1, i =>
    match block_read d (i + 1) with
    | none => none
    | some b =>
      match read_fat_blocks d n (i + 1) with
      | none => none
      | some rest => some (slots_of_bytes (BLOCK_SIZE / 2) b ++ rest)

/-- The loop of `sp_setup` from entry `i` on, `n` entries left: `sp->fat_used` and
`sp->rdir_used` after it. -/
def sp_setup_loop (s : FsState) : Nat → Nat → Nat → Nat → Nat × Nat
  | 0, _, fat_used, rdir_used => (fat_used, rdir_used)
  | n + 1, i, fat_used, rdir_used =>
    if (get_dir s i).filename ≠ [] then
      sp_setup_loop s n (i + 1)
        (if (get_dir s i).first_data_blk ≠ FAT_EOC then
          u16 (fat_used + (file_blk_count (get_dir s i).file_sz).toNat)
        else fat_used)
        (u16 (rdir_used + 1))
    else sp_setup_loop s n (i + 1) fat_used rdir_used

/-- The function `sp_setup`: the two counters are computed from the directory. -/
def sp_setup (s : FsState) : FsState :=
  if s.mounted = false then s
  else
    { s with sp := { s.sp with
        fat_used := (sp_setup_loop s FS_FILE_MAX_COUNT 0 1 0).1
        rdir_used := (sp_setup_loop s FS_FILE_MAX_COUNT 0 1 0).2 } }

/-- The function `clear`: `sp`, `root_dir` and `fat` are freed and set to `NULL`, every
descriptor is freed and `fd_cnt` is 0.  The fields `sp`, `root_dir` and `fat` keep their last
content, which no function reads while `mounted = false`.  The device is not closed here. -/
def clear (s : FsState) : FsState :=
  { s with mounted := false, fd_cnt := 0, filedes := List.replicate FS_OPEN_MAX_COUNT none }

/-- The function `fs_mount`; `malloc` is taken to succeed.
Modelled from the spec: `block_disk_open` of `disk.h`, which is not among the sources, "opens
the virtual disk file"; `dev` is the content of the disk file of the given name, `none` when
the file cannot be opened. -/
def fs_mount (s : FsState) (dev : Option Disk) : Except Err (Int × FsState) :=
  match dev with
  | none => .ok (-1, s)
  | some d =>
    match block_read d 0 with
    | none => .ok (-1, clear { s with disk := d })
    | some b0 =>
      if (sp_of_bytes b0).signature ≠ FS_NAME then .ok (-1, clear { s with disk := d })
      else if block_disk_count d ≠ (sp_of_bytes b0).total_blk_count then
        .ok (-1, clear { s with disk := d })
      else if (sp_of_bytes b0).data_blk_count > (sp_of_bytes b0).fat_blk_count * BLOCK_SIZE / 2 then
        .ok (-1, clear { s with disk := d })
      else
        match block_read d (sp_of_bytes b0).rdir_blk with
        | none => .ok (-1, clear { s with disk := d })
        | some br =>
          let s1 := sp_setup { s with
            mounted := true
            sp := sp_of_bytes b0
            root_dir := entries_of_bytes FS_FILE_MAX_COUNT br
            disk := d }
          match read_fat_blocks d s1.sp.fat_blk_count 0 with
          | none => .ok (-1, clear s1)
          | some fat =>
            match write_meta { s1 with
                fat := fat, fd_cnt := 0, filedes := List.replicate FS_OPEN_MAX_COUNT none } with
            | .error e => .error e
            | .ok (_, s2) => .ok (0, s2)

/-- The function `fs_umount`.  The metadata is flushed before `fd_cnt` is looked at.
Modelled from the spec: `block_disk_close` of `disk.h`, which is not among the sources, "closes
the virtual disk file"; `closes` tells whether it succeeds.  The field `disk` then keeps the
content of the closed disk file. -/
def fs_umount (s : FsState) (closes : Bool) : Except Err (Int × FsState) :=
  if s.mounted = false then .ok (-1, s)
  else
    match write_meta s with
    | .error e => .error e
    | .ok (r, s1) =>
      if r < 0 then .ok (-1, s1)
      else if s1.fd_cnt > 0 then .ok (-1, s1)
      else if closes = false then .ok (-1, s1)
      else .ok (0, clear s1)

/-- The value the function `fs_info` returns (what it prints is left out).  The pointer `disk`
is set by `fs_mount` and reset by `clear` together with `sp`. -/
def fs_info (s : FsState) : Int := if s.mounted = false then -1 else 0

/-- The value the function `fs_ls` returns (what it prints is left out). -/
def fs_ls (s : FsState) : Int := if s.mounted = false then -1 else 0

/-! ## Well-formedness -/

/-- The FAT links `blocks` into a chain that starts at `b`: every block is a data block other
than block 0, each slot holds the next block, the last slot holds `FAT_EOC`. -/
def IsChain (s : FsState) : Nat → List Nat → Prop
  | b, [] => b = FAT_EOC
  | b, x :: rest =>
    b = x ∧ 1 ≤ x ∧ x < s.sp.data_blk_count ∧ x ≠ FAT_EOC ∧ IsChain s (fat_at s x) rest

/-- Whether `blocks` is a chain from `b` can be computed. -/
instance decIsChain (s : FsState) : (b : Nat) → (l : List Nat) → Decidable (IsChain s b l)
  | b, [] => inferInstanceAs (Decidable (b = FAT_EOC))
  | b, x :: r =>
    have := decIsChain s (fat_at s x) r
    inferInstanceAs (Decidable (b = x ∧ 1 ≤ x ∧ x < s.sp.data_blk_count ∧ x ≠ FAT_EOC
      ∧ IsChain s (fat_at s x) r))

/-- The free data blocks: the slots `1 .. data_blk_count - 1` of the FAT that hold 0,
in increasing order. -/
def free_blks (s : FsState) : List Nat :=
  (List.range' 1 (s.sp.data_blk_count - 1)).filter (fun i => s.fat.getD i 0 = 0)

/-- The entry `id` has a well-formed chain: the FAT links the blocks of some list `l` from its
`first_data_blk` on, and when the file has a block its `last_data_blk` is a block of the chain
whose slot holds `FAT_EOC`, that is the end of the chain. -/
def FileChain (s : FsState) (id : Nat) : Prop :=
  ∃ l, IsChain s (get_dir s id).first_data_blk l ∧
    (l ≠ [] → (get_dir s id).last_data_blk ∈ l ∧ fat_at s (get_dir s id).last_data_blk = FAT_EOC)

/-- What a call that works on the file of entry `id` keeps of the state `s` in `s'`: the
mount, the descriptors, the sizes of the tables, the other entries, and the name and open
count of the entry itself. -/
structure Keeps (s s' : FsState) (id : Nat) : Prop where
  mounted : s'.mounted = s.mounted
  filedes : s'.filedes = s.filedes
  fd_cnt : s'.fd_cnt = s.fd_cnt
  dir_len : s'.root_dir.length = s.root_dir.length
  fat_len : s'.fat.length = s.fat.length
  dbc : s'.sp.data_blk_count = s.sp.data_blk_count
  others : ∀ j, j ≠ id → get_dir s' j = get_dir s j
  name : (get_dir s' id).filename = (get_dir s id).filename
  opens : (get_dir s' id).open_ = (get_dir s id).open_

/-- The number of slots `1 .. data_blk_count - 1` of the FAT that do not hold 0. -/
def used_slots (s : FsState) : Nat :=
  ((List.range' 1 (s.sp.data_blk_count - 1)).filter (fun i => s.fat.getD i 0 ≠ 0)).length

/-- The number of directory entries that hold a file. -/
def occupied (s : FsState) : Nat :=
  ((List.range FS_FILE_MAX_COUNT).filter (fun i => (get_dir s i).filename ≠ [])).length

/-- The chain of the entry `id` matches its size: when the size is positive, the FAT links
`ceil(file_sz / BLOCK_SIZE)` distinct blocks from `first_data_blk` on, the last of them marked
`FAT_EOC`. -/
def ChainMatchesSize (s : FsState) (id : Nat) : Prop :=
  0 < (get_dir s id).file_sz →
    ∃ l, IsChain s (get_dir s id).first_data_blk l ∧ l.Nodup ∧
      l.length = ((get_dir s id).file_sz + BLOCK_SIZE - 1) / BLOCK_SIZE

/-- The fields of a directory entry are in the range of their C types, and the name is a C
string that `fs_create` accepts: at most 15 characters, none of them NUL. -/
def EntryFits (e : RootDirEntry) : Prop :=
  e.filename.length < FS_FILENAME_LEN ∧ (∀ c ∈ e.filename, c ≠ 0 ∧ c < 256) ∧
  e.file_sz < 4294967296 ∧ e.first_data_blk < 65536 ∧ e.last_data_blk < 65536 ∧
  e.open_ < 256 ∧ e.flag < 256

/-- Whether an entry fits can be computed. -/
instance decEntryFits (e : RootDirEntry) : Decidable (EntryFits e) :=
  inferInstanceAs (Decidable (e.filename.length < FS_FILENAME_LEN ∧
    (∀ c ∈ e.filename, c ≠ 0 ∧ c < 256) ∧
    e.file_sz < 4294967296 ∧ e.first_data_blk < 65536 ∧ e.last_data_blk < 65536 ∧
    e.open_ < 256 ∧ e.flag < 256))

/-- A mounted volume as `fs_mount` accepts it and as the tables are held in memory: the
superblock passes the checks of `fs_mount`, its fields are in the range of their C types, the
root directory block and the data region lie behind the FAT blocks `1 .. fat_blk_count`, the
root directory block is on the device and is not a data block, the directory has its 128
entries, and the FAT has its 2048 slots of 16 bits per FAT block. -/
structure VolumeValid (s : FsState) : Prop where
  mounted : s.mounted = true
  signature : s.sp.signature = FS_NAME
  total : s.sp.total_blk_count = s.disk.length
  total_u16 : s.sp.total_blk_count < 65536
  fat_fits : s.sp.data_blk_count ≤ s.sp.fat_blk_count * 2048
  fbc_u8 : s.sp.fat_blk_count < 256
  dbc_u16 : s.sp.data_blk_count < 65536
  data_u16 : s.sp.data_blk < 65536
  rdir_u16 : s.sp.rdir_blk < 65536
  fat_before_rdir : s.sp.fat_blk_count < s.sp.rdir_blk
  fat_before_data : s.sp.fat_blk_count < s.sp.data_blk
  rdir_not_data : s.sp.rdir_blk < s.sp.data_blk ∨
    s.sp.data_blk + s.sp.data_blk_count ≤ s.sp.rdir_blk
  rdir_on_disk : s.sp.rdir_blk < s.disk.length
  dir_len : s.root_dir.length = FS_FILE_MAX_COUNT
  dir_fits : ∀ e ∈ s.root_dir, EntryFits e
  fat_len : s.fat.length = 2048 * s.sp.fat_blk_count
  fat_u16 : ∀ x ∈ s.fat, x < 65536

/-- The number of descriptors that are open. -/
def open_count (s : FsState) : Nat :=
  ((List.range FS_OPEN_MAX_COUNT).filter (fun i => (s.filedes.getD i none).isSome)).length

/-! ## Sessions -/

/-- One call on an open descriptor: `fs_lseek`, `fs_read` or `fs_write`. -/
inductive FileOp where
  | lseek (offset : Nat)
  | read (count : Nat)
  | write (buf : List Nat) (count : Nat)
deriving DecidableEq, Repr

/-- The state after the call `op` on the descriptor `fd`; a read gets a buffer of `count` zero
bytes. -/
def run_op (s : FsState) (fd : Int) : FileOp → Except Err FsState
  | .lseek o => .ok (fs_lseek s fd o).2
  | .read n =>
    match fs_read s fd (List.replicate n 0) n with
    | .error e => .error e
    | .ok (_, _, s1) => .ok s1
  | .write b n =>
    match fs_write s fd b n with
    | .error e => .error e
    | .ok (_, s1) => .ok s1

/-- The state after the calls `ops` on the descriptor `fd`, one after the other. -/
def run_ops (s : FsState) (fd : Int) : List FileOp → Except Err FsState
  | [] => .ok s
  | op :: rest =>
    match run_op s fd op with
    | .error e => .error e
    | .ok s1 => run_ops s1 fd rest

/-- A session on one file: `fs_open(name)`, the calls `ops` on the descriptor it returns, then
`fs_close` of that descriptor. -/
def file_session (s : FsState) (name : List Nat) (ops : List FileOp) : Except Err FsState :=
  match run_ops (fs_open s name).2 (fs_open s name).1 ops with
  | .error e => .error e
  | .ok s1 => .ok (fs_close s1 (fs_open s name).1).2

/-- Several sessions on one file, one after the other. -/
def run_sessions (s : FsState) (name : List Nat) : List (List FileOp) → Except Err FsState
  | [] => .ok s
  | ops :: rest =>
    match file_session s name ops with
    | .error e => .error e
    | .ok s1 => run_sessions s1 name rest

/-- The calls `fs_close(fd)` for the descriptors of `fds`, one after the other: the state they
leave. -/
def close_all (s : FsState) (fds : List Int) : FsState :=
  fds.foldl (fun t fd => (fs_close t fd).2) s

/-- What holds in the middle of a session that opened entry `j` of the state `s0` as descriptor
`k`: the volume is laid out as before, the chain of the file is well formed, the names are
those of `s0`, the file has the one opener, and the other descriptors are those of `s0`. -/
structure InSession (s0 t : FsState) (k j : Nat) : Prop where
  mounted : t.mounted = true
  dir_len : t.root_dir.length = FS_FILE_MAX_COUNT
  fat_len : t.sp.data_blk_count ≤ t.fat.length
  dbc : t.sp.data_blk_count ≤ 65535
  chain : FileChain t j
  names : ∀ i, (get_dir t i).filename = (get_dir s0 i).filename
  opens : (get_dir t j).open_ = 1
  valid : is_valid_fd t (k : Int) = true
  entry : (fd_get t (k : Int)).file_entry = j
  slots : ∀ x, x ≠ k → t.filedes.getD x none = s0.filedes.getD x none
  fd_len : t.filedes.length = FS_OPEN_MAX_COUNT
  fd_cnt : t.fd_cnt = s0.fd_cnt + 1

/-! ## Sequences of calls -/

/-- One call of the interface on a mounted volume. -/
inductive Call where
  | fs_create (filename : List Nat)
  | fs_delete (filename : List Nat)
  | fs_open (filename : List Nat)
  | fs_close (fd : Int)
  | fs_lseek (fd : Int) (offset : Nat)
  | fs_read (fd : Int) (count : Nat)
  | fs_write (fd : Int) (buf : List Nat) (count : Nat)
deriving DecidableEq, Repr

/-- The state after one call; a read gets a buffer of `count` zero bytes. -/
def run_call (s : FsState) : Call → Except Err FsState
  | .fs_create name => .ok (fs_create s name).2
  | .fs_delete name =>
    match fs_delete s name with
    | .error e => .error e
    | .ok (_, s1) => .ok s1
  | .fs_open name => .ok (fs_open s name).2
  | .fs_close fd => .ok (fs_close s fd).2
  | .fs_lseek fd o => .ok (fs_lseek s fd o).2
  | .fs_read fd n =>
    match fs_read s fd (List.replicate n 0) n with
    | .error e => .error e
    | .ok (_, _, s1) => .ok s1
  | .fs_write fd b n =>
    match fs_write s fd b n with
    | .error e => .error e
    | .ok (_, s1) => .ok s1

/-- The state after the calls of a list, one after the other. -/
def run_calls (s : FsState) : List Call → Except Err FsState
  | [] => .ok s
  | c :: rest =>
    match run_call s c with
    | .error e => .error e
    | .ok s1 => run_calls s1 rest

/-- Whether the descriptor slot `o` holds a descriptor of the entry `i`. -/
def refers (i : Nat) : Option FileDescriptor → Bool
  | some d => decide (d.file_entry = i)
  | none => false

/-- The number of open descriptors of the entry `i`. -/
def refs (s : FsState) (i : Nat) : Nat := s.filedes.countP (refers i)

/-- The cursor bound: every open descriptor refers to an occupied directory entry, and its
cursor is at most the size of that entry. -/
def CursorBound (s : FsState) : Prop :=
  ∀ fd, is_valid_fd s fd = true →
    (get_dir s (fd_get s fd).file_entry).filename ≠ [] ∧
    (fd_get s fd).offset ≤ (get_dir s (fd_get s fd).file_entry).file_sz

/-- The descriptor table and the directory fit together: the directory has its 128 entries and
the table its 32 slots, the open count of every entry is the number of descriptors that refer to
it, and every descriptor refers to an occupied entry of the directory with its cursor at most
the size of the entry. -/
structure DescOk (s : FsState) : Prop where
  dir_len : s.root_dir.length = FS_FILE_MAX_COUNT
  fd_len : s.filedes.length = FS_OPEN_MAX_COUNT
  opens : ∀ i, (get_dir s i).open_ = refs s i
  desc : ∀ k d, s.filedes.getD k none = some d →
    d.file_entry < FS_FILE_MAX_COUNT ∧ (get_dir s d.file_entry).filename ≠ [] ∧
    d.offset ≤ (get_dir s d.file_entry).file_sz

/-- What a call of `fs_write` on a descriptor of the entry `id` keeps of the directory and of
the descriptor table: the table, the number of entries, every name and open count, and the size
of every other entry. -/
structure DirKept (s s' : FsState) (id : Nat) : Prop where
  filedes : s'.filedes = s.filedes
  dir_len : s'.root_dir.length = s.root_dir.length
  name : ∀ j, (get_dir s' j).filename = (get_dir s j).filename
  opens : ∀ j, (get_dir s' j).open_ = (get_dir s j).open_
  sizes : ∀ j, j ≠ id → (get_dir s' j).file_sz = (get_dir s j).file_sz

/-- The calls to which the cursor bound is shown to stand up: `fs_open` is not given the empty
name, and a `fs_write` on an open descriptor does not take the size of the file beyond 32
bits. -/
def call_ok (s : FsState) : Call → Prop
  | .fs_open name => name ≠ []
  | .fs_write fd _ count =>
    is_valid_fd s fd = true →
      (get_dir s (fd_get s fd).file_entry).file_sz + count < 4294967296
  | _ => True

/-- Every call of the list is one of `call_ok` in the state it is made in. -/
def calls_ok : FsState → List Call → Prop
  | _, [] => True
  | s, c :: rest =>
    call_ok s c ∧
      match run_call s c with
      | .ok s1 => calls_ok s1 rest
      | .error _ => True

/-! ## Scenarios -/

/-- A formatted volume with `dbc` data blocks, all free but the reserved block 0, as it stands
after `fs_mount`: one FAT block, the root directory in block 2, the data region from block 3,
every data block filled with zeros. -/
def fresh_vol (dbc : Nat) : FsState :=
  let sp : SuperBlock :=
    { signature := FS_NAME
      total_blk_count := dbc + 3
      rdir_blk := 2
      data_blk := 3
      data_blk_count := dbc
      fat_blk_count := 1
      fat_used := 1
      rdir_used := 0
      unused := List.replicate 4075 0 }
  let dir := List.replicate FS_FILE_MAX_COUNT zero_entry
  let fat := 0xFFFF :: List.replicate 2047 0
  { mounted := true
    sp := sp
    root_dir := dir
    fat := fat
    fd_cnt := 0
    filedes := List.replicate FS_OPEN_MAX_COUNT none
    disk := [sp_bytes sp, fat_bytes fat 0, rdir_bytes dir]
      ++ List.replicate dbc (List.replicate BLOCK_SIZE 0) }

/-- The file name `"a"`. -/
def name_a : List Nat := [97]

/-- The file name `"b"`. -/
def name_b : List Nat := [98]

/-- The volume `fresh_vol dbc` after `fs_create("a")` and `fs_open("a")`. -/
def vol_open_a (dbc : Nat) : FsState :=
  (fs_open (fs_create (fresh_vol dbc) name_a).2 name_a).2

/-- The state a call of `fs_write` leaves (the state before it when the call does not
return). -/
def after_write (s : FsState) (fd : Int) (b : List Nat) : FsState :=
  match fs_write s fd b b.length with
  | .ok (_, s1) => s1
  | .error _ => s

/-- The state a call of `fs_delete` leaves (the state before it when the call does not
return). -/
def after_delete (s : FsState) (filename : List Nat) : FsState :=
  match fs_delete s filename with
  | .ok (_, s1) => s1
  | .error _ => s

/-- The calls `fs_write(fd, b, len b)`, `fs_lseek(fd, pos)`, `fs_read(fd, out, n)` in a
row, `out` being `n` zero bytes: the three values returned and `out`. -/
def write_seek_read (s : FsState) (fd : Int) (b : List Nat) (pos n : Nat) :
    Except Err (Int × Int × Int × List Nat) :=
  match fs_write s fd b b.length with
  | .error e => .error e
  | .ok (w, s1) =>
    match fs_read (fs_lseek s1 fd pos).2 fd (List.replicate n 0) n with
    | .error e => .error e
    | .ok (r, out, _) => .ok (w, (fs_lseek s1 fd pos).1, r, out)

/-- The calls `fs_lseek(fd, pos)`, `fs_read(fd, out, n)` in a row, `out` being `n` zero bytes:
the two values returned and `out`. -/
def seek_read (s : FsState) (fd : Int) (pos n : Nat) : Except Err (Int × Int × List Nat) :=
  match fs_read (fs_lseek s fd pos).2 fd (List.replicate n 0) n with
  | .error e => .error e
  | .ok (r, out, _) => .ok ((fs_lseek s fd pos).1, r, out)

/-- Three blocks of data: 4096 bytes 1, then 4096 bytes 2, then 4096 bytes 3. -/
def three_blocks : List Nat :=
  List.replicate 4096 1 ++ List.replicate 4096 2 ++ List.replicate 4096 3

/-- A volume with seven free data blocks whose file `"a"`, open as descriptor 0, holds the
100 bytes `0, 1, .., 99`. -/
def vol_file100 : FsState := after_write (vol_open_a 8) 0 (List.range 100)

/-- The directory after `fs_create("a")` on a fresh volume: slot 0 holds `"a"`. -/
def dir_a : FsState := (fs_create (fresh_vol 8) name_a).2

/-- The directory after `fs_create("a")` and `fs_create("b")` on a fresh volume: slot 0 holds
`"a"`, slot 1 holds `"b"`. -/
def dir_ab : FsState := (fs_create (fs_create (fresh_vol 8) name_a).2 name_b).2

/-- The directory `dir_ab` after `fs_delete("a")`: slot 0 is empty, slot 1 holds `"b"`. -/
def dir_b : FsState := after_delete dir_ab name_a

/-- The volume `fresh_vol 1`, which has no free data block, after `fs_create("a")`,
`fs_open("a")` and a `fs_write` of one byte through descriptor 0: the write found no block
and returned with the flag `'w'` set. -/
def vol_busy : FsState := after_write (vol_open_a 1) 0 [7]

/-- The volume with the 100-byte file `"a"` after a second `fs_open("a")`: the descriptors 0
and 1 are open on the file, both with cursor 0. -/
def vol_two_fd : FsState := (fs_open vol_file100 name_a).2

/-- A volume with seven free data blocks after `fs_create("a")`, `fs_open("a")`, a `fs_write`
of 5000 bytes of value `0xAB` and `fs_close`: the file `"a"` is closed and owns the blocks 1
and 2. -/
def vol_closed_a : FsState :=
  (fs_close (after_write (vol_open_a 8) 0 (List.replicate 5000 171)) 0).2

/-- The state a call `fs_write(fd, b, n)` leaves (the state before it when the call does not
return). -/
def write_state (s : FsState) (fd : Int) (b : List Nat) (n : Nat) : FsState :=
  match fs_write s fd b n with
  | .ok (_, s1) => s1
  | .error _ => s

/-- The volume `vol_two_fd` after `fs_lseek(1, 100)` and a `fs_write` through descriptor 0
with the five bytes `1, .., 5` and `count = 2^32 + 5`: descriptor 1 has cursor 100. -/
def vol_shrunk : FsState :=
  write_state (fs_lseek vol_two_fd 1 100).2 0 [1, 2, 3, 4, 5] 4294967301

/-- The volume `fresh_vol 2`, with the one free data block 1, after `fs_create("a")`,
`fs_create("b")`, `fs_open("a")` (descriptor 0) and `fs_open("b")` (descriptor 1). -/
def vol_ab_open : FsState :=
  (fs_open (fs_open (fs_create (fs_create (fresh_vol 2) name_a).2 name_b).2 name_a).2 name_b).2

/-- The volume `vol_ab_open` after one byte was written to `"a"`: the file `"a"` owns block 1,
no data block is free, and `"b"` is empty and not busy. -/
def vol_full : FsState := after_write vol_ab_open 0 [7]

/-- Two blocks of data: 4096 bytes 1, then 904 bytes 2. -/
def two_blocks : List Nat := List.replicate 4096 1 ++ List.replicate 904 2

/-- A volume whose file `"a"`, open as descriptor 0, holds the 5000 bytes `two_blocks` in the
blocks 1 and 2. -/
def vol_two_blocks : FsState := after_write (vol_open_a 8) 0 two_blocks

/-- The volume with seven free data blocks after `fs_create("a")`, `fs_open("a")` and a
`fs_write` of the 12288 bytes `three_blocks`. -/
def vol_three : FsState := after_write (vol_open_a 8) 0 three_blocks

/-- The volume with the 100-byte file `"a"` after `fs_lseek(0, 100)` and a `fs_write` of ten
bytes 9 at the end of the file. -/
def vol_appended : FsState := after_write (fs_lseek vol_file100 0 100).2 0 (List.replicate 10 9)

/-- A volume with a corrupted FAT: slot 0 holds 0 instead of `FAT_EOC`, slot 1 holds 2 and
slot 2 holds 1, so the chain from block 1 is a cycle. -/
def vol_cyclic : FsState :=
  { fresh_vol 8 with fat := [0, 2, 1] ++ List.replicate 2045 0 }

/-- The volume `fresh_vol 8` after the call `fs_delete("")`. -/
def vol_slot0 : FsState := after_delete (fresh_vol 8) []

/-- A device of 9 blocks whose superblock reports `total_blk_count = 10`: the device of
`fresh_vol 7` without its last block. -/
def disk_short : Disk := (fresh_vol 7).disk.take 9

/-- The state a call `fs_umount()` leaves when the device closes (the state before it when the
call does not return). -/
def after_umount (s : FsState) : FsState :=
  match fs_umount s true with
  | .ok (_, s1) => s1
  | .error _ => s

/-- The state a call of `fs_mount` on the disk file that the field `disk` holds leaves (the
state before it when the call does not return). -/
def after_mount (s : FsState) : FsState :=
  match fs_mount s (some s.disk) with
  | .ok (_, s1) => s1
  | .error _ => s

/-! # Theorems -/

/-! ## Descriptors -/

theorem fd_slot_of_valid {s : FsState} {fd : Int} (h : is_valid_fd s fd = true) :
    0 ≤ fd ∧ fd < 32 ∧ fd_slot s fd = some (fd_get s fd) ∧ fd.toNat < s.filedes.length := by
  unfold is_valid_fd at h
  split at h
  · exact absurd h (by simp)
  · rename_i hn
    simp only [not_or, not_lt, ge_iff_le, not_le, FS_OPEN_MAX_COUNT, Nat.cast_ofNat] at hn
    obtain ⟨h0, h1, h2⟩ := hn
    refine ⟨h0, h1, ?_, ?_⟩
    · unfold fd_get
      cases hs : fd_slot s fd with
      | none => exact absurd hs h2
      | some d => rfl
    · by_contra hlen
      apply h2
      unfold fd_slot
      rw [List.getD_eq_getElem?_getD, List.getElem?_eq_none (by omega)]
      rfl

theorem fd_get_set_self {s : FsState} {fd : Int} (d : FileDescriptor)
    (h : fd.toNat < s.filedes.length) :
    fd_get (set_fd s fd (some d)) fd = d := by
  simp [fd_get, fd_slot, set_fd, List.getD_eq_getElem?_getD, List.getElem?_set, h]

theorem fs_lseek_of_le {s : FsState} {fd : Int} {o : Nat} (hv : is_valid_fd s fd = true)
    (ho : o ≤ (get_dir s (fd_get s fd).file_entry).file_sz) :
    fs_lseek s fd o = (0, set_fd s fd (some ⟨(fd_get s fd).file_entry, o⟩)) := by
  simp [fs_lseek, hv, Nat.not_lt.mpr ho]

theorem fs_lseek_of_gt {s : FsState} {fd : Int} {o : Nat} (hv : is_valid_fd s fd = true)
    (ho : (get_dir s (fd_get s fd).file_entry).file_sz < o) :
    fs_lseek s fd o = (-1, s) := by
  simp [fs_lseek, hv, ho]

/-- C8. Seek bound: on a valid descriptor `fs_lseek(fd, offset)` returns 0 exactly when
`offset` is at most the file size, and then the cursor of `fd` is `offset` (nothing else of the
state changes); otherwise it returns -1 and the state is unchanged.  So seeking to the size
succeeds and seeking to size + 1 fails.  On an invalid descriptor it returns -1. -/
theorem fs_lseek_bound (s : FsState) (fd : Int) (offset : Nat) :
    (is_valid_fd s fd = true →
      ((fs_lseek s fd offset).1 = 0 ↔ offset ≤ (get_dir s (fd_get s fd).file_entry).file_sz) ∧
      (offset ≤ (get_dir s (fd_get s fd).file_entry).file_sz →
        fs_lseek s fd offset =
          (0, set_fd s fd (some { file_entry := (fd_get s fd).file_entry, offset := offset })) ∧
        fd_get (fs_lseek s fd offset).2 fd
          = { file_entry := (fd_get s fd).file_entry, offset := offset }) ∧
      ((get_dir s (fd_get s fd).file_entry).file_sz < offset →
        fs_lseek s fd offset = (-1, s)) ∧
      (fs_lseek s fd (get_dir s (fd_get s fd).file_entry).file_sz).1 = 0 ∧
      (fs_lseek s fd ((get_dir s (fd_get s fd).file_entry).file_sz + 1)).1 = -1) ∧
    (is_valid_fd s fd = false → fs_lseek s fd offset = (-1, s)) := by
  constructor
  · intro hv
    obtain ⟨_, _, _, hlen⟩ := fd_slot_of_valid hv
    have hle : ∀ o, o ≤ (get_dir s (fd_get s fd).file_entry).file_sz →
        fs_lseek s fd o =
          (0, set_fd s fd (some { file_entry := (fd_get s fd).file_entry, offset := o })) :=
      fun o ho => fs_lseek_of_le hv ho
    have hgt : ∀ o, (get_dir s (fd_get s fd).file_entry).file_sz < o →
        fs_lseek s fd o = (-1, s) :=
      fun o ho => fs_lseek_of_gt hv ho
    refine ⟨?_, ?_, hgt offset, ?_, ?_⟩
    · constructor
      · intro h0
        by_contra hc
        rw [hgt offset (Nat.lt_of_not_le hc)] at h0
        simp at h0
      · intro ho
        rw [hle offset ho]
    · intro ho
      refine ⟨hle offset ho, ?_⟩
      rw [hle offset ho]
      exact fd_get_set_self _ hlen
    · rw [hle _ (Nat.le_refl _)]
    · rw [hgt _ (Nat.lt_succ_self _)]
  · intro hv
    simp [fs_lseek, hv]

set_option maxRecDepth 100000 in
/-- C8, at a concrete input: descriptor 0 of the volume with the 100-byte file can seek to 100
and not to 101; 32 is no descriptor. -/
theorem fs_lseek_bound_witness :
    (fs_lseek vol_file100 0 100).1 = 0 ∧ (fs_lseek vol_file100 0 101).1 = -1 ∧
    fs_lseek vol_file100 32 0 = (-1, vol_file100) :=
  ⟨((fs_lseek_bound vol_file100 0 100).1 (by decide!)).1.2 (by decide!),
   congrArg Prod.fst (((fs_lseek_bound vol_file100 0 101).1 (by decide!)).2.2.1 (by decide!)),
   (fs_lseek_bound vol_file100 32 0).2 (by decide!)⟩

/-! ## The root directory -/

theorem scan_valid_entry_none (s : FsState) (name : List Nat) :
    ∀ n i, (∀ j, i ≤ j → j < i + n →
        (get_dir s j).filename ≠ name ∧ (get_dir s j).filename ≠ []) →
      scan_valid_entry s name n i = -1 := by
  intro n
  induction n with
  | zero => intro i _; rfl
  | succ n ih =>
    intro i h
    have hi := h i (Nat.le_refl _) (by omega)
    rw [scan_valid_entry, if_neg hi.1, if_neg hi.2]
    exact ih (i + 1) (fun j h1 h2 => h j (by omega) (by omega))

theorem scan_valid_entry_found (s : FsState) (name : List Nat) (k : Nat)
    (hk : (get_dir s k).filename = []) (hname : name ≠ []) :
    ∀ n i, i ≤ k → k < i + n →
      (∀ j, i ≤ j → j < k → (get_dir s j).filename ≠ name ∧ (get_dir s j).filename ≠ []) →
      scan_valid_entry s name n i = (k : Int) := by
  intro n
  induction n with
  | zero => intro i h1 h2; omega
  | succ n ih =>
    intro i h1 h2 h
    rw [scan_valid_entry]
    by_cases hik : i = k
    · subst hik
      rw [hk, if_neg (Ne.symm hname), if_pos rfl]
    · have hi := h i (Nat.le_refl _) (by omega)
      rw [if_neg hi.1, if_neg hi.2]
      exact ih (i + 1) (by omega) (by omega) (fun j h3 h4 => h j (by omega) h4)

theorem getD_set_self {α : Type} (l : List α) (i : Nat) (a d : α) (h : i < l.length) :
    (l.set i a).getD i d = a := by
  rw [List.getD_eq_getElem?_getD, List.getElem?_set_self h]
  rfl

theorem getD_set_ne {α : Type} (l : List α) (i j : Nat) (a d : α) (h : i ≠ j) :
    (l.set i a).getD j d = l.getD j d := by
  rw [List.getD_eq_getElem?_getD, List.getElem?_set_ne h, List.getD_eq_getElem?_getD]

theorem get_dir_set_dir_self {s : FsState} {i : Nat} (e : RootDirEntry)
    (h : i < s.root_dir.length) : get_dir (set_dir s i e) i = e := by
  simp [get_dir, set_dir, List.getD_eq_getElem?_getD, List.getElem?_set, h]

theorem get_dir_set_dir_ne {s : FsState} {i j : Nat} (e : RootDirEntry) (h : i ≠ j) :
    get_dir (set_dir s i e) j = get_dir s j := by
  simp [get_dir, set_dir, List.getD_eq_getElem?_getD, List.getElem?_set, h]

/-- C10. Create contract: on a mounted volume where no occupied slot holds `name` (and whose
directory-usage counter can still grow in its 16 bits), `fs_create(name)` returns 0 exactly when
`name` has 1 to 15 characters and one of the 128 slots is empty.  On success the lowest empty
slot `i` holds `name` with size 0, both block indices `0xFFFF`, open count 0, the counter
`rdir_used` has grown by 1, and the rest of the state (every other slot, the FAT) is as before.
Otherwise the call returns -1 and the state is unchanged. -/
theorem fs_create_contract (s : FsState) (name : List Nat)
    (hm : s.mounted = true) (hlen : s.root_dir.length = FS_FILE_MAX_COUNT)
    (hcnt : s.sp.rdir_used < 65535)
    (hfresh : ∀ i, i < FS_FILE_MAX_COUNT → (get_dir s i).filename ≠ [] →
      (get_dir s i).filename ≠ name) :
    ((fs_create s name).1 = 0 ↔
      (1 ≤ name.length ∧ name.length ≤ 15 ∧
        ∃ i, i < FS_FILE_MAX_COUNT ∧ (get_dir s i).filename = [])) ∧
    (∀ i, i < FS_FILE_MAX_COUNT → (get_dir s i).filename = [] →
      (∀ j, j < i → (get_dir s j).filename ≠ []) →
      1 ≤ name.length → name.length ≤ 15 →
      fs_create s name =
        (0, { set_dir s i { filename := name, file_sz := 0, first_data_blk := FAT_EOC,
                            last_data_blk := FAT_EOC, open_ := 0, flag := 0 } with
              sp := { s.sp with rdir_used := s.sp.rdir_used + 1 } }) ∧
      get_dir (fs_create s name).2 i =
        { filename := name, file_sz := 0, first_data_blk := FAT_EOC,
          last_data_blk := FAT_EOC, open_ := 0, flag := 0 } ∧
      (∀ j, j ≠ i → get_dir (fs_create s name).2 j = get_dir s j) ∧
      (fs_create s name).2.fat = s.fat ∧
      (fs_create s name).2.sp.rdir_used = s.sp.rdir_used + 1) ∧
    ((fs_create s name).1 ≠ 0 → fs_create s name = (-1, s)) := by
  have hsucc : ∀ i, i < FS_FILE_MAX_COUNT → (get_dir s i).filename = [] →
      (∀ j, j < i → (get_dir s j).filename ≠ []) →
      1 ≤ name.length → name.length ≤ 15 →
      fs_create s name =
        (0, { set_dir s i { filename := name, file_sz := 0, first_data_blk := FAT_EOC,
                            last_data_blk := FAT_EOC, open_ := 0, flag := 0 } with
              sp := { s.sp with rdir_used := s.sp.rdir_used + 1 } }) := by
    intro i hi he hlow h1 h15
    have hne : name ≠ [] := by
      intro h; rw [h] at h1; simp at h1
    have hscan : get_valid_directory_entry s name = (i : Int) := by
      rw [get_valid_directory_entry, if_neg (by simp [hm])]
      apply scan_valid_entry_found s name i he hne
      · exact Nat.zero_le _
      · omega
      · intro j _ hj
        exact ⟨hfresh j (by omega) (hlow j hj), hlow j hj⟩
    have hu : u16 (s.sp.rdir_used + 1) = s.sp.rdir_used + 1 := by
      unfold u16; omega
    unfold fs_create
    rw [if_neg (by simp [hm]), if_neg (by simp [hne, FS_FILENAME_LEN]; omega)]
    simp only [hscan]
    rw [if_neg (by omega)]
    simp [set_dir, hu]
  refine ⟨⟨?_, ?_⟩, ?_, ?_⟩
  · intro h0
    by_cases h1 : name = []
    · simp [fs_create, hm, h1] at h0
    by_cases h2 : name.length ≥ FS_FILENAME_LEN
    · simp [fs_create, hm, h1, h2] at h0
    have hpos : 1 ≤ name.length := by
      cases name with
      | nil => exact absurd rfl h1
      | cons a l => simp
    refine ⟨hpos, by simp [FS_FILENAME_LEN] at h2; omega, ?_⟩
    by_contra hno
    have hall : ∀ j, 0 ≤ j → j < 0 + FS_FILE_MAX_COUNT →
        (get_dir s j).filename ≠ name ∧ (get_dir s j).filename ≠ [] := by
      intro j _ hj
      have hj' : j < FS_FILE_MAX_COUNT := by omega
      have hocc : (get_dir s j).filename ≠ [] := fun he => hno ⟨j, hj', he⟩
      exact ⟨hfresh j hj' hocc, hocc⟩
    have hscan : get_valid_directory_entry s name = -1 := by
      rw [get_valid_directory_entry, if_neg (by simp [hm])]
      exact scan_valid_entry_none s name _ 0 hall
    simp [fs_create, hm, h1, hscan] at h0
  · rintro ⟨h1, h15, hex⟩
    classical
    have hfind := Nat.find_spec hex
    have hmin : ∀ j, j < Nat.find hex → (get_dir s j).filename ≠ [] := by
      intro j hj he
      exact Nat.find_min hex hj ⟨by omega, he⟩
    rw [hsucc (Nat.find hex) hfind.1 hfind.2 hmin h1 h15]
  · intro i hi he hlow h1 h15
    have heq := hsucc i hi he hlow h1 h15
    refine ⟨heq, ?_, ?_, ?_, ?_⟩
    · rw [heq]
      exact get_dir_set_dir_self _ (by rw [hlen]; exact hi)
    · intro j hj
      rw [heq]
      exact get_dir_set_dir_ne _ (Ne.symm hj)
    · rw [heq]; rfl
    · rw [heq]
  · intro hne
    by_cases hB : name = [] ∨ name.length ≥ FS_FILENAME_LEN
    · simp only [fs_create, if_pos hB, if_neg (show ¬ s.mounted = false by simp [hm])]
    · by_cases hC : get_valid_directory_entry s name < 0
      · simp only [fs_create, if_neg hB, if_pos hC,
          if_neg (show ¬ s.mounted = false by simp [hm])]
      · exfalso
        apply hne
        simp only [fs_create, if_neg hB, if_neg hC,
          if_neg (show ¬ s.mounted = false by simp [hm])]

set_option maxRecDepth 100000 in
/-- C10, at a concrete input: the directory holds `"a"` in slot 0; `fs_create("b")` returns 0,
fills slot 1 and raises the counter. -/
theorem fs_create_contract_witness :
    (fs_create dir_a name_b).1 = 0 ∧
    get_dir (fs_create dir_a name_b).2 1 =
      { filename := name_b, file_sz := 0, first_data_blk := FAT_EOC,
        last_data_blk := FAT_EOC, open_ := 0, flag := 0 } ∧
    (fs_create dir_a name_b).2.sp.rdir_used = dir_a.sp.rdir_used + 1 :=
  have h := fs_create_contract dir_a name_b (by decide!) (by decide!) (by decide!) (by decide!)
  have h1 := h.2.1 1 (by decide!) (by decide!) (by decide!) (by decide!) (by decide!)
  ⟨h.1.2 ⟨by decide!, by decide!, 1, by decide!, by decide!⟩, h1.2.1, h1.2.2.2.2⟩

/-! ## Chains -/

theorem toInt32_of_lt {n : Nat} (h : n < 2147483648) : toInt32 n = (n : Int) := by
  unfold toInt32
  omega

theorem isChain_cons (s : FsState) (b x : Nat) (r : List Nat) :
    IsChain s b (x :: r) ↔
      (b = x ∧ 1 ≤ x ∧ x < s.sp.data_blk_count ∧ x ≠ FAT_EOC ∧ IsChain s (fat_at s x) r) :=
  Iff.rfl

theorem isChain_unique (s : FsState) :
    ∀ (l₁ l₂ : List Nat) (b : Nat), IsChain s b l₁ → IsChain s b l₂ → l₁ = l₂ := by
  intro l₁
  induction l₁ with
  | nil =>
    intro l₂ b h1 h2
    cases l₂ with
    | nil => rfl
    | cons y r =>
      simp only [IsChain] at h1 h2
      exact absurd (h2.1 ▸ h1) h2.2.2.2.1
  | cons x r ih =>
    intro l₂ b h1 h2
    cases l₂ with
    | nil =>
      simp only [IsChain] at h1 h2
      exact absurd (h1.1 ▸ h2) h1.2.2.2.1
    | cons y r2 =>
      simp only [IsChain] at h1 h2
      have hxy : x = y := h1.1.symm.trans h2.1
      subst hxy
      rw [ih r2 _ h1.2.2.2.2 h2.2.2.2.2]

theorem isChain_suffix (s : FsState) (y : Nat) (r : List Nat) :
    ∀ (l : List Nat) (b : Nat), IsChain s b (l ++ y :: r) → IsChain s y (y :: r) := by
  intro l
  induction l with
  | nil =>
    intro b h
    rw [List.nil_append, isChain_cons] at h
    exact (isChain_cons s y y r).mpr ⟨rfl, h.2⟩
  | cons a l ih =>
    intro b h
    simp only [List.cons_append, IsChain] at h
    exact ih _ h.2.2.2.2

theorem isChain_range (s : FsState) :
    ∀ (l : List Nat) (b : Nat), IsChain s b l →
      ∀ x ∈ l, 1 ≤ x ∧ x < s.sp.data_blk_count ∧ x ≠ FAT_EOC := by
  intro l
  induction l with
  | nil => intro b _ x hx; simp at hx
  | cons a l ih =>
    intro b h x hx
    simp only [IsChain] at h
    rcases List.mem_cons.mp hx with hxa | hxl
    · subst hxa
      exact ⟨h.2.1, h.2.2.1, h.2.2.2.1⟩
    · exact ih _ h.2.2.2.2 x hxl

theorem isChain_nodup (s : FsState) :
    ∀ (l : List Nat) (b : Nat), IsChain s b l → l.Nodup := by
  intro l
  induction l with
  | nil => intro b _; exact List.nodup_nil
  | cons a l ih =>
    intro b h
    have h' := h
    simp only [IsChain] at h'
    refine List.nodup_cons.mpr ⟨?_, ih _ h'.2.2.2.2⟩
    intro hmem
    obtain ⟨l1, l2, hl⟩ := List.append_of_mem hmem
    have hsuf : IsChain s a (a :: l2) := by
      apply isChain_suffix s a l2 (a :: l1) b
      rw [hl] at h
      exact h
    have hwhole : IsChain s a (a :: l) :=
      (isChain_cons s a a l).mpr ⟨rfl, h'.2⟩
    have := isChain_unique s _ _ a hsuf hwhole
    rw [hl] at this
    have hlen := congrArg List.length this
    simp at hlen
    omega

theorem isChain_length_le (s : FsState) (l : List Nat) (b : Nat) (h : IsChain s b l) :
    l.length ≤ s.sp.data_blk_count := by
  have hnd := isChain_nodup s l b h
  have hr := isChain_range s l b h
  have hsub : l.toFinset ⊆ Finset.range s.sp.data_blk_count := by
    intro x hx
    rw [List.mem_toFinset] at hx
    exact Finset.mem_range.mpr (hr x hx).2.1
  have hcard := Finset.card_le_card hsub
  rw [List.toFinset_card_of_nodup hnd, Finset.card_range] at hcard
  exact hcard

theorem get_fat_of_chain {s : FsState} {x : Nat} (hm : s.mounted = true)
    (h1 : x < s.sp.data_blk_count) (h2 : x ≠ FAT_EOC) : get_fat s x = some x := by
  unfold get_fat
  rw [if_neg, if_neg]
  · omega
  · simp only [hm, Bool.true_eq_false, false_or]
    exact h2

theorem walk_fat_chain (s : FsState) (hm : s.mounted = true) :
    ∀ (n : Nat) (l : List Nat) (b : Nat), IsChain s b l → n < l.length →
      walk_fat s n b = .ok (l.getD n 0) ∧ IsChain s (l.getD n 0) (l.drop n) := by
  intro n
  induction n with
  | zero =>
    intro l b h hn
    cases l with
    | nil => simp at hn
    | cons x r =>
      have h' := (isChain_cons s b x r).mp h
      simp only [walk_fat, List.getD_cons_zero, List.drop_zero]
      refine ⟨by rw [h'.1], ?_⟩
      exact (isChain_cons s x x r).mpr ⟨rfl, h'.2⟩
  | succ n ih =>
    intro l b h hn
    cases l with
    | nil => simp at hn
    | cons x r =>
      simp only [IsChain] at h
      obtain ⟨hb, _, hlt, hne, hrest⟩ := h
      subst hb
      have hn' : n < r.length := by simpa using hn
      rw [walk_fat, get_fat_of_chain hm hlt hne]
      simpa using ih r _ hrest hn'

theorem block_write_ok (d : Disk) (i : Nat) (b : Block) (h : i < d.length) :
    block_write d i b = some (d.set i b) := by
  unfold block_write
  rw [if_pos h]

theorem block_write_frame {d d' : Disk} {i : Nat} {b : Block} (h : block_write d i b = some d') :
    d'.length = d.length ∧ ∀ j, j ≠ i → d'[j]? = d[j]? := by
  unfold block_write at h
  split at h
  · simp only [Option.some.injEq] at h
    subst h
    refine ⟨List.length_set _ _ _, ?_⟩
    intro j hj
    exact List.getElem?_set_ne (Ne.symm hj)
  · exact absurd h (by simp)

theorem block_read_set_self (d : Disk) (i : Nat) (b : Block) (h : i < d.length) :
    block_read (d.set i b) i = some b := by
  unfold block_read
  exact List.getElem?_set_self h

theorem write_fat_blocks_frame (fat : List Nat) :
    ∀ (n i : Nat) (d : Disk),
      (write_fat_blocks fat n i d).2.length = d.length ∧
      ∀ j, i + n < j → (write_fat_blocks fat n i d).2[j]? = d[j]? := by
  intro n
  induction n with
  | zero => intro i d; exact ⟨rfl, fun _ _ => rfl⟩
  | succ n ih =>
    intro i d
    rw [write_fat_blocks]
    cases hw : block_write d (1 + i) (fat_bytes fat i) with
    | none => exact ⟨rfl, fun _ _ => rfl⟩
    | some d1 =>
      obtain ⟨hl, hf⟩ := block_write_frame hw
      obtain ⟨hl2, hf2⟩ := ih (i + 1) d1
      refine ⟨by simp only []; rw [hl2, hl], ?_⟩
      intro j hj
      simp only []
      rw [hf2 j (by omega), hf j (by omega)]

/-- The state `write_meta` leaves: the flush touches only `sp->fat_used` (clipped to
`data_blk_count`) and the blocks 0, `rdir_blk` and `1 .. fat_blk_count` of the device. -/
theorem write_meta_frame (s : FsState) (hm : s.mounted = true) :
    ∃ r s', write_meta s = .ok (r, s') ∧ s'.mounted = true ∧ s'.root_dir = s.root_dir ∧
      s'.fat = s.fat ∧ s'.filedes = s.filedes ∧ s'.fd_cnt = s.fd_cnt ∧
      s'.sp.data_blk = s.sp.data_blk ∧ s'.sp.data_blk_count = s.sp.data_blk_count ∧
      s'.sp.fat_blk_count = s.sp.fat_blk_count ∧ s'.sp.rdir_blk = s.sp.rdir_blk ∧
      s'.sp.rdir_used = s.sp.rdir_used ∧
      s'.disk.length = s.disk.length ∧
      ∀ j, s.sp.fat_blk_count < j → j ≠ s.sp.rdir_blk → s'.disk[j]? = s.disk[j]? := by
  unfold write_meta
  rw [if_neg (by simp [hm])]
  by_cases hclip : s.sp.fat_used ≥ s.sp.data_blk_count
  · simp only [if_pos hclip]
    cases h1 : block_write s.disk 0 (sp_bytes { s.sp with fat_used := s.sp.data_blk_count }) with
    | none =>
      exact ⟨_, _, rfl, hm, rfl, rfl, rfl, rfl, rfl, rfl, rfl, rfl, rfl, rfl, fun _ _ _ => rfl⟩
    | some d1 =>
      obtain ⟨hl1, hf1⟩ := block_write_frame h1
      simp only []
      cases h2 : block_write d1 s.sp.rdir_blk (rdir_bytes s.root_dir) with
      | none =>
        refine ⟨_, _, rfl, hm, rfl, rfl, rfl, rfl, rfl, rfl, rfl, rfl, rfl, hl1, ?_⟩
        intro j hj _
        exact hf1 j (by omega)
      | some d2 =>
        obtain ⟨hl2, hf2⟩ := block_write_frame h2
        obtain ⟨hl3, hf3⟩ := write_fat_blocks_frame s.fat s.sp.fat_blk_count 0 d2
        refine ⟨_, _, rfl, hm, rfl, rfl, rfl, rfl, rfl, rfl, rfl, rfl, rfl, ?_, ?_⟩
        · simp only []; rw [hl3, hl2, hl1]
        · intro j hj hjr
          simp only []
          rw [hf3 j (by omega), hf2 j hjr, hf1 j (by omega)]
  · simp only [if_neg hclip]
    cases h1 : block_write s.disk 0 (sp_bytes s.sp) with
    | none =>
      exact ⟨_, _, rfl, hm, rfl, rfl, rfl, rfl, rfl, rfl, rfl, rfl, rfl, rfl, fun _ _ _ => rfl⟩
    | some d1 =>
      obtain ⟨hl1, hf1⟩ := block_write_frame h1
      simp only []
      cases h2 : block_write d1 s.sp.rdir_blk (rdir_bytes s.root_dir) with
      | none =>
        refine ⟨_, _, rfl, hm, rfl, rfl, rfl, rfl, rfl, rfl, rfl, rfl, rfl, hl1, ?_⟩
        intro j hj _
        exact hf1 j (by omega)
      | some d2 =>
        obtain ⟨hl2, hf2⟩ := block_write_frame h2
        obtain ⟨hl3, hf3⟩ := write_fat_blocks_frame s.fat s.sp.fat_blk_count 0 d2
        refine ⟨_, _, rfl, hm, rfl, rfl, rfl, rfl, rfl, rfl, rfl, rfl, rfl, ?_, ?_⟩
        · simp only []; rw [hl3, hl2, hl1]
        · intro j hj hjr
          simp only []
          rw [hf3 j (by omega), hf2 j hjr, hf1 j (by omega)]

theorem get_dir_set_flag_self {s : FsState} {i : Nat} (c : Nat) (h : i < s.root_dir.length) :
    get_dir (set_flag s i c) i = { get_dir s i with flag := c } :=
  get_dir_set_dir_self _ h

theorem is_valid_fd_congr {s s' : FsState} (fd : Int) (h : s'.filedes = s.filedes) :
    is_valid_fd s' fd = is_valid_fd s fd := by
  unfold is_valid_fd fd_slot
  rw [h]

theorem fd_get_congr {s s' : FsState} (fd : Int) (h : s'.filedes = s.filedes) :
    fd_get s' fd = fd_get s fd := by
  unfold fd_get fd_slot
  rw [h]

theorem is_valid_fd_set_fd {s : FsState} {fd : Int} (d : FileDescriptor)
    (hv : is_valid_fd s fd = true) : is_valid_fd (set_fd s fd (some d)) fd = true := by
  obtain ⟨h0, h1, _, hlen⟩ := fd_slot_of_valid hv
  unfold is_valid_fd
  rw [if_neg]
  simp only [not_or, not_lt, ge_iff_le, not_le, FS_OPEN_MAX_COUNT, Nat.cast_ofNat]
  refine ⟨h0, h1, ?_⟩
  unfold fd_slot set_fd
  rw [getD_set_self _ _ _ _ hlen]
  simp

theorem scan_entry_found (s : FsState) (name : List Nat) (k : Nat)
    (hk : (get_dir s k).filename = name) :
    ∀ n i, i ≤ k → k < i + n →
      (∀ j, i ≤ j → j < k → (get_dir s j).filename ≠ name) →
      scan_entry s name n i = (k : Int) := by
  intro n
  induction n with
  | zero => intro i h1 h2; omega
  | succ n ih =>
    intro i h1 h2 h
    rw [scan_entry]
    by_cases hik : i = k
    · subst hik
      rw [if_pos hk]
    · rw [if_neg (h i (Nat.le_refl _) (by omega))]
      exact ih (i + 1) (by omega) (by omega) (fun j h3 h4 => h j (by omega) h4)

theorem scan_entry_none (s : FsState) (name : List Nat) :
    ∀ n i, (∀ j, i ≤ j → j < i + n → (get_dir s j).filename ≠ name) →
      scan_entry s name n i = -1 := by
  intro n
  induction n with
  | zero => intro i _; rfl
  | succ n ih =>
    intro i h
    rw [scan_entry, if_neg (h i (Nat.le_refl _) (by omega))]
    exact ih (i + 1) (fun j h1 h2 => h j (by omega) (by omega))

theorem scan_fd_found (f : List (Option FileDescriptor)) (k : Nat)
    (hk : f.getD k none = none) :
    ∀ n i, i ≤ k → k < i + n → (∀ j, i ≤ j → j < k → f.getD j none ≠ none) →
      scan_fd f n i = (k : Int) := by
  intro n
  induction n with
  | zero => intro i h1 h2; omega
  | succ n ih =>
    intro i h1 h2 h
    rw [scan_fd]
    by_cases hik : i = k
    · subst hik
      rw [if_pos hk]
    · rw [if_neg (h i (Nat.le_refl _) (by omega))]
      exact ih (i + 1) (by omega) (by omega) (fun j h3 h4 => h j (by omega) h4)

theorem scan_fd_spec (f : List (Option FileDescriptor)) :
    ∀ n i, 0 ≤ scan_fd f n i →
      ∃ k : Nat, scan_fd f n i = (k : Int) ∧ i ≤ k ∧ k < i + n ∧ f.getD k none = none ∧
        ∀ j, i ≤ j → j < k → f.getD j none ≠ none := by
  intro n
  induction n with
  | zero =>
    intro i h
    rw [scan_fd] at h
    omega
  | succ n ih =>
    intro i h
    rw [scan_fd] at h ⊢
    by_cases hi : f.getD i none = none
    · rw [if_pos hi]
      exact ⟨i, rfl, Nat.le_refl _, by omega, hi, fun j h1 h2 => by omega⟩
    · rw [if_neg hi] at h ⊢
      obtain ⟨k, hk, h1, h2, h3, h4⟩ := ih (i + 1) h
      refine ⟨k, hk, by omega, by omega, h3, ?_⟩
      intro j hj1 hj2
      by_cases hji : j = i
      · subst hji; exact hi
      · exact h4 j (by omega) hj2

theorem is_valid_fd_of_some {s : FsState} {k : Nat} {d : FileDescriptor} (hk : k < 32)
    (h : s.filedes.getD k none = some d) : is_valid_fd s (k : Int) = true := by
  unfold is_valid_fd
  rw [if_neg]
  simp only [not_or, not_lt, ge_iff_le, not_le, FS_OPEN_MAX_COUNT, Nat.cast_ofNat]
  refine ⟨by omega, by omega, ?_⟩
  unfold fd_slot
  rw [Int.toNat_ofNat, h]
  simp

/-- What a successful `fs_open` leaves: descriptor `k`, the lowest unused one, points to the
entry `i`, the first one named `name`, with cursor 0; the entry has one more opener and the
flag `'o'`; `fd_cnt` has grown by one. -/
theorem fs_open_at (s : FsState) (name : List Nat) (i k : Nat) (hm : s.mounted = true)
    (hname : name.length < FS_FILENAME_LEN) (hcnt : s.fd_cnt < 32)
    (hflen : s.filedes.length = FS_OPEN_MAX_COUNT)
    (hi : i < FS_FILE_MAX_COUNT) (hfile : (get_dir s i).filename = name)
    (hfirst : ∀ j, j < i → (get_dir s j).filename ≠ name)
    (hk : k < FS_OPEN_MAX_COUNT) (hkfree : s.filedes.getD k none = none)
    (hklow : ∀ j, j < k → s.filedes.getD j none ≠ none) :
    fs_open s name =
      ((k : Int),
       { s with
         filedes := s.filedes.set k (some ⟨i, 0⟩)
         root_dir := s.root_dir.set i
           { get_dir s i with open_ := ((get_dir s i).open_ + 1) % 256, flag := FLAG_O }
         fd_cnt := s.fd_cnt + 1 }) := by
  have hentry : get_directory_entry s name = (i : Int) := by
    rw [get_directory_entry, if_neg (by simp [hm])]
    exact scan_entry_found s name i hfile _ 0 (Nat.zero_le _) (by omega)
      (fun j _ hj => hfirst j hj)
  have hfd : get_valid_fd s = (k : Int) := by
    rw [get_valid_fd, if_neg (by simp only [FS_OPEN_MAX_COUNT]; omega)]
    exact scan_fd_found s.filedes k hkfree _ 0 (Nat.zero_le _) (by omega)
      (fun j _ hj => hklow j hj)
  have hkl : k < s.filedes.length := by rw [hflen]; exact hk
  have hslot : (set_fd s (k : Int) (some ⟨i, 0⟩)).filedes.getD k none = some ⟨i, 0⟩ := by
    show (s.filedes.set (k : Int).toNat _).getD k none = _
    rw [Int.toNat_ofNat]
    exact getD_set_self _ _ _ _ hkl
  have hv : is_valid_fd (set_fd s (k : Int) (some ⟨i, 0⟩)) (k : Int) = true :=
    is_valid_fd_of_some (by simpa [FS_OPEN_MAX_COUNT] using hk) hslot
  have hseek : fs_lseek (set_fd s (k : Int) (some ⟨i, 0⟩)) (k : Int) 0 =
      (0, set_fd s (k : Int) (some ⟨i, 0⟩)) := by
    rw [fs_lseek_of_le hv (Nat.zero_le _)]
    have hg : fd_get (set_fd s (k : Int) (some ⟨i, 0⟩)) (k : Int) = ⟨i, 0⟩ :=
      fd_get_set_self _ (by rw [Int.toNat_ofNat]; exact hkl)
    rw [hg]
    simp only [set_fd, Int.toNat_ofNat, List.set_set]
  unfold fs_open
  rw [if_neg (by simp only [FS_OPEN_MAX_COUNT, FS_FILENAME_LEN] at hname ⊢; omega)]
  simp only [hentry, hfd, Int.toNat_ofNat]
  rw [if_neg (by omega), if_neg (by omega), hseek,
    if_neg (by show ¬ ((0 : Int) < 0); decide)]
  rfl

theorem getD_set_field {α β : Type} (f : α → β) (l : List α) (i j : Nat) (a d : α)
    (h : f a = f (l.getD i d)) : f ((l.set i a).getD j d) = f (l.getD j d) := by
  by_cases hij : i = j
  · subst hij
    by_cases hi : i < l.length
    · rw [getD_set_self _ _ _ _ hi, h]
    · rw [List.set_eq_of_length_le (by omega)]
  · rw [getD_set_ne _ _ _ _ _ hij]

/-- On a name that no entry carries `fs_delete` returns -1 and changes nothing. -/
theorem fs_delete_not_found (s : FsState) (name : List Nat)
    (h : ∀ j, j < FS_FILE_MAX_COUNT → (get_dir s j).filename ≠ name) :
    fs_delete s name = .ok (-1, s) := by
  have hentry : get_directory_entry s name < 0 := by
    unfold get_directory_entry
    split_ifs
    · decide
    · rw [scan_entry_none s name _ 0 (fun j _ hj => h j (by omega))]
      decide
  unfold fs_delete
  simp only [if_pos hentry]

/-- On a name that no entry carries `fs_open` returns -1 and changes nothing. -/
theorem fs_open_not_found (s : FsState) (name : List Nat)
    (h : ∀ j, j < FS_FILE_MAX_COUNT → (get_dir s j).filename ≠ name) :
    fs_open s name = (-1, s) := by
  have hentry : get_directory_entry s name < 0 := by
    unfold get_directory_entry
    split_ifs
    · decide
    · rw [scan_entry_none s name _ 0 (fun j _ hj => h j (by omega))]
      decide
  unfold fs_open
  split_ifs
  · rfl
  · simp only [if_pos hentry]

/-- C16. Open success: on a mounted volume, for a file `name` (shorter than 16 characters)
whose entry `i` is the first one with that name and has fewer than 255 openers, and a
descriptor table of 32 slots with fewer than 32 open descriptors in which `k` is the lowest
unused slot, `fs_open(name)` returns `k`; afterwards descriptor `k` refers to entry `i` with
cursor 0, the open count of the entry has grown by exactly 1 (its name, size and block indices
are as before), `fd_cnt` has grown by 1, every other descriptor slot and every other directory
entry is unchanged, and so are the superblock, the FAT and the device. -/
theorem fs_open_success (s : FsState) (name : List Nat) (i k : Nat) (hm : s.mounted = true)
    (hdir : s.root_dir.length = FS_FILE_MAX_COUNT)
    (hname : name.length < FS_FILENAME_LEN) (hcnt : s.fd_cnt < 32)
    (hflen : s.filedes.length = FS_OPEN_MAX_COUNT)
    (hi : i < FS_FILE_MAX_COUNT) (hfile : (get_dir s i).filename = name)
    (hfirst : ∀ j, j < i → (get_dir s j).filename ≠ name)
    (hopen : (get_dir s i).open_ < 255)
    (hk : k < FS_OPEN_MAX_COUNT) (hkfree : s.filedes.getD k none = none)
    (hklow : ∀ j, j < k → s.filedes.getD j none ≠ none) :
    (fs_open s name).1 = (k : Int) ∧
    is_valid_fd (fs_open s name).2 (k : Int) = true ∧
    fd_get (fs_open s name).2 (k : Int) = { file_entry := i, offset := 0 } ∧
    (get_dir (fs_open s name).2 i).open_ = (get_dir s i).open_ + 1 ∧
    (get_dir (fs_open s name).2 i).filename = name ∧
    (get_dir (fs_open s name).2 i).file_sz = (get_dir s i).file_sz ∧
    (get_dir (fs_open s name).2 i).first_data_blk = (get_dir s i).first_data_blk ∧
    (get_dir (fs_open s name).2 i).last_data_blk = (get_dir s i).last_data_blk ∧
    (fs_open s name).2.fd_cnt = s.fd_cnt + 1 ∧
    (∀ j, j ≠ k → (fs_open s name).2.filedes.getD j none = s.filedes.getD j none) ∧
    (∀ j, j ≠ i → get_dir (fs_open s name).2 j = get_dir s j) ∧
    (fs_open s name).2.sp = s.sp ∧ (fs_open s name).2.fat = s.fat ∧
    (fs_open s name).2.disk = s.disk := by
  have hkl : k < s.filedes.length := by rw [hflen]; exact hk
  have hil : i < s.root_dir.length := by rw [hdir]; exact hi
  have hslot : (s.filedes.set k (some (⟨i, 0⟩ : FileDescriptor))).getD k none = some ⟨i, 0⟩ :=
    getD_set_self _ _ _ _ hkl
  have hent : (s.root_dir.set i
      { get_dir s i with open_ := ((get_dir s i).open_ + 1) % 256, flag := FLAG_O }).getD i
        zero_entry
      = { get_dir s i with open_ := ((get_dir s i).open_ + 1) % 256, flag := FLAG_O } :=
    getD_set_self _ _ _ _ hil
  rw [fs_open_at s name i k hm hname hcnt hflen hi hfile hfirst hk hkfree hklow]
  refine ⟨rfl, ?_, ?_, ?_, ?_, ?_, ?_, ?_, rfl, ?_, ?_, rfl, rfl, rfl⟩
  · exact is_valid_fd_of_some (by simpa [FS_OPEN_MAX_COUNT] using hk) hslot
  · show (Option.getD ((s.filedes.set k (some ⟨i, 0⟩)).getD ((k : Int).toNat) none) _) = _
    rw [Int.toNat_ofNat, hslot]
    rfl
  · show (List.getD _ i zero_entry).open_ = _
    rw [hent]
    show ((get_dir s i).open_ + 1) % 256 = _
    omega
  · show (List.getD _ i zero_entry).filename = _
    rw [hent]
    exact hfile
  · show (List.getD _ i zero_entry).file_sz = _
    rw [hent]
  · show (List.getD _ i zero_entry).first_data_blk = _
    rw [hent]
  · show (List.getD _ i zero_entry).last_data_blk = _
    rw [hent]
  · intro j hj
    exact getD_set_ne _ _ _ _ _ (Ne.symm hj)
  · intro j hj
    exact getD_set_ne _ _ _ _ _ (Ne.symm hj)

set_option maxRecDepth 100000 in
/-- C16, at a concrete input: the directory holds `"a"` in slot 0 and no descriptor is open;
`fs_open("a")` returns 0, the descriptor points to entry 0 with cursor 0 and the open count
goes from 0 to 1. -/
theorem fs_open_success_witness :
    (fs_open dir_a name_a).1 = 0 ∧
    fd_get (fs_open dir_a name_a).2 0 = { file_entry := 0, offset := 0 } ∧
    (get_dir (fs_open dir_a name_a).2 0).open_ = 1 ∧
    (fs_open dir_a name_a).2.fd_cnt = 1 :=
  have h := fs_open_success dir_a name_a 0 0 (by decide!) (by decide!) (by decide!)
    (by decide!) (by decide!) (by decide!) (by decide!) (by decide!) (by decide!) (by decide!)
    (by decide!) (by decide!)
  ⟨h.1, h.2.2.1, h.2.2.2.1, h.2.2.2.2.2.2.2.2.1⟩

/-- What `fs_close` leaves on a valid descriptor. -/
theorem fs_close_at (s : FsState) (fd : Int) (hv : is_valid_fd s fd = true) :
    fs_close s fd =
      (0, { s with
            root_dir := s.root_dir.set (fd_get s fd).file_entry
              { get_dir s (fd_get s fd).file_entry with
                open_ := ((get_dir s (fd_get s fd).file_entry).open_ + 255) % 256
                flag := FLAG_X }
            filedes := s.filedes.set fd.toNat none
            fd_cnt := s.fd_cnt - 1 }) := by
  unfold fs_close
  rw [if_neg (by rw [hv]; decide)]
  rfl

theorem is_valid_fd_false_iff (s : FsState) (fd : Int) :
    is_valid_fd s fd = false ↔ (fd < 0 ∨ fd ≥ 32 ∨ fd_slot s fd = none) := by
  unfold is_valid_fd
  simp only [FS_OPEN_MAX_COUNT, Nat.cast_ofNat]
  split_ifs with h
  · simp only [true_iff]; exact h
  · simp only [Bool.true_eq_false, false_iff]; exact h

theorem fd_slot_set_none {s : FsState} {fd : Int} (h : fd.toNat < s.filedes.length) :
    (s.filedes.set fd.toNat none).getD fd.toNat none = none :=
  getD_set_self _ _ _ _ h

/-- C18. Close: `fs_close(fd)` returns -1 and changes nothing when `fd < 0`, `fd >= 32` or slot
`fd` is unused (these are the cases in which `is_valid_fd` fails).  On a valid descriptor whose
entry lies in the directory and has an open count from 1 to 255, it returns 0, slot `fd` becomes
unused, the open count of the entry it referred to is one less, `fd_cnt` is one less, the other
slots and entries, the superblock, the FAT and the device are unchanged, and a second
`fs_close(fd)` returns -1.  And `fs_open(name)` followed by `fs_close` of the descriptor it
returned gives back the descriptor table, `fd_cnt` and the open count of the entry. -/
theorem fs_close_contract (s : FsState) (fd : Int) :
    (is_valid_fd s fd = false ↔ (fd < 0 ∨ fd ≥ 32 ∨ fd_slot s fd = none)) ∧
    (is_valid_fd s fd = false → fs_close s fd = (-1, s)) ∧
    (is_valid_fd s fd = true → (fd_get s fd).file_entry < s.root_dir.length →
      1 ≤ (get_dir s (fd_get s fd).file_entry).open_ →
      (get_dir s (fd_get s fd).file_entry).open_ ≤ 255 →
      (fs_close s fd).1 = 0 ∧
      fd_slot (fs_close s fd).2 fd = none ∧
      (get_dir (fs_close s fd).2 (fd_get s fd).file_entry).open_ + 1
        = (get_dir s (fd_get s fd).file_entry).open_ ∧
      (fs_close s fd).2.fd_cnt = s.fd_cnt - 1 ∧
      (∀ j, j ≠ fd.toNat → (fs_close s fd).2.filedes.getD j none = s.filedes.getD j none) ∧
      (∀ j, j ≠ (fd_get s fd).file_entry → get_dir (fs_close s fd).2 j = get_dir s j) ∧
      (fs_close s fd).2.sp = s.sp ∧ (fs_close s fd).2.fat = s.fat ∧
      (fs_close s fd).2.disk = s.disk ∧
      fs_close (fs_close s fd).2 fd = (-1, (fs_close s fd).2)) ∧
    (∀ (name : List Nat) (i k : Nat), s.mounted = true →
      s.root_dir.length = FS_FILE_MAX_COUNT → name.length < FS_FILENAME_LEN →
      s.fd_cnt < 32 → s.filedes.length = FS_OPEN_MAX_COUNT →
      i < FS_FILE_MAX_COUNT → (get_dir s i).filename = name →
      (∀ j, j < i → (get_dir s j).filename ≠ name) → (get_dir s i).open_ ≤ 255 →
      k < FS_OPEN_MAX_COUNT → s.filedes.getD k none = none →
      (∀ j, j < k → s.filedes.getD j none ≠ none) →
      (fs_open s name).1 = (k : Int) ∧
      (fs_close (fs_open s name).2 (fs_open s name).1).1 = 0 ∧
      (fs_close (fs_open s name).2 (fs_open s name).1).2.filedes = s.filedes ∧
      (fs_close (fs_open s name).2 (fs_open s name).1).2.fd_cnt = s.fd_cnt ∧
      (get_dir (fs_close (fs_open s name).2 (fs_open s name).1).2 i).open_
        = (get_dir s i).open_) := by
  refine ⟨is_valid_fd_false_iff s fd, ?_, ?_, ?_⟩
  · intro hv
    unfold fs_close
    rw [if_pos hv]
  · intro hv hid h1 h255
    obtain ⟨h0, _, _, hlen⟩ := fd_slot_of_valid hv
    have hent : (s.root_dir.set (fd_get s fd).file_entry
        { get_dir s (fd_get s fd).file_entry with
          open_ := ((get_dir s (fd_get s fd).file_entry).open_ + 255) % 256
          flag := FLAG_X }).getD (fd_get s fd).file_entry zero_entry
        = { get_dir s (fd_get s fd).file_entry with
            open_ := ((get_dir s (fd_get s fd).file_entry).open_ + 255) % 256
            flag := FLAG_X } :=
      getD_set_self _ _ _ _ hid
    rw [fs_close_at s fd hv]
    refine ⟨rfl, fd_slot_set_none hlen, ?_, rfl, ?_, ?_, rfl, rfl, rfl, ?_⟩
    · show (List.getD _ _ zero_entry).open_ + 1 = _
      rw [hent]
      show ((get_dir s (fd_get s fd).file_entry).open_ + 255) % 256 + 1 = _
      omega
    · intro j hj
      exact getD_set_ne _ _ _ _ _ (Ne.symm hj)
    · intro j hj
      exact getD_set_ne _ _ _ _ _ (Ne.symm hj)
    · unfold fs_close
      rw [if_pos]
      rw [is_valid_fd_false_iff]
      exact Or.inr (Or.inr (fd_slot_set_none hlen))
  · intro name i k hm hdir hname hcnt hflen hi hfile hfirst h255 hk hkfree hklow
    have hkl : k < s.filedes.length := by rw [hflen]; exact hk
    have hil : i < s.root_dir.length := by rw [hdir]; exact hi
    have hslot : (s.filedes.set k (some (⟨i, 0⟩ : FileDescriptor))).getD k none = some ⟨i, 0⟩ :=
      getD_set_self _ _ _ _ hkl
    rw [fs_open_at s name i k hm hname hcnt hflen hi hfile hfirst hk hkfree hklow]
    have hv1 : is_valid_fd
        { s with
          filedes := s.filedes.set k (some ⟨i, 0⟩)
          root_dir := s.root_dir.set i
            { get_dir s i with open_ := ((get_dir s i).open_ + 1) % 256, flag := FLAG_O }
          fd_cnt := s.fd_cnt + 1 } (k : Int) = true :=
      is_valid_fd_of_some (by simpa [FS_OPEN_MAX_COUNT] using hk) hslot
    refine ⟨rfl, ?_⟩
    simp only []
    rw [fs_close_at _ _ hv1]
    have hget : fd_get
        { s with
          filedes := s.filedes.set k (some ⟨i, 0⟩)
          root_dir := s.root_dir.set i
            { get_dir s i with open_ := ((get_dir s i).open_ + 1) % 256, flag := FLAG_O }
          fd_cnt := s.fd_cnt + 1 } (k : Int) = ⟨i, 0⟩ := by
      show (Option.getD ((s.filedes.set k (some ⟨i, 0⟩)).getD ((k : Int).toNat) none) _) = _
      rw [Int.toNat_ofNat, hslot]
      rfl
    rw [hget]
    refine ⟨rfl, ?_, ?_, ?_⟩
    · show (s.filedes.set k (some ⟨i, 0⟩)).set (k : Int).toNat none = s.filedes
      rw [Int.toNat_ofNat, List.set_set]
      apply List.ext_getElem?
      intro j
      by_cases hj : k = j
      · subst hj
        rw [List.getElem?_set_self hkl]
        rw [List.getD_eq_getElem?_getD] at hkfree
        rw [List.getElem?_eq_getElem hkl] at hkfree ⊢
        simp only [Option.getD_some] at hkfree
        rw [hkfree]
      · rw [List.getElem?_set_ne hj]
    · show s.fd_cnt + 1 - 1 = s.fd_cnt
      omega
    · show (List.getD ((s.root_dir.set i _).set i _) i zero_entry).open_ = _
      rw [getD_set_self _ _ _ _ (by rw [List.length_set]; exact hil)]
      show ((get_dir _ i).open_ + 255) % 256 = _
      have : (get_dir
          { s with
            filedes := s.filedes.set k (some ⟨i, 0⟩)
            root_dir := s.root_dir.set i
              { get_dir s i with open_ := ((get_dir s i).open_ + 1) % 256, flag := FLAG_O }
            fd_cnt := s.fd_cnt + 1 } i).open_ = ((get_dir s i).open_ + 1) % 256 := by
        show (List.getD (s.root_dir.set i _) i zero_entry).open_ = _
        rw [getD_set_self _ _ _ _ hil]
      rw [this]
      omega

set_option maxRecDepth 100000 in
/-- C18, at a concrete input: descriptor 0 of the volume with the 100-byte file closes with 0
and a second close returns -1; descriptor 5 is unused and its close returns -1; opening `"a"`
on the volume `dir_a` and closing the descriptor returned gives back the empty descriptor
table. -/
theorem fs_close_contract_witness :
    (fs_close vol_file100 0).1 = 0 ∧
    fs_close (fs_close vol_file100 0).2 0 = (-1, (fs_close vol_file100 0).2) ∧
    fs_close vol_file100 5 = (-1, vol_file100) ∧
    (fs_close (fs_open dir_a name_a).2 (fs_open dir_a name_a).1).2.filedes = dir_a.filedes :=
  have h := (fs_close_contract vol_file100 0).2.2.1 (by decide!) (by decide!) (by decide!)
    (by decide!)
  have h5 := (fs_close_contract vol_file100 5).2.1 (by decide!)
  have ho := (fs_close_contract dir_a 0).2.2.2 name_a 0 0 (by decide!) (by decide!) (by decide!)
    (by decide!) (by decide!) (by decide!) (by decide!) (by decide!) (by decide!) (by decide!)
    (by decide!) (by decide!)
  ⟨h.1, h.2.2.2.2.2.2.2.2.2, h5, ho.2.2.1⟩

/-! ## The writer flag -/

/-- C19. Busy rejection: when the entry behind a valid descriptor carries the writer flag
`'w'`, `fs_write(fd, buf, count)` returns -1 for every `buf` and `count` and the whole state
(file size, chain pointers, FAT, counters, cursor, device) is the one before the call. -/
theorem fs_write_busy (s : FsState) (fd : Int) (buf : List Nat) (count : Nat)
    (hv : is_valid_fd s fd = true)
    (hbusy : (get_dir s (fd_get s fd).file_entry).flag = FLAG_W) :
    fs_write s fd buf count = .ok (-1, s) := by
  unfold fs_write
  rw [if_neg (by rw [hv]; decide), if_pos hbusy]

set_option maxRecDepth 100000 in
/-- C19, at a concrete input: on the volume without a free block the first write left the
flag `'w'` on the file; a second write of three bytes through descriptor 0 returns -1 and
leaves the state as it was. -/
theorem fs_write_busy_witness :
    (get_dir vol_busy (fd_get vol_busy 0).file_entry).flag = FLAG_W ∧
    fs_write vol_busy 0 [1, 2, 3] 3 = .ok (-1, vol_busy) :=
  ⟨by decide!, fs_write_busy vol_busy 0 [1, 2, 3] 3 (by decide!) (by decide!)⟩

/-! ## Two descriptors on one file -/

theorem fs_open_ret (s : FsState) (name : List Nat)
    (hflen : s.filedes.length = FS_OPEN_MAX_COUNT) (h : 0 ≤ (fs_open s name).1) :
    ∃ (k : Nat) (e : FileDescriptor), (fs_open s name).1 = (k : Int) ∧ k < 32 ∧
      s.filedes.getD k none = none ∧ (fs_open s name).2.filedes = s.filedes.set k (some e) := by
  unfold fs_open at h ⊢
  by_cases h1 : s.fd_cnt ≥ (FS_OPEN_MAX_COUNT : Int) ∨ name.length ≥ FS_FILENAME_LEN
  · rw [if_pos h1] at h
    exact absurd h (by show ¬ ((0 : Int) ≤ -1); decide)
  rw [if_neg h1] at h ⊢
  by_cases h2 : get_directory_entry s name < 0
  · simp only [if_pos h2] at h
    exact absurd h (by show ¬ ((0 : Int) ≤ -1); decide)
  simp only [if_neg h2] at h ⊢
  by_cases h3 : get_valid_fd s < 0
  · simp only [if_pos h3] at h
    exact absurd h (by show ¬ ((0 : Int) ≤ -1); decide)
  simp only [if_neg h3] at h ⊢
  have hfd : 0 ≤ scan_fd s.filedes FS_OPEN_MAX_COUNT 0 := by
    unfold get_valid_fd at h3
    rw [if_neg (fun hc => h1 (Or.inl hc))] at h3
    omega
  have hfdeq : get_valid_fd s = scan_fd s.filedes FS_OPEN_MAX_COUNT 0 := by
    unfold get_valid_fd
    rw [if_neg (fun hc => h1 (Or.inl hc))]
  obtain ⟨k, hk, _, hk32, hknone, _⟩ := scan_fd_spec s.filedes _ 0 hfd
  rw [hfdeq, hk] at h ⊢
  have hkl : k < s.filedes.length := by rw [hflen]; simpa using hk32
  by_cases h4 : (fs_lseek (set_fd s (k : Int)
      (some ⟨(get_directory_entry s name).toNat, 0⟩)) (k : Int) 0).1 < 0
  · simp only [if_pos h4] at h
    exact absurd h (by show ¬ ((0 : Int) ≤ -1); decide)
  simp only [if_neg h4]
  have hslot : (set_fd s (k : Int) (some ⟨(get_directory_entry s name).toNat, 0⟩)).filedes.getD
      k none = some ⟨(get_directory_entry s name).toNat, 0⟩ := by
    show (s.filedes.set (k : Int).toNat _).getD k none = _
    rw [Int.toNat_ofNat]
    exact getD_set_self _ _ _ _ hkl
  have hv := is_valid_fd_of_some (s := set_fd s (k : Int)
    (some ⟨(get_directory_entry s name).toNat, 0⟩)) (by simpa using hk32) hslot
  refine ⟨k, ⟨(get_directory_entry s name).toNat, 0⟩, rfl, by simpa using hk32, hknone, ?_⟩
  rw [fs_lseek_of_le hv (Nat.zero_le _)]
  show (s.filedes.set (k : Int).toNat _).set (k : Int).toNat _ = _
  rw [Int.toNat_ofNat, List.set_set]
  have hg : fd_get (set_fd s (k : Int) (some ⟨(get_directory_entry s name).toNat, 0⟩)) (k : Int)
      = ⟨(get_directory_entry s name).toNat, 0⟩ :=
    fd_get_set_self _ (by rw [Int.toNat_ofNat]; exact hkl)
  rw [hg]

theorem fd_slot_set_fd_ne (s : FsState) (fd1 fd2 : Int) (d : Option FileDescriptor)
    (h1 : 0 ≤ fd1) (h2 : 0 ≤ fd2) (hne : fd1 ≠ fd2) :
    fd_slot (set_fd s fd1 d) fd2 = fd_slot s fd2 := by
  unfold fd_slot set_fd
  exact getD_set_ne _ _ _ _ _ (by omega)

theorem fs_lseek_frame (s : FsState) (fd1 fd2 : Int) (o : Nat) (h2 : 0 ≤ fd2)
    (hne : fd1 ≠ fd2) :
    fd_slot (fs_lseek s fd1 o).2 fd2 = fd_slot s fd2 ∧
    (fs_lseek s fd1 o).2.root_dir = s.root_dir ∧ (fs_lseek s fd1 o).2.fat = s.fat ∧
    (fs_lseek s fd1 o).2.disk = s.disk ∧ (fs_lseek s fd1 o).2.sp = s.sp := by
  unfold fs_lseek
  by_cases hv : is_valid_fd s fd1 = false
  · rw [if_pos hv]
    exact ⟨rfl, rfl, rfl, rfl, rfl⟩
  · rw [if_neg hv]
    have h1 : 0 ≤ fd1 := (fd_slot_of_valid (by simpa using hv)).1
    split_ifs
    · exact ⟨rfl, rfl, rfl, rfl, rfl⟩
    · exact ⟨fd_slot_set_fd_ne s fd1 fd2 _ h1 h2 hne, rfl, rfl, rfl, rfl⟩

/-- The body of `fs_read` on a valid descriptor, with `rc` for the value of `real_count`. -/
theorem fs_read_unfold (s : FsState) (fd : Int) (buf : List Nat) (count : Nat) (rc : Int)
    (hv : is_valid_fd s fd = true)
    (hrc : toInt32 (clamp (size_sub (get_dir s (fd_get s fd).file_entry).file_sz
      (fd_get s fd).offset) count) = rc) :
    fs_read s fd buf count =
      if rc = 0 then .ok (0, buf, s)
      else
        match get_offset_blk s fd (fd_get s fd).offset with
        | .error e => .error e
        | .ok read_blk =>
          if read_blk = 0 then .ok (-1, buf, s)
          else
            match block_read s.disk (read_blk + s.sp.data_blk) with
            | none => .ok (-1, buf, s)
            | some bounce =>
              if rc < 0 then .error .fault
              else
                match get_fat s read_blk with
                | none => .error .fault
                | some p =>
                  match fs_read_loop s (rc - BLOCK_SIZE).toNat (rc - BLOCK_SIZE)
                      (fat_at s p) (memcpy buf 0 bounce (clampInt rc BLOCK_SIZE).toNat)
                      (clampInt rc BLOCK_SIZE).toNat with
                  | .error e => .error e
                  | .ok (false, buf1) => .ok (-1, buf1, s)
                  | .ok (true, buf1) =>
                    if (fs_lseek s fd (rc.toNat + (fd_get s fd).offset)).1 < 0 then
                      .ok (-1, buf1, s)
                    else .ok (rc, buf1, (fs_lseek s fd (rc.toNat + (fd_get s fd).offset)).2) := by
  subst hrc
  unfold fs_read
  rw [if_neg (by rw [hv]; decide)]

theorem fs_read_body_state (s : FsState) (fd : Int) (buf : List Nat) (rc r : Int)
    (out : List Nat) (s' : FsState) (h : (
      if rc = 0 then .ok (0, buf, s)
      else
        match get_offset_blk s fd (fd_get s fd).offset with
        | .error e => .error e
        | .ok read_blk =>
          if read_blk = 0 then .ok (-1, buf, s)
          else
            match block_read s.disk (read_blk + s.sp.data_blk) with
            | none => .ok (-1, buf, s)
            | some bounce =>
              if rc < 0 then .error .fault
              else
                match get_fat s read_blk with
                | none => .error .fault
                | some p =>
                  match fs_read_loop s (rc - BLOCK_SIZE).toNat (rc - BLOCK_SIZE)
                      (fat_at s p) (memcpy buf 0 bounce (clampInt rc BLOCK_SIZE).toNat)
                      (clampInt rc BLOCK_SIZE).toNat with
                  | .error e => .error e
                  | .ok (false, buf1) => .ok (-1, buf1, s)
                  | .ok (true, buf1) =>
                    if (fs_lseek s fd (rc.toNat + (fd_get s fd).offset)).1 < 0 then
                      .ok (-1, buf1, s)
                    else .ok (rc, buf1, (fs_lseek s fd (rc.toNat + (fd_get s fd).offset)).2))
        = (.ok (r, out, s') : Except Err (Int × List Nat × FsState))) :
    s' = s ∨ ∃ o, s' = (fs_lseek s fd o).2 := by
  by_cases h0 : rc = 0
  · rw [if_pos h0] at h
    cases h
    exact Or.inl rfl
  rw [if_neg h0] at h
  cases hgo : get_offset_blk s fd (fd_get s fd).offset with
  | error e => rw [hgo] at h; exact absurd h (by simp)
  | ok read_blk =>
    rw [hgo] at h
    simp only [] at h
    by_cases hb0 : read_blk = 0
    · rw [if_pos hb0] at h
      cases h
      exact Or.inl rfl
    rw [if_neg hb0] at h
    cases hrd : block_read s.disk (read_blk + s.sp.data_blk) with
    | none =>
      rw [hrd] at h
      cases h
      exact Or.inl rfl
    | some bounce =>
      rw [hrd] at h
      simp only [] at h
      by_cases hneg : rc < 0
      · rw [if_pos hneg] at h
        exact absurd h (by simp)
      rw [if_neg hneg] at h
      cases hgf : get_fat s read_blk with
      | none => rw [hgf] at h; exact absurd h (by simp)
      | some p =>
        rw [hgf] at h
        simp only [] at h
        cases hlp : fs_read_loop s (rc - ↑BLOCK_SIZE).toNat (rc - ↑BLOCK_SIZE) (fat_at s p)
          (memcpy buf 0 bounce (clampInt rc ↑BLOCK_SIZE).toNat) (clampInt rc ↑BLOCK_SIZE).toNat with
        | error e => rw [hlp] at h; exact absurd h (by simp)
        | ok v =>
          rw [hlp] at h
          obtain ⟨b, buf1⟩ := v
          cases b with
          | false =>
            cases h
            exact Or.inl rfl
          | true =>
            by_cases hs : (fs_lseek s fd (rc.toNat + (fd_get s fd).offset)).1 < 0
            · simp only [if_pos hs] at h
              cases h
              exact Or.inl rfl
            · simp only [if_neg hs] at h
              cases h
              exact Or.inr ⟨_, rfl⟩

theorem fs_read_state (s : FsState) (fd : Int) (buf : List Nat) (count : Nat) (r : Int)
    (out : List Nat) (s' : FsState) (h : fs_read s fd buf count = .ok (r, out, s')) :
    s' = s ∨ ∃ o, s' = (fs_lseek s fd o).2 := by
  by_cases hv : is_valid_fd s fd = false
  · unfold fs_read at h
    rw [if_pos hv] at h
    cases h
    exact Or.inl rfl
  · rw [fs_read_unfold s fd buf count _ (by simpa using hv) rfl] at h
    exact fs_read_body_state s fd buf _ r out s' h

theorem get_fat_congr {s t : FsState} (hm : t.mounted = s.mounted) (hsp : t.sp = s.sp)
    (x : Nat) : get_fat t x = get_fat s x := by
  unfold get_fat
  rw [hm, hsp]

theorem fat_at_congr {s t : FsState} (hfat : t.fat = s.fat) (x : Nat) :
    fat_at t x = fat_at s x := by
  unfold fat_at
  rw [hfat]

theorem walk_fat_congr {s t : FsState} (hm : t.mounted = s.mounted) (hsp : t.sp = s.sp)
    (hfat : t.fat = s.fat) : ∀ n b, walk_fat t n b = walk_fat s n b := by
  intro n
  induction n with
  | zero => intro b; rfl
  | succ n ih =>
    intro b
    rw [walk_fat, walk_fat, get_fat_congr hm hsp]
    cases get_fat s b with
    | none => rfl
    | some p =>
      simp only []
      rw [fat_at_congr hfat, ih]

theorem fs_read_loop_congr {s t : FsState} (hm : t.mounted = s.mounted) (hsp : t.sp = s.sp)
    (hfat : t.fat = s.fat) (hdisk : t.disk = s.disk) :
    ∀ fuel rct blk buf idx,
      fs_read_loop t fuel rct blk buf idx = fs_read_loop s fuel rct blk buf idx := by
  intro fuel
  induction fuel with
  | zero => intro rct blk buf idx; rfl
  | succ n ih =>
    intro rct blk buf idx
    rw [fs_read_loop, fs_read_loop, hdisk, hsp, get_fat_congr hm hsp]
    by_cases hc : rct > 0 ∧ blk ≠ FAT_EOC
    · rw [if_pos hc, if_pos hc]
      cases block_read s.disk (blk + s.sp.data_blk) with
      | none => rfl
      | some b0 =>
        simp only []
        cases get_fat s blk with
        | none => rfl
        | some p =>
          simp only []
          rw [fat_at_congr hfat]
          split_ifs
          · exact ih _ _ _ _
          · exact ih _ _ _ _
    · rw [if_neg hc, if_neg hc]

/-- What `fs_read` returns and stores depends on the descriptor, the size and the first block
of its file, the superblock, the FAT and the device only. -/
theorem fs_read_congr (s t : FsState) (fd : Int) (buf : List Nat) (count : Nat)
    (hm : t.mounted = s.mounted) (hsp : t.sp = s.sp) (hfat : t.fat = s.fat)
    (hdisk : t.disk = s.disk) (hslot : fd_slot t fd = fd_slot s fd)
    (hsz : (get_dir t (fd_get s fd).file_entry).file_sz
      = (get_dir s (fd_get s fd).file_entry).file_sz)
    (hfirst : (get_dir t (fd_get s fd).file_entry).first_data_blk
      = (get_dir s (fd_get s fd).file_entry).first_data_blk) :
    (fs_read t fd buf count).map (fun r => (r.1, r.2.1))
      = (fs_read s fd buf count).map (fun r => (r.1, r.2.1)) := by
  have hvalid : is_valid_fd t fd = is_valid_fd s fd := by
    unfold is_valid_fd
    rw [hslot]
  have hget : fd_get t fd = fd_get s fd := by
    unfold fd_get
    rw [hslot]
  by_cases hv : is_valid_fd s fd = false
  · unfold fs_read
    rw [hvalid, if_pos hv, if_pos hv]
    rfl
  have hv' : is_valid_fd s fd = true := by simpa using hv
  have hgo : ∀ o, get_offset_blk t fd o = get_offset_blk s fd o := by
    intro o
    unfold get_offset_blk
    rw [hvalid, hget, hsz, hfirst, walk_fat_congr hm hsp hfat]
  have hseek : ∀ o, (fs_lseek t fd o).1 = (fs_lseek s fd o).1 := by
    intro o
    unfold fs_lseek
    rw [hvalid, hget, hsz]
    split_ifs <;> rfl
  obtain ⟨rc, hrc⟩ : ∃ rc, toInt32 (clamp (size_sub (get_dir s (fd_get s fd).file_entry).file_sz
      (fd_get s fd).offset) count) = rc := ⟨_, rfl⟩
  rw [fs_read_unfold t fd buf count rc (by rw [hvalid]; exact hv') (by rw [hget, hsz]; exact hrc),
    fs_read_unfold s fd buf count rc hv' hrc]
  rw [hget, hgo, hdisk, hsp, hseek]
  by_cases h0 : rc = 0
  · rw [if_pos h0, if_pos h0]
    rfl
  rw [if_neg h0, if_neg h0]
  cases get_offset_blk s fd (fd_get s fd).offset with
  | error e => rfl
  | ok read_blk =>
    simp only []
    by_cases hb0 : read_blk = 0
    · rw [if_pos hb0, if_pos hb0]
      rfl
    rw [if_neg hb0, if_neg hb0]
    cases block_read s.disk (read_blk + s.sp.data_blk) with
    | none => rfl
    | some bounce =>
      simp only []
      by_cases hneg : rc < 0
      · rw [if_pos hneg, if_pos hneg]
      rw [if_neg hneg, if_neg hneg, get_fat_congr hm hsp]
      cases get_fat s read_blk with
      | none => rfl
      | some p =>
        simp only []
        rw [fat_at_congr hfat, fs_read_loop_congr hm hsp hfat hdisk]
        cases fs_read_loop s (rc - ↑BLOCK_SIZE).toNat (rc - ↑BLOCK_SIZE) (fat_at s p)
          (memcpy buf 0 bounce (clampInt rc ↑BLOCK_SIZE).toNat) (clampInt rc ↑BLOCK_SIZE).toNat with
        | error e => rfl
        | ok v =>
          obtain ⟨b, buf1⟩ := v
          cases b with
          | false => rfl
          | true =>
            simp only []
            split_ifs <;> rfl

theorem fs_close_fields (s : FsState) (fd : Int) (j : Nat) :
    (get_dir (fs_close s fd).2 j).filename = (get_dir s j).filename ∧
    (get_dir (fs_close s fd).2 j).file_sz = (get_dir s j).file_sz ∧
    (get_dir (fs_close s fd).2 j).first_data_blk = (get_dir s j).first_data_blk ∧
    (get_dir (fs_close s fd).2 j).last_data_blk = (get_dir s j).last_data_blk := by
  by_cases hv : is_valid_fd s fd = true
  · rw [fs_close_at s fd hv]
    exact ⟨getD_set_field RootDirEntry.filename _ _ _ _ _ rfl,
      getD_set_field RootDirEntry.file_sz _ _ _ _ _ rfl,
      getD_set_field RootDirEntry.first_data_blk _ _ _ _ _ rfl,
      getD_set_field RootDirEntry.last_data_blk _ _ _ _ _ rfl⟩
  · unfold fs_close
    rw [if_pos (by simpa using hv)]
    exact ⟨rfl, rfl, rfl, rfl⟩

theorem fs_close_frame (s : FsState) (fd : Int) :
    (fs_close s fd).2.mounted = s.mounted ∧ (fs_close s fd).2.sp = s.sp ∧
    (fs_close s fd).2.fat = s.fat ∧ (fs_close s fd).2.disk = s.disk ∧
    (fs_close s fd).2.root_dir.length = s.root_dir.length ∧
    (fs_close s fd).2.filedes.length = s.filedes.length := by
  by_cases hv : is_valid_fd s fd = true
  · rw [fs_close_at s fd hv]
    exact ⟨rfl, rfl, rfl, rfl, List.length_set _ _ _, List.length_set _ _ _⟩
  · unfold fs_close
    rw [if_pos (by simpa using hv)]
    exact ⟨rfl, rfl, rfl, rfl, rfl, rfl⟩

theorem fs_close_slot_ne (s : FsState) (fd1 fd2 : Int) (h2 : 0 ≤ fd2) (hne : fd1 ≠ fd2) :
    fd_slot (fs_close s fd1).2 fd2 = fd_slot s fd2 := by
  by_cases hv : is_valid_fd s fd1 = true
  · have h1 : 0 ≤ fd1 := (fd_slot_of_valid hv).1
    rw [fs_close_at s fd1 hv]
    exact getD_set_ne _ _ _ _ _ (by omega)
  · unfold fs_close
    rw [if_pos (by simpa using hv)]

/-- C17. Independent cursors.  Two calls of `fs_open` on the same name that both succeed return
different descriptors.  For two different descriptors `fd1`, `fd2` with `fd2` open: `fs_lseek`
on `fd1` leaves slot `fd2` (entry and cursor) as it is, and so does every `fs_read` on `fd1`
that returns; `fs_close(fd1)` leaves `fd2` valid with the same entry and cursor, leaves name,
size and block indices of every directory entry, the superblock, the FAT and the device
unchanged, and every `fs_read` through `fd2` after the close has the same outcome (value
returned and bytes stored) as the same call before the close. -/
theorem independent_cursors (t : FsState) (name : List Nat) (s : FsState) (fd1 fd2 : Int)
    (hflen : t.filedes.length = FS_OPEN_MAX_COUNT) (hne : fd1 ≠ fd2)
    (hv2 : is_valid_fd s fd2 = true) :
    (0 ≤ (fs_open t name).1 → 0 ≤ (fs_open (fs_open t name).2 name).1 →
      (fs_open t name).1 ≠ (fs_open (fs_open t name).2 name).1) ∧
    (∀ o, fd_slot (fs_lseek s fd1 o).2 fd2 = fd_slot s fd2) ∧
    (∀ buf count r out s', fs_read s fd1 buf count = .ok (r, out, s') →
      fd_slot s' fd2 = fd_slot s fd2) ∧
    (is_valid_fd s fd1 = true →
      (fs_close s fd1).1 = 0 ∧
      is_valid_fd (fs_close s fd1).2 fd2 = true ∧
      fd_get (fs_close s fd1).2 fd2 = fd_get s fd2 ∧
      (∀ j, (get_dir (fs_close s fd1).2 j).filename = (get_dir s j).filename ∧
        (get_dir (fs_close s fd1).2 j).file_sz = (get_dir s j).file_sz ∧
        (get_dir (fs_close s fd1).2 j).first_data_blk = (get_dir s j).first_data_blk ∧
        (get_dir (fs_close s fd1).2 j).last_data_blk = (get_dir s j).last_data_blk) ∧
      (fs_close s fd1).2.sp = s.sp ∧ (fs_close s fd1).2.fat = s.fat ∧
      (fs_close s fd1).2.disk = s.disk ∧
      ∀ buf count,
        (fs_read (fs_close s fd1).2 fd2 buf count).map (fun r => (r.1, r.2.1))
          = (fs_read s fd2 buf count).map (fun r => (r.1, r.2.1))) := by
  have h02 : 0 ≤ fd2 := (fd_slot_of_valid hv2).1
  refine ⟨?_, ?_, ?_, ?_⟩
  · intro h1 h2
    obtain ⟨k1, e1, hk1, hk1lt, _, hf1⟩ := fs_open_ret t name hflen h1
    have hflen1 : (fs_open t name).2.filedes.length = FS_OPEN_MAX_COUNT := by
      rw [hf1, List.length_set]
      exact hflen
    obtain ⟨k2, e2, hk2, _, hnone2, _⟩ := fs_open_ret (fs_open t name).2 name hflen1 h2
    rw [hk1, hk2]
    intro heq
    have hkk : k1 = k2 := by omega
    rw [hf1, ← hkk, getD_set_self _ _ _ _ (by rw [hflen]; exact hk1lt)] at hnone2
    exact absurd hnone2 (by simp)
  · intro o
    exact (fs_lseek_frame s fd1 fd2 o h02 hne).1
  · intro buf count r out s' h
    rcases fs_read_state s fd1 buf count r out s' h with hs | ⟨o, hs⟩
    · rw [hs]
    · rw [hs]
      exact (fs_lseek_frame s fd1 fd2 o h02 hne).1
  · intro hv1
    have hslot := fs_close_slot_ne s fd1 fd2 h02 hne
    have hfields := fs_close_fields s fd1
    have hst := fs_close_frame s fd1
    refine ⟨by rw [fs_close_at s fd1 hv1], ?_, ?_, hfields, hst.2.1, hst.2.2.1, hst.2.2.2.1, ?_⟩
    · unfold is_valid_fd
      rw [hslot]
      exact hv2
    · unfold fd_get
      rw [hslot]
    · intro buf count
      exact fs_read_congr s (fs_close s fd1).2 fd2 buf count hst.1 hst.2.1 hst.2.2.1 hst.2.2.2.1
        hslot (hfields _).2.1 (hfields _).2.2.1

set_option maxRecDepth 100000 in
/-- C17, at a concrete input: on the volume with the 100-byte file, `fs_open("a")` gives
descriptor 0 and a second `fs_open("a")` gives descriptor 1; a seek of descriptor 0 to 50
leaves descriptor 1 at cursor 0; after `fs_close(0)` descriptor 1 is valid, and reading 4 bytes
through it gives what it gave before the close. -/
theorem independent_cursors_witness :
    (fs_open dir_a name_a).1 ≠ (fs_open (fs_open dir_a name_a).2 name_a).1 ∧
    fd_slot (fs_lseek vol_two_fd 0 50).2 1 = some { file_entry := 0, offset := 0 } ∧
    is_valid_fd (fs_close vol_two_fd 0).2 1 = true ∧
    (fs_read (fs_close vol_two_fd 0).2 1 [0, 0, 0, 0] 4).map (fun r => (r.1, r.2.1))
      = .ok (4, [0, 1, 2, 3]) :=
  have h := independent_cursors dir_a name_a vol_two_fd 0 1 (by decide!) (by decide)
    (by decide!)
  have hc := h.2.2.2 (by decide!)
  ⟨h.1 (by decide!) (by decide!),
   (h.2.1 50).trans (by decide!),
   hc.2.1,
   (hc.2.2.2.2.2.2.2 [0, 0, 0, 0] 4).trans (by decide!)⟩

/-! ## Deleting a file -/

theorem isChain_congr (s t : FsState) (hdbc : t.sp.data_blk_count = s.sp.data_blk_count) :
    ∀ (l : List Nat) (b : Nat), (∀ x ∈ l, fat_at t x = fat_at s x) →
      IsChain s b l → IsChain t b l := by
  intro l
  induction l with
  | nil => intro b _ h; exact h
  | cons x r ih =>
    intro b hf h
    rw [isChain_cons] at h ⊢
    obtain ⟨h1, h2, h3, h4, h5⟩ := h
    refine ⟨h1, h2, by rw [hdbc]; exact h3, h4, ?_⟩
    rw [hf x (List.mem_cons_self _ _)]
    exact ih _ (fun y hy => hf y (List.mem_cons_of_mem _ hy)) h5

/-- The walk of `erase_fat` along a chain: it ends, the slots of the chain hold 0 afterwards,
the other slots are untouched, and the counter went down once per slot (in 16 bits). -/
theorem erase_fat_loop_chain (s : FsState) (hm : s.mounted = true) :
    ∀ (l : List Nat) (x fuel : Nat) (fat : List Nat) (used : Nat),
      IsChain { s with fat := fat } x (x :: l) → l.length + 1 ≤ fuel →
      s.sp.data_blk_count ≤ fat.length →
      ∃ fat', erase_fat_loop s fuel fat used x
          = .ok (fat', (used + (l.length + 1) * 65535) % 65536) ∧
        fat'.length = fat.length ∧ (∀ j, j ∈ x :: l → fat'.getD j 0 = 0) ∧
        (∀ j, j ∉ x :: l → fat'.getD j 0 = fat.getD j 0) := by
  intro l
  induction l with
  | nil =>
    intro x fuel fat used hc hfuel hlen
    obtain ⟨f, hf⟩ : ∃ f, fuel = f + 1 := ⟨fuel - 1, by simp at hfuel; omega⟩
    rw [isChain_cons] at hc
    obtain ⟨_, _, hx, _, hend⟩ := hc
    have hend' : fat.getD x 0 = 0xFFFF := hend
    have hx' : x < fat.length := by
      have : x < s.sp.data_blk_count := hx
      omega
    refine ⟨fat.set x 0, ?_, List.length_set _ _ _, ?_, ?_⟩
    · rw [hf, erase_fat_loop, if_neg (by rw [hend']; simp)]
      simp only [List.length_nil, Nat.zero_add, Nat.one_mul, u16]
    · intro j hj
      simp only [List.mem_singleton] at hj
      subst hj
      exact getD_set_self _ _ _ _ hx'
    · intro j hj
      simp only [List.mem_singleton] at hj
      exact getD_set_ne _ _ _ _ _ (Ne.symm hj)
  | cons y r ih =>
    intro x fuel fat used hc hfuel hlen
    obtain ⟨f, hf⟩ : ∃ f, fuel = f + 1 := ⟨fuel - 1, by simp at hfuel; omega⟩
    have hnd := isChain_nodup _ _ _ hc
    rw [isChain_cons] at hc
    obtain ⟨_, _, hx, hxne, hrest⟩ := hc
    have hx' : x < fat.length := by
      have : x < s.sp.data_blk_count := hx
      omega
    have hrest' := hrest
    rw [isChain_cons] at hrest'
    obtain ⟨hxy, hy1, hy, hyne, htail⟩ := hrest'
    have hxy' : fat.getD x 0 = y := hxy
    have hy' : y < s.sp.data_blk_count := hy
    have hxnotin : x ∉ y :: r := (List.nodup_cons.mp hnd).1
    have hchain' : IsChain { s with fat := fat.set x 0 } y (y :: r) := by
      have hyy : IsChain { s with fat := fat } y (y :: r) :=
        (isChain_cons _ y y r).mpr ⟨rfl, hy1, hy, hyne, htail⟩
      apply isChain_congr { s with fat := fat } { s with fat := fat.set x 0 } rfl _ _ _ hyy
      intro z hz
      show (fat.set x 0).getD z 0 = fat.getD z 0
      exact getD_set_ne _ _ _ _ _ (fun h => hxnotin (h ▸ hz))
    obtain ⟨fat', hrun, hlen', hzero, hkeep⟩ :=
      ih y f (fat.set x 0) (u16 (used + 65535)) hchain'
        (by simp only [List.length_cons] at hfuel; omega)
        (by rw [List.length_set]; exact hlen)
    refine ⟨fat', ?_, by rw [hlen', List.length_set], ?_, ?_⟩
    · rw [hf, erase_fat_loop, if_pos (by rw [hxy']; exact hyne), hxy',
        get_fat_of_chain hm hy' hyne]
      simp only []
      rw [hrun]
      have harith : (u16 (used + 65535) + (r.length + 1) * 65535) % 65536
          = (used + ((y :: r).length + 1) * 65535) % 65536 := by
        unfold u16
        rw [List.length_cons]
        omega
      rw [harith]
    · intro j hj
      rcases List.mem_cons.mp hj with hjx | hjr
      · subst hjx
        rw [hkeep j hxnotin]
        exact getD_set_self _ _ _ _ hx'
      · exact hzero j hjr
    · intro j hj
      have hjx : j ≠ x := fun h => hj (h ▸ List.mem_cons_self _ _)
      have hjr : j ∉ y :: r := fun h => hj (List.mem_cons_of_mem _ h)
      rw [hkeep j hjr]
      exact getD_set_ne _ _ _ _ _ (Ne.symm hjx)

theorem write_meta_fat_used (s : FsState) (r : Int) (s' : FsState)
    (h : write_meta s = .ok (r, s')) :
    s'.sp.fat_used =
      if s.sp.fat_used ≥ s.sp.data_blk_count then s.sp.data_blk_count else s.sp.fat_used := by
  unfold write_meta at h
  by_cases hm : s.mounted = false
  · rw [if_pos hm] at h
    exact absurd h (by simp)
  rw [if_neg hm] at h
  by_cases hclip : s.sp.fat_used ≥ s.sp.data_blk_count
  · rw [if_pos hclip]
    simp only [if_pos hclip] at h
    cases h1 : block_write s.disk 0 (sp_bytes { s.sp with fat_used := s.sp.data_blk_count }) with
    | none =>
      rw [h1] at h
      cases h
      rfl
    | some d1 =>
      rw [h1] at h
      simp only [] at h
      cases h2 : block_write d1 s.sp.rdir_blk (rdir_bytes s.root_dir) with
      | none =>
        rw [h2] at h
        cases h
        rfl
      | some d2 =>
        rw [h2] at h
        cases h
        rfl
  · rw [if_neg hclip]
    simp only [if_neg hclip] at h
    cases h1 : block_write s.disk 0 (sp_bytes s.sp) with
    | none =>
      rw [h1] at h
      cases h
      rfl
    | some d1 =>
      rw [h1] at h
      simp only [] at h
      cases h2 : block_write d1 s.sp.rdir_blk (rdir_bytes s.root_dir) with
      | none =>
        rw [h2] at h
        cases h
        rfl
      | some d2 =>
        rw [h2] at h
        cases h
        rfl

/-- What `fs_delete` does to a closed file: `i` is the first entry named `name`, `l` is the
chain of the file (empty when the file has no block). -/
theorem fs_delete_at (s : FsState) (name : List Nat) (i : Nat) (l : List Nat)
    (hm : s.mounted = true) (hi : i < FS_FILE_MAX_COUNT)
    (hfile : (get_dir s i).filename = name)
    (hfirst : ∀ j, j < i → (get_dir s j).filename ≠ name)
    (hclosed : (get_dir s i).open_ = 0)
    (hchain : IsChain s (get_dir s i).first_data_blk l)
    (hfat : s.sp.data_blk_count ≤ s.fat.length) :
    ∃ s', fs_delete s name = .ok (0, s') ∧ s'.mounted = true ∧
      s'.root_dir = s.root_dir.set i zero_entry ∧
      s'.fat.length = s.fat.length ∧ (∀ j, j ∈ l → s'.fat.getD j 0 = 0) ∧
      (∀ j, j ∉ l → s'.fat.getD j 0 = s.fat.getD j 0) ∧
      s'.filedes = s.filedes ∧ s'.fd_cnt = s.fd_cnt ∧
      s'.sp.data_blk_count = s.sp.data_blk_count ∧
      s'.sp.rdir_used = u16 (s.sp.rdir_used + 65535) ∧
      (l = [] → s'.sp.fat_used =
        if s.sp.fat_used ≥ s.sp.data_blk_count then s.sp.data_blk_count else s.sp.fat_used) ∧
      (l ≠ [] → s'.sp.fat_used =
        if (s.sp.fat_used + l.length * 65535) % 65536 ≥ s.sp.data_blk_count
        then s.sp.data_blk_count else (s.sp.fat_used + l.length * 65535) % 65536) := by
  have hentry : get_directory_entry s name = (i : Int) := by
    rw [get_directory_entry, if_neg (by simp [hm])]
    exact scan_entry_found s name i hfile _ 0 (Nat.zero_le _) (by omega)
      (fun j _ hj => hfirst j hj)
  -- the walk over the chain
  have herase : ∃ s1, (if (get_dir s i).first_data_blk ≠ FAT_EOC then
        erase_fat (s.fat.length + 2) s (get_fat s (get_dir s i).first_data_blk)
      else .ok (0, s)) = .ok ((0 : Int), s1) ∧ s1.mounted = true ∧ s1.root_dir = s.root_dir ∧
      s1.fat.length = s.fat.length ∧ (∀ j, j ∈ l → s1.fat.getD j 0 = 0) ∧
      (∀ j, j ∉ l → s1.fat.getD j 0 = s.fat.getD j 0) ∧
      s1.filedes = s.filedes ∧ s1.fd_cnt = s.fd_cnt ∧ s1.disk = s.disk ∧
      s1.sp.data_blk_count = s.sp.data_blk_count ∧ s1.sp.rdir_used = s.sp.rdir_used ∧
      (l = [] → s1.sp.fat_used = s.sp.fat_used) ∧
      (l ≠ [] → s1.sp.fat_used = (s.sp.fat_used + l.length * 65535) % 65536) := by
    cases l with
    | nil =>
      have he : (get_dir s i).first_data_blk = FAT_EOC := hchain
      rw [if_neg (by rw [he]; simp)]
      exact ⟨s, rfl, hm, rfl, rfl, fun _ hj => absurd hj (List.not_mem_nil _), fun _ _ => rfl,
        rfl, rfl, rfl, rfl, rfl, fun _ => rfl, fun h => absurd rfl h⟩
    | cons x r =>
      have hlen := isChain_length_le s _ _ hchain
      have hc := hchain
      rw [isChain_cons] at hc
      obtain ⟨hbx, hx1, hxlt, hxne, htail⟩ := hc
      have hchain' : IsChain { s with fat := s.fat } x (x :: r) :=
        (isChain_cons s x x r).mpr ⟨rfl, hx1, hxlt, hxne, htail⟩
      obtain ⟨fat', hrun, hlen', hzero, hkeep⟩ :=
        erase_fat_loop_chain s hm r x (s.fat.length + 2) s.fat s.sp.fat_used hchain'
          (by simp only [List.length_cons] at hlen; omega) hfat
      rw [hbx, if_pos hxne, get_fat_of_chain hm hxlt hxne]
      unfold erase_fat
      rw [if_neg (by simp [hm])]
      simp only []
      rw [hrun]
      exact ⟨_, rfl, hm, rfl, hlen', hzero, hkeep, rfl, rfl, rfl, rfl, rfl,
        fun h => absurd h (List.cons_ne_nil _ _), fun _ => rfl⟩
  obtain ⟨s1, he, hm1, hrd1, hfl1, hz1, hk1, hfd1, hcnt1, _, hdbc1, hru1, hu1, hu1'⟩ := herase
  obtain ⟨rM, sM, hwm, hmM, hrdM, hfatM, hfdM, hcntM, _, hdbcM, _, _, hruM, _, _⟩ :=
    write_meta_frame
      { set_dir s1 i zero_entry with
        sp := { (set_dir s1 i zero_entry).sp with
                rdir_used := u16 ((set_dir s1 i zero_entry).sp.rdir_used + 65535) } } hm1
  have hfu := write_meta_fat_used _ _ _ hwm
  have hfu' : sM.sp.fat_used =
      if s1.sp.fat_used ≥ s1.sp.data_blk_count then s1.sp.data_blk_count else s1.sp.fat_used :=
    hfu
  refine ⟨sM, ?_, hmM, ?_, ?_, ?_, ?_, ?_, ?_, ?_, ?_, ?_, ?_⟩
  · unfold fs_delete
    simp only [hentry, Int.toNat_ofNat]
    rw [if_neg (by omega), if_neg (by rw [hclosed]; decide), he]
    simp only []
    rw [hwm]
  · rw [hrdM]
    show s1.root_dir.set i zero_entry = _
    rw [hrd1]
  · rw [hfatM]; exact hfl1
  · intro j hj; rw [hfatM]; exact hz1 j hj
  · intro j hj; rw [hfatM]; exact hk1 j hj
  · rw [hfdM]; exact hfd1
  · rw [hcntM]; exact hcnt1
  · rw [hdbcM]; exact hdbc1
  · rw [hruM]
    show u16 (s1.sp.rdir_used + 65535) = _
    rw [hru1]
  · intro hl
    rw [hfu', hu1 hl, hdbc1]
  · intro hl
    rw [hfu', hu1' hl, hdbc1]

theorem scan_fat_found (fat : List Nat) (k : Nat) (hk : fat.getD k 0 = 0) :
    ∀ n i, i ≤ k → k < i + n → (∀ j, i ≤ j → j < k → fat.getD j 0 ≠ 0) →
      scan_fat fat n i = (k : Int) := by
  intro n
  induction n with
  | zero => intro i h1 h2; omega
  | succ n ih =>
    intro i h1 h2 h
    rw [scan_fat]
    by_cases hik : i = k
    · subst hik
      rw [if_pos hk]
    · rw [if_neg (h i (Nat.le_refl _) (by omega))]
      exact ih (i + 1) (by omega) (by omega) (fun j h3 h4 => h j (by omega) h4)

theorem close_all_cons (s : FsState) (fd : Int) (fds : List Int) :
    close_all s (fd :: fds) = close_all (fs_close s fd).2 fds := rfl

/-- Closing every descriptor of a file: when the descriptors `fds` are distinct, open, all on
entry `i`, and the open count of the entry is their number, the closes leave the entry with
open count 0 and leave its name, its first block, the names before it, the FAT and the
superblock as they were. -/
theorem close_all_closed (name : List Nat) (i : Nat) (l : List Nat) :
    ∀ (fds : List Int) (s : FsState), s.mounted = true →
      s.root_dir.length = FS_FILE_MAX_COUNT → s.sp.data_blk_count ≤ s.fat.length →
      i < FS_FILE_MAX_COUNT → (get_dir s i).filename = name →
      (∀ j, j < i → (get_dir s j).filename ≠ name) →
      fds.Nodup → (∀ fd, fd ∈ fds → is_valid_fd s fd = true ∧ (fd_get s fd).file_entry = i) →
      (get_dir s i).open_ = fds.length → fds.length ≤ 255 →
      IsChain s (get_dir s i).first_data_blk l →
      (close_all s fds).mounted = true ∧
      (close_all s fds).sp.data_blk_count ≤ (close_all s fds).fat.length ∧
      (get_dir (close_all s fds) i).filename = name ∧
      (∀ j, j < i → (get_dir (close_all s fds) j).filename ≠ name) ∧
      (get_dir (close_all s fds) i).open_ = 0 ∧
      IsChain (close_all s fds) (get_dir (close_all s fds) i).first_data_blk l := by
  intro fds
  induction fds with
  | nil =>
    intro s hm _ hfat _ hfile hfirst _ _ hopen _ hchain
    exact ⟨hm, hfat, hfile, hfirst, hopen, hchain⟩
  | cons fd rest ih =>
    intro s hm hdir hfat hi hfile hfirst hnd hfds hopen h255 hchain
    obtain ⟨hv, hent⟩ := hfds fd (List.mem_cons_self _ _)
    have hfr := fs_close_frame s fd
    have hfl := fs_close_fields s fd
    rw [close_all_cons]
    apply ih (fs_close s fd).2
    · rw [hfr.1]; exact hm
    · rw [hfr.2.2.2.2.1]; exact hdir
    · rw [hfr.2.1, hfr.2.2.1]; exact hfat
    · exact hi
    · rw [(hfl i).1]; exact hfile
    · intro j hj
      rw [(hfl j).1]
      exact hfirst j hj
    · exact (List.nodup_cons.mp hnd).2
    · intro fd' hfd'
      obtain ⟨hv', hent'⟩ := hfds fd' (List.mem_cons_of_mem _ hfd')
      have hne : fd ≠ fd' := fun h => (List.nodup_cons.mp hnd).1 (h ▸ hfd')
      have hslot := fs_close_slot_ne s fd fd' (fd_slot_of_valid hv').1 hne
      constructor
      · unfold is_valid_fd
        rw [hslot]
        exact hv'
      · unfold fd_get
        rw [hslot]
        exact hent'
    · rw [fs_close_at s fd hv, hent]
      show (List.getD (s.root_dir.set i _) i zero_entry).open_ = _
      rw [getD_set_self _ _ _ _ (by rw [hdir]; exact hi)]
      show ((get_dir s i).open_ + 255) % 256 = _
      rw [hopen]
      simp only [List.length_cons] at h255 ⊢
      omega
    · simp only [List.length_cons] at h255
      omega
    · rw [(hfl i).2.2.1]
      apply isChain_congr s (fs_close s fd).2 (by rw [hfr.2.1]) l _ _ hchain
      intro x _
      unfold fat_at
      rw [hfr.2.2.1]

/-- C12. Delete of an open file is refused.  On a mounted volume let `name` be the file of
entry `i`, the first entry with that name.  While its open count is positive `fs_delete(name)`
returns -1 and the state (directory, FAT, counters) is unchanged.  When the descriptors `fds`
are all the descriptors on the file (distinct, open, on entry `i`, their number is the open
count) and the chain of the file is well formed, then after `fs_close` of each of them the open
count is 0 and `fs_delete(name)` returns 0. -/
theorem fs_delete_open_refused (s : FsState) (name : List Nat) (i : Nat)
    (hm : s.mounted = true) (hi : i < FS_FILE_MAX_COUNT)
    (hfile : (get_dir s i).filename = name)
    (hfirst : ∀ j, j < i → (get_dir s j).filename ≠ name) :
    (0 < (get_dir s i).open_ → fs_delete s name = .ok (-1, s)) ∧
    (∀ (fds : List Int) (l : List Nat), s.root_dir.length = FS_FILE_MAX_COUNT →
      s.sp.data_blk_count ≤ s.fat.length → fds.Nodup →
      (∀ fd, fd ∈ fds → is_valid_fd s fd = true ∧ (fd_get s fd).file_entry = i) →
      (get_dir s i).open_ = fds.length → fds.length ≤ 255 →
      IsChain s (get_dir s i).first_data_blk l →
      (get_dir (close_all s fds) i).open_ = 0 ∧
      ∃ s', fs_delete (close_all s fds) name = .ok (0, s')) := by
  constructor
  · intro hopen
    have hentry : get_directory_entry s name = (i : Int) := by
      rw [get_directory_entry, if_neg (by simp [hm])]
      exact scan_entry_found s name i hfile _ 0 (Nat.zero_le _) (by omega)
        (fun j _ hj => hfirst j hj)
    unfold fs_delete
    simp only [hentry, Int.toNat_ofNat]
    rw [if_neg (by omega), if_pos hopen]
  · intro fds l hdir hfat hnd hfds hopen h255 hchain
    obtain ⟨hm', hfat', hfile', hfirst', hopen', hchain'⟩ :=
      close_all_closed name i l fds s hm hdir hfat hi hfile hfirst hnd hfds hopen h255 hchain
    obtain ⟨s', hdel, _⟩ :=
      fs_delete_at (close_all s fds) name i l hm' hi hfile' hfirst' hopen' hchain' hfat'
    exact ⟨hopen', s', hdel⟩

set_option maxRecDepth 100000 in
/-- C12, at a concrete input: the 100-byte file `"a"` is open as descriptor 0 (open count 1,
chain of the one block 1); `fs_delete("a")` returns -1 and changes nothing, and after
`fs_close(0)` it returns 0. -/
theorem fs_delete_open_refused_witness :
    fs_delete vol_file100 name_a = .ok (-1, vol_file100) ∧
    ∃ s', fs_delete (fs_close vol_file100 0).2 name_a = .ok (0, s') :=
  have h := fs_delete_open_refused vol_file100 name_a 0 (by decide!) (by decide!) (by decide!)
    (by decide!)
  ⟨h.1 (by decide!),
   (h.2 [0] [1] (by decide!) (by decide!) (by decide) (by decide!) (by decide!) (by decide)
     (by decide!)).2⟩

/-! ## The chain of a file under `fs_write` -/

theorem scan_fat_spec (fat : List Nat) :
    ∀ n i, 0 ≤ scan_fat fat n i →
      ∃ k : Nat, scan_fat fat n i = (k : Int) ∧ i ≤ k ∧ k < i + n ∧ fat.getD k 0 = 0 := by
  intro n
  induction n with
  | zero =>
    intro i h
    rw [scan_fat] at h
    omega
  | succ n ih =>
    intro i h
    rw [scan_fat] at h ⊢
    by_cases hi : fat.getD i 0 = 0
    · rw [if_pos hi]
      exact ⟨i, rfl, Nat.le_refl _, by omega, hi⟩
    · rw [if_neg hi] at h ⊢
      obtain ⟨k, hk, h1, h2, h3⟩ := ih (i + 1) h
      exact ⟨k, hk, by omega, by omega, h3⟩

/-- A block that `get_free_blk_idx` hands out is a data block other than block 0 whose slot
holds 0. -/
theorem get_free_blk_idx_spec (s : FsState) (h : ¬ get_free_blk_idx s < 0) :
    ∃ t : Nat, get_free_blk_idx s = (t : Int) ∧ 1 ≤ t ∧ t < s.sp.data_blk_count ∧
      fat_at s t = 0 := by
  unfold get_free_blk_idx at h ⊢
  by_cases hm : s.mounted = false
  · rw [if_pos hm] at h
    exact absurd (by decide) h
  rw [if_neg hm] at h ⊢
  by_cases hu : (s.sp.data_blk_count : Int) - (s.sp.fat_used : Int) = 0
  · rw [if_pos hu] at h
    exact absurd (by decide) h
  rw [if_neg hu] at h ⊢
  obtain ⟨k, hk, h1, h2, h3⟩ := scan_fat_spec s.fat (s.sp.data_blk_count - 1) 1 (by omega)
  exact ⟨k, hk, h1, by omega, h3⟩

/-- The blocks the loop of `fs_write` adds to `new_blk` are copies of the one block
`get_free_blk_idx` returns in the state the loop runs in. -/
theorem fs_write_loop_new_blks (s : FsState) (buf : List Nat) :
    ∀ (fuel : Nat) (lc : Int) (wb : Nat) (nb : List Nat) (idx : Nat) (d : Disk) (l : Int)
      (nb' : List Nat) (d' : Disk),
      fs_write_loop s buf fuel lc wb nb idx d = .ok (.finished l nb' d') →
      ∃ k, nb' = nb ++ List.replicate k (get_free_blk_idx s).toNat ∧
        (0 < k → ¬ get_free_blk_idx s < 0) := by
  intro fuel
  induction fuel with
  | zero =>
    intro lc wb nb idx d l nb' d' h
    rw [fs_write_loop] at h
    split_ifs at h
    simp only [Except.ok.injEq, WExit.finished.injEq] at h
    exact ⟨0, by rw [← h.2.1]; simp, fun hk => absurd hk (by decide)⟩
  | succ fuel ih =>
    intro lc wb nb idx d l nb' d' h
    rw [fs_write_loop] at h
    by_cases hpos : lc > 0
    · rw [if_pos hpos] at h
      -- every way through `next_write_blk` leaves `nb` or adds the free block
      have hnext : ∀ wb1 nb1, next_write_blk s wb nb = .ok (some (wb1, nb1)) →
          nb1 = nb ∨ (nb1 = nb ++ [(get_free_blk_idx s).toNat] ∧ ¬ get_free_blk_idx s < 0) := by
        intro wb1 nb1 hn
        have hpush : ∀ (hfree : ¬ get_free_blk_idx s < 0),
            push_new_blk (get_free_blk_idx s) nb = .ok (some (wb1, nb1)) →
            nb1 = nb ++ [(get_free_blk_idx s).toNat] ∧ ¬ get_free_blk_idx s < 0 := by
          intro hfree hp
          unfold push_new_blk at hp
          split_ifs at hp
          simp only [Except.ok.injEq, Option.some.injEq, Prod.mk.injEq] at hp
          exact ⟨hp.2.symm, hfree⟩
        unfold next_write_blk at hn
        by_cases hlen : nb.length > 0
        · rw [if_pos hlen] at hn
          by_cases hfree : get_free_blk_idx s < 0
          · rw [if_pos hfree] at hn
            exact absurd hn (by simp)
          · rw [if_neg hfree] at hn
            exact Or.inr (hpush hfree hn)
        · rw [if_neg hlen] at hn
          cases hg : get_fat s wb with
          | none =>
            rw [hg] at hn
            exact absurd hn (by simp)
          | some p =>
            rw [hg] at hn
            simp only [] at hn
            by_cases heoc : fat_at s p = 0xFFFF
            · rw [if_pos heoc] at hn
              by_cases hfree : get_free_blk_idx s < 0
              · rw [if_pos hfree] at hn
                exact absurd hn (by simp)
              · rw [if_neg hfree] at hn
                exact Or.inr (hpush hfree hn)
            · rw [if_neg heoc] at hn
              simp only [Except.ok.injEq, Option.some.injEq, Prod.mk.injEq] at hn
              exact Or.inl hn.2.symm
      have hstep : ∀ wb1 nb1 lc1 idx1 d1,
          next_write_blk s wb nb = .ok (some (wb1, nb1)) →
          fs_write_loop s buf fuel lc1 wb1 nb1 idx1 d1 = .ok (.finished l nb' d') →
          ∃ k, nb' = nb ++ List.replicate k (get_free_blk_idx s).toNat ∧
            (0 < k → ¬ get_free_blk_idx s < 0) := by
        intro wb1 nb1 lc1 idx1 d1 hn hrec
        obtain ⟨k, hk, hkf⟩ := ih lc1 wb1 nb1 idx1 d1 l nb' d' hrec
        rcases hnext wb1 nb1 hn with h1 | ⟨h1, hfree⟩
        · rw [h1] at hk
          exact ⟨k, hk, hkf⟩
        · refine ⟨k + 1, ?_, fun _ => hfree⟩
          rw [hk, h1, List.append_assoc, List.replicate_succ]
          rfl
      cases hn : next_write_blk s wb nb with
      | error e =>
        rw [hn] at h
        exact absurd h (by simp)
      | ok o =>
        cases o with
        | none =>
          rw [hn] at h
          simp only [Except.ok.injEq, WExit.finished.injEq] at h
          exact ⟨0, by rw [← h.2.1]; simp, fun hk => absurd hk (by decide)⟩
        | some p =>
          obtain ⟨wb1, nb1⟩ := p
          rw [hn] at h
          simp only [] at h
          by_cases hfull : lc ≥ (BLOCK_SIZE : Int)
          · rw [if_pos hfull] at h
            cases hw : block_write d (s.sp.data_blk + wb1) ((buf.drop idx).take BLOCK_SIZE) with
            | none =>
              rw [hw] at h
              exact absurd h (by simp)
            | some d1 =>
              rw [hw] at h
              exact hstep wb1 nb1 _ _ _ hn h
          · rw [if_neg hfull] at h
            cases hr : block_read d (wb1 + s.sp.data_blk) with
            | none =>
              rw [hr] at h
              exact absurd h (by simp)
            | some bounce =>
              rw [hr] at h
              simp only [] at h
              cases hw : block_write d (s.sp.data_blk + wb1)
                  (memcpy bounce 0 (buf.drop idx) lc.toNat) with
              | none =>
                rw [hw] at h
                exact absurd h (by simp)
              | some d1 =>
                rw [hw] at h
                exact hstep wb1 nb1 _ _ _ hn h
    · rw [if_neg hpos] at h
      simp only [Except.ok.injEq, WExit.finished.injEq] at h
      exact ⟨0, by rw [← h.2.1]; simp, fun hk => absurd hk (by decide)⟩

theorem keeps_refl (s : FsState) (id : Nat) : Keeps s s id :=
  ⟨rfl, rfl, rfl, rfl, rfl, rfl, fun _ _ => rfl, rfl, rfl⟩

theorem keeps_trans {s s1 s2 : FsState} {id : Nat} (h1 : Keeps s s1 id) (h2 : Keeps s1 s2 id) :
    Keeps s s2 id :=
  ⟨h2.mounted.trans h1.mounted, h2.filedes.trans h1.filedes, h2.fd_cnt.trans h1.fd_cnt,
    h2.dir_len.trans h1.dir_len, h2.fat_len.trans h1.fat_len, h2.dbc.trans h1.dbc,
    fun j hj => (h2.others j hj).trans (h1.others j hj), h2.name.trans h1.name,
    h2.opens.trans h1.opens⟩

theorem keeps_set_flag (s : FsState) (id c : Nat) : Keeps s (set_flag s id c) id := by
  refine ⟨rfl, rfl, rfl, List.length_set _ _ _, rfl, rfl, ?_, ?_, ?_⟩
  · intro j hj
    exact get_dir_set_dir_ne _ (Ne.symm hj)
  · exact getD_set_field RootDirEntry.filename _ _ _ _ _ rfl
  · exact getD_set_field RootDirEntry.open_ _ _ _ _ _ rfl

theorem fileChain_congr {s t : FsState} {id : Nat}
    (hfirst : (get_dir t id).first_data_blk = (get_dir s id).first_data_blk)
    (hlast : (get_dir t id).last_data_blk = (get_dir s id).last_data_blk)
    (hfat : ∀ x, fat_at t x = fat_at s x) (hdbc : t.sp.data_blk_count = s.sp.data_blk_count)
    (h : FileChain s id) : FileChain t id := by
  obtain ⟨l, hc, hl⟩ := h
  refine ⟨l, ?_, ?_⟩
  · rw [hfirst]
    exact isChain_congr s t hdbc l _ (fun x _ => hfat x) hc
  · intro hne
    rw [hlast, hfat]
    exact hl hne

theorem fileChain_set_flag {s : FsState} {id : Nat} (c : Nat) (h : FileChain s id) :
    FileChain (set_flag s id c) id :=
  fileChain_congr (getD_set_field RootDirEntry.first_data_blk _ _ _ _ _ rfl)
    (getD_set_field RootDirEntry.last_data_blk _ _ _ _ _ rfl) (fun _ => rfl) rfl h

theorem isChain_fat_ne_zero (s : FsState) :
    ∀ (l : List Nat) (b : Nat), IsChain s b l → ∀ x, x ∈ l → fat_at s x ≠ 0 := by
  intro l
  induction l with
  | nil => intro b _ x hx; exact absurd hx (List.not_mem_nil _)
  | cons a r ih =>
    intro b hc x hx
    rw [isChain_cons] at hc
    obtain ⟨_, _, _, _, hrest⟩ := hc
    rcases List.mem_cons.mp hx with h | h
    · subst h
      cases r with
      | nil =>
        have : fat_at s x = FAT_EOC := hrest
        rw [this]
        decide
      | cons y r2 =>
        rw [isChain_cons] at hrest
        rw [hrest.1]
        have := hrest.2.1
        omega
    · exact ih _ hrest x h

/-- A chain grows by one block: `t` is linked behind the end `last` of the chain `l`. -/
theorem isChain_extend (s s' : FsState) (last t : Nat)
    (hdbc : s'.sp.data_blk_count = s.sp.data_blk_count)
    (hlast : fat_at s last = FAT_EOC)
    (hkeep : ∀ x, x ≠ last → x ≠ t → fat_at s' x = fat_at s x)
    (hlink : fat_at s' last = t) (hend : fat_at s' t = FAT_EOC)
    (ht1 : 1 ≤ t) (ht2 : t < s.sp.data_blk_count) (ht3 : t ≠ FAT_EOC) :
    ∀ (l : List Nat) (b : Nat), IsChain s b l → last ∈ l → t ∉ l →
      IsChain s' b (l ++ [t]) := by
  intro l
  induction l with
  | nil => intro b _ hmem; exact absurd hmem (List.not_mem_nil _)
  | cons x r ih =>
    intro b hc hmem hnot
    rw [isChain_cons] at hc
    obtain ⟨hb, hx1, hx2, hx3, hrest⟩ := hc
    have hxt : x ≠ t := fun h => hnot (h ▸ List.mem_cons_self _ _)
    rw [List.cons_append, isChain_cons]
    refine ⟨hb, hx1, by rw [hdbc]; exact hx2, hx3, ?_⟩
    by_cases hxl : x = last
    · -- `x` is the end of the old chain
      have hr : r = [] := by
        cases r with
        | nil => rfl
        | cons y r2 =>
          rw [isChain_cons] at hrest
          rw [hxl, hlast] at hrest
          exact absurd hrest.1.symm hrest.2.2.2.1
      rw [hr, hxl, hlink, List.nil_append]
      exact (isChain_cons s' t t []).mpr ⟨rfl, ht1, by rw [hdbc]; exact ht2, ht3, hend⟩
    · rw [hkeep x hxl hxt]
      apply ih _ hrest
      · rcases List.mem_cons.mp hmem with h | h
        · exact absurd h.symm hxl
        · exact h
      · exact fun h => hnot (List.mem_cons_of_mem _ h)

/-- The linking loop at the end of `fs_write` on copies of one block `t`, from the slot of `t`
on: slot `t` ends up with `FAT_EOC`, the other slots are untouched. -/
theorem link_new_blks_same (s : FsState) (t : Nat) (hg : get_fat s t = some t) :
    ∀ (k : Nat) (fat : List Nat),
      ∃ fat', link_new_blks s (List.replicate k t) (some t) fat t = .ok (fat', t) ∧
        fat'.length = fat.length ∧ (t < fat.length → fat'.getD t 0 = 0xFFFF) ∧
        ∀ x, x ≠ t → fat'.getD x 0 = fat.getD x 0 := by
  intro k
  induction k with
  | zero =>
    intro fat
    refine ⟨fat.set t 0xFFFF, rfl, List.length_set _ _ _, ?_, ?_⟩
    · intro ht
      exact getD_set_self _ _ _ _ ht
    · intro x hx
      exact getD_set_ne _ _ _ _ _ (Ne.symm hx)
  | succ k ih =>
    intro fat
    obtain ⟨fat', hrun, hlen, hself, hother⟩ := ih (fat.set t t)
    refine ⟨fat', ?_, by rw [hlen, List.length_set], ?_, ?_⟩
    · rw [List.replicate_succ, link_new_blks, hg]
      exact hrun
    · intro ht
      exact hself (by rw [List.length_set]; exact ht)
    · intro x hx
      rw [hother x hx]
      exact getD_set_ne _ _ _ _ _ (Ne.symm hx)

/-- The linking loop at the end of `fs_write` on `k` copies of the block `t`, behind the slot
`j`: with `k = 0` only slot `j` is set to `FAT_EOC`; otherwise slot `j` points to `t`, slot `t`
holds `FAT_EOC` and `t` is the new last block. -/
theorem link_new_blks_replicate (s : FsState) (t j last : Nat) (fat : List Nat) (k : Nat)
    (hg : get_fat s t = some t) (hjt : j ≠ t) (hj : j < fat.length) (ht : t < fat.length) :
    ∃ fat' last', link_new_blks s (List.replicate k t) (some j) fat last = .ok (fat', last') ∧
      fat'.length = fat.length ∧
      (k = 0 → last' = last ∧ fat'.getD j 0 = 0xFFFF ∧
        ∀ x, x ≠ j → fat'.getD x 0 = fat.getD x 0) ∧
      (0 < k → last' = t ∧ fat'.getD j 0 = t ∧ fat'.getD t 0 = 0xFFFF ∧
        ∀ x, x ≠ j → x ≠ t → fat'.getD x 0 = fat.getD x 0) := by
  cases k with
  | zero =>
    refine ⟨fat.set j 0xFFFF, last, rfl, List.length_set _ _ _, ?_, ?_⟩
    · intro _
      exact ⟨rfl, getD_set_self _ _ _ _ hj, fun x hx => getD_set_ne _ _ _ _ _ (Ne.symm hx)⟩
    · intro h
      exact absurd h (by decide)
  | succ k =>
    obtain ⟨fat', hrun, hlen, hself, hother⟩ := link_new_blks_same s t hg k (fat.set j t)
    refine ⟨fat', t, ?_, by rw [hlen, List.length_set], ?_, ?_⟩
    · rw [List.replicate_succ, link_new_blks, hg]
      exact hrun
    · intro h
      exact absurd h (by simp)
    · intro _
      refine ⟨rfl, ?_, hself (by rw [List.length_set]; exact ht), ?_⟩
      · rw [hother j hjt]
        exact getD_set_self _ _ _ _ hj
      · intro x hxj hxt
        rw [hother x hxt]
        exact getD_set_ne _ _ _ _ _ (Ne.symm hxj)

theorem write_meta_ok_keeps (s : FsState) (r : Int) (s' : FsState)
    (h : write_meta s = .ok (r, s')) :
    s'.mounted = s.mounted ∧ s'.root_dir = s.root_dir ∧ s'.fat = s.fat ∧
    s'.filedes = s.filedes ∧ s'.fd_cnt = s.fd_cnt ∧
    s'.sp.data_blk_count = s.sp.data_blk_count := by
  have hm : s.mounted = true := by
    by_contra hc
    unfold write_meta at h
    rw [if_pos (by simpa using hc)] at h
    exact absurd h (by simp)
  obtain ⟨r0, s0, h0, hm0, hrd, hfat, hfd, hcnt, _, hdbc, _⟩ := write_meta_frame s hm
  rw [h0] at h
  cases h
  exact ⟨by rw [hm0, hm], hrd, hfat, hfd, hcnt, hdbc⟩

/-- The first block of an empty file: when `alloc_first` goes on, the file has a well-formed
chain with at least one block. -/
theorem alloc_first_chain (s : FsState) (id : Nat) (s2 : FsState) (hm : s.mounted = true)
    (hfat : s.sp.data_blk_count ≤ s.fat.length) (hdbc : s.sp.data_blk_count ≤ 65535)
    (hid : id < s.root_dir.length) (hinv : FileChain s id)
    (h : alloc_first s id = .ok (some s2)) :
    Keeps s s2 id ∧ FileChain s2 id ∧ (get_dir s2 id).first_data_blk ≠ FAT_EOC := by
  unfold alloc_first at h
  by_cases hf : (get_dir s id).first_data_blk = FAT_EOC
  · rw [if_pos hf] at h
    by_cases hg : get_free_blk_idx s < 0
    · rw [if_pos hg] at h
      exact absurd h (by simp)
    · rw [if_neg hg] at h
      obtain ⟨t, ht, ht1, ht2, _⟩ := get_free_blk_idx_spec s hg
      rw [ht] at h
      simp only [Int.toNat_ofNat] at h
      have hne : t ≠ FAT_EOC := by unfold FAT_EOC; omega
      have hgf : get_fat (set_dir s id { get_dir s id with
          first_data_blk := t, last_data_blk := t }) t = some t :=
        get_fat_of_chain (s := set_dir s id _) hm ht2 hne
      rw [hgf] at h
      simp only [Except.ok.injEq, Option.some.injEq] at h
      subst h
      have hent : get_dir (set_dir s id { get_dir s id with
          first_data_blk := t, last_data_blk := t }) id
          = { get_dir s id with first_data_blk := t, last_data_blk := t } :=
        get_dir_set_dir_self _ hid
      have hend : (s.fat.set t 0xFFFF).getD t 0 = FAT_EOC :=
        getD_set_self _ _ _ _ (by omega)
      refine ⟨⟨rfl, rfl, rfl, List.length_set _ _ _, List.length_set _ _ _, rfl, ?_, ?_, ?_⟩,
        ⟨[t], ?_, ?_⟩, ?_⟩
      · intro j hj
        exact get_dir_set_dir_ne _ (Ne.symm hj)
      · exact getD_set_field RootDirEntry.filename _ _ _ _ _ rfl
      · exact getD_set_field RootDirEntry.open_ _ _ _ _ _ rfl
      · show IsChain _ (get_dir (set_dir s id _) id).first_data_blk [t]
        rw [hent]
        exact (isChain_cons _ t t []).mpr ⟨rfl, ht1, ht2, hne, hend⟩
      · intro _
        show (get_dir (set_dir s id _) id).last_data_blk ∈ [t] ∧
          List.getD _ (get_dir (set_dir s id _) id).last_data_blk 0 = FAT_EOC
        rw [hent]
        exact ⟨List.mem_singleton.mpr rfl, hend⟩
      · show (get_dir (set_dir s id _) id).first_data_blk ≠ FAT_EOC
        rw [hent]
        exact hne
  · rw [if_neg hf] at h
    simp only [Except.ok.injEq, Option.some.injEq] at h
    subst h
    exact ⟨keeps_refl _ _, hinv, hf⟩

/-- The end of `fs_write` keeps the chain well formed: the blocks of `new_blk` are `k` copies
of a free block `t`, and the chain grows by `t` when `k > 0`. -/
theorem fs_write_commit_chain (s : FsState) (id count offset : Nat) (l : Int) (d : Disk)
    (r : Int) (s' : FsState) (k t : Nat) (hm : s.mounted = true)
    (hfat : s.sp.data_blk_count ≤ s.fat.length) (hdbc : s.sp.data_blk_count ≤ 65535)
    (hid : id < s.root_dir.length) (hinv : FileChain s id)
    (hfirst : (get_dir s id).first_data_blk ≠ FAT_EOC)
    (hfree : 0 < k → 1 ≤ t ∧ t < s.sp.data_blk_count ∧ fat_at s t = 0)
    (h : fs_write_commit s id count offset l (List.replicate k t) d = .ok (r, s')) :
    Keeps s s' id ∧ FileChain s' id := by
  obtain ⟨lc, hchain, hlast⟩ := hinv
  have hlc : lc ≠ [] := by
    intro hnil
    rw [hnil] at hchain
    exact hfirst hchain
  obtain ⟨hmem, hend⟩ := hlast hlc
  obtain ⟨hl1, hl2, hl3⟩ := isChain_range s lc _ hchain _ hmem
  have hgl : get_fat s (get_dir s id).last_data_blk = some (get_dir s id).last_data_blk :=
    get_fat_of_chain hm hl2 hl3
  generalize hlastg : (get_dir s id).last_data_blk = last at hmem hend hl1 hl2 hl3 hgl
  -- the FAT and the last block after the linking loop
  have hlink : ∃ fat' last', link_new_blks s (List.replicate k t) (some last) s.fat last
        = .ok (fat', last') ∧ fat'.length = s.fat.length ∧
      (get_dir s id).first_data_blk = (get_dir s id).first_data_blk ∧
      ∃ lc', IsChain { s with fat := fat' } (get_dir s id).first_data_blk lc' ∧
        last' ∈ lc' ∧ fat'.getD last' 0 = FAT_EOC := by
    by_cases hk : k = 0
    · subst hk
      refine ⟨s.fat.set last 0xFFFF, last, rfl, List.length_set _ _ _, rfl, lc, ?_, hmem, ?_⟩
      · apply isChain_congr s { s with fat := s.fat.set last 0xFFFF } rfl lc _ _ hchain
        intro x _
        show (s.fat.set last 0xFFFF).getD x 0 = s.fat.getD x 0
        by_cases hx : last = x
        · subst hx
          rw [getD_set_self _ _ _ _ (by omega)]
          exact hend.symm
        · exact getD_set_ne _ _ _ _ _ hx
      · exact getD_set_self _ _ _ _ (by omega)
    · have hkpos : 0 < k := Nat.pos_of_ne_zero hk
      obtain ⟨ht1, ht2, ht0⟩ := hfree hkpos
      have hne : t ≠ FAT_EOC := by unfold FAT_EOC; omega
      have hlt : last ≠ t := by
        intro heq
        rw [heq, ht0] at hend
        exact absurd hend (by decide)
      have htnot : t ∉ lc := fun hin => isChain_fat_ne_zero s lc _ hchain t hin ht0
      obtain ⟨fat', last', hrun, hlen, _, hpos⟩ :=
        link_new_blks_replicate s t last last s.fat k (get_fat_of_chain hm ht2 hne) hlt
          (by omega) (by omega)
      obtain ⟨hl', hfl, hft, hfo⟩ := hpos hkpos
      refine ⟨fat', last', hrun, hlen, rfl, lc ++ [t], ?_, ?_, ?_⟩
      · exact isChain_extend s { s with fat := fat' } last t rfl hend
          (fun x h1 h2 => hfo x h1 h2) hfl hft ht1 ht2 hne lc _ hchain hmem htnot
      · rw [hl']
        exact List.mem_append_right _ (List.mem_singleton.mpr rfl)
      · rw [hl']
        exact hft
  obtain ⟨fat', last', hrun, hlen, _, lc', hchain', hmem', hend'⟩ := hlink
  unfold fs_write_commit at h
  simp only [] at h
  rw [hlastg, hgl, hrun] at h
  simp only [] at h
  generalize hrc : (if l > 0 then count - l.toNat else count) = rc at h
  generalize hs1 : ({ s with
      root_dir := s.root_dir.set id
        { get_dir s id with
          file_sz := if rc + offset > (get_dir s id).file_sz then (rc + offset) % 4294967296
            else (get_dir s id).file_sz
          last_data_blk := last' }
      fat := fat'
      sp := { s.sp with fat_used := u16 (s.sp.fat_used + (List.replicate k t).length) }
      disk := d } : FsState) = s1 at h
  cases hwm : write_meta s1 with
  | error e =>
    rw [hwm] at h
    exact absurd h (by simp)
  | ok w =>
    obtain ⟨rr, sM⟩ := w
    rw [hwm] at h
    simp only [Except.ok.injEq, Prod.mk.injEq] at h
    obtain ⟨_, hs'⟩ := h
    obtain ⟨hmM, hrdM, hfatM, hfdM, hcntM, hdbcM⟩ := write_meta_ok_keeps s1 rr sM hwm
    have hentM : get_dir sM id = { get_dir s id with
        file_sz := if rc + offset > (get_dir s id).file_sz then (rc + offset) % 4294967296
          else (get_dir s id).file_sz
        last_data_blk := last' } := by
      unfold get_dir
      rw [hrdM, ← hs1]
      exact getD_set_self _ _ _ _ hid
    have hkM : Keeps s sM id := by
      refine ⟨by rw [hmM, ← hs1], by rw [hfdM, ← hs1], by rw [hcntM, ← hs1], ?_, ?_,
        by rw [hdbcM, ← hs1], ?_, by rw [hentM], by rw [hentM]⟩
      · rw [hrdM, ← hs1]
        exact List.length_set _ _ _
      · rw [hfatM, ← hs1]
        exact hlen
      · intro j hj
        unfold get_dir
        rw [hrdM, ← hs1]
        exact getD_set_ne _ _ _ _ _ (Ne.symm hj)
    have hcM : FileChain sM id := by
      refine ⟨lc', ?_, fun _ => ?_⟩
      · rw [hentM]
        apply isChain_congr { s with fat := fat' } sM (by rw [hdbcM, ← hs1]) lc' _ _ hchain'
        intro x _
        unfold fat_at
        rw [hfatM, ← hs1]
      · rw [hentM]
        refine ⟨hmem', ?_⟩
        unfold fat_at
        rw [hfatM, ← hs1]
        exact hend'
    rw [← hs']
    exact ⟨keeps_trans hkM (keeps_set_flag sM id FLAG_N), fileChain_set_flag FLAG_N hcM⟩

theorem start_blk_new (s : FsState) (fd : Int) (id offset wb : Nat) (nb : List Nat)
    (h : start_blk s fd id offset = .ok (some (wb, nb))) :
    nb = [] ∨ (nb = [(get_free_blk_idx s).toNat] ∧ ¬ get_free_blk_idx s < 0) := by
  unfold start_blk at h
  by_cases h0 : offset = 0
  · rw [if_pos h0] at h
    simp only [Except.ok.injEq, Option.some.injEq, Prod.mk.injEq] at h
    exact Or.inl h.2.symm
  rw [if_neg h0] at h
  by_cases hsz : offset = (get_dir s id).file_sz
  · rw [if_pos hsz] at h
    by_cases hfree : get_free_blk_idx s < 0
    · rw [if_pos hfree] at h
      exact absurd h (by simp)
    · rw [if_neg hfree] at h
      simp only [Except.ok.injEq, Option.some.injEq, Prod.mk.injEq] at h
      exact Or.inr ⟨h.2.symm, hfree⟩
  · rw [if_neg hsz] at h
    cases hgo : get_offset_blk s fd offset with
    | error e =>
      rw [hgo] at h
      exact absurd h (by simp)
    | ok b =>
      rw [hgo] at h
      simp only [Except.ok.injEq, Option.some.injEq, Prod.mk.injEq] at h
      exact Or.inl h.2.symm

theorem keeps_disk (s : FsState) (id : Nat) (d : Disk) : Keeps s { s with disk := d } id :=
  ⟨rfl, rfl, rfl, rfl, rfl, rfl, fun _ _ => rfl, rfl, rfl⟩

theorem fileChain_disk {s : FsState} {id : Nat} (d : Disk) (h : FileChain s id) :
    FileChain { s with disk := d } id :=
  fileChain_congr (s := s) (t := { s with disk := d }) rfl rfl (fun _ => rfl) rfl h

/-- A `fs_write` that returns keeps the chain of its file well formed, and keeps the mount,
the descriptors, the other entries and name and open count of its entry. -/
theorem fs_write_chain (s : FsState) (fd : Int) (buf : List Nat) (count : Nat) (r : Int)
    (s' : FsState) (hv : is_valid_fd s fd = true) (hm : s.mounted = true)
    (hfat : s.sp.data_blk_count ≤ s.fat.length) (hdbc : s.sp.data_blk_count ≤ 65535)
    (hid : (fd_get s fd).file_entry < s.root_dir.length)
    (hinv : FileChain s (fd_get s fd).file_entry)
    (h : fs_write s fd buf count = .ok (r, s')) :
    Keeps s s' (fd_get s fd).file_entry ∧ FileChain s' (fd_get s fd).file_entry := by
  generalize hidg : (fd_get s fd).file_entry = id at hid hinv h ⊢
  unfold fs_write at h
  rw [if_neg (by rw [hv]; decide), hidg] at h
  have hsame : ∀ (r0 : Int), (Except.ok (r0, s) : Except Err (Int × FsState)) = .ok (r, s') →
      Keeps s s' id ∧ FileChain s' id := by
    intro r0 h0
    simp only [Except.ok.injEq, Prod.mk.injEq] at h0
    rw [← h0.2]
    exact ⟨keeps_refl _ _, hinv⟩
  by_cases hflag : (get_dir s id).flag = FLAG_W
  · rw [if_pos hflag] at h
    exact hsame _ h
  rw [if_neg hflag] at h
  by_cases hcount : count = 0
  · rw [if_pos hcount] at h
    exact hsame _ h
  rw [if_neg hcount] at h
  by_cases hoff : (fd_get s fd).offset > (get_dir s id).file_sz
  · rw [if_pos hoff] at h
    exact hsame _ h
  rw [if_neg hoff] at h
  -- the flag is set
  have hk1 := keeps_set_flag s id FLAG_W
  have hc1 : FileChain (set_flag s id FLAG_W) id := fileChain_set_flag FLAG_W hinv
  generalize hs1 : set_flag s id FLAG_W = s1 at h hk1 hc1
  generalize toInt32 count = lc at h
  have hm1 : s1.mounted = true := by rw [hk1.mounted]; exact hm
  have hfat1 : s1.sp.data_blk_count ≤ s1.fat.length := by rw [hk1.dbc, hk1.fat_len]; exact hfat
  have hdbc1 : s1.sp.data_blk_count ≤ 65535 := by rw [hk1.dbc]; exact hdbc
  have hid1 : id < s1.root_dir.length := by rw [hk1.dir_len]; exact hid
  have hret : ∀ (t : FsState), Keeps s1 t id → FileChain t id →
      (Except.ok (0, set_flag t id FLAG_N) : Except Err (Int × FsState)) = .ok (r, s') →
      Keeps s s' id ∧ FileChain s' id := by
    intro t hkt hct h0
    simp only [Except.ok.injEq, Prod.mk.injEq] at h0
    rw [← h0.2]
    exact ⟨keeps_trans hk1 (keeps_trans hkt (keeps_set_flag t id FLAG_N)),
      fileChain_set_flag FLAG_N hct⟩
  cases ha : alloc_first s1 id with
  | error e =>
    rw [ha, fs_write_alloc] at h
    exact absurd h (by simp)
  | ok o =>
    cases o with
    | none =>
      rw [ha, fs_write_alloc] at h
      simp only [Except.ok.injEq, Prod.mk.injEq] at h
      rw [← h.2]
      exact ⟨hk1, hc1⟩
    | some s2 =>
      obtain ⟨hk2, hc2, hfirst2⟩ := alloc_first_chain s1 id s2 hm1 hfat1 hdbc1 hid1 hc1 ha
      have hm2 : s2.mounted = true := by rw [hk2.mounted]; exact hm1
      have hfat2 : s2.sp.data_blk_count ≤ s2.fat.length := by
        rw [hk2.dbc, hk2.fat_len]; exact hfat1
      have hdbc2 : s2.sp.data_blk_count ≤ 65535 := by rw [hk2.dbc]; exact hdbc1
      have hid2 : id < s2.root_dir.length := by rw [hk2.dir_len]; exact hid1
      rw [ha, fs_write_alloc] at h
      cases hst : start_blk s2 fd id (fd_get s fd).offset with
      | error e =>
        rw [hst, fs_write_start] at h
        exact absurd h (by simp)
      | ok o2 =>
        cases o2 with
        | none =>
          rw [hst, fs_write_start] at h
          exact hret s2 hk2 hc2 h
        | some p =>
          obtain ⟨wb, nb⟩ := p
          have hnb := start_blk_new s2 fd id _ wb nb hst
          rw [hst, fs_write_start] at h
          cases hfb : write_first_blk s2 id buf lc wb with
          | none =>
            rw [hfb, fs_write_blocks] at h
            exact hret s2 hk2 hc2 h
          | some q =>
            obtain ⟨bi, d⟩ := q
            rw [hfb, fs_write_blocks] at h
            cases hloop : fs_write_loop s2 buf (int_sub lc bi).toNat (int_sub lc bi) wb nb bi d with
            | error e =>
              rw [hloop, fs_write_finish] at h
              exact absurd h (by simp)
            | ok w =>
              cases w with
              | failed d1 =>
                rw [hloop, fs_write_finish] at h
                exact hret { s2 with disk := d1 } (keeps_trans hk2 (keeps_disk s2 id d1))
                  (fileChain_disk d1 hc2) h
              | finished l nb' d1 =>
                rw [hloop, fs_write_finish] at h
                obtain ⟨k, hk, hkfree⟩ :=
                  fs_write_loop_new_blks s2 buf _ _ _ _ _ _ _ _ _ hloop
                -- `new_blk` holds copies of the one free block
                have hrep : ∃ k', nb' = List.replicate k' (get_free_blk_idx s2).toNat ∧
                    (0 < k' → ¬ get_free_blk_idx s2 < 0) := by
                  rcases hnb with h0 | ⟨h1, hf⟩
                  · exact ⟨k, by rw [hk, h0, List.nil_append], hkfree⟩
                  · refine ⟨k + 1, ?_, fun _ => hf⟩
                    rw [hk, h1, List.replicate_succ]
                    rfl
                obtain ⟨k', hk', hkfree'⟩ := hrep
                rw [hk'] at h
                have hfree : 0 < k' → 1 ≤ (get_free_blk_idx s2).toNat ∧
                    (get_free_blk_idx s2).toNat < s2.sp.data_blk_count ∧
                    fat_at s2 (get_free_blk_idx s2).toNat = 0 := by
                  intro hpos
                  obtain ⟨t, ht, ht1, ht2, ht0⟩ := get_free_blk_idx_spec s2 (hkfree' hpos)
                  rw [ht, Int.toNat_ofNat]
                  exact ⟨ht1, ht2, ht0⟩
                obtain ⟨hk3, hc3⟩ := fs_write_commit_chain s2 id count _ l d1 r s' k' _ hm2
                  hfat2 hdbc2 hid2 hc2 hfirst2 hfree h
                exact ⟨keeps_trans hk1 (keeps_trans hk2 hk3), hc3⟩

/-! ## A session on one file -/

theorem inSession_lseek {s0 t : FsState} {k j : Nat} (o : Nat) (h : InSession s0 t k j) :
    InSession s0 (fs_lseek t (k : Int) o).2 k j := by
  unfold fs_lseek
  rw [if_neg (by rw [h.valid]; decide)]
  by_cases ho : o > (get_dir t (fd_get t (k : Int)).file_entry).file_sz
  · rw [if_pos ho]
    exact h
  · rw [if_neg ho]
    have hlen := (fd_slot_of_valid h.valid).2.2.2
    exact ⟨h.mounted, h.dir_len, h.fat_len, h.dbc,
      fileChain_congr (s := t) rfl rfl (fun _ => rfl) rfl h.chain, h.names, h.opens,
      is_valid_fd_set_fd _ h.valid,
      by rw [fd_get_set_self _ hlen]; exact h.entry,
      fun x hx => by
        show (t.filedes.set (k : Int).toNat _).getD x none = _
        rw [Int.toNat_ofNat, getD_set_ne _ _ _ _ _ (Ne.symm hx)]
        exact h.slots x hx,
      by
        show (t.filedes.set _ _).length = _
        rw [List.length_set]
        exact h.fd_len,
      h.fd_cnt⟩

theorem inSession_write {s0 t : FsState} {k j : Nat} (buf : List Nat) (count : Nat) (r : Int)
    (t' : FsState) (h : InSession s0 t k j)
    (hw : fs_write t (k : Int) buf count = .ok (r, t')) : InSession s0 t' k j := by
  obtain ⟨hk, hc⟩ := fs_write_chain t (k : Int) buf count r t' h.valid h.mounted h.fat_len h.dbc
    (by rw [h.entry, h.dir_len]
        by_contra hj
        have hz : get_dir t j = zero_entry := by
          unfold get_dir
          rw [List.getD_eq_default _ _ (by rw [h.dir_len]; omega)]
        have := h.opens
        rw [hz] at this
        exact absurd this (by decide))
    (by rw [h.entry]; exact h.chain) hw
  rw [h.entry] at hk hc
  refine ⟨by rw [hk.mounted]; exact h.mounted, by rw [hk.dir_len]; exact h.dir_len,
    by rw [hk.dbc, hk.fat_len]; exact h.fat_len, by rw [hk.dbc]; exact h.dbc, hc, ?_,
    by rw [hk.opens]; exact h.opens,
    by rw [is_valid_fd_congr _ hk.filedes]; exact h.valid,
    by rw [fd_get_congr _ hk.filedes]; exact h.entry,
    fun x hx => by rw [hk.filedes]; exact h.slots x hx,
    by rw [hk.filedes]; exact h.fd_len, by rw [hk.fd_cnt]; exact h.fd_cnt⟩
  intro i
  by_cases hi : i = j
  · rw [hi, hk.name]
    exact h.names j
  · rw [hk.others i hi]
    exact h.names i

theorem inSession_run_op {s0 t : FsState} {k j : Nat} (op : FileOp) (t' : FsState)
    (h : InSession s0 t k j) (hr : run_op t (k : Int) op = .ok t') : InSession s0 t' k j := by
  cases op with
  | lseek o =>
    rw [run_op] at hr
    simp only [Except.ok.injEq] at hr
    rw [← hr]
    exact inSession_lseek o h
  | read n =>
    rw [run_op] at hr
    cases hrd : fs_read t (k : Int) (List.replicate n 0) n with
    | error e =>
      rw [hrd] at hr
      exact absurd hr (by simp)
    | ok v =>
      obtain ⟨r, out, t1⟩ := v
      rw [hrd] at hr
      simp only [Except.ok.injEq] at hr
      rw [← hr]
      rcases fs_read_state t (k : Int) _ n r out t1 hrd with hs | ⟨o, hs⟩
      · rw [hs]
        exact h
      · rw [hs]
        exact inSession_lseek o h
  | write b n =>
    rw [run_op] at hr
    cases hw : fs_write t (k : Int) b n with
    | error e =>
      rw [hw] at hr
      exact absurd hr (by simp)
    | ok v =>
      obtain ⟨r, t1⟩ := v
      rw [hw] at hr
      simp only [Except.ok.injEq] at hr
      rw [← hr]
      exact inSession_write b n r t1 h hw

theorem inSession_run_ops {s0 : FsState} {k j : Nat} :
    ∀ (ops : List FileOp) (t t' : FsState), InSession s0 t k j →
      run_ops t (k : Int) ops = .ok t' → InSession s0 t' k j := by
  intro ops
  induction ops with
  | nil =>
    intro t t' h hr
    rw [run_ops] at hr
    simp only [Except.ok.injEq] at hr
    rw [← hr]
    exact h
  | cons op rest ih =>
    intro t t' h hr
    rw [run_ops] at hr
    cases hop : run_op t (k : Int) op with
    | error e =>
      rw [hop] at hr
      exact absurd hr (by simp)
    | ok t1 =>
      rw [hop] at hr
      exact ih t1 t' (inSession_run_op op t1 h hop) hr

/-- After a session on a closed file with a well-formed chain, the file is closed again, its
chain is well formed, and the names and the descriptor table are those before the session. -/
theorem file_session_closed (s0 : FsState) (name : List Nat) (j k : Nat) (ops : List FileOp)
    (m : FsState) (hm : s0.mounted = true) (hdir : s0.root_dir.length = FS_FILE_MAX_COUNT)
    (hfat : s0.sp.data_blk_count ≤ s0.fat.length) (hdbc : s0.sp.data_blk_count ≤ 65535)
    (hname : name.length < FS_FILENAME_LEN) (hcnt : s0.fd_cnt < 32)
    (hflen : s0.filedes.length = FS_OPEN_MAX_COUNT)
    (hj : j < FS_FILE_MAX_COUNT) (hfile : (get_dir s0 j).filename = name)
    (hfirst : ∀ i, i < j → (get_dir s0 i).filename ≠ name)
    (hclosed : (get_dir s0 j).open_ = 0) (hchain : FileChain s0 j)
    (hk : k < FS_OPEN_MAX_COUNT) (hkfree : s0.filedes.getD k none = none)
    (hklow : ∀ x, x < k → s0.filedes.getD x none ≠ none)
    (hrun : file_session s0 name ops = .ok m) :
    m.mounted = true ∧ m.root_dir.length = FS_FILE_MAX_COUNT ∧
    m.sp.data_blk_count ≤ m.fat.length ∧
    (∀ i, (get_dir m i).filename = (get_dir s0 i).filename) ∧
    (get_dir m j).open_ = 0 ∧ FileChain m j ∧
    m.fd_cnt = s0.fd_cnt ∧ m.filedes.length = FS_OPEN_MAX_COUNT ∧
    (∀ x, m.filedes.getD x none = s0.filedes.getD x none) ∧
    m.sp.data_blk_count ≤ 65535 := by
  have hopen := fs_open_at s0 name j k hm hname hcnt hflen hj hfile hfirst hk hkfree hklow
  have hjl : j < s0.root_dir.length := by rw [hdir]; exact hj
  have hkl : k < s0.filedes.length := by rw [hflen]; exact hk
  have hent : (s0.root_dir.set j
      { get_dir s0 j with open_ := ((get_dir s0 j).open_ + 1) % 256, flag := FLAG_O }).getD j
        zero_entry
      = { get_dir s0 j with open_ := ((get_dir s0 j).open_ + 1) % 256, flag := FLAG_O } :=
    getD_set_self _ _ _ _ hjl
  have hslot : (s0.filedes.set k (some (⟨j, 0⟩ : FileDescriptor))).getD k none = some ⟨j, 0⟩ :=
    getD_set_self _ _ _ _ hkl
  have h1 : InSession s0 (fs_open s0 name).2 k j := by
    rw [hopen]
    show InSession s0
      { s0 with
        filedes := s0.filedes.set k (some ⟨j, 0⟩)
        root_dir := s0.root_dir.set j
          { get_dir s0 j with open_ := ((get_dir s0 j).open_ + 1) % 256, flag := FLAG_O }
        fd_cnt := s0.fd_cnt + 1 } k j
    refine ⟨hm, ?_, hfat, hdbc, ?_, ?_, ?_, ?_, ?_, ?_, ?_, rfl⟩
    · show (s0.root_dir.set j _).length = _
      rw [List.length_set]
      exact hdir
    · refine fileChain_congr (s := s0) ?_ ?_ ?_ ?_ hchain
      · exact getD_set_field RootDirEntry.first_data_blk _ _ _ _ _ rfl
      · exact getD_set_field RootDirEntry.last_data_blk _ _ _ _ _ rfl
      · intro x
        rfl
      · rfl
    · intro i
      exact getD_set_field RootDirEntry.filename _ _ _ _ _ rfl
    · show (List.getD _ j zero_entry).open_ = 1
      rw [hent]
      show ((get_dir s0 j).open_ + 1) % 256 = 1
      rw [hclosed]
    · exact is_valid_fd_of_some (by simpa [FS_OPEN_MAX_COUNT] using hk) hslot
    · show (fd_get _ (k : Int)).file_entry = j
      unfold fd_get fd_slot
      rw [Int.toNat_ofNat, hslot]
      rfl
    · intro x hx
      exact getD_set_ne _ _ _ _ _ (Ne.symm hx)
    · show (s0.filedes.set k _).length = _
      rw [List.length_set]
      exact hflen
  have hfdk : (fs_open s0 name).1 = (k : Int) := by rw [hopen]
  unfold file_session at hrun
  rw [hfdk] at hrun
  cases hops : run_ops (fs_open s0 name).2 (k : Int) ops with
  | error e =>
    rw [hops] at hrun
    exact absurd hrun (by simp)
  | ok t =>
    rw [hops] at hrun
    simp only [Except.ok.injEq] at hrun
    have ht := inSession_run_ops ops _ t h1 hops
    have hjt : j < t.root_dir.length := by rw [ht.dir_len]; exact hj
    have hfr := fs_close_frame t (k : Int)
    have hfl := fs_close_fields t (k : Int)
    rw [← hrun]
    refine ⟨by rw [hfr.1]; exact ht.mounted, by rw [hfr.2.2.2.2.1]; exact ht.dir_len,
      by rw [hfr.2.1, hfr.2.2.1]; exact ht.fat_len,
      fun i => by rw [(hfl i).1]; exact ht.names i, ?_, ?_, ?_, ?_, ?_,
      by rw [hfr.2.1]; exact ht.dbc⟩
    · rw [fs_close_at t (k : Int) ht.valid, ht.entry]
      show (List.getD (t.root_dir.set j _) j zero_entry).open_ = 0
      rw [getD_set_self _ _ _ _ hjt]
      show ((get_dir t j).open_ + 255) % 256 = 0
      rw [ht.opens]
    · exact fileChain_congr (hfl j).2.2.1 (hfl j).2.2.2
        (fun x => by unfold fat_at; rw [hfr.2.2.1]) (by rw [hfr.2.1]) ht.chain
    · rw [fs_close_at t (k : Int) ht.valid]
      show t.fd_cnt - 1 = s0.fd_cnt
      rw [ht.fd_cnt]
      omega
    · rw [hfr.2.2.2.2.2]
      exact ht.fd_len
    · intro x
      rw [fs_close_at t (k : Int) ht.valid]
      show (t.filedes.set (k : Int).toNat none).getD x none = _
      rw [Int.toNat_ofNat]
      by_cases hx : x = k
      · rw [hx, hkfree]
        exact getD_set_self _ _ _ _ (by rw [ht.fd_len]; exact hk)
      · rw [getD_set_ne _ _ _ _ _ (Ne.symm hx)]
        exact ht.slots x hx

/-- After any number of sessions on a closed file with a well-formed chain, the file is closed,
its chain is well formed, and the names and the descriptor table are those before. -/
theorem run_sessions_closed (name : List Nat) (j k : Nat) (hname : name.length < FS_FILENAME_LEN)
    (hj : j < FS_FILE_MAX_COUNT) (hk : k < FS_OPEN_MAX_COUNT) :
    ∀ (ss : List (List FileOp)) (s0 m : FsState), s0.mounted = true →
      s0.root_dir.length = FS_FILE_MAX_COUNT → s0.sp.data_blk_count ≤ s0.fat.length →
      s0.sp.data_blk_count ≤ 65535 → s0.fd_cnt < 32 →
      s0.filedes.length = FS_OPEN_MAX_COUNT → (get_dir s0 j).filename = name →
      (∀ i, i < j → (get_dir s0 i).filename ≠ name) → (get_dir s0 j).open_ = 0 →
      FileChain s0 j → s0.filedes.getD k none = none →
      (∀ x, x < k → s0.filedes.getD x none ≠ none) →
      run_sessions s0 name ss = .ok m →
      m.mounted = true ∧ m.root_dir.length = FS_FILE_MAX_COUNT ∧
      m.sp.data_blk_count ≤ m.fat.length ∧
      (∀ i, (get_dir m i).filename = (get_dir s0 i).filename) ∧
      (get_dir m j).open_ = 0 ∧ FileChain m j ∧
      m.fd_cnt = s0.fd_cnt ∧ m.filedes.length = FS_OPEN_MAX_COUNT ∧
      (∀ x, m.filedes.getD x none = s0.filedes.getD x none) := by
  intro ss
  induction ss with
  | nil =>
    intro s0 m hm hdir hfat _ _ hflen _ _ hclosed hchain _ _ hrun
    rw [run_sessions] at hrun
    simp only [Except.ok.injEq] at hrun
    rw [← hrun]
    exact ⟨hm, hdir, hfat, fun _ => rfl, hclosed, hchain, rfl, hflen, fun _ => rfl⟩
  | cons ops rest ih =>
    intro s0 m hm hdir hfat hdbc hcnt hflen hfile hfirst hclosed hchain hkfree hklow hrun
    rw [run_sessions] at hrun
    cases hs : file_session s0 name ops with
    | error e =>
      rw [hs] at hrun
      exact absurd hrun (by simp)
    | ok s1 =>
      rw [hs] at hrun
      obtain ⟨hm1, hdir1, hfat1, hnames1, hclosed1, hchain1, hcnt1, hflen1, hslots1, hdbc1⟩ :=
        file_session_closed s0 name j k ops s1 hm hdir hfat hdbc hname hcnt hflen hj hfile
          hfirst hclosed hchain hk hkfree hklow hs
      obtain ⟨hm2, hdir2, hfat2, hnames2, hclosed2, hchain2, hcnt2, hflen2, hslots2⟩ :=
        ih s1 m hm1 hdir1 hfat1 hdbc1 (by rw [hcnt1]; exact hcnt) hflen1
          (by rw [hnames1]; exact hfile)
          (fun i hi => by rw [hnames1]; exact hfirst i hi) hclosed1 hchain1
          (by rw [hslots1]; exact hkfree)
          (fun x hx => by rw [hslots1]; exact hklow x hx) hrun
      exact ⟨hm2, hdir2, hfat2, fun i => (hnames2 i).trans (hnames1 i), hclosed2, hchain2,
        hcnt2.trans hcnt1, hflen2, fun x => (hslots2 x).trans (hslots1 x)⟩

/-! ## Create, delete, create again -/

/-- What a successful `fs_create` leaves: `i` is the lowest empty entry and no entry before it
is named `name`. -/
theorem fs_create_at (s : FsState) (name : List Nat) (i : Nat) (hm : s.mounted = true)
    (h1 : 1 ≤ name.length) (h15 : name.length ≤ 15) (hi : i < FS_FILE_MAX_COUNT)
    (he : (get_dir s i).filename = [])
    (hlow : ∀ j, j < i → (get_dir s j).filename ≠ name ∧ (get_dir s j).filename ≠ []) :
    fs_create s name =
      (0, { s with
            root_dir := s.root_dir.set i
              { filename := name, file_sz := 0, first_data_blk := FAT_EOC,
                last_data_blk := FAT_EOC, open_ := 0, flag := 0 }
            sp := { s.sp with rdir_used := u16 (s.sp.rdir_used + 1) } }) := by
  have hne : name ≠ [] := by
    intro h; rw [h] at h1; simp at h1
  have hscan : get_valid_directory_entry s name = (i : Int) := by
    rw [get_valid_directory_entry, if_neg (by simp [hm])]
    exact scan_valid_entry_found s name i he hne _ 0 (Nat.zero_le _) (by omega)
      (fun j _ hj => hlow j hj)
  unfold fs_create
  rw [if_neg (by simp [hm]), if_neg (by simp [hne, FS_FILENAME_LEN]; omega)]
  simp only [hscan]
  rw [if_neg (by omega)]
  rfl

/-- Delete, create again, open: for a closed file `name` in entry `i` (the first entry with
that name) whose chain `l` is well formed, `fs_delete(name)` returns 0, `fs_create(name)` then
returns 0, and `fs_open(name)` then returns a descriptor on an entry named `name` of size 0
whose first block is `0xFFFF`, for which `fs_stat` returns 0. -/
theorem delete_create_open (m : FsState) (name : List Nat) (i : Nat) (l : List Nat)
    (hm : m.mounted = true) (hdir : m.root_dir.length = FS_FILE_MAX_COUNT)
    (hfat : m.sp.data_blk_count ≤ m.fat.length)
    (h1 : 1 ≤ name.length) (h15 : name.length ≤ 15)
    (hi : i < FS_FILE_MAX_COUNT) (hfile : (get_dir m i).filename = name)
    (hfirst : ∀ j, j < i → (get_dir m j).filename ≠ name)
    (hclosed : (get_dir m i).open_ = 0)
    (hchain : IsChain m (get_dir m i).first_data_blk l)
    (hcnt : m.fd_cnt < 32) (hflen : m.filedes.length = FS_OPEN_MAX_COUNT)
    (hslot : ∃ k, k < FS_OPEN_MAX_COUNT ∧ m.filedes.getD k none = none) :
    ∃ m2, fs_delete m name = .ok (0, m2) ∧ (fs_create m2 name).1 = 0 ∧
      0 ≤ (fs_open (fs_create m2 name).2 name).1 ∧
      fs_stat (fs_open (fs_create m2 name).2 name).2 (fs_open (fs_create m2 name).2 name).1
        = 0 ∧
      (get_dir (fs_open (fs_create m2 name).2 name).2
        (fd_get (fs_open (fs_create m2 name).2 name).2
          (fs_open (fs_create m2 name).2 name).1).file_entry)
        = { filename := name, file_sz := 0, first_data_blk := FAT_EOC,
            last_data_blk := FAT_EOC, open_ := 1, flag := FLAG_O } := by
  obtain ⟨m2, hdel, hm2, hrd2, _, _, _, hfd2, hcnt2, _⟩ :=
    fs_delete_at m name i l hm hi hfile hfirst hclosed hchain hfat
  have hil : i < m.root_dir.length := by rw [hdir]; exact hi
  have hne : name ≠ [] := by
    intro h; rw [h] at h1; simp at h1
  -- the lowest empty entry after the delete
  have hex : ∃ j, j < FS_FILE_MAX_COUNT ∧ (get_dir m2 j).filename = [] := by
    refine ⟨i, hi, ?_⟩
    unfold get_dir
    rw [hrd2, getD_set_self _ _ _ _ hil]
    rfl
  classical
  obtain ⟨hj, hje⟩ := Nat.find_spec hex
  have hjmin : ∀ j', j' < Nat.find hex → (get_dir m2 j').filename ≠ [] :=
    fun j' hj' he => Nat.find_min hex hj' ⟨by omega, he⟩
  have hji : Nat.find hex ≤ i := by
    apply Nat.find_min' hex
    refine ⟨hi, ?_⟩
    unfold get_dir
    rw [hrd2, getD_set_self _ _ _ _ hil]
    rfl
  generalize Nat.find hex = j at hj hje hjmin hji
  have hother : ∀ j', j' ≠ i → get_dir m2 j' = get_dir m j' := by
    intro j' hj'
    unfold get_dir
    rw [hrd2]
    exact getD_set_ne _ _ _ _ _ (Ne.symm hj')
  have hlow : ∀ j', j' < j →
      (get_dir m2 j').filename ≠ name ∧ (get_dir m2 j').filename ≠ [] := by
    intro j' hj'
    refine ⟨?_, hjmin j' hj'⟩
    rw [hother j' (by omega)]
    exact hfirst j' (by omega)
  have hcreate := fs_create_at m2 name j hm2 h1 h15 hj hje hlow
  have hjl : j < m2.root_dir.length := by
    rw [hrd2, List.length_set, hdir]; exact hj
  -- the lowest unused descriptor
  obtain ⟨hk, hknone⟩ := Nat.find_spec hslot
  have hkmin : ∀ k', k' < Nat.find hslot → m.filedes.getD k' none ≠ none :=
    fun k' hk' he => Nat.find_min hslot hk' ⟨by omega, he⟩
  generalize Nat.find hslot = k at hk hknone hkmin
  have hentry : get_dir (fs_create m2 name).2 j =
      { filename := name, file_sz := 0, first_data_blk := FAT_EOC,
        last_data_blk := FAT_EOC, open_ := 0, flag := 0 } := by
    rw [hcreate]
    exact getD_set_self _ _ _ _ hjl
  have hbefore : ∀ j', j' < j → (get_dir (fs_create m2 name).2 j').filename ≠ name := by
    intro j' hj'
    rw [hcreate]
    show (List.getD (m2.root_dir.set j _) j' zero_entry).filename ≠ name
    rw [getD_set_ne _ _ _ _ _ (by omega)]
    exact (hlow j' hj').1
  have hfd3 : (fs_create m2 name).2.filedes = m.filedes := by
    rw [hcreate]; exact hfd2
  have hopen := fs_open_at (fs_create m2 name).2 name j k (by rw [hcreate]; exact hm2)
    (by simp only [FS_FILENAME_LEN]; omega) (by rw [hcreate]; show m2.fd_cnt < 32; omega)
    (by rw [hfd3]; exact hflen) hj (by rw [hentry]) hbefore hk (by rw [hfd3]; exact hknone)
    (by rw [hfd3]; exact hkmin)
  have hkl : k < (fs_create m2 name).2.filedes.length := by
    rw [hfd3, hflen]; exact hk
  have hjl3 : j < (fs_create m2 name).2.root_dir.length := by
    rw [hcreate]
    show j < (m2.root_dir.set j _).length
    rw [List.length_set]; exact hjl
  have hslotk : ((fs_create m2 name).2.filedes.set k (some (⟨j, 0⟩ : FileDescriptor))).getD k none
      = some ⟨j, 0⟩ := getD_set_self _ _ _ _ hkl
  have hv : is_valid_fd (fs_open (fs_create m2 name).2 name).2 (k : Int) = true := by
    rw [hopen]
    exact is_valid_fd_of_some (by simpa [FS_OPEN_MAX_COUNT] using hk) hslotk
  have hget : fd_get (fs_open (fs_create m2 name).2 name).2 (k : Int) = ⟨j, 0⟩ := by
    rw [hopen]
    show (Option.getD (List.getD _ ((k : Int).toNat) none) _) = _
    rw [Int.toNat_ofNat, hslotk]
    rfl
  have hent3 : get_dir (fs_open (fs_create m2 name).2 name).2 j =
      { filename := name, file_sz := 0, first_data_blk := FAT_EOC,
        last_data_blk := FAT_EOC, open_ := 1, flag := FLAG_O } := by
    rw [hopen]
    show List.getD (List.set _ j _) j zero_entry = _
    rw [getD_set_self _ _ _ _ hjl3, hentry]
    rfl
  have hret : (fs_open (fs_create m2 name).2 name).1 = (k : Int) := by rw [hopen]
  refine ⟨m2, hdel, by rw [hcreate], by rw [hret]; omega, ?_, ?_⟩
  · rw [hret]
    unfold fs_stat
    rw [if_neg (by rw [hv]; decide), hget, hent3]
    exact toInt32_of_lt (by show (0 : Nat) < 2147483648; decide)
  · rw [hret, hget, hent3]

/-- C11. Create, delete, create again.  On a mounted volume (directory of 128 entries, a FAT
slot for each of the at most 65535 data blocks, a free descriptor) let `name` have 1 to 15
characters, be the name of no entry, and let some entry be empty.  Then `fs_create(name)`
returns 0, `fs_delete(name)` returns 0 and `fs_create(name)` returns 0 again; `fs_open(name)`
then gives a descriptor for which `fs_stat` returns 0, on an entry named `name` of size 0 whose
first block is `0xFFFF`.  The same holds when the file was written to between the first create
and the delete: after any sessions on the file (each `fs_open`, then any calls of `fs_lseek`,
`fs_read` and `fs_write` with any arguments on the descriptor, then `fs_close`) that return,
`fs_delete(name)` returns 0, `fs_create(name)` returns 0 and the new file has size 0 and no
block. -/
theorem create_delete_create (s : FsState) (name : List Nat)
    (hm : s.mounted = true) (hdir : s.root_dir.length = FS_FILE_MAX_COUNT)
    (hfat : s.sp.data_blk_count ≤ s.fat.length) (hdbc : s.sp.data_blk_count ≤ 65535)
    (h1 : 1 ≤ name.length) (h15 : name.length ≤ 15)
    (hfresh : ∀ j, j < FS_FILE_MAX_COUNT → (get_dir s j).filename ≠ name)
    (hroom : ∃ j, j < FS_FILE_MAX_COUNT ∧ (get_dir s j).filename = [])
    (hcnt : s.fd_cnt < 32) (hflen : s.filedes.length = FS_OPEN_MAX_COUNT)
    (hslot : ∃ k, k < FS_OPEN_MAX_COUNT ∧ s.filedes.getD k none = none) :
    (fs_create s name).1 = 0 ∧
    (∃ s2, fs_delete (fs_create s name).2 name = .ok (0, s2) ∧ (fs_create s2 name).1 = 0 ∧
      0 ≤ (fs_open (fs_create s2 name).2 name).1 ∧
      fs_stat (fs_open (fs_create s2 name).2 name).2 (fs_open (fs_create s2 name).2 name).1
        = 0 ∧
      (get_dir (fs_open (fs_create s2 name).2 name).2
        (fd_get (fs_open (fs_create s2 name).2 name).2
          (fs_open (fs_create s2 name).2 name).1).file_entry)
        = { filename := name, file_sz := 0, first_data_blk := FAT_EOC,
            last_data_blk := FAT_EOC, open_ := 1, flag := FLAG_O }) ∧
    (∀ (ss : List (List FileOp)) (m : FsState),
      run_sessions (fs_create s name).2 name ss = .ok m →
      ∃ m2, fs_delete m name = .ok (0, m2) ∧ (fs_create m2 name).1 = 0 ∧
        0 ≤ (fs_open (fs_create m2 name).2 name).1 ∧
        fs_stat (fs_open (fs_create m2 name).2 name).2 (fs_open (fs_create m2 name).2 name).1
          = 0 ∧
        (get_dir (fs_open (fs_create m2 name).2 name).2
          (fd_get (fs_open (fs_create m2 name).2 name).2
            (fs_open (fs_create m2 name).2 name).1).file_entry)
          = { filename := name, file_sz := 0, first_data_blk := FAT_EOC,
              last_data_blk := FAT_EOC, open_ := 1, flag := FLAG_O }) := by
  classical
  obtain ⟨hj, hje⟩ := Nat.find_spec hroom
  have hjmin : ∀ j', j' < Nat.find hroom → (get_dir s j').filename ≠ [] :=
    fun j' hj' he => Nat.find_min hroom hj' ⟨by omega, he⟩
  generalize Nat.find hroom = j at hj hje hjmin
  obtain ⟨hk, hknone⟩ := Nat.find_spec hslot
  have hkmin : ∀ k', k' < Nat.find hslot → s.filedes.getD k' none ≠ none :=
    fun k' hk' he => Nat.find_min hslot hk' ⟨by omega, he⟩
  generalize Nat.find hslot = k at hk hknone hkmin
  have hcreate := fs_create_at s name j hm h1 h15 hj hje
    (fun j' hj' => ⟨hfresh j' (by omega), hjmin j' hj'⟩)
  have hjl : j < s.root_dir.length := by rw [hdir]; exact hj
  have hentry : get_dir (fs_create s name).2 j =
      { filename := name, file_sz := 0, first_data_blk := FAT_EOC,
        last_data_blk := FAT_EOC, open_ := 0, flag := 0 } := by
    rw [hcreate]
    exact getD_set_self _ _ _ _ hjl
  have hfirst0 : ∀ i, i < j → (get_dir (fs_create s name).2 i).filename ≠ name := by
    intro i hi
    rw [hcreate]
    show (List.getD (s.root_dir.set j _) i zero_entry).filename ≠ name
    rw [getD_set_ne _ _ _ _ _ (by omega)]
    exact hfresh i (by omega)
  have hchain0 : FileChain (fs_create s name).2 j :=
    ⟨[], by rw [hentry]; exact rfl, fun h => absurd rfl h⟩
  have hm0 : (fs_create s name).2.mounted = true := by rw [hcreate]; exact hm
  have hdir0 : (fs_create s name).2.root_dir.length = FS_FILE_MAX_COUNT := by
    rw [hcreate]
    show (s.root_dir.set j _).length = _
    rw [List.length_set]; exact hdir
  have hfd0 : (fs_create s name).2.filedes = s.filedes := by rw [hcreate]
  -- what holds after the sessions
  have hafter : ∀ (ss : List (List FileOp)) (m : FsState),
      run_sessions (fs_create s name).2 name ss = .ok m →
      ∃ m2, fs_delete m name = .ok (0, m2) ∧ (fs_create m2 name).1 = 0 ∧
        0 ≤ (fs_open (fs_create m2 name).2 name).1 ∧
        fs_stat (fs_open (fs_create m2 name).2 name).2 (fs_open (fs_create m2 name).2 name).1
          = 0 ∧
        (get_dir (fs_open (fs_create m2 name).2 name).2
          (fd_get (fs_open (fs_create m2 name).2 name).2
            (fs_open (fs_create m2 name).2 name).1).file_entry)
          = { filename := name, file_sz := 0, first_data_blk := FAT_EOC,
              last_data_blk := FAT_EOC, open_ := 1, flag := FLAG_O } := by
    intro ss m hrun
    obtain ⟨hmm, hdirm, hfatm, hnames, hclosed, ⟨l, hchain, _⟩, hcntm, hflenm, hslots⟩ :=
      run_sessions_closed name j k (by simp only [FS_FILENAME_LEN]; omega) hj hk ss
        (fs_create s name).2 m hm0 hdir0 (by rw [hcreate]; exact hfat)
        (by rw [hcreate]; exact hdbc) (by rw [hcreate]; exact hcnt)
        (by rw [hfd0]; exact hflen) (by rw [hentry]) hfirst0 (by rw [hentry]) hchain0
        (by rw [hfd0]; exact hknone) (by rw [hfd0]; exact hkmin) hrun
    exact delete_create_open m name j l hmm hdirm hfatm h1 h15 hj
      (by rw [hnames, hentry])
      (fun i hi => by rw [hnames]; exact hfirst0 i hi) hclosed hchain
      (by rw [hcntm, hcreate]; exact hcnt) hflenm
      ⟨k, hk, by rw [hslots, hfd0]; exact hknone⟩
  exact ⟨by rw [hcreate], hafter [] _ rfl, hafter⟩

set_option maxRecDepth 100000 in
/-- C11, at a concrete input: on the empty volume with seven free blocks `fs_create("a")`
returns 0; after a session that writes 5000 bytes to the file (its size is then 5000),
`fs_delete("a")` returns 0, `fs_create("a")` returns 0 and `fs_stat` on the new descriptor
returns 0. -/
theorem create_delete_create_witness :
    (fs_create (fresh_vol 8) name_a).1 = 0 ∧
    ∃ m m2, run_sessions (fs_create (fresh_vol 8) name_a).2 name_a
        [[FileOp.write (List.replicate 5000 171) 5000]] = .ok m ∧
      (get_dir m 0).file_sz = 5000 ∧
      fs_delete m name_a = .ok (0, m2) ∧ (fs_create m2 name_a).1 = 0 ∧
      fs_stat (fs_open (fs_create m2 name_a).2 name_a).2
        (fs_open (fs_create m2 name_a).2 name_a).1 = 0 := by
  have h := create_delete_create (fresh_vol 8) name_a (by decide!) (by decide!) (by decide!)
    (by decide!) (by decide!) (by decide!) (by decide!) ⟨0, by decide!, by decide!⟩
    (by decide!) (by decide!) ⟨0, by decide!, by decide!⟩
  have hsz : (run_sessions (fs_create (fresh_vol 8) name_a).2 name_a
      [[FileOp.write (List.replicate 5000 171) 5000]]).map (fun m => (get_dir m 0).file_sz)
      = .ok 5000 := by decide!
  cases hrun : run_sessions (fs_create (fresh_vol 8) name_a).2 name_a
      [[FileOp.write (List.replicate 5000 171) 5000]] with
  | error e =>
    rw [hrun] at hsz
    exact absurd hsz (by simp [Except.map])
  | ok m =>
    rw [hrun] at hsz
    obtain ⟨m2, hd, hc, _, hs, _⟩ := h.2.2 _ m hrun
    refine ⟨h.1, m, m2, rfl, ?_, hd, hc, hs⟩
    simpa [Except.map] using hsz

/-! ## The size of a file after `fs_write` -/

theorem write_meta_ok_frame (s : FsState) (r : Int) (s' : FsState)
    (h : write_meta s = .ok (r, s')) :
    s'.root_dir = s.root_dir ∧ s'.filedes = s.filedes := by
  have hm : s.mounted = true := by
    by_contra hc
    unfold write_meta at h
    rw [if_pos (by simpa using hc)] at h
    exact absurd h (by simp)
  obtain ⟨r0, s0, h0, _, hrd, _, hfd, _⟩ := write_meta_frame s hm
  rw [h0] at h
  cases h
  exact ⟨hrd, hfd⟩

theorem set_flag_frame (s : FsState) (id c : Nat) :
    (set_flag s id c).filedes = s.filedes ∧
    (set_flag s id c).root_dir.length = s.root_dir.length ∧
    (get_dir (set_flag s id c) id).file_sz = (get_dir s id).file_sz := by
  refine ⟨rfl, List.length_set _ _ _, ?_⟩
  exact getD_set_field RootDirEntry.file_sz _ _ _ _ _ rfl

theorem alloc_first_frame (s : FsState) (id : Nat) (s2 : FsState)
    (h : alloc_first s id = .ok (some s2)) :
    s2.filedes = s.filedes ∧ s2.root_dir.length = s.root_dir.length ∧
    (get_dir s2 id).file_sz = (get_dir s id).file_sz := by
  unfold alloc_first at h
  by_cases hf : (get_dir s id).first_data_blk = FAT_EOC
  · rw [if_pos hf] at h
    by_cases hg : get_free_blk_idx s < 0
    · rw [if_pos hg] at h
      exact absurd h (by simp)
    · rw [if_neg hg] at h
      simp only [] at h
      cases hgf : get_fat (set_dir s id { get_dir s id with
          first_data_blk := (get_free_blk_idx s).toNat,
          last_data_blk := (get_free_blk_idx s).toNat }) (get_free_blk_idx s).toNat with
      | none =>
        rw [hgf] at h
        exact absurd h (by simp)
      | some p =>
        rw [hgf] at h
        simp only [Except.ok.injEq, Option.some.injEq] at h
        subst h
        refine ⟨rfl, List.length_set _ _ _, ?_⟩
        exact getD_set_field RootDirEntry.file_sz _ _ _ _ _ rfl
  · rw [if_neg hf] at h
    simp only [Except.ok.injEq, Option.some.injEq] at h
    subst h
    exact ⟨rfl, rfl, rfl⟩

/-- The end of `fs_write`: when it returns, the descriptors are untouched, the value returned is
the number `rc` of bytes counted as written, at most `count`, and the size is the larger of the
old size and `rc + offset` (in 32 bits). -/
theorem fs_write_commit_size (s : FsState) (id count offset : Nat) (l : Int) (nb : List Nat)
    (d : Disk) (r : Int) (s' : FsState) (hid : id < s.root_dir.length)
    (h : fs_write_commit s id count offset l nb d = .ok (r, s')) :
    s'.filedes = s.filedes ∧
    ∃ rc, rc ≤ count ∧ r = toInt32 rc ∧
      (get_dir s' id).file_sz =
        if rc + offset > (get_dir s id).file_sz then (rc + offset) % 4294967296
        else (get_dir s id).file_sz := by
  unfold fs_write_commit at h
  simp only [] at h
  cases hlink : link_new_blks s nb (get_fat s (get_dir s id).last_data_blk) s.fat
      (get_dir s id).last_data_blk with
  | error e =>
    rw [hlink] at h
    exact absurd h (by simp)
  | ok v =>
    obtain ⟨fat, last⟩ := v
    rw [hlink] at h
    simp only [] at h
    generalize hrc : (if l > 0 then count - l.toNat else count) = rc at h
    have hrcle : rc ≤ count := by
      rw [← hrc]
      split_ifs <;> omega
    generalize hs1 : ({ s with
        root_dir := s.root_dir.set id
          { get_dir s id with
            file_sz := if rc + offset > (get_dir s id).file_sz then (rc + offset) % 4294967296
              else (get_dir s id).file_sz
            last_data_blk := last }
        fat := fat
        sp := { s.sp with fat_used := u16 (s.sp.fat_used + nb.length) }
        disk := d } : FsState) = s1 at h
    cases hwm : write_meta s1 with
    | error e =>
      rw [hwm] at h
      exact absurd h (by simp)
    | ok w =>
      obtain ⟨rr, sM⟩ := w
      rw [hwm] at h
      simp only [Except.ok.injEq, Prod.mk.injEq] at h
      obtain ⟨hr, hs'⟩ := h
      obtain ⟨hrdM, hfdM⟩ := write_meta_ok_frame s1 rr sM hwm
      subst hs'
      refine ⟨?_, rc, hrcle, hr.symm, ?_⟩
      · rw [(set_flag_frame sM id FLAG_N).1, hfdM, ← hs1]
      · rw [(set_flag_frame sM id FLAG_N).2.2]
        unfold get_dir
        rw [hrdM, ← hs1]
        show (List.getD (s.root_dir.set id _) id zero_entry).file_sz = _
        rw [getD_set_self _ _ _ _ hid]
        rfl

/-- What every return of `fs_write` past its entry checks satisfies: the descriptor table is
the given one, and either 0 is returned with the size `sz` kept, or `rc <= count` is returned
and the size is the larger of `sz` and `rc + offset`. -/
theorem fs_write_finish_size (s2 : FsState) (id count offset : Nat) (res : Except Err WExit)
    (r : Int) (s' : FsState) (hid : id < s2.root_dir.length)
    (h : fs_write_finish s2 id count offset res = .ok (r, s')) :
    s'.filedes = s2.filedes ∧
    ((r = 0 ∧ (get_dir s' id).file_sz = (get_dir s2 id).file_sz) ∨
      ∃ rc, rc ≤ count ∧ r = toInt32 rc ∧
        (get_dir s' id).file_sz =
          if rc + offset > (get_dir s2 id).file_sz then (rc + offset) % 4294967296
          else (get_dir s2 id).file_sz) := by
  cases res with
  | error e =>
    rw [fs_write_finish] at h
    exact absurd h (by simp)
  | ok w =>
    cases w with
    | failed d1 =>
      rw [fs_write_finish] at h
      simp only [Except.ok.injEq, Prod.mk.injEq] at h
      obtain ⟨hr, hs'⟩ := h
      subst hs'
      exact ⟨rfl, Or.inl ⟨hr.symm, (set_flag_frame _ id FLAG_N).2.2⟩⟩
    | finished l nb d1 =>
      rw [fs_write_finish] at h
      obtain ⟨hfd, hrc⟩ := fs_write_commit_size s2 id count offset l nb d1 r s' hid h
      exact ⟨hfd, Or.inr hrc⟩

theorem fs_write_alloc_size (s1 : FsState) (fd : Int) (id : Nat) (buf : List Nat)
    (count offset : Nat) (lc : Int) (r : Int) (s' : FsState) (hid : id < s1.root_dir.length)
    (h : fs_write_alloc s1 fd id buf count offset lc (alloc_first s1 id) = .ok (r, s')) :
    s'.filedes = s1.filedes ∧
    ((r = 0 ∧ (get_dir s' id).file_sz = (get_dir s1 id).file_sz) ∨
      ∃ rc, rc ≤ count ∧ r = toInt32 rc ∧
        (get_dir s' id).file_sz =
          if rc + offset > (get_dir s1 id).file_sz then (rc + offset) % 4294967296
          else (get_dir s1 id).file_sz) := by
  cases ha : alloc_first s1 id with
  | error e =>
    rw [ha, fs_write_alloc] at h
    exact absurd h (by simp)
  | ok o =>
    cases o with
    | none =>
      rw [ha, fs_write_alloc] at h
      simp only [Except.ok.injEq, Prod.mk.injEq] at h
      obtain ⟨hr, hs'⟩ := h
      subst hs'
      exact ⟨rfl, Or.inl ⟨hr.symm, rfl⟩⟩
    | some s2 =>
      obtain ⟨hfdA, hlenA, hszA⟩ := alloc_first_frame s1 id s2 ha
      have hid2 : id < s2.root_dir.length := by rw [hlenA]; exact hid
      rw [ha, fs_write_alloc] at h
      rw [← hfdA, ← hszA]
      -- the starting block
      cases hst : start_blk s2 fd id offset with
      | error e =>
        rw [hst, fs_write_start] at h
        exact absurd h (by simp)
      | ok o2 =>
        cases o2 with
        | none =>
          rw [hst, fs_write_start] at h
          simp only [Except.ok.injEq, Prod.mk.injEq] at h
          obtain ⟨hr, hs'⟩ := h
          subst hs'
          exact ⟨rfl, Or.inl ⟨hr.symm, (set_flag_frame _ id FLAG_N).2.2⟩⟩
        | some p =>
          obtain ⟨wb, nb⟩ := p
          rw [hst, fs_write_start] at h
          -- the first block
          cases hfb : write_first_blk s2 id buf lc wb with
          | none =>
            rw [hfb, fs_write_blocks] at h
            simp only [Except.ok.injEq, Prod.mk.injEq] at h
            obtain ⟨hr, hs'⟩ := h
            subst hs'
            exact ⟨rfl, Or.inl ⟨hr.symm, (set_flag_frame _ id FLAG_N).2.2⟩⟩
          | some q =>
            obtain ⟨bi, d⟩ := q
            rw [hfb, fs_write_blocks] at h
            exact fs_write_finish_size s2 id count offset _ r s' hid2 h

/-- The size after a `fs_write` that returns a count. -/
theorem fs_write_grows (s : FsState) (fd : Int) (buf : List Nat) (count : Nat) (r : Int)
    (s' : FsState) (hv : is_valid_fd s fd = true)
    (hid : (fd_get s fd).file_entry < s.root_dir.length)
    (hc : (fd_get s fd).offset ≤ (get_dir s (fd_get s fd).file_entry).file_sz)
    (hrange : (get_dir s (fd_get s fd).file_entry).file_sz + count < 2147483648)
    (h : fs_write s fd buf count = .ok (r, s')) (hr : 0 ≤ r) :
    fs_stat s' fd =
      max ((get_dir s (fd_get s fd).file_entry).file_sz : Int) ((fd_get s fd).offset + r) := by
  generalize hidg : (fd_get s fd).file_entry = id at hid hc hrange h ⊢
  generalize hsz : (get_dir s id).file_sz = sz at hc hrange ⊢
  generalize hcur : (fd_get s fd).offset = c at hc h ⊢
  have key : s'.filedes = s.filedes ∧
      ((r = 0 ∧ (get_dir s' id).file_sz = sz) ∨
        ∃ rc, rc ≤ count ∧ r = toInt32 rc ∧
          (get_dir s' id).file_sz = if rc + c > sz then (rc + c) % 4294967296 else sz) := by
    unfold fs_write at h
    rw [if_neg (by rw [hv]; decide), hidg] at h
    by_cases hflag : (get_dir s id).flag = FLAG_W
    · rw [if_pos hflag] at h
      simp only [Except.ok.injEq, Prod.mk.injEq] at h
      omega
    rw [if_neg hflag] at h
    by_cases hcount : count = 0
    · rw [if_pos hcount] at h
      simp only [Except.ok.injEq, Prod.mk.injEq] at h
      obtain ⟨hr0, hs'⟩ := h
      subst hs'
      exact ⟨rfl, Or.inl ⟨hr0.symm, hsz⟩⟩
    rw [if_neg hcount, hcur, hsz, if_neg (by omega)] at h
    obtain ⟨hfd, hres⟩ := fs_write_alloc_size (set_flag s id FLAG_W) fd id buf count c _ r s'
      (by rw [(set_flag_frame s id FLAG_W).2.1]; exact hid) h
    rw [(set_flag_frame s id FLAG_W).2.2, hsz] at hres
    exact ⟨hfd, hres⟩
  obtain ⟨hfd, hres⟩ := key
  have hv' : is_valid_fd s' fd = true := by rw [is_valid_fd_congr fd hfd]; exact hv
  unfold fs_stat
  rw [if_neg (by rw [hv']; decide), fd_get_congr fd hfd, hidg]
  rcases hres with ⟨hr0, hsz'⟩ | ⟨rc, hrcle, hrrc, hsz'⟩
  · rw [hsz', hr0, toInt32_of_lt (by omega)]
    simp only [add_zero]
    rw [max_eq_left (by omega)]
  · rw [hrrc, toInt32_of_lt (show rc < 2147483648 by omega), hsz']
    by_cases hgt : rc + c > sz
    · rw [if_pos hgt, Nat.mod_eq_of_lt (by omega), toInt32_of_lt (by omega),
        max_eq_right (by omega)]
      push_cast
      omega
    · rw [if_neg hgt, toInt32_of_lt (by omega), max_eq_left (by omega)]

/-- C20. Size after write, for requests that fit the `int` the call returns.  `fs_write`
returns -1 and changes nothing on an invalid descriptor.  On a valid descriptor: a request with
`count = 0` on a file that is not busy returns 0 and changes nothing; a request with
`count > 0` whose cursor is beyond the size returns -1 and changes nothing; and when the cursor
`c` is at most the size `sz`, the entry lies in the directory and `sz + count < 2^31`, every
return value `r >= 0` comes with the size `max sz (c + r)` afterwards, as `fs_stat` reports
it. -/
theorem fs_write_size (s : FsState) (fd : Int) (buf : List Nat) (count : Nat) :
    (is_valid_fd s fd = false → fs_write s fd buf count = .ok (-1, s)) ∧
    (is_valid_fd s fd = true → (get_dir s (fd_get s fd).file_entry).flag ≠ FLAG_W →
      fs_write s fd buf 0 = .ok (0, s)) ∧
    (is_valid_fd s fd = true →
      (get_dir s (fd_get s fd).file_entry).file_sz < (fd_get s fd).offset → count ≠ 0 →
      fs_write s fd buf count = .ok (-1, s)) ∧
    (is_valid_fd s fd = true → (fd_get s fd).file_entry < s.root_dir.length →
      (fd_get s fd).offset ≤ (get_dir s (fd_get s fd).file_entry).file_sz →
      (get_dir s (fd_get s fd).file_entry).file_sz + count < 2147483648 →
      ∀ (r : Int) (s' : FsState), fs_write s fd buf count = .ok (r, s') → 0 ≤ r →
        fs_stat s' fd =
          max ((get_dir s (fd_get s fd).file_entry).file_sz : Int)
            ((fd_get s fd).offset + r)) := by
  refine ⟨?_, ?_, ?_, ?_⟩
  · intro hv
    unfold fs_write
    rw [if_pos hv]
  · intro hv hflag
    unfold fs_write
    rw [if_neg (by rw [hv]; decide), if_neg hflag, if_pos rfl]
  · intro hv hgt hcount
    unfold fs_write
    rw [if_neg (by rw [hv]; decide)]
    by_cases hflag : (get_dir s (fd_get s fd).file_entry).flag = FLAG_W
    · rw [if_pos hflag]
    · rw [if_neg hflag, if_neg hcount, if_pos hgt]
  · intro hv hid hc hrange r s' h hr
    exact fs_write_grows s fd buf count r s' hv hid hc hrange h hr

set_option maxRecDepth 100000 in
/-- C20, at a concrete input: on the file that holds 100 bytes, with the cursor at 100, a write
of ten bytes returns 10 and `fs_stat` then returns 110; a write of no byte returns 0 and
changes nothing; descriptor 32 is invalid. -/
theorem fs_write_size_witness :
    (∀ (r : Int) (s' : FsState),
      fs_write (fs_lseek vol_file100 0 100).2 0 (List.replicate 10 9) 10 = .ok (r, s') →
      0 ≤ r → fs_stat s' 0 = max 100 (100 + r)) ∧
    (fs_write (fs_lseek vol_file100 0 100).2 0 (List.replicate 10 9) 10).map Prod.fst
      = .ok 10 ∧
    fs_write vol_file100 0 [] 0 = .ok (0, vol_file100) ∧
    fs_write vol_file100 32 [1] 1 = .ok (-1, vol_file100) := by
  have h := (fs_write_size (fs_lseek vol_file100 0 100).2 0 (List.replicate 10 9) 10).2.2.2
    (by decide!) (by decide!) (by decide!) (by decide!)
  have e1 : (get_dir (fs_lseek vol_file100 0 100).2
      (fd_get (fs_lseek vol_file100 0 100).2 0).file_entry).file_sz = 100 := by decide!
  have e2 : (fd_get (fs_lseek vol_file100 0 100).2 0).offset = 100 := by decide!
  rw [e1, e2] at h
  exact ⟨h, by decide!,
    (fs_write_size vol_file100 0 [] 0).2.1 (by decide!) (by decide!),
    (fs_write_size vol_file100 32 [1] 1).1 (by decide!)⟩

set_option maxRecDepth 100000 in
/-- C20 fails as stated.  On the file of 100 bytes with cursor 0, `fs_write` with
`count = 2^32 + 5` returns 5 and `fs_stat` then returns 5, not `max 100 (0 + 5) = 100`: the
count is cut to the `int32_t` `leftover_count` and to the 32 bits of the size.  And with a
second descriptor whose cursor 100 is beyond the size 5 the file then has, a write with
`count = 0` returns 0, not -1, while a write with `count = 1` returns -1. -/
theorem fs_write_size_counterexample :
    is_valid_fd vol_file100 0 = true ∧ (fd_get vol_file100 0).offset = 0 ∧
    (get_dir vol_file100 (fd_get vol_file100 0).file_entry).file_sz = 100 ∧
    (fs_write vol_file100 0 [1, 2, 3, 4, 5] 4294967301).map (fun r => (r.1, fs_stat r.2 0))
      = .ok (5, 5) ∧
    (5 : Int) ≠ max 100 (0 + 5) ∧
    is_valid_fd vol_shrunk 1 = true ∧ (fd_get vol_shrunk 1).offset = 100 ∧
    (get_dir vol_shrunk (fd_get vol_shrunk 1).file_entry).file_sz = 5 ∧
    (get_dir vol_shrunk (fd_get vol_shrunk 1).file_entry).flag ≠ FLAG_W ∧
    (fs_write vol_shrunk 1 [1] 0).map Prod.fst = .ok 0 ∧
    (fs_write vol_shrunk 1 [1] 1).map Prod.fst = .ok (-1) := by
  decide!

/-! ## First-fit allocation -/

theorem scan_fat_none (fat : List Nat) :
    ∀ n i, (∀ j, i ≤ j → j < i + n → fat.getD j 0 ≠ 0) → scan_fat fat n i = -1 := by
  intro n
  induction n with
  | zero => intro i _; rfl
  | succ n ih =>
    intro i h
    rw [scan_fat, if_neg (h i (Nat.le_refl _) (by omega))]
    exact ih (i + 1) (fun j h1 h2 => h j (by omega) (by omega))

theorem scan_fat_least (fat : List Nat) :
    ∀ n i (k : Nat), scan_fat fat n i = (k : Int) →
      i ≤ k ∧ k < i + n ∧ fat.getD k 0 = 0 ∧ ∀ j, i ≤ j → j < k → fat.getD j 0 ≠ 0 := by
  intro n
  induction n with
  | zero =>
    intro i k h
    rw [scan_fat] at h
    omega
  | succ n ih =>
    intro i k h
    rw [scan_fat] at h
    by_cases hi : fat.getD i 0 = 0
    · rw [if_pos hi] at h
      have hik : i = k := by omega
      subst hik
      exact ⟨Nat.le_refl _, by omega, hi, fun j h1 h2 => by omega⟩
    · rw [if_neg hi] at h
      obtain ⟨h1, h2, h3, h4⟩ := ih (i + 1) k h
      refine ⟨by omega, by omega, h3, ?_⟩
      intro j hj1 hj2
      by_cases hji : j = i
      · subst hji; exact hi
      · exact h4 j (by omega) hj2

/-- C28. First-fit allocation.  `get_free_blk_idx` returns -1 when `fat_used` equals
`data_blk_count` or no slot `1 .. data_blk_count - 1` of the FAT holds 0; on a mounted volume
where neither is the case it returns the smallest index `i` with `1 <= i < data_blk_count` whose
slot holds 0.  A value it returns is never 0, and a non-negative value is the index of a slot
`1 .. data_blk_count - 1` that holds 0, below which every slot from 1 on is taken.  The function
maps the state to an `int` and returns no state: the FAT and the counters are as before. -/
theorem get_free_blk_idx_first_fit (s : FsState) :
    ((s.sp.fat_used = s.sp.data_blk_count ∨
        ∀ i, 1 ≤ i → i < s.sp.data_blk_count → fat_at s i ≠ 0) → get_free_blk_idx s = -1) ∧
    (s.mounted = true → s.sp.fat_used ≠ s.sp.data_blk_count →
      (∃ i, 1 ≤ i ∧ i < s.sp.data_blk_count ∧ fat_at s i = 0) →
      ∃ i : Nat, get_free_blk_idx s = (i : Int) ∧ 1 ≤ i ∧ i < s.sp.data_blk_count ∧
        fat_at s i = 0 ∧ ∀ j, 1 ≤ j → j < i → fat_at s j ≠ 0) ∧
    get_free_blk_idx s ≠ 0 ∧
    (∀ i : Nat, get_free_blk_idx s = (i : Int) →
      1 ≤ i ∧ i < s.sp.data_blk_count ∧ fat_at s i = 0 ∧ ∀ j, 1 ≤ j → j < i → fat_at s j ≠ 0) := by
  have hret : ∀ i : Nat, get_free_blk_idx s = (i : Int) →
      1 ≤ i ∧ i < s.sp.data_blk_count ∧ fat_at s i = 0 ∧
        ∀ j, 1 ≤ j → j < i → fat_at s j ≠ 0 := by
    intro i hi
    unfold get_free_blk_idx at hi
    by_cases hm : s.mounted = false
    · rw [if_pos hm] at hi
      omega
    rw [if_neg hm] at hi
    by_cases hu : (s.sp.data_blk_count : Int) - (s.sp.fat_used : Int) = 0
    · rw [if_pos hu] at hi
      omega
    rw [if_neg hu] at hi
    obtain ⟨h1, h2, h3, h4⟩ := scan_fat_least s.fat _ 1 i hi
    exact ⟨h1, by omega, h3, h4⟩
  refine ⟨?_, ?_, ?_, hret⟩
  · intro h
    unfold get_free_blk_idx
    by_cases hm : s.mounted = false
    · rw [if_pos hm]
    rw [if_neg hm]
    by_cases hu : (s.sp.data_blk_count : Int) - (s.sp.fat_used : Int) = 0
    · rw [if_pos hu]
    rw [if_neg hu]
    rcases h with h | h
    · omega
    · exact scan_fat_none s.fat _ 1 (fun j h1 h2 => h j h1 (by omega))
  · intro hm hu ⟨i, hi1, hi2, hi0⟩
    have hex : ∃ k, (1 ≤ k ∧ k < s.sp.data_blk_count ∧ fat_at s k = 0) := ⟨i, hi1, hi2, hi0⟩
    classical
    let k := Nat.find hex
    have hk : 1 ≤ k ∧ k < s.sp.data_blk_count ∧ fat_at s k = 0 := Nat.find_spec hex
    have hmin : ∀ j, 1 ≤ j → j < k → fat_at s j ≠ 0 := by
      intro j hj1 hj2 hj0
      exact Nat.find_min hex hj2 ⟨hj1, by omega, hj0⟩
    refine ⟨k, ?_, hk.1, hk.2.1, hk.2.2, hmin⟩
    unfold get_free_blk_idx
    rw [if_neg (by simp [hm]), if_neg (by omega)]
    exact scan_fat_found s.fat k hk.2.2 _ 1 hk.1 (by omega) hmin
  · intro h0
    have := hret 0 (by simpa using h0)
    omega

theorem get_free_blk_idx_first_fit_witness :
    (fresh_vol 8).mounted = true ∧ (fresh_vol 8).sp.fat_used ≠ (fresh_vol 8).sp.data_blk_count ∧
    ∃ i : Nat, get_free_blk_idx (fresh_vol 8) = (i : Int) ∧ 1 ≤ i ∧
      i < (fresh_vol 8).sp.data_blk_count ∧ fat_at (fresh_vol 8) i = 0 ∧
      ∀ j, 1 ≤ j → j < i → fat_at (fresh_vol 8) j ≠ 0 :=
  ⟨rfl, by decide,
    (get_free_blk_idx_first_fit (fresh_vol 8)).2.1 rfl (by decide) ⟨1, by decide, by decide, by decide⟩⟩

/-! ## The descriptors under `fs_write` -/

theorem fs_write_commit_filedes (s : FsState) (id count offset : Nat) (l : Int) (nb : List Nat)
    (d : Disk) (r : Int) (s' : FsState)
    (h : fs_write_commit s id count offset l nb d = .ok (r, s')) :
    s'.filedes = s.filedes := by
  unfold fs_write_commit at h
  simp only [] at h
  cases hlink : link_new_blks s nb (get_fat s (get_dir s id).last_data_blk) s.fat
      (get_dir s id).last_data_blk with
  | error e =>
    rw [hlink] at h
    exact absurd h (by simp)
  | ok v =>
    obtain ⟨fat, last⟩ := v
    rw [hlink] at h
    simp only [] at h
    generalize hrc : (if l > 0 then count - l.toNat else count) = rc at h
    generalize hs1 : ({ s with
        root_dir := s.root_dir.set id
          { get_dir s id with
            file_sz := if rc + offset > (get_dir s id).file_sz then (rc + offset) % 4294967296
              else (get_dir s id).file_sz
            last_data_blk := last }
        fat := fat
        sp := { s.sp with fat_used := u16 (s.sp.fat_used + nb.length) }
        disk := d } : FsState) = s1 at h
    cases hwm : write_meta s1 with
    | error e =>
      rw [hwm] at h
      exact absurd h (by simp)
    | ok w =>
      obtain ⟨rr, sM⟩ := w
      rw [hwm] at h
      simp only [Except.ok.injEq, Prod.mk.injEq] at h
      obtain ⟨_, hs'⟩ := h
      obtain ⟨_, hfdM⟩ := write_meta_ok_frame s1 rr sM hwm
      subst hs'
      rw [(set_flag_frame sM id FLAG_N).1, hfdM, ← hs1]

theorem alloc_first_filedes (s : FsState) (id : Nat) (s2 : FsState)
    (h : alloc_first s id = .ok (some s2)) : s2.filedes = s.filedes := by
  unfold alloc_first at h
  by_cases hf : (get_dir s id).first_data_blk = FAT_EOC
  · rw [if_pos hf] at h
    by_cases hg : get_free_blk_idx s < 0
    · rw [if_pos hg] at h
      exact absurd h (by simp)
    · rw [if_neg hg] at h
      simp only [] at h
      cases hgf : get_fat (set_dir s id { get_dir s id with
          first_data_blk := (get_free_blk_idx s).toNat,
          last_data_blk := (get_free_blk_idx s).toNat }) (get_free_blk_idx s).toNat with
      | none =>
        rw [hgf] at h
        exact absurd h (by simp)
      | some p =>
        rw [hgf] at h
        simp only [Except.ok.injEq, Option.some.injEq] at h
        subst h
        rfl
  · rw [if_neg hf] at h
    simp only [Except.ok.injEq, Option.some.injEq] at h
    subst h
    rfl

/-- Every return of `fs_write` past its entry checks leaves the descriptor table as it was. -/
theorem fs_write_alloc_filedes (s1 : FsState) (fd : Int) (id : Nat) (buf : List Nat)
    (count offset : Nat) (lc : Int) (r : Int) (s' : FsState)
    (h : fs_write_alloc s1 fd id buf count offset lc (alloc_first s1 id) = .ok (r, s')) :
    s'.filedes = s1.filedes := by
  cases ha : alloc_first s1 id with
  | error e =>
    rw [ha, fs_write_alloc] at h
    exact absurd h (by simp)
  | ok o =>
    cases o with
    | none =>
      rw [ha, fs_write_alloc] at h
      simp only [Except.ok.injEq, Prod.mk.injEq] at h
      obtain ⟨_, hs'⟩ := h
      subst hs'
      rfl
    | some s2 =>
      have hfdA := alloc_first_filedes s1 id s2 ha
      rw [ha, fs_write_alloc] at h
      rw [← hfdA]
      cases hst : start_blk s2 fd id offset with
      | error e =>
        rw [hst, fs_write_start] at h
        exact absurd h (by simp)
      | ok o2 =>
        cases o2 with
        | none =>
          rw [hst, fs_write_start] at h
          simp only [Except.ok.injEq, Prod.mk.injEq] at h
          obtain ⟨_, hs'⟩ := h
          subst hs'
          rfl
        | some p =>
          obtain ⟨wb, nb⟩ := p
          rw [hst, fs_write_start] at h
          cases hfb : write_first_blk s2 id buf lc wb with
          | none =>
            rw [hfb, fs_write_blocks] at h
            simp only [Except.ok.injEq, Prod.mk.injEq] at h
            obtain ⟨_, hs'⟩ := h
            subst hs'
            rfl
          | some q =>
            obtain ⟨bi, d⟩ := q
            rw [hfb, fs_write_blocks] at h
            cases hloop : fs_write_loop s2 buf (int_sub lc bi).toNat (int_sub lc bi) wb nb bi d with
            | error e =>
              rw [hloop, fs_write_finish] at h
              exact absurd h (by simp)
            | ok w =>
              cases w with
              | failed d1 =>
                rw [hloop, fs_write_finish] at h
                simp only [Except.ok.injEq, Prod.mk.injEq] at h
                obtain ⟨_, hs'⟩ := h
                subst hs'
                rfl
              | finished l nb1 d1 =>
                rw [hloop, fs_write_finish] at h
                exact fs_write_commit_filedes s2 id count offset l nb1 d1 r s' h

/-- A call of `fs_write` that returns leaves the descriptor table as it was. -/
theorem fs_write_filedes (s : FsState) (fd : Int) (buf : List Nat) (count : Nat) (r : Int)
    (s' : FsState) (h : fs_write s fd buf count = .ok (r, s')) : s'.filedes = s.filedes := by
  unfold fs_write at h
  by_cases hv : is_valid_fd s fd = false
  · rw [if_pos hv] at h
    simp only [Except.ok.injEq, Prod.mk.injEq] at h
    rw [← h.2]
  rw [if_neg hv] at h
  by_cases hflag : (get_dir s (fd_get s fd).file_entry).flag = FLAG_W
  · rw [if_pos hflag] at h
    simp only [Except.ok.injEq, Prod.mk.injEq] at h
    rw [← h.2]
  rw [if_neg hflag] at h
  by_cases hcount : count = 0
  · rw [if_pos hcount] at h
    simp only [Except.ok.injEq, Prod.mk.injEq] at h
    rw [← h.2]
  rw [if_neg hcount] at h
  by_cases hoff : (fd_get s fd).offset > (get_dir s (fd_get s fd).file_entry).file_sz
  · rw [if_pos hoff] at h
    simp only [Except.ok.injEq, Prod.mk.injEq] at h
    rw [← h.2]
  rw [if_neg hoff] at h
  generalize toInt32 count = lc at h
  exact (fs_write_alloc_filedes _ fd _ buf count _ lc r s' h).trans
    (set_flag_frame s _ FLAG_W).1

/-- C21. Write does not move the cursor.  Whatever a call `fs_write(fd, buf, count)` returns,
the descriptor table after it is the table before it: every descriptor, `fd` and the others, is
open or closed as before, points to the same entry and has the same cursor. -/
theorem fs_write_keeps_cursors (s : FsState) (fd : Int) (buf : List Nat) (count : Nat) (r : Int)
    (s' : FsState) (h : fs_write s fd buf count = .ok (r, s')) :
    ∀ x : Int, is_valid_fd s' x = is_valid_fd s x ∧ fd_slot s' x = fd_slot s x ∧
      (fd_get s' x).offset = (fd_get s x).offset ∧
      (fd_get s' x).file_entry = (fd_get s x).file_entry := by
  intro x
  have hfd := fs_write_filedes s fd buf count r s' h
  have hslot : fd_slot s' x = fd_slot s x := by unfold fd_slot; rw [hfd]
  refine ⟨is_valid_fd_congr x hfd, hslot, ?_, ?_⟩
  · rw [fd_get_congr x hfd]
  · rw [fd_get_congr x hfd]

set_option maxRecDepth 100000 in
theorem fs_write_keeps_cursors_witness :
    (fs_write (fs_lseek vol_two_fd 1 100).2 0 [1, 2, 3] 3).map Prod.fst = .ok 3 ∧
    (fd_get (write_state (fs_lseek vol_two_fd 1 100).2 0 [1, 2, 3] 3) 0).offset = 0 ∧
    (fd_get (write_state (fs_lseek vol_two_fd 1 100).2 0 [1, 2, 3] 3) 1).offset = 100 ∧
    ∀ x : Int,
      (fd_get (write_state (fs_lseek vol_two_fd 1 100).2 0 [1, 2, 3] 3) x).offset
        = (fd_get (fs_lseek vol_two_fd 1 100).2 x).offset := by
  have hrun : ∃ r, fs_write (fs_lseek vol_two_fd 1 100).2 0 [1, 2, 3] 3
      = .ok (r, write_state (fs_lseek vol_two_fd 1 100).2 0 [1, 2, 3] 3) := by
    unfold write_state
    cases h : fs_write (fs_lseek vol_two_fd 1 100).2 0 [1, 2, 3] 3 with
    | error e =>
      have : (fs_write (fs_lseek vol_two_fd 1 100).2 0 [1, 2, 3] 3).map Prod.fst = .ok 3 := by
        decide!
      rw [h] at this
      exact absurd this (by simp [Except.map])
    | ok v => exact ⟨v.1, rfl⟩
  obtain ⟨r, hr⟩ := hrun
  refine ⟨by decide!, by decide!, by decide!, fun x => ?_⟩
  exact (fs_write_keeps_cursors _ 0 [1, 2, 3] 3 r _ hr x).2.2.1

/-! ## The walk of `erase_fat` -/

theorem get_fat_some {s : FsState} {x : Nat} (hm : s.mounted = true) (h1 : x < s.sp.data_blk_count)
    (h2 : x ≠ 0xFFFF) : get_fat s x = some x := by
  unfold get_fat
  rw [if_neg (by simp [hm, h2]), if_neg (by omega)]

/-- Once the walk of `erase_fat` stands at slot 0 and slot 0 holds 0, it stays there: no number
of iterations ends the loop. -/
theorem erase_fat_loop_stuck (s : FsState) (hm : s.mounted = true)
    (hd : 0 < s.sp.data_blk_count) :
    ∀ (fuel : Nat) (fat : List Nat) (used : Nat), fat.getD 0 0 = 0 →
      erase_fat_loop s fuel fat used 0 = .error .timeout := by
  intro fuel
  induction fuel with
  | zero => intro fat used _; rfl
  | succ n ih =>
    intro fat used h0
    rw [erase_fat_loop, if_pos (by rw [h0]; decide), h0,
      get_fat_some hm hd (by decide)]
    simp only []
    apply ih
    by_cases hl : 0 < fat.length
    · exact getD_set_self fat 0 0 0 hl
    · rw [List.getD_eq_default _ _ (by rw [List.length_set]; omega)]

/-- A cycle of two slots `p` and `q` in a FAT whose slot 0 holds 0: the walk of `erase_fat` from
`p` zeroes `p` and `q`, comes back to `p`, reads 0 there, moves to slot 0 and never ends. -/
theorem erase_fat_loop_cycle (s : FsState) (hm : s.mounted = true) (fat : List Nat) (p q : Nat)
    (hp : fat.getD p 0 = q) (hq : fat.getD q 0 = p) (h0 : fat.getD 0 0 = 0)
    (hp0 : p ≠ 0) (hq0 : q ≠ 0) (hpq : p ≠ q)
    (hpd : p < s.sp.data_blk_count) (hqd : q < s.sp.data_blk_count)
    (hpe : p ≠ 0xFFFF) (hqe : q ≠ 0xFFFF) (hpl : p < fat.length) :
    ∀ (fuel used : Nat), erase_fat_loop s fuel fat used p = .error .timeout := by
  intro fuel used
  cases fuel with
  | zero => rfl
  | succ n =>
    rw [erase_fat_loop, if_pos (by rw [hp]; exact hqe), hp, get_fat_some hm hqd hqe]
    simp only []
    cases n with
    | zero => rfl
    | succ n =>
      have e1 : (fat.set p 0).getD q 0 = p := by rw [getD_set_ne _ _ _ _ _ hpq]; exact hq
      rw [erase_fat_loop, if_pos (by rw [e1]; exact hpe), e1, get_fat_some hm hpd hpe]
      simp only []
      cases n with
      | zero => rfl
      | succ n =>
        have e2 : ((fat.set p 0).set q 0).getD p 0 = 0 := by
          rw [getD_set_ne _ _ _ _ _ (Ne.symm hpq)]
          exact getD_set_self fat p 0 0 hpl
        rw [erase_fat_loop, if_pos (by rw [e2]; decide), e2,
          get_fat_some hm (by omega) (by decide)]
        simp only []
        apply erase_fat_loop_stuck s hm (by omega)
        rw [getD_set_ne _ _ _ _ _ hp0, getD_set_ne _ _ _ _ _ hq0, getD_set_ne _ _ _ _ _ hp0]
        exact h0

/-- C30. Bounded chain traversal on a well-formed chain.  On a mounted volume whose FAT has a
slot for every data block, let the FAT link the blocks `l` into a chain from `head` (distinct
data blocks other than block 0, each slot holding the next block, the last slot holding
`0xFFFF`).  Then `l` has at most `data_blk_count` blocks, and the walk of `erase_fat` from
`head` ends as soon as it may test its loop condition once per block of the chain, so it ends
within `data_blk_count` iterations: `erase_fat` returns, with every slot of the chain zeroed and
every other slot as before.  (For the empty chain `head` is `0xFFFF`, `get_fat` gives `NULL`
and `erase_fat` returns at once.) -/
theorem erase_fat_bounded (s : FsState) (head : Nat) (l : List Nat) (hm : s.mounted = true)
    (hfat : s.sp.data_blk_count ≤ s.fat.length) (hchain : IsChain s head l) :
    l.length ≤ s.sp.data_blk_count ∧
    ∀ fuel, l.length ≤ fuel →
      ∃ r s', erase_fat fuel s (get_fat s head) = .ok (r, s') ∧
        (∀ j, j ∈ l → fat_at s' j = 0) ∧ (∀ j, j ∉ l → fat_at s' j = fat_at s j) ∧
        s'.fat.length = s.fat.length ∧ s'.root_dir = s.root_dir ∧ s'.filedes = s.filedes := by
  refine ⟨isChain_length_le s l head hchain, ?_⟩
  intro fuel hfuel
  cases l with
  | nil =>
    have hh : head = FAT_EOC := hchain
    have hg : get_fat s head = none := by
      unfold get_fat
      rw [if_pos (Or.inr (show head = 65535 from hh))]
    rw [hg]
    refine ⟨-1, s, ?_, fun j hj => absurd hj (List.not_mem_nil _), fun _ _ => rfl, rfl, rfl, rfl⟩
    unfold erase_fat
    rw [if_neg (by rw [hm]; decide)]
  | cons x r =>
    have hc := hchain
    rw [isChain_cons] at hc
    obtain ⟨hbx, hx1, hxlt, hxne, htail⟩ := hc
    have hchain' : IsChain { s with fat := s.fat } x (x :: r) :=
      (isChain_cons s x x r).mpr ⟨rfl, hx1, hxlt, hxne, htail⟩
    obtain ⟨fat', hrun, hlen', hzero, hkeep⟩ :=
      erase_fat_loop_chain s hm r x fuel s.fat s.sp.fat_used hchain'
        (by rw [List.length_cons] at hfuel; exact hfuel) hfat
    rw [hbx, get_fat_of_chain hm hxlt hxne]
    refine ⟨0, { s with fat := fat', sp := { s.sp with
      fat_used := (s.sp.fat_used + (r.length + 1) * 65535) % 65536 } }, ?_, hzero, hkeep,
      hlen', rfl, rfl⟩
    unfold erase_fat
    rw [if_neg (by rw [hm]; decide)]
    simp only []
    rw [hrun]

set_option maxRecDepth 100000 in
/-- C30, at a concrete input: in `vol_closed_a` the file `"a"` has the chain 1, 2 on a volume
of 8 data blocks, and the walk of `erase_fat` from block 1 ends within 8 iterations, in fact
within 2, with the slots 1 and 2 zeroed. -/
theorem erase_fat_bounded_witness :
    IsChain vol_closed_a 1 [1, 2] ∧ vol_closed_a.sp.data_blk_count = 8 ∧
    (∃ r s', erase_fat 8 vol_closed_a (get_fat vol_closed_a 1) = .ok (r, s') ∧
      (∀ j, j ∈ [1, 2] → fat_at s' j = 0)) ∧
    (∃ r s', erase_fat 2 vol_closed_a (get_fat vol_closed_a 1) = .ok (r, s') ∧
      (∀ j, j ∈ [1, 2] → fat_at s' j = 0)) := by
  have hc : IsChain vol_closed_a 1 [1, 2] := by decide!
  have hb := (erase_fat_bounded vol_closed_a 1 [1, 2] (by decide!) (by decide!) hc).2
  refine ⟨hc, by decide!, ?_, ?_⟩
  · obtain ⟨r, s', h1, h2, _⟩ := hb 8 (by decide)
    exact ⟨r, s', h1, h2⟩
  · obtain ⟨r, s', h1, h2, _⟩ := hb 2 (by decide)
    exact ⟨r, s', h1, h2⟩

/-! ## Chain length and size -/

theorem chainMatchesSize_iff (s : FsState) (id : Nat) (l : List Nat)
    (h : IsChain s (get_dir s id).first_data_blk l) (hsz : 0 < (get_dir s id).file_sz) :
    ChainMatchesSize s id ↔ l.length = ((get_dir s id).file_sz + BLOCK_SIZE - 1) / BLOCK_SIZE := by
  constructor
  · intro hc
    obtain ⟨l', hl', _, hlen⟩ := hc hsz
    rw [isChain_unique s l l' _ h hl']
    exact hlen
  · intro hlen _
    exact ⟨l, h, isChain_nodup s l _ h, hlen⟩

theorem chainMatchesSize_of_zero (s : FsState) (id : Nat) (h : (get_dir s id).file_sz = 0) :
    ChainMatchesSize s id := by
  intro hpos
  omega

/-! ## The bytes of the metadata -/

theorem pad_to_length (n : Nat) (l : List Nat) : (pad_to n l).length = n := by
  unfold pad_to
  rw [List.length_take, List.length_append, List.length_replicate]
  omega

theorem pad_to_of_length {n : Nat} {l : List Nat} (h : l.length = n) : pad_to n l = l := by
  unfold pad_to
  rw [List.take_append_of_le_length (by omega), List.take_of_length_le (by omega)]

theorem getD_pad_to (n : Nat) (l : List Nat) (i : Nat) (h : i < n) :
    (pad_to n l).getD i 0 = l.getD i 0 := by
  unfold pad_to
  rw [List.getD_eq_getElem?_getD, List.getD_eq_getElem?_getD, List.getElem?_take_of_lt h]
  by_cases hi : i < l.length
  · rw [List.getElem?_append_left hi]
  · rw [List.getElem?_append_right (by omega), List.getElem?_replicate,
      List.getElem?_eq_none (by omega)]
    split <;> rfl

theorem getD_append_at (l₁ l₂ : List Nat) (k j : Nat) (h : l₁.length = k) :
    (l₁ ++ l₂).getD (k + j) 0 = l₂.getD j 0 := by
  rw [List.getD_eq_getElem?_getD, List.getD_eq_getElem?_getD,
    List.getElem?_append_right (by omega)]
  congr 2
  omega

theorem rd16_le16 (n : Nat) (rest : List Nat) (h : n < 65536) : rd16 (le16 n ++ rest) 0 = n := by
  unfold rd16 le16
  simp only [List.cons_append, List.getD_cons_zero, List.getD_cons_succ, zero_add]
  omega

theorem rd16_at (l₁ l₂ : List Nat) (k : Nat) (h : l₁.length = k) :
    rd16 (l₁ ++ l₂) k = rd16 l₂ 0 := by
  unfold rd16
  have e0 := getD_append_at l₁ l₂ k 0 h
  have e1 := getD_append_at l₁ l₂ k 1 h
  rw [Nat.add_zero] at e0
  rw [e0, e1]

theorem rd32_le32 (n : Nat) (rest : List Nat) (h : n < 4294967296) :
    rd32 (le32 n ++ rest) 0 = n := by
  unfold rd32 le32
  simp only [List.cons_append, List.getD_cons_zero, List.getD_cons_succ, zero_add]
  omega

theorem rd32_at (l₁ l₂ : List Nat) (k : Nat) (h : l₁.length = k) :
    rd32 (l₁ ++ l₂) k = rd32 l₂ 0 := by
  unfold rd32
  have e0 := getD_append_at l₁ l₂ k 0 h
  have e1 := getD_append_at l₁ l₂ k 1 h
  have e2 := getD_append_at l₁ l₂ k 2 h
  have e3 := getD_append_at l₁ l₂ k 3 h
  rw [Nat.add_zero] at e0
  rw [e0, e1, e2, e3]

theorem slots_of_le16 :
    ∀ (l rest : List Nat), (∀ x ∈ l, x < 65536) →
      slots_of_bytes l.length (l.flatMap le16 ++ rest) = l := by
  intro l
  induction l with
  | nil => intro rest _; rfl
  | cons x xs ih =>
    intro rest h
    rw [List.length_cons, slots_of_bytes, List.flatMap_cons, List.append_assoc,
      rd16_le16 x _ (h x (List.mem_cons_self _ _))]
    have hd : (le16 x ++ (xs.flatMap le16 ++ rest)).drop 2 = xs.flatMap le16 ++ rest := rfl
    rw [hd, ih rest (fun y hy => h y (List.mem_cons_of_mem _ hy))]

theorem length_flatMap_le16 (l : List Nat) : (l.flatMap le16).length = 2 * l.length := by
  induction l with
  | nil => rfl
  | cons x xs ih =>
    rw [List.flatMap_cons, List.length_append, ih, List.length_cons]
    show 2 + 2 * xs.length = 2 * (xs.length + 1)
    omega

/-- The slots read back from the block that `write_meta` writes for the part `i` of the FAT. -/
theorem slots_of_fat_bytes (fat : List Nat) (i : Nat) (hlen : 2048 * (i + 1) ≤ fat.length)
    (hu : ∀ x ∈ fat, x < 65536) :
    slots_of_bytes (BLOCK_SIZE / 2) (fat_bytes fat i) = (fat.drop (2048 * i)).take 2048 := by
  have hl : ((fat.drop (2048 * i)).take 2048).length = 2048 := by
    rw [List.length_take, List.length_drop]
    omega
  unfold fat_bytes
  have h1 : BLOCK_SIZE / 2 = 2048 := rfl
  rw [h1]
  rw [pad_to_of_length (by rw [length_flatMap_le16, hl]; rfl)]
  have h2 := slots_of_le16 ((fat.drop (2048 * i)).take 2048) []
    (fun x hx => hu x (List.mem_of_mem_drop (List.mem_of_mem_take hx)))
  rw [hl, List.append_nil] at h2
  exact h2

/-- The FAT read back from the blocks that `write_meta` writes. -/
theorem read_fat_blocks_written (d : Disk) (fat : List Nat) (hu : ∀ x ∈ fat, x < 65536) :
    ∀ (n i : Nat), fat.length = 2048 * (i + n) →
      (∀ j, i ≤ j → j < i + n → d[1 + j]? = some (fat_bytes fat j)) →
      read_fat_blocks d n i = some (fat.drop (2048 * i)) := by
  intro n
  induction n with
  | zero =>
    intro i hlen _
    rw [read_fat_blocks, List.drop_of_length_le (by omega)]
  | succ n ih =>
    intro i hlen hb
    have hbi : block_read d (i + 1) = some (fat_bytes fat i) := by
      unfold block_read
      rw [Nat.add_comm i 1]
      exact hb i (Nat.le_refl _) (by omega)
    rw [read_fat_blocks, hbi]
    simp only []
    rw [ih (i + 1) (by omega) (fun j h1 h2 => hb j (by omega) (by omega))]
    simp only []
    rw [slots_of_fat_bytes fat i (by omega) hu]
    congr 1
    have e : fat.drop (2048 * (i + 1)) = (fat.drop (2048 * i)).drop 2048 := by
      rw [List.drop_drop, Nat.mul_succ]
    rw [e, List.take_append_drop]

theorem takeWhile_pad_to (name : List Nat) (n : Nat) (hlen : name.length < n)
    (h0 : ∀ c ∈ name, c ≠ 0) :
    (pad_to n name).takeWhile (fun c => c ≠ 0) = name := by
  unfold pad_to
  rw [List.take_append_eq_append_take, List.take_of_length_le (by omega), List.take_replicate]
  obtain ⟨k, hk⟩ : ∃ k, min (n - name.length) n = k + 1 := ⟨min (n - name.length) n - 1, by omega⟩
  rw [hk, List.replicate_succ, List.takeWhile_append_of_pos (by simpa using h0)]
  simp

theorem entry_bytes_append (e : RootDirEntry) (t : List Nat) :
    entry_bytes e ++ t = pad_to FS_FILENAME_LEN e.filename ++
      (e.file_sz % 256 :: e.file_sz / 256 % 256 :: e.file_sz / 65536 % 256 ::
        e.file_sz / 16777216 % 256 :: e.first_data_blk % 256 :: e.first_data_blk / 256 % 256 ::
        e.last_data_blk % 256 :: e.last_data_blk / 256 % 256 :: e.open_ % 256 :: e.flag % 256 ::
        0 :: 0 :: 0 :: 0 :: 0 :: 0 :: t) := by
  unfold entry_bytes le32 le16
  simp [List.append_assoc, List.replicate]

theorem entry_bytes_length (e : RootDirEntry) : (entry_bytes e).length = 32 := by
  have h := congrArg List.length (entry_bytes_append e [])
  rw [List.append_nil, List.length_append, pad_to_length] at h
  rw [h]
  rfl

/-- A directory entry that fits its fields is read back from its 32 bytes. -/
theorem entry_of_entry_bytes (e : RootDirEntry) (t : List Nat) (h : EntryFits e) :
    entry_of_bytes (entry_bytes e ++ t) = e := by
  obtain ⟨hlen, hname, hsz, hfirst, hlast, hopen, hflag⟩ := h
  rw [entry_bytes_append]
  generalize htail : (e.file_sz % 256 :: e.file_sz / 256 % 256 :: e.file_sz / 65536 % 256 ::
        e.file_sz / 16777216 % 256 :: e.first_data_blk % 256 :: e.first_data_blk / 256 % 256 ::
        e.last_data_blk % 256 :: e.last_data_blk / 256 % 256 :: e.open_ % 256 :: e.flag % 256 ::
        0 :: 0 :: 0 :: 0 :: 0 :: 0 :: t) = tail
  have hP : (pad_to FS_FILENAME_LEN e.filename).length = 16 := pad_to_length _ _
  have hP' : (pad_to FS_FILENAME_LEN e.filename).length = FS_FILENAME_LEN := pad_to_length _ _
  have g : ∀ k, (pad_to FS_FILENAME_LEN e.filename ++ tail).getD (16 + k) 0 = tail.getD k 0 :=
    fun k => getD_append_at _ tail 16 k hP
  have hn : ((pad_to FS_FILENAME_LEN e.filename ++ tail).take FS_FILENAME_LEN).takeWhile
      (fun c => c ≠ 0) = e.filename := by
    rw [List.take_left' hP']
    exact takeWhile_pad_to e.filename _ hlen (fun c hc => (hname c hc).1)
  have hsz' : rd32 (pad_to FS_FILENAME_LEN e.filename ++ tail) 16 = e.file_sz := by
    unfold rd32
    rw [g 0, g 1, g 2, g 3, ← htail]
    simp only [List.getD_cons_zero, List.getD_cons_succ]
    omega
  have hf' : rd16 (pad_to FS_FILENAME_LEN e.filename ++ tail) 20 = e.first_data_blk := by
    unfold rd16
    rw [g 4, g 5, ← htail]
    simp only [List.getD_cons_zero, List.getD_cons_succ]
    omega
  have hl' : rd16 (pad_to FS_FILENAME_LEN e.filename ++ tail) 22 = e.last_data_blk := by
    unfold rd16
    rw [g 6, g 7, ← htail]
    simp only [List.getD_cons_zero, List.getD_cons_succ]
    omega
  have ho' : (pad_to FS_FILENAME_LEN e.filename ++ tail).getD 24 0 = e.open_ := by
    rw [g 8, ← htail]
    simp only [List.getD_cons_zero, List.getD_cons_succ]
    omega
  have hg' : (pad_to FS_FILENAME_LEN e.filename ++ tail).getD 25 0 = e.flag := by
    rw [g 9, ← htail]
    simp only [List.getD_cons_zero, List.getD_cons_succ]
    omega
  unfold entry_of_bytes
  rw [hn, hsz', hf', hl', ho', hg']

/-- A directory whose entries fit is read back from the bytes `write_meta` writes for it. -/
theorem entries_of_entry_bytes :
    ∀ (dir : List RootDirEntry) (rest : List Nat), (∀ e ∈ dir, EntryFits e) →
      entries_of_bytes dir.length (dir.flatMap entry_bytes ++ rest) = dir := by
  intro dir
  induction dir with
  | nil => intro rest _; rfl
  | cons e es ih =>
    intro rest h
    rw [List.length_cons, entries_of_bytes, List.flatMap_cons, List.append_assoc,
      entry_of_entry_bytes e _ (h e (List.mem_cons_self _ _)),
      List.drop_left' (entry_bytes_length e),
      ih rest (fun y hy => h y (List.mem_cons_of_mem _ hy))]

theorem length_flatMap_entry_bytes (dir : List RootDirEntry) :
    (dir.flatMap entry_bytes).length = 32 * dir.length := by
  induction dir with
  | nil => rfl
  | cons x xs ih =>
    rw [List.flatMap_cons, List.length_append, ih, List.length_cons, entry_bytes_length]
    omega

theorem entries_of_rdir_bytes (dir : List RootDirEntry) (hlen : dir.length = FS_FILE_MAX_COUNT)
    (h : ∀ e ∈ dir, EntryFits e) :
    entries_of_bytes FS_FILE_MAX_COUNT (rdir_bytes dir) = dir := by
  unfold rdir_bytes
  rw [pad_to_of_length (by rw [length_flatMap_entry_bytes, hlen]; rfl)]
  have h2 := entries_of_entry_bytes dir [] h
  rw [hlen, List.append_nil] at h2
  exact h2

theorem sp_bytes_eq (sp : SuperBlock) :
    sp_bytes sp = pad_to BLOCK_SIZE (pad_to 8 sp.signature ++
      (sp.total_blk_count % 256 :: sp.total_blk_count / 256 % 256 ::
        sp.rdir_blk % 256 :: sp.rdir_blk / 256 % 256 ::
        sp.data_blk % 256 :: sp.data_blk / 256 % 256 ::
        sp.data_blk_count % 256 :: sp.data_blk_count / 256 % 256 ::
        sp.fat_blk_count % 256 ::
        sp.fat_used % 256 :: sp.fat_used / 256 % 256 ::
        sp.rdir_used % 256 :: sp.rdir_used / 256 % 256 :: sp.unused)) := by
  unfold sp_bytes le16
  simp [List.append_assoc]

/-- The fields of a superblock that `fs_mount` looks at are read back from the block that
`write_meta` writes, when they are in the range of their C types. -/
theorem sp_of_sp_bytes (sp : SuperBlock) (hsig : sp.signature.length = 8)
    (ht : sp.total_blk_count < 65536) (hr : sp.rdir_blk < 65536) (hd : sp.data_blk < 65536)
    (hc : sp.data_blk_count < 65536) (hf : sp.fat_blk_count < 256) :
    (sp_of_bytes (sp_bytes sp)).signature = sp.signature ∧
    (sp_of_bytes (sp_bytes sp)).total_blk_count = sp.total_blk_count ∧
    (sp_of_bytes (sp_bytes sp)).rdir_blk = sp.rdir_blk ∧
    (sp_of_bytes (sp_bytes sp)).data_blk = sp.data_blk ∧
    (sp_of_bytes (sp_bytes sp)).data_blk_count = sp.data_blk_count ∧
    (sp_of_bytes (sp_bytes sp)).fat_blk_count = sp.fat_blk_count := by
  rw [sp_bytes_eq]
  generalize htail : (sp.total_blk_count % 256 :: sp.total_blk_count / 256 % 256 ::
        sp.rdir_blk % 256 :: sp.rdir_blk / 256 % 256 ::
        sp.data_blk % 256 :: sp.data_blk / 256 % 256 ::
        sp.data_blk_count % 256 :: sp.data_blk_count / 256 % 256 ::
        sp.fat_blk_count % 256 ::
        sp.fat_used % 256 :: sp.fat_used / 256 % 256 ::
        sp.rdir_used % 256 :: sp.rdir_used / 256 % 256 :: sp.unused) = tail
  have hS : (pad_to 8 sp.signature).length = 8 := pad_to_length _ _
  have g : ∀ k, k < 9 →
      (pad_to BLOCK_SIZE (pad_to 8 sp.signature ++ tail)).getD (8 + k) 0 = tail.getD k 0 := by
    intro k hk
    rw [getD_pad_to _ _ _ (by show 8 + k < 4096; omega)]
    exact getD_append_at _ tail 8 k hS
  have g1 : ∀ k, k < 8 →
      rd16 (pad_to BLOCK_SIZE (pad_to 8 sp.signature ++ tail)) (8 + k) =
        tail.getD k 0 + 256 * tail.getD (k + 1) 0 := by
    intro k hk
    unfold rd16
    rw [g k (by omega), Nat.add_assoc, g (k + 1) (by omega)]
  unfold sp_of_bytes
  refine ⟨?_, ?_, ?_, ?_, ?_, ?_⟩
  · show (pad_to BLOCK_SIZE (pad_to 8 sp.signature ++ tail)).take 8 = sp.signature
    unfold pad_to
    rw [List.take_take, List.append_assoc]
    have h8 : min 8 BLOCK_SIZE = 8 := rfl
    rw [h8, List.take_left' (by
      rw [List.length_take, List.length_append, List.length_replicate]; omega)]
    rw [List.take_append_of_le_length (by omega), List.take_of_length_le (by omega)]
  · show rd16 (pad_to BLOCK_SIZE (pad_to 8 sp.signature ++ tail)) (8 + 0) = _
    rw [g1 0 (by omega), ← htail]
    simp only [List.getD_cons_zero, List.getD_cons_succ]
    omega
  · show rd16 (pad_to BLOCK_SIZE (pad_to 8 sp.signature ++ tail)) (8 + 2) = _
    rw [g1 2 (by omega), ← htail]
    simp only [List.getD_cons_zero, List.getD_cons_succ]
    omega
  · show rd16 (pad_to BLOCK_SIZE (pad_to 8 sp.signature ++ tail)) (8 + 4) = _
    rw [g1 4 (by omega), ← htail]
    simp only [List.getD_cons_zero, List.getD_cons_succ]
    omega
  · show rd16 (pad_to BLOCK_SIZE (pad_to 8 sp.signature ++ tail)) (8 + 6) = _
    rw [g1 6 (by omega), ← htail]
    simp only [List.getD_cons_zero, List.getD_cons_succ]
    omega
  · show (pad_to BLOCK_SIZE (pad_to 8 sp.signature ++ tail)).getD (8 + 8) 0 = _
    rw [g 8 (by omega), ← htail]
    simp only [List.getD_cons_zero, List.getD_cons_succ]
    omega

/-! ## The flush of the metadata -/

theorem write_fat_blocks_ok (fat : List Nat) :
    ∀ (n i : Nat) (d : Disk), i + n < d.length →
      (write_fat_blocks fat n i d).1 = 0 ∧
      (∀ j, i ≤ j → j < i + n → (write_fat_blocks fat n i d).2[1 + j]? = some (fat_bytes fat j)) ∧
      (∀ j, j ≤ i → (write_fat_blocks fat n i d).2[j]? = d[j]?) := by
  intro n
  induction n with
  | zero =>
    intro i d _
    exact ⟨rfl, fun j h1 h2 => by omega, fun _ _ => rfl⟩
  | succ n ih =>
    intro i d hlen
    rw [write_fat_blocks, block_write_ok d (1 + i) _ (by omega)]
    simp only []
    obtain ⟨h1, h2, h3⟩ := ih (i + 1) (d.set (1 + i) (fat_bytes fat i))
      (by rw [List.length_set]; omega)
    refine ⟨h1, ?_, ?_⟩
    · intro j hj1 hj2
      by_cases hji : j = i
      · subst hji
        rw [h3 (1 + j) (by omega)]
        exact List.getElem?_set_self (by omega)
      · exact h2 j (by omega) (by omega)
    · intro j hj
      rw [h3 j (by omega)]
      exact List.getElem?_set_ne (by omega)

/-- The flush of `write_meta` on a device that takes the writes: it returns 0, block
`1 + j` holds part `j` of the FAT, and when the root directory block lies behind the FAT blocks
it holds the directory and block 0 holds the superblock; only `fat_used` changes in memory. -/
theorem write_meta_ok (s : FsState) (hm : s.mounted = true) (h0 : 0 < s.disk.length)
    (hr : s.sp.rdir_blk < s.disk.length) (hf : s.sp.fat_blk_count < s.disk.length) :
    ∃ s', write_meta s = .ok (0, s') ∧ s'.mounted = true ∧ s'.root_dir = s.root_dir ∧
      s'.fat = s.fat ∧ s'.filedes = s.filedes ∧ s'.fd_cnt = s.fd_cnt ∧
      s'.sp = { s.sp with fat_used := s'.sp.fat_used } ∧
      s'.disk.length = s.disk.length ∧
      (∀ j, j < s.sp.fat_blk_count → s'.disk[1 + j]? = some (fat_bytes s.fat j)) ∧
      (s.sp.fat_blk_count < s.sp.rdir_blk →
        s'.disk[s.sp.rdir_blk]? = some (rdir_bytes s.root_dir) ∧
        s'.disk[0]? = some (sp_bytes s'.sp)) ∧
      (∀ j, s.sp.fat_blk_count < j → j ≠ s.sp.rdir_blk → s'.disk[j]? = s.disk[j]?) := by
  obtain ⟨s1, hs1, hdisk, hdir, hfat, hfd, hcnt, hsp, hm1⟩ :
      ∃ s1 : FsState, s1 = (if s.sp.fat_used ≥ s.sp.data_blk_count then
          { s with sp := { s.sp with fat_used := s.sp.data_blk_count } } else s) ∧
        s1.disk = s.disk ∧ s1.root_dir = s.root_dir ∧ s1.fat = s.fat ∧
        s1.filedes = s.filedes ∧ s1.fd_cnt = s.fd_cnt ∧
        s1.sp = { s.sp with fat_used := s1.sp.fat_used } ∧ s1.mounted = true := by
    by_cases hclip : s.sp.fat_used ≥ s.sp.data_blk_count
    · exact ⟨_, rfl, by rw [if_pos hclip], by rw [if_pos hclip], by rw [if_pos hclip],
        by rw [if_pos hclip], by rw [if_pos hclip], by rw [if_pos hclip],
        by rw [if_pos hclip]; exact hm⟩
    · exact ⟨_, rfl, by rw [if_neg hclip], by rw [if_neg hclip], by rw [if_neg hclip],
        by rw [if_neg hclip], by rw [if_neg hclip], by rw [if_neg hclip],
        by rw [if_neg hclip]; exact hm⟩
  have hrb : s1.sp.rdir_blk = s.sp.rdir_blk := by rw [hsp]
  have hfb : s1.sp.fat_blk_count = s.sp.fat_blk_count := by rw [hsp]
  have hw : write_meta s =
      .ok ((write_fat_blocks s1.fat s1.sp.fat_blk_count 0
              ((s1.disk.set 0 (sp_bytes s1.sp)).set s1.sp.rdir_blk (rdir_bytes s1.root_dir))).1,
           { s1 with disk := (write_fat_blocks s1.fat s1.sp.fat_blk_count 0
              ((s1.disk.set 0 (sp_bytes s1.sp)).set s1.sp.rdir_blk
                (rdir_bytes s1.root_dir))).2 }) := by
    unfold write_meta
    rw [if_neg (by simp [hm])]
    simp only []
    rw [← hs1, block_write_ok s1.disk 0 _ (by rw [hdisk]; exact h0)]
    simp only []
    rw [block_write_ok _ s1.sp.rdir_blk _ (by rw [List.length_set, hdisk, hrb]; exact hr)]
  obtain ⟨k1, k2, k3⟩ := write_fat_blocks_ok s1.fat s1.sp.fat_blk_count 0
    ((s1.disk.set 0 (sp_bytes s1.sp)).set s1.sp.rdir_blk (rdir_bytes s1.root_dir))
    (by rw [List.length_set, List.length_set, hdisk, hfb]; omega)
  obtain ⟨f1, f2⟩ := write_fat_blocks_frame s1.fat s1.sp.fat_blk_count 0
    ((s1.disk.set 0 (sp_bytes s1.sp)).set s1.sp.rdir_blk (rdir_bytes s1.root_dir))
  rw [k1] at hw
  refine ⟨_, hw, hm1, hdir, hfat, hfd, hcnt, hsp, ?_, ?_, ?_, ?_⟩
  · show (write_fat_blocks _ _ _ _).2.length = _
    rw [f1, List.length_set, List.length_set, hdisk]
  · intro j hj
    show (write_fat_blocks _ _ _ _).2[1 + j]? = _
    rw [k2 j (Nat.zero_le _) (by rw [hfb]; omega), hfat]
  · intro hlay
    constructor
    · show (write_fat_blocks _ _ _ _).2[s.sp.rdir_blk]? = _
      rw [f2 _ (by rw [hfb]; omega), ← hrb, hdir]
      exact List.getElem?_set_self (by rw [List.length_set, hdisk, hrb]; exact hr)
    · show (write_fat_blocks _ _ _ _).2[0]? = _
      rw [k3 0 (Nat.le_refl _), List.getElem?_set_ne (by rw [hrb]; omega)]
      exact List.getElem?_set_self (by rw [hdisk]; exact h0)
  · intro j hj hjr
    show (write_fat_blocks _ _ _ _).2[j]? = _
    rw [f2 _ (by rw [hfb]; omega), List.getElem?_set_ne (by rw [hrb]; exact Ne.symm hjr),
      List.getElem?_set_ne (by omega), hdisk]

/-! ## Unmounting -/

theorem open_count_pos (s : FsState) (fd : Int) (h : is_valid_fd s fd = true) :
    0 < open_count s := by
  obtain ⟨h0, h32, hslot, _⟩ := fd_slot_of_valid h
  unfold open_count
  apply List.length_pos_of_mem (a := fd.toNat)
  rw [List.mem_filter, List.mem_range]
  refine ⟨by show fd.toNat < 32; omega, ?_⟩
  unfold fd_slot at hslot
  rw [hslot]
  rfl

theorem open_count_zero (s : FsState) (h : ∀ fd, is_valid_fd s fd = false) :
    open_count s = 0 := by
  unfold open_count
  rw [List.length_eq_zero, List.filter_eq_nil_iff]
  intro i hi
  rw [List.mem_range] at hi
  have hv := (is_valid_fd_false_iff s (i : Int)).mp (h (i : Int))
  have hi32 : i < 32 := hi
  rcases hv with hv | hv | hv
  · omega
  · omega
  · unfold fd_slot at hv
    rw [Int.toNat_ofNat] at hv
    rw [hv]
    simp

theorem is_valid_fd_clear (s : FsState) (fd : Int) : is_valid_fd (clear s) fd = false := by
  rw [is_valid_fd_false_iff]
  right; right
  unfold fd_slot clear
  show (List.replicate FS_OPEN_MAX_COUNT none).getD fd.toNat none = none
  rw [List.getD_eq_getElem?_getD, List.getElem?_replicate]
  split <;> rfl

/-- With no volume mounted and no descriptor open, every call of the interface returns -1 and
changes nothing. -/
theorem unmounted_calls_fail (s : FsState) (hm : s.mounted = false)
    (hfd : ∀ fd, is_valid_fd s fd = false) :
    (∀ c, fs_umount s c = .ok (-1, s)) ∧ fs_info s = -1 ∧ fs_ls s = -1 ∧
    (∀ name, fs_create s name = (-1, s)) ∧ (∀ name, fs_delete s name = .ok (-1, s)) ∧
    (∀ name, fs_open s name = (-1, s)) ∧ (∀ fd, fs_close s fd = (-1, s)) ∧
    (∀ fd, fs_stat s fd = -1) ∧ (∀ fd o, fs_lseek s fd o = (-1, s)) ∧
    (∀ fd buf n, fs_read s fd buf n = .ok (-1, buf, s)) ∧
    (∀ fd buf n, fs_write s fd buf n = .ok (-1, s)) := by
  have hentry : ∀ name, get_directory_entry s name < 0 := by
    intro name
    unfold get_directory_entry
    rw [if_pos hm]
    decide
  refine ⟨?_, ?_, ?_, ?_, ?_, ?_, ?_, ?_, ?_, ?_, ?_⟩
  · intro c
    unfold fs_umount
    rw [if_pos hm]
  · unfold fs_info
    rw [if_pos hm]
  · unfold fs_ls
    rw [if_pos hm]
  · intro name
    unfold fs_create
    rw [if_pos hm]
  · intro name
    unfold fs_delete
    simp only [if_pos (hentry name)]
  · intro name
    unfold fs_open
    split_ifs
    · rfl
    · simp only [if_pos (hentry name)]
  · intro fd
    unfold fs_close
    rw [if_pos (hfd fd)]
  · intro fd
    unfold fs_stat
    rw [if_pos (hfd fd)]
  · intro fd o
    unfold fs_lseek
    rw [if_pos (hfd fd)]
  · intro fd buf n
    unfold fs_read
    rw [if_pos (hfd fd)]
  · intro fd buf n
    unfold fs_write
    rw [if_pos (hfd fd)]

/-- C23. Unmount.  `fs_umount` returns -1 and changes nothing when no volume is mounted.  On a
mounted volume whose counter `fd_cnt` is the number of open descriptors, it returns -1 when a
descriptor is open, whether or not the device takes the flush and closes: the volume stays
mounted and the descriptor table, its counter, the directory and the FAT are as before.  With
no descriptor open, on a device that takes the writes to block 0, to the root directory block
and to the FAT blocks and that closes, it returns 0 and no volume is mounted: a second
`fs_umount`, `fs_info`, `fs_ls`, `fs_create`, `fs_delete` and `fs_open` return -1. -/
theorem fs_umount_contract (s : FsState) (closes : Bool) :
    (s.mounted = false → fs_umount s closes = .ok (-1, s)) ∧
    (s.mounted = true → s.fd_cnt = (open_count s : Int) → (∃ fd, is_valid_fd s fd = true) →
      ∃ s', fs_umount s closes = .ok (-1, s') ∧ s'.mounted = true ∧
        s'.filedes = s.filedes ∧ s'.fd_cnt = s.fd_cnt ∧ s'.root_dir = s.root_dir ∧
        s'.fat = s.fat) ∧
    (s.mounted = true → s.fd_cnt = (open_count s : Int) → (∀ fd, is_valid_fd s fd = false) →
      0 < s.disk.length → s.sp.rdir_blk < s.disk.length →
      s.sp.fat_blk_count < s.disk.length →
      ∃ s', fs_umount s true = .ok (0, s') ∧ s'.mounted = false ∧
        (∀ c, fs_umount s' c = .ok (-1, s')) ∧ fs_info s' = -1 ∧ fs_ls s' = -1 ∧
        (∀ name, fs_create s' name = (-1, s')) ∧ (∀ name, fs_delete s' name = .ok (-1, s')) ∧
        (∀ name, fs_open s' name = (-1, s'))) := by
  refine ⟨?_, ?_, ?_⟩
  · intro hm
    unfold fs_umount
    rw [if_pos hm]
  · intro hm hcnt ⟨fd, hfd⟩
    obtain ⟨r, s1, hw, hm1, hdir, hfat, hfds, hfc, _⟩ := write_meta_frame s hm
    have hpos : s1.fd_cnt > 0 := by
      have := open_count_pos s fd hfd
      rw [hfc, hcnt]
      omega
    refine ⟨s1, ?_, hm1, hfds, hfc, hdir, hfat⟩
    unfold fs_umount
    rw [if_neg (by rw [hm]; decide), hw]
    simp only []
    by_cases hr : r < 0
    · rw [if_pos hr]
    · rw [if_neg hr, if_pos hpos]
  · intro hm hcnt hnone h0 hr hf
    obtain ⟨s1, hw, hm1, hdir, hfat, hfds, hfc, _⟩ := write_meta_ok s hm h0 hr hf
    have hz : ¬ s1.fd_cnt > 0 := by
      rw [hfc, hcnt, open_count_zero s hnone]
      decide
    have hu : fs_umount s true = .ok (0, clear s1) := by
      unfold fs_umount
      rw [if_neg (by rw [hm]; decide), hw]
      simp only []
      rw [if_neg (by decide), if_neg hz, if_neg (by decide)]
    obtain ⟨u1, u2, u3, u4, u5, u6, _⟩ :=
      unmounted_calls_fail (clear s1) rfl (is_valid_fd_clear s1)
    exact ⟨clear s1, hu, rfl, u1, u2, u3, u4, u5, u6⟩

set_option maxRecDepth 100000 in
theorem fs_umount_contract_witness :
    (∃ s', fs_umount (vol_open_a 8) true = .ok (-1, s') ∧ s'.mounted = true ∧
        s'.filedes = (vol_open_a 8).filedes ∧ s'.fd_cnt = (vol_open_a 8).fd_cnt ∧
        s'.root_dir = (vol_open_a 8).root_dir ∧ s'.fat = (vol_open_a 8).fat) ∧
    (∃ s', fs_umount vol_closed_a true = .ok (0, s') ∧ s'.mounted = false ∧
        (∀ c, fs_umount s' c = .ok (-1, s')) ∧ fs_info s' = -1 ∧ fs_ls s' = -1 ∧
        (∀ name, fs_create s' name = (-1, s')) ∧ (∀ name, fs_delete s' name = .ok (-1, s')) ∧
        (∀ name, fs_open s' name = (-1, s'))) :=
  ⟨(fs_umount_contract (vol_open_a 8) true).2.1 (by decide!) (by decide!) ⟨0, by decide!⟩,
   (fs_umount_contract vol_closed_a true).2.2 (by decide!) (by decide!)
     (by
       intro fd
       rw [is_valid_fd_false_iff]
       by_cases h1 : fd < 0
       · exact Or.inl h1
       by_cases h2 : fd ≥ 32
       · exact Or.inr (Or.inl h2)
       right; right
       have hall : ∀ i, i < 32 → vol_closed_a.filedes.getD i none = none := by decide!
       unfold fd_slot
       exact hall fd.toNat (by omega))
     (by decide!) (by decide!) (by decide!)⟩

/-! ## Mounting -/

theorem read_fat_blocks_some (d : Disk) :
    ∀ (n i : Nat), (∀ j, i ≤ j → j < i + n → block_read d (j + 1) ≠ none) →
      ∃ fat, read_fat_blocks d n i = some fat := by
  intro n
  induction n with
  | zero => intro i _; exact ⟨[], rfl⟩
  | succ n ih =>
    intro i h
    obtain ⟨rest, hrest⟩ := ih (i + 1) (fun j h1 h2 => h j (by omega) (by omega))
    cases hb : block_read d (i + 1) with
    | none => exact absurd hb (h i (Nat.le_refl _) (by omega))
    | some b =>
      rw [read_fat_blocks, hb]
      simp only []
      rw [hrest]
      exact ⟨_, rfl⟩

theorem sp_setup_sp (s : FsState) :
    (sp_setup s).sp.fat_blk_count = s.sp.fat_blk_count ∧
    (sp_setup s).sp.rdir_blk = s.sp.rdir_blk ∧
    (sp_setup s).sp.data_blk = s.sp.data_blk ∧
    (sp_setup s).sp.data_blk_count = s.sp.data_blk_count ∧
    (sp_setup s).mounted = s.mounted ∧ (sp_setup s).root_dir = s.root_dir ∧
    (sp_setup s).fat = s.fat ∧ (sp_setup s).disk = s.disk ∧
    (sp_setup s).filedes = s.filedes ∧ (sp_setup s).fd_cnt = s.fd_cnt := by
  unfold sp_setup
  by_cases hm : s.mounted = false
  · rw [if_pos hm]
    exact ⟨rfl, rfl, rfl, rfl, rfl, rfl, rfl, rfl, rfl, rfl⟩
  · rw [if_neg hm]
    exact ⟨rfl, rfl, rfl, rfl, rfl, rfl, rfl, rfl, rfl, rfl⟩

/-- What `fs_mount` does on a device that serves its reads and whose superblock passes the
three checks: it returns 0; the directory and the FAT in memory are the ones read from the
device, no descriptor is open, and on the device only the blocks 0, `rdir_blk` and
`1 .. fat_blk_count` may change. -/
theorem fs_mount_accepts (s : FsState) (d : Disk) (b0 br : Block) (fat : List Nat)
    (h0 : block_read d 0 = some b0) (c1 : (sp_of_bytes b0).signature = FS_NAME)
    (c2 : (sp_of_bytes b0).total_blk_count = block_disk_count d)
    (c3 : (sp_of_bytes b0).data_blk_count ≤ (sp_of_bytes b0).fat_blk_count * 2048)
    (hbr : block_read d (sp_of_bytes b0).rdir_blk = some br)
    (hfat : read_fat_blocks d (sp_of_bytes b0).fat_blk_count 0 = some fat) :
    ∃ s2, fs_mount s (some d) = .ok (0, s2) ∧ s2.mounted = true ∧
      s2.root_dir = entries_of_bytes FS_FILE_MAX_COUNT br ∧ s2.fat = fat ∧
      s2.filedes = List.replicate FS_OPEN_MAX_COUNT none ∧ s2.fd_cnt = 0 ∧
      s2.sp.data_blk = (sp_of_bytes b0).data_blk ∧
      s2.sp.data_blk_count = (sp_of_bytes b0).data_blk_count ∧
      s2.disk.length = d.length ∧
      ∀ j, (sp_of_bytes b0).fat_blk_count < j → j ≠ (sp_of_bytes b0).rdir_blk →
        s2.disk[j]? = d[j]? := by
  generalize hsp2 : sp_of_bytes b0 = sp2 at c1 c2 c3 hbr hfat ⊢
  generalize hs1 : sp_setup { s with
      mounted := true
      sp := sp2
      root_dir := entries_of_bytes FS_FILE_MAX_COUNT br
      disk := d } = s1
  obtain ⟨hfb1, hrb1, hdb1, hdc1, k2, k3, _, k5, _, _⟩ := sp_setup_sp { s with
      mounted := true
      sp := sp2
      root_dir := entries_of_bytes FS_FILE_MAX_COUNT br
      disk := d }
  rw [hs1] at hfb1 hrb1 hdb1 hdc1 k2 k3 k5
  obtain ⟨r, s2, hw, hm2, w1, w2, w3, w4, w5, w6, w7, w8, _, w10, w11⟩ := write_meta_frame
    { s1 with fat := fat, fd_cnt := 0, filedes := List.replicate FS_OPEN_MAX_COUNT none } k2
  refine ⟨s2, ?_, hm2, w1.trans k3, w2, w3, w4, w5.trans hdb1, w6.trans hdc1, ?_, ?_⟩
  · unfold fs_mount
    simp only []
    rw [h0]
    simp only []
    rw [hsp2, if_neg (by rw [c1]; exact fun h => h rfl),
      if_neg (by rw [c2]; exact fun h => h rfl),
      if_neg (by show ¬ (sp2.data_blk_count > sp2.fat_blk_count * 4096 / 2); omega), hbr]
    simp only []
    rw [hs1, hfb1, hfat]
    simp only []
    rw [hw]
  · rw [w10]
    exact congrArg List.length k5
  · intro j hj hjr
    have e := w11 j (by show s1.sp.fat_blk_count < j; rw [hfb1]; exact hj)
      (by show j ≠ s1.sp.rdir_blk; rw [hrb1]; exact hjr)
    rw [e]
    show s1.disk[j]? = d[j]?
    rw [k5]

/-- C22. Mount validation.  The device opens (its content is `d`) and serves the reads that
`fs_mount` makes: block 0, the block that bytes 10 and 11 of block 0 name as the root
directory, and the blocks `1 .. fat_blk_count`, byte 16 of block 0 being `fat_blk_count`.  When
the first 8 bytes of block 0 are `"ECS150FS"`, the 16-bit value at byte 8 is the number of
blocks of the device and the 16-bit value at byte 14, `data_blk_count`, is at most
`fat_blk_count * 2048`, then `fs_mount` returns 0 and a volume is mounted, with no descriptor
open.  Otherwise it returns -1, no volume is mounted and every later call of the interface
returns -1. -/
theorem fs_mount_validation (s : FsState) (d : Disk) (h0 : block_read d 0 ≠ none)
    (hr : block_read d (rd16 (d.getD 0 []) 10) ≠ none)
    (hf : ∀ i, i < (d.getD 0 []).getD 16 0 → block_read d (i + 1) ≠ none) :
    (((d.getD 0 []).take 8 = FS_NAME ∧ rd16 (d.getD 0 []) 8 = block_disk_count d ∧
        rd16 (d.getD 0 []) 14 ≤ (d.getD 0 []).getD 16 0 * 2048) →
      ∃ s', fs_mount s (some d) = .ok (0, s') ∧ s'.mounted = true ∧
        (∀ fd, is_valid_fd s' fd = false) ∧ s'.fd_cnt = 0) ∧
    (¬ ((d.getD 0 []).take 8 = FS_NAME ∧ rd16 (d.getD 0 []) 8 = block_disk_count d ∧
        rd16 (d.getD 0 []) 14 ≤ (d.getD 0 []).getD 16 0 * 2048) →
      ∃ s', fs_mount s (some d) = .ok (-1, s') ∧ s'.mounted = false ∧
        (∀ c, fs_umount s' c = .ok (-1, s')) ∧ fs_info s' = -1 ∧ fs_ls s' = -1 ∧
        (∀ name, fs_create s' name = (-1, s')) ∧ (∀ name, fs_delete s' name = .ok (-1, s')) ∧
        (∀ name, fs_open s' name = (-1, s')) ∧ (∀ fd, fs_close s' fd = (-1, s')) ∧
        (∀ fd, fs_stat s' fd = -1) ∧ (∀ fd o, fs_lseek s' fd o = (-1, s')) ∧
        (∀ fd buf n, fs_read s' fd buf n = .ok (-1, buf, s')) ∧
        (∀ fd buf n, fs_write s' fd buf n = .ok (-1, s'))) := by
  generalize hb0 : d.getD 0 [] = b0 at hr hf ⊢
  have hread0 : block_read d 0 = some b0 := by
    unfold block_read at h0 ⊢
    cases hd : d[0]? with
    | none => exact absurd hd h0
    | some b =>
      rw [← hb0, List.getD_eq_getElem?_getD, hd]
      rfl
  have hsig : (sp_of_bytes b0).signature = b0.take 8 := rfl
  have htot : (sp_of_bytes b0).total_blk_count = rd16 b0 8 := rfl
  have hdbc : (sp_of_bytes b0).data_blk_count = rd16 b0 14 := rfl
  have hfbc : (sp_of_bytes b0).fat_blk_count = b0.getD 16 0 := rfl
  have hrd : (sp_of_bytes b0).rdir_blk = rd16 b0 10 := rfl
  constructor
  · intro ⟨c1, c2, c3⟩
    obtain ⟨br, hbr⟩ : ∃ br, block_read d (rd16 b0 10) = some br := by
      cases hx : block_read d (rd16 b0 10) with
      | none => exact absurd hx hr
      | some br => exact ⟨br, rfl⟩
    obtain ⟨fat, hfat⟩ := read_fat_blocks_some d (b0.getD 16 0) 0
      (fun j _ h2 => hf j (by omega))
    obtain ⟨s2, hres, hm2, _, _, hfd2, hcnt2, _⟩ := fs_mount_accepts s d b0 br fat hread0
      (hsig.trans c1) (htot.trans c2) (by rw [hdbc, hfbc]; exact c3) (by rw [hrd]; exact hbr)
      (by rw [hfbc]; exact hfat)
    refine ⟨s2, hres, hm2, ?_, hcnt2⟩
    intro fd
    rw [is_valid_fd_congr fd (hfd2.trans (show _ = (clear s).filedes from rfl))]
    exact is_valid_fd_clear s fd
  · intro hc
    have hres : fs_mount s (some d) = .ok (-1, clear { s with disk := d }) := by
      unfold fs_mount
      simp only []
      rw [hread0]
      simp only []
      by_cases c1 : b0.take 8 = FS_NAME
      · by_cases c2 : rd16 b0 8 = block_disk_count d
        · have c3 : ¬ rd16 b0 14 ≤ b0.getD 16 0 * 2048 := fun h => hc ⟨c1, c2, h⟩
          rw [if_neg (by rw [hsig, c1]; exact fun h => h rfl),
            if_neg (by rw [htot, c2]; exact fun h => h rfl),
            if_pos (by rw [hdbc, hfbc]; show rd16 b0 14 > b0.getD 16 0 * 4096 / 2; omega)]
        · rw [if_neg (by rw [hsig, c1]; exact fun h => h rfl),
            if_pos (by rw [htot]; exact fun h => c2 h.symm)]
      · rw [if_pos (by rw [hsig]; exact c1)]
    exact ⟨_, hres, rfl, unmounted_calls_fail _ rfl (is_valid_fd_clear _)⟩

set_option maxRecDepth 100000 in
theorem fs_mount_validation_witness :
    disk_short.length = 9 ∧ rd16 (disk_short.getD 0 []) 8 = 10 ∧
    (∃ s', fs_mount (clear (fresh_vol 8)) (some disk_short) = .ok (-1, s') ∧
      s'.mounted = false ∧ (∀ name, fs_open s' name = (-1, s'))) ∧
    (∃ s', fs_mount (clear (fresh_vol 8)) (some (fresh_vol 7).disk) = .ok (0, s') ∧
      s'.mounted = true) := by
  refine ⟨by decide!, by decide!, ?_, ?_⟩
  · obtain ⟨s', h1, h2, _, _, _, _, _, h3, _⟩ :=
      (fs_mount_validation (clear (fresh_vol 8)) disk_short (by decide!) (by decide!)
        (by decide!)).2 (by decide!)
    exact ⟨s', h1, h2, h3⟩
  · obtain ⟨s', h1, h2, _⟩ :=
      (fs_mount_validation (clear (fresh_vol 8)) (fresh_vol 7).disk (by decide!) (by decide!)
        (by decide!)).1 (by decide!)
    exact ⟨s', h1, h2⟩

/-! ## Unmount and mount again -/

/-- C24. Metadata survives unmount and remount.  On a valid volume (`VolumeValid`: the
superblock passes the checks of `fs_mount`, the root directory block and the data region lie
behind the FAT blocks, the root directory block is on the device and is not a data block, and
the tables in memory have the sizes and value ranges of their C types) with no descriptor
open, `fs_umount` returns 0, and `fs_mount` of the disk it
leaves returns 0.  The root directory in memory is then, entry by entry and field by field, the
one before the unmount, and so is the FAT; `data_blk` and `data_blk_count` are as before, the
device has its length, and every data block holds what it held before the unmount.  Hence every entry has its name, size and blocks, and the FAT links the same chains. -/
theorem remount_keeps_metadata (s : FsState) (hv : VolumeValid s) (hcnt : s.fd_cnt ≤ 0) :
    ∃ s1 s2, fs_umount s true = .ok (0, s1) ∧ s1.mounted = false ∧
      fs_mount s1 (some s1.disk) = .ok (0, s2) ∧ s2.mounted = true ∧
      s2.root_dir = s.root_dir ∧ s2.fat = s.fat ∧
      s2.sp.data_blk = s.sp.data_blk ∧ s2.sp.data_blk_count = s.sp.data_blk_count ∧
      s2.disk.length = s.disk.length ∧
      (∀ j, s.sp.data_blk ≤ j → j < s.sp.data_blk + s.sp.data_blk_count →
        s2.disk[j]? = s.disk[j]?) ∧
      (∀ i, get_dir s2 i = get_dir s i) ∧
      (∀ b l, IsChain s2 b l ↔ IsChain s b l) := by
  obtain ⟨hm, hsig, htot, htot16, hfit, hfbc8, hdbc16, hdata16, hrd16, hfr, hfd, hrd, hron,
    hdlen, hdfit, hflen, hfu16⟩ := hv
  obtain ⟨s1, hw, hm1, hdir1, hfat1, hfds1, hfc1, hsp1, hlen1, hblk1, hlay1, hframe1⟩ :=
    write_meta_ok s hm (by omega) hron (by omega)
  obtain ⟨hrdir1, hsb1⟩ := hlay1 hfr
  -- the unmount
  have hu : fs_umount s true = .ok (0, clear s1) := by
    unfold fs_umount
    rw [if_neg (by rw [hm]; decide), hw]
    simp only []
    rw [if_neg (by decide), if_neg (by rw [hfc1]; omega), if_neg (by decide)]
  -- the superblock on the device
  have e_sig : s1.sp.signature = s.sp.signature := by rw [hsp1]
  have e_tot : s1.sp.total_blk_count = s.sp.total_blk_count := by rw [hsp1]
  have e_rd : s1.sp.rdir_blk = s.sp.rdir_blk := by rw [hsp1]
  have e_db : s1.sp.data_blk = s.sp.data_blk := by rw [hsp1]
  have e_dc : s1.sp.data_blk_count = s.sp.data_blk_count := by rw [hsp1]
  have e_fb : s1.sp.fat_blk_count = s.sp.fat_blk_count := by rw [hsp1]
  obtain ⟨q1, q2, q3, q4, q5, q6⟩ := sp_of_sp_bytes s1.sp (by rw [e_sig, hsig]; rfl)
    (by rw [e_tot]; exact htot16) (by rw [e_rd]; exact hrd16) (by rw [e_db]; exact hdata16)
    (by rw [e_dc]; exact hdbc16) (by rw [e_fb]; exact hfbc8)
  have hfatrd : read_fat_blocks s1.disk s.sp.fat_blk_count 0 = some s.fat := by
    have h := read_fat_blocks_written s1.disk s.fat hfu16 s.sp.fat_blk_count 0
      (by rw [hflen, Nat.zero_add])
      (fun j _ h2 => hblk1 j (by omega))
    rw [Nat.mul_zero, List.drop_zero] at h
    exact h
  obtain ⟨s2, hmnt, hm2, hdir2, hfat2, _, _, hdb2, hdc2, hlen2, hframe2⟩ :=
    fs_mount_accepts (clear s1) s1.disk (sp_bytes s1.sp) (rdir_bytes s.root_dir) s.fat hsb1
      (by rw [q1, e_sig, hsig])
      (by rw [q2, e_tot, htot]; exact hlen1.symm)
      (by rw [q5, q6, e_dc, e_fb]; exact hfit)
      (by rw [q3, e_rd]; exact hrdir1)
      (by rw [q6, e_fb]; exact hfatrd)
  rw [q6, q3, e_fb, e_rd] at hframe2
  rw [q4, e_db] at hdb2
  rw [q5, e_dc] at hdc2
  have hdir : s2.root_dir = s.root_dir := by
    rw [hdir2, entries_of_rdir_bytes s.root_dir hdlen hdfit]
  refine ⟨clear s1, s2, hu, rfl, hmnt, hm2, hdir, hfat2, hdb2, hdc2, hlen2.trans hlen1, ?_, ?_,
    ?_⟩
  · intro j hj1 hj2
    rw [hframe2 j (by omega) (by omega), hframe1 j (by omega) (by omega)]
  · intro i
    unfold get_dir
    rw [hdir]
  · intro b l
    constructor
    · exact isChain_congr s2 s hdc2.symm l b (fun x _ => by unfold fat_at; rw [hfat2])
    · exact isChain_congr s s2 hdc2 l b (fun x _ => by unfold fat_at; rw [hfat2])

set_option maxRecDepth 100000 in
theorem remount_keeps_metadata_witness :
    (get_dir vol_closed_a 0).filename = name_a ∧ (get_dir vol_closed_a 0).file_sz = 5000 ∧
    IsChain vol_closed_a (get_dir vol_closed_a 0).first_data_blk [1, 2] ∧
    ∃ s1 s2, fs_umount vol_closed_a true = .ok (0, s1) ∧
      fs_mount s1 (some s1.disk) = .ok (0, s2) ∧
      s2.root_dir = vol_closed_a.root_dir ∧ s2.fat = vol_closed_a.fat ∧
      IsChain s2 (get_dir s2 0).first_data_blk [1, 2] := by
  have hc : IsChain vol_closed_a (get_dir vol_closed_a 0).first_data_blk [1, 2] := by decide!
  obtain ⟨s1, s2, h1, _, h2, _, h3, h4, _, _, _, _, h5, h6⟩ :=
    remount_keeps_metadata vol_closed_a (by constructor <;> decide!) (by decide!)
  refine ⟨by decide!, by decide!, hc, s1, s2, h1, h2, h3, h4, ?_⟩
  rw [h5 0]
  exact (h6 _ _).mpr hc

/-! ## The writer flag after `fs_write` -/

theorem flag_set_n (s : FsState) (id : Nat) :
    (get_dir (set_flag s id FLAG_N) id).flag ≠ FLAG_W := by
  by_cases h : id < s.root_dir.length
  · rw [get_dir_set_flag_self FLAG_N h]
    show FLAG_N ≠ FLAG_W
    decide
  · unfold get_dir set_flag set_dir
    rw [List.getD_eq_default _ _ (by rw [List.length_set]; omega)]
    show (0 : Nat) ≠ FLAG_W
    decide

/-- Past the entry checks, every return of `fs_write` but one comes after the flag was set to
`'n'`: the exception is the `return 0` taken when an empty file finds no free block. -/
theorem fs_write_alloc_flag (s1 : FsState) (fd : Int) (id : Nat) (buf : List Nat)
    (count offset : Nat) (lc : Int) (r : Int) (s' : FsState)
    (hfree : alloc_first s1 id ≠ .ok none)
    (h : fs_write_alloc s1 fd id buf count offset lc (alloc_first s1 id) = .ok (r, s')) :
    (get_dir s' id).flag ≠ FLAG_W := by
  cases ha : alloc_first s1 id with
  | error e =>
    rw [ha, fs_write_alloc] at h
    exact absurd h (by simp)
  | ok o =>
    cases o with
    | none => exact absurd ha hfree
    | some s2 =>
      rw [ha, fs_write_alloc] at h
      cases hst : start_blk s2 fd id offset with
      | error e =>
        rw [hst, fs_write_start] at h
        exact absurd h (by simp)
      | ok o2 =>
        cases o2 with
        | none =>
          rw [hst, fs_write_start] at h
          simp only [Except.ok.injEq, Prod.mk.injEq] at h
          obtain ⟨_, hs'⟩ := h
          subst hs'
          exact flag_set_n s2 id
        | some p =>
          obtain ⟨wb, nb⟩ := p
          rw [hst, fs_write_start] at h
          cases hfb : write_first_blk s2 id buf lc wb with
          | none =>
            rw [hfb, fs_write_blocks] at h
            simp only [Except.ok.injEq, Prod.mk.injEq] at h
            obtain ⟨_, hs'⟩ := h
            subst hs'
            exact flag_set_n s2 id
          | some q =>
            obtain ⟨bi, d⟩ := q
            rw [hfb, fs_write_blocks] at h
            cases hloop : fs_write_loop s2 buf (int_sub lc bi).toNat (int_sub lc bi) wb nb bi d with
            | error e =>
              rw [hloop, fs_write_finish] at h
              exact absurd h (by simp)
            | ok w =>
              cases w with
              | failed d1 =>
                rw [hloop, fs_write_finish] at h
                simp only [Except.ok.injEq, Prod.mk.injEq] at h
                obtain ⟨_, hs'⟩ := h
                subst hs'
                exact flag_set_n _ id
              | finished l nb1 d1 =>
                rw [hloop, fs_write_finish] at h
                unfold fs_write_commit at h
                simp only [] at h
                cases hlink : link_new_blks s2 nb1 (get_fat s2 (get_dir s2 id).last_data_blk)
                    s2.fat (get_dir s2 id).last_data_blk with
                | error e =>
                  rw [hlink] at h
                  exact absurd h (by simp)
                | ok v =>
                  obtain ⟨fat, last⟩ := v
                  rw [hlink] at h
                  simp only [] at h
                  generalize hrc : (if l > 0 then count - l.toNat else count) = rc at h
                  generalize hsx : ({ s2 with
                      root_dir := s2.root_dir.set id
                        { get_dir s2 id with
                          file_sz := if rc + offset > (get_dir s2 id).file_sz then
                              (rc + offset) % 4294967296
                            else (get_dir s2 id).file_sz
                          last_data_blk := last }
                      fat := fat
                      sp := { s2.sp with fat_used := u16 (s2.sp.fat_used + nb1.length) }
                      disk := d1 } : FsState) = sx at h
                  cases hwm : write_meta sx with
                  | error e =>
                    rw [hwm] at h
                    exact absurd h (by simp)
                  | ok w =>
                    obtain ⟨rr, sM⟩ := w
                    rw [hwm] at h
                    simp only [Except.ok.injEq, Prod.mk.injEq] at h
                    obtain ⟨_, hs'⟩ := h
                    subst hs'
                    exact flag_set_n sM id

/-- The writer flag after `fs_write`.  On a valid descriptor whose file is not busy, every
return of `fs_write` leaves the flag of the file different from `'w'`, but for the one case that
the file has no block (`first_data_blk` is `FAT_EOC`), the request is not empty, the cursor is
not beyond the size and `get_free_blk_idx` finds no block. -/
theorem fs_write_flag (s : FsState) (fd : Int) (buf : List Nat) (count : Nat) (r : Int)
    (s' : FsState)
    (hflag : (get_dir s (fd_get s fd).file_entry).flag ≠ FLAG_W)
    (hfree : ¬ ((get_dir s (fd_get s fd).file_entry).first_data_blk = FAT_EOC ∧
      get_free_blk_idx s < 0))
    (h : fs_write s fd buf count = .ok (r, s')) :
    (get_dir s' (fd_get s fd).file_entry).flag ≠ FLAG_W := by
  unfold fs_write at h
  by_cases hv : is_valid_fd s fd = false
  · rw [if_pos hv] at h
    simp only [Except.ok.injEq, Prod.mk.injEq] at h
    rw [← h.2]
    exact hflag
  rw [if_neg hv, if_neg hflag] at h
  by_cases hcount : count = 0
  · rw [if_pos hcount] at h
    simp only [Except.ok.injEq, Prod.mk.injEq] at h
    rw [← h.2]
    exact hflag
  rw [if_neg hcount] at h
  by_cases hoff : (fd_get s fd).offset > (get_dir s (fd_get s fd).file_entry).file_sz
  · rw [if_pos hoff] at h
    simp only [Except.ok.injEq, Prod.mk.injEq] at h
    rw [← h.2]
    exact hflag
  rw [if_neg hoff] at h
  generalize toInt32 count = lc at h
  generalize hid : (fd_get s fd).file_entry = id at hflag hfree h ⊢
  refine fs_write_alloc_flag (set_flag s id FLAG_W) fd id buf count _ lc r s' ?_ h
  intro hnone
  apply hfree
  unfold alloc_first at hnone
  have hfirst : (get_dir (set_flag s id FLAG_W) id).first_data_blk
      = (get_dir s id).first_data_blk :=
    getD_set_field RootDirEntry.first_data_blk _ _ _ _ _ rfl
  have hg : get_free_blk_idx (set_flag s id FLAG_W) = get_free_blk_idx s := rfl
  rw [hfirst, hg] at hnone
  by_cases hf : (get_dir s id).first_data_blk = FAT_EOC
  · rw [if_pos hf] at hnone
    by_cases hgf : get_free_blk_idx s < 0
    · exact ⟨hf, hgf⟩
    · rw [if_neg hgf] at hnone
      simp only [] at hnone
      split at hnone <;> exact absurd hnone (by simp)
  · rw [if_neg hf] at hnone
    exact absurd hnone (by simp)

/-! ## The block of an offset -/

/-- What `get_offset_blk` returns on a file whose chain `l` has `ceil(file_sz / 4096)` blocks:
for an offset inside the file that is 0 or not a multiple of 4096 it is the block of ordinal
`offset / 4096` of the chain, for a positive multiple of 4096 it is the block before that one;
for an offset at or beyond the size it is 0. -/
theorem get_offset_blk_chain (s : FsState) (fd : Int) (offset : Nat) (l : List Nat)
    (hv : is_valid_fd s fd = true) (hm : s.mounted = true)
    (hchain : IsChain s (get_dir s (fd_get s fd).file_entry).first_data_blk l)
    (hlen : l.length = ((get_dir s (fd_get s fd).file_entry).file_sz + 4095) / 4096)
    (h32 : (get_dir s (fd_get s fd).file_entry).file_sz < 4294967296) :
    (offset < (get_dir s (fd_get s fd).file_entry).file_sz →
      (offset = 0 ∨ offset % 4096 ≠ 0) →
      get_offset_blk s fd offset = .ok (l.getD (offset / 4096) 0)) ∧
    (offset < (get_dir s (fd_get s fd).file_entry).file_sz →
      offset ≠ 0 → offset % 4096 = 0 →
      get_offset_blk s fd offset = .ok (l.getD (offset / 4096 - 1) 0)) ∧
    ((get_dir s (fd_get s fd).file_entry).file_sz ≤ offset →
      get_offset_blk s fd offset = .ok 0) := by
  generalize hsz : (get_dir s (fd_get s fd).file_entry).file_sz = sz at hlen h32 ⊢
  have hwalk : ∀ n, n < l.length →
      walk_fat s n (get_dir s (fd_get s fd).file_entry).first_data_blk = .ok (l.getD n 0) :=
    fun n hn => (walk_fat_chain s hm n l _ hchain hn).1
  refine ⟨?_, ?_, ?_⟩
  · intro hoff hord
    unfold get_offset_blk
    rw [if_neg (by rw [hv]; decide), hsz, if_neg (by omega), Nat.mod_eq_of_lt (by omega)]
    have hn : (file_blk_count offset - 1).toNat = offset / 4096 := by
      unfold file_blk_count
      simp only [BLOCK_SIZE]
      split_ifs <;> omega
    rw [hn]
    exact hwalk _ (by omega)
  · intro hoff hne hmul
    unfold get_offset_blk
    rw [if_neg (by rw [hv]; decide), hsz, if_neg (by omega), Nat.mod_eq_of_lt (by omega)]
    have hn : (file_blk_count offset - 1).toNat = offset / 4096 - 1 := by
      unfold file_blk_count
      simp only [BLOCK_SIZE]
      split_ifs <;> omega
    rw [hn]
    exact hwalk _ (by omega)
  · intro hoff
    unfold get_offset_blk
    rw [if_neg (by rw [hv]; decide), hsz, if_pos hoff]

/-! ## The cursor bound -/

theorem countP_set {α : Type} (p : α → Bool) :
    ∀ (l : List α) (k : Nat) (a d : α), k < l.length →
      (l.set k a).countP p + (p (l.getD k d)).toNat = l.countP p + (p a).toNat := by
  intro l
  induction l with
  | nil => intro k a d h; simp at h
  | cons x xs ih =>
    intro k a d h
    cases k with
    | zero =>
      rw [List.set_cons_zero, List.getD_cons_zero, List.countP_cons, List.countP_cons]
      cases p x <;> cases p a <;> simp
    | succ k =>
      rw [List.set_cons_succ, List.getD_cons_succ, List.countP_cons, List.countP_cons]
      rw [List.length_cons] at h
      have := ih k a d (by omega)
      omega

theorem refs_set (s : FsState) (k : Nat) (o : Option FileDescriptor) (i : Nat)
    (hk : k < s.filedes.length) :
    (s.filedes.set k o).countP (refers i) + (refers i (s.filedes.getD k none)).toNat
      = refs s i + (refers i o).toNat :=
  countP_set (refers i) s.filedes k o none hk

theorem refs_le (s : FsState) (i : Nat) : refs s i ≤ s.filedes.length :=
  List.countP_le_length _

theorem refs_pos (s : FsState) (k : Nat) (d : FileDescriptor)
    (h : s.filedes.getD k none = some d) : 0 < refs s d.file_entry := by
  unfold refs
  rw [List.countP_pos_iff]
  have hk : k < s.filedes.length := by
    by_contra hc
    rw [List.getD_eq_default _ _ (by omega)] at h
    exact absurd h (by simp)
  refine ⟨s.filedes[k], List.getElem_mem hk, ?_⟩
  have e : s.filedes[k] = some d := by
    rw [List.getD_eq_getElem _ _ hk] at h
    exact h
  rw [e]
  simp [refers]

theorem refs_zero (s : FsState) (i : Nat)
    (h : ∀ k d, s.filedes.getD k none = some d → d.file_entry ≠ i) : refs s i = 0 := by
  unfold refs
  rw [List.countP_eq_zero]
  intro o ho
  obtain ⟨k, hk, hko⟩ := List.getElem_of_mem ho
  cases o with
  | none => simp [refers]
  | some d =>
    have := h k d (by rw [List.getD_eq_getElem _ _ hk, hko])
    simp [refers, this]

/-- The cursor bound follows from the fit of table and directory. -/
theorem descOk_cursorBound {s : FsState} (h : DescOk s) : CursorBound s := by
  intro fd hv
  obtain ⟨_, _, hslot, _⟩ := fd_slot_of_valid hv
  unfold fd_slot at hslot
  exact (h.desc fd.toNat (fd_get s fd) hslot).2

theorem scan_entry_ret (s : FsState) (name : List Nat) :
    ∀ n i, 0 ≤ scan_entry s name n i →
      ∃ k : Nat, scan_entry s name n i = (k : Int) ∧ i ≤ k ∧ k < i + n ∧
        (get_dir s k).filename = name := by
  intro n
  induction n with
  | zero =>
    intro i h
    rw [scan_entry] at h
    omega
  | succ n ih =>
    intro i h
    rw [scan_entry] at h ⊢
    by_cases hi : (get_dir s i).filename = name
    · rw [if_pos hi]
      exact ⟨i, rfl, Nat.le_refl _, by omega, hi⟩
    · rw [if_neg hi] at h ⊢
      obtain ⟨k, hk, h1, h2, h3⟩ := ih (i + 1) h
      exact ⟨k, hk, by omega, by omega, h3⟩

theorem scan_valid_entry_ret (s : FsState) (name : List Nat) :
    ∀ n i, 0 ≤ scan_valid_entry s name n i →
      ∃ k : Nat, scan_valid_entry s name n i = (k : Int) ∧ i ≤ k ∧ k < i + n ∧
        (get_dir s k).filename = [] := by
  intro n
  induction n with
  | zero =>
    intro i h
    rw [scan_valid_entry] at h
    omega
  | succ n ih =>
    intro i h
    rw [scan_valid_entry] at h ⊢
    by_cases hi : (get_dir s i).filename = name
    · rw [if_pos hi] at h
      omega
    · rw [if_neg hi] at h ⊢
      by_cases he : (get_dir s i).filename = []
      · rw [if_pos he]
        exact ⟨i, rfl, Nat.le_refl _, by omega, he⟩
      · rw [if_neg he] at h ⊢
        obtain ⟨k, hk, h1, h2, h3⟩ := ih (i + 1) h
        exact ⟨k, hk, by omega, by omega, h3⟩

/-- What `fs_create` does to the directory: nothing, or an empty entry gets the name. -/
theorem fs_create_cases (s : FsState) (name : List Nat) :
    (fs_create s name).2 = s ∨
    ∃ (k : Nat) (e : RootDirEntry), (get_dir s k).filename = [] ∧ e.open_ = 0 ∧
      (fs_create s name).2.filedes = s.filedes ∧
      (fs_create s name).2.root_dir = s.root_dir.set k e := by
  unfold fs_create
  by_cases hm : s.mounted = false
  · rw [if_pos hm]; exact Or.inl rfl
  rw [if_neg hm]
  by_cases hn : name = [] ∨ name.length ≥ FS_FILENAME_LEN
  · rw [if_pos hn]; exact Or.inl rfl
  rw [if_neg hn]
  simp only []
  by_cases he : get_valid_directory_entry s name < 0
  · rw [if_pos he]; exact Or.inl rfl
  rw [if_neg he]
  right
  unfold get_valid_directory_entry at he ⊢
  rw [if_neg hm] at he ⊢
  obtain ⟨k, hk, _, _, hke⟩ := scan_valid_entry_ret s name FS_FILE_MAX_COUNT 0 (by omega)
  rw [hk, Int.toNat_ofNat]
  exact ⟨k, _, hke, rfl, rfl, rfl⟩

theorem erase_fat_frame (fuel : Nat) (s : FsState) (id : Option Nat) (r : Int) (s1 : FsState)
    (h : erase_fat fuel s id = .ok (r, s1)) :
    s1.root_dir = s.root_dir ∧ s1.filedes = s.filedes ∧ s1.mounted = s.mounted := by
  unfold erase_fat at h
  by_cases hm : s.mounted = false
  · rw [if_pos hm] at h
    simp only [Except.ok.injEq, Prod.mk.injEq] at h
    rw [← h.2]
    exact ⟨rfl, rfl, rfl⟩
  rw [if_neg hm] at h
  cases id with
  | none =>
    simp only [Except.ok.injEq, Prod.mk.injEq] at h
    rw [← h.2]
    exact ⟨rfl, rfl, rfl⟩
  | some p =>
    simp only [] at h
    cases hl : erase_fat_loop s fuel s.fat s.sp.fat_used p with
    | error e =>
      rw [hl] at h
      exact absurd h (by simp)
    | ok v =>
      obtain ⟨fat, used⟩ := v
      rw [hl] at h
      simp only [Except.ok.injEq, Prod.mk.injEq] at h
      rw [← h.2]
      exact ⟨rfl, rfl, rfl⟩

/-- What a call of `fs_delete` that returns does to the directory: nothing, or an entry that
nobody has open is zeroed. -/
theorem fs_delete_cases (s : FsState) (name : List Nat) (r : Int) (s' : FsState)
    (h : fs_delete s name = .ok (r, s')) :
    s' = s ∨
    ∃ i : Nat, (get_dir s i).open_ = 0 ∧ s'.filedes = s.filedes ∧
      s'.root_dir = s.root_dir.set i zero_entry := by
  unfold fs_delete at h
  simp only [] at h
  by_cases he : get_directory_entry s name < 0
  · rw [if_pos he] at h
    simp only [Except.ok.injEq, Prod.mk.injEq] at h
    exact Or.inl h.2.symm
  rw [if_neg he] at h
  generalize hi : (get_directory_entry s name).toNat = i at h
  by_cases ho : (get_dir s i).open_ > 0
  · rw [if_pos ho] at h
    simp only [Except.ok.injEq, Prod.mk.injEq] at h
    exact Or.inl h.2.symm
  rw [if_neg ho] at h
  right
  have herase : ∀ (x : Except Err (Int × FsState)),
      (∀ r1 s1, x = .ok (r1, s1) → s1.root_dir = s.root_dir ∧ s1.filedes = s.filedes) →
      (match x with
        | .error e => (.error e : Except Err (Int × FsState))
        | .ok (_, s1) =>
          match write_meta { set_dir s1 i zero_entry with
              sp := { (set_dir s1 i zero_entry).sp with
                rdir_used := u16 ((set_dir s1 i zero_entry).sp.rdir_used + 65535) } } with
          | .error e => .error e
          | .ok (_, s4) => .ok (0, s4)) = .ok (r, s') →
      s'.filedes = s.filedes ∧ s'.root_dir = s.root_dir.set i zero_entry := by
    intro x hx hres
    cases x with
    | error e => exact absurd hres (by simp)
    | ok v =>
      obtain ⟨r1, s1⟩ := v
      obtain ⟨hrd, hfd⟩ := hx r1 s1 rfl
      simp only [] at hres
      cases hw : write_meta { set_dir s1 i zero_entry with
              sp := { (set_dir s1 i zero_entry).sp with
                rdir_used := u16 ((set_dir s1 i zero_entry).sp.rdir_used + 65535) } } with
      | error e =>
        rw [hw] at hres
        exact absurd hres (by simp)
      | ok w =>
        obtain ⟨rw_, s4⟩ := w
        rw [hw] at hres
        simp only [Except.ok.injEq, Prod.mk.injEq] at hres
        obtain ⟨hrd4, hfd4⟩ := write_meta_ok_frame _ _ _ hw
        rw [← hres.2, hrd4, hfd4]
        refine ⟨hfd, ?_⟩
        show s1.root_dir.set i zero_entry = _
        rw [hrd]
  refine ⟨i, by omega, ?_⟩
  refine herase _ ?_ h
  intro r1 s1 hx
  by_cases hf : (get_dir s i).first_data_blk ≠ FAT_EOC
  · rw [if_pos hf] at hx
    obtain ⟨a, b, _⟩ := erase_fat_frame _ _ _ _ _ hx
    exact ⟨a, b⟩
  · rw [if_neg hf] at hx
    simp only [Except.ok.injEq, Prod.mk.injEq] at hx
    rw [← hx.2]
    exact ⟨rfl, rfl⟩

/-- What `fs_open` does on a table of 32 slots: nothing, or the lowest free slot `k` gets a
descriptor of an entry `i` that carries the name, with cursor 0, and the open count of the entry
grows by 1. -/
theorem fs_open_cases (s : FsState) (name : List Nat)
    (hflen : s.filedes.length = FS_OPEN_MAX_COUNT) :
    (fs_open s name).2 = s ∨
    ∃ i k : Nat, i < FS_FILE_MAX_COUNT ∧ k < FS_OPEN_MAX_COUNT ∧
      (get_dir s i).filename = name ∧ s.filedes.getD k none = none ∧
      (fs_open s name).2.filedes = s.filedes.set k (some ⟨i, 0⟩) ∧
      (fs_open s name).2.root_dir = s.root_dir.set i
        { get_dir s i with open_ := ((get_dir s i).open_ + 1) % 256, flag := FLAG_O } := by
  by_cases h1 : s.fd_cnt ≥ (FS_OPEN_MAX_COUNT : Int) ∨ name.length ≥ FS_FILENAME_LEN
  · left
    unfold fs_open
    rw [if_pos h1]
  by_cases he : get_directory_entry s name < 0
  · left
    unfold fs_open
    rw [if_neg h1]
    simp only [if_pos he]
  by_cases hf : get_valid_fd s < 0
  · left
    unfold fs_open
    rw [if_neg h1]
    simp only [if_neg he, if_pos hf]
  right
  have hm : s.mounted = true := by
    by_contra hc
    unfold get_directory_entry at he
    rw [if_pos (by simpa using hc)] at he
    exact he (by decide)
  obtain ⟨i, hi, _, hilt, hiname⟩ : ∃ i : Nat, get_directory_entry s name = (i : Int) ∧
      0 ≤ i ∧ i < 0 + FS_FILE_MAX_COUNT ∧ (get_dir s i).filename = name := by
    unfold get_directory_entry at he ⊢
    rw [if_neg (by simp [hm])] at he ⊢
    exact scan_entry_ret s name FS_FILE_MAX_COUNT 0 (by omega)
  obtain ⟨k, hk, _, hklt, hkfree, _⟩ : ∃ k : Nat, get_valid_fd s = (k : Int) ∧
      0 ≤ k ∧ k < 0 + FS_OPEN_MAX_COUNT ∧ s.filedes.getD k none = none ∧
      ∀ j, 0 ≤ j → j < k → s.filedes.getD j none ≠ none := by
    unfold get_valid_fd at hf ⊢
    by_cases hc : s.fd_cnt ≥ (FS_OPEN_MAX_COUNT : Int)
    · exact absurd (Or.inl hc) h1
    rw [if_neg hc] at hf ⊢
    exact scan_fd_spec s.filedes FS_OPEN_MAX_COUNT 0 (by omega)
  have hkl : k < s.filedes.length := by rw [hflen]; omega
  have hk32 : k < 32 := by
    have : FS_OPEN_MAX_COUNT = 32 := rfl
    omega
  have hslot : (set_fd s (k : Int) (some ⟨i, 0⟩)).filedes.getD k none = some ⟨i, 0⟩ := by
    show (s.filedes.set (k : Int).toNat _).getD k none = _
    rw [Int.toNat_ofNat]
    exact getD_set_self _ _ _ _ hkl
  have hv : is_valid_fd (set_fd s (k : Int) (some ⟨i, 0⟩)) (k : Int) = true :=
    is_valid_fd_of_some hk32 hslot
  have hseek : fs_lseek (set_fd s (k : Int) (some ⟨i, 0⟩)) (k : Int) 0 =
      (0, set_fd s (k : Int) (some ⟨i, 0⟩)) := by
    rw [fs_lseek_of_le hv (Nat.zero_le _)]
    have hg : fd_get (set_fd s (k : Int) (some ⟨i, 0⟩)) (k : Int) = ⟨i, 0⟩ :=
      fd_get_set_self _ (by rw [Int.toNat_ofNat]; exact hkl)
    rw [hg]
    simp only [set_fd, Int.toNat_ofNat, List.set_set]
  have hres : fs_open s name =
      ((k : Int),
       { s with
         filedes := s.filedes.set k (some ⟨i, 0⟩)
         root_dir := s.root_dir.set i
           { get_dir s i with open_ := ((get_dir s i).open_ + 1) % 256, flag := FLAG_O }
         fd_cnt := s.fd_cnt + 1 }) := by
    unfold fs_open
    rw [if_neg h1]
    simp only [hi, hk, Int.toNat_ofNat]
    rw [if_neg (by omega), if_neg (by omega), hseek,
      if_neg (by show ¬ ((0 : Int) < 0); decide)]
    rfl
  rw [hres]
  exact ⟨i, k, by omega, by omega, hiname, hkfree, rfl, rfl⟩

theorem get_dir_of_set (s s' : FsState) (i : Nat) (e : RootDirEntry)
    (hrd : s'.root_dir = s.root_dir.set i e) :
    (∀ j, j ≠ i → get_dir s' j = get_dir s j) ∧
    (i < s.root_dir.length → get_dir s' i = e) ∧
    (s.root_dir.length ≤ i → get_dir s' i = get_dir s i) := by
  refine ⟨?_, ?_, ?_⟩
  · intro j hj
    unfold get_dir
    rw [hrd]
    exact getD_set_ne _ _ _ _ _ (Ne.symm hj)
  · intro hi
    unfold get_dir
    rw [hrd]
    exact getD_set_self _ _ _ _ hi
  · intro hi
    unfold get_dir
    rw [hrd, List.set_eq_of_length_le hi]

theorem refs_congr {s s' : FsState} (h : s'.filedes = s.filedes) (i : Nat) :
    refs s' i = refs s i := by
  unfold refs
  rw [h]

/-- An entry that no descriptor refers to may be replaced by an entry with open count 0. -/
theorem descOk_replace (s s' : FsState) (i : Nat) (e : RootDirEntry) (h : DescOk s)
    (hrefs : refs s i = 0) (he : e.open_ = 0) (hfd : s'.filedes = s.filedes)
    (hrd : s'.root_dir = s.root_dir.set i e) : DescOk s' := by
  obtain ⟨g1, g2, g3⟩ := get_dir_of_set s s' i e hrd
  refine ⟨?_, ?_, ?_, ?_⟩
  · rw [hrd, List.length_set]; exact h.dir_len
  · rw [hfd]; exact h.fd_len
  · intro j
    rw [refs_congr hfd]
    by_cases hj : j = i
    · subst hj
      by_cases hl : j < s.root_dir.length
      · rw [g2 hl, he, hrefs]
      · rw [g3 (by omega)]; exact h.opens j
    · rw [g1 j hj]; exact h.opens j
  · intro k d hk
    rw [hfd] at hk
    obtain ⟨d1, d2, d3⟩ := h.desc k d hk
    have hne : d.file_entry ≠ i := by
      intro hc
      have := refs_pos s k d hk
      rw [hc] at this
      omega
    rw [g1 _ hne]
    exact ⟨d1, d2, d3⟩

theorem descOk_create (s : FsState) (name : List Nat) (h : DescOk s) :
    DescOk (fs_create s name).2 := by
  rcases fs_create_cases s name with hs | ⟨k, e, hk, he, hfd, hrd⟩
  · rw [hs]; exact h
  · refine descOk_replace s _ k e h ?_ he hfd hrd
    apply refs_zero
    intro k' d hd hc
    have := (h.desc k' d hd).2.1
    rw [hc] at this
    exact this hk

theorem descOk_delete (s : FsState) (name : List Nat) (r : Int) (s' : FsState) (h : DescOk s)
    (hr : fs_delete s name = .ok (r, s')) : DescOk s' := by
  rcases fs_delete_cases s name r s' hr with hs | ⟨i, hopen, hfd, hrd⟩
  · rw [hs]; exact h
  · refine descOk_replace s s' i zero_entry h ?_ rfl hfd hrd
    rw [← h.opens i]
    exact hopen

theorem getD_of_set {α : Type} (l : List α) (k j : Nat) (a d : α) :
    (l.set k a).getD j d = if j = k ∧ k < l.length then a else l.getD j d := by
  by_cases hjk : j = k
  · subst hjk
    by_cases hl : j < l.length
    · rw [if_pos ⟨rfl, hl⟩]
      exact getD_set_self _ _ _ _ hl
    · rw [if_neg (fun h => hl h.2), List.set_eq_of_length_le (by omega)]
  · rw [if_neg (fun h => hjk h.1)]
    exact getD_set_ne _ _ _ _ _ (Ne.symm hjk)

theorem descOk_open (s : FsState) (name : List Nat) (h : DescOk s) (hname : name ≠ []) :
    DescOk (fs_open s name).2 := by
  rcases fs_open_cases s name h.fd_len with hs | ⟨i, k, hi, hk, hin, hkfree, hfd, hrd⟩
  · rw [hs]; exact h
  generalize (fs_open s name).2 = s' at hfd hrd
  obtain ⟨g1, g2, _⟩ := get_dir_of_set s s' i _ hrd
  have hil : i < s.root_dir.length := by rw [h.dir_len]; exact hi
  have hkl : k < s.filedes.length := by rw [h.fd_len]; exact hk
  have hcount : ∀ j, refs s' j = refs s j + (refers j (some ⟨i, 0⟩)).toNat := by
    intro j
    have e := refs_set s k (some ⟨i, 0⟩) j hkl
    rw [hkfree] at e
    unfold refs
    rw [hfd]
    exact e
  have hle := refs_le s i
  rw [h.fd_len] at hle
  have h32 : FS_OPEN_MAX_COUNT = 32 := rfl
  refine ⟨?_, ?_, ?_, ?_⟩
  · rw [hrd, List.length_set]; exact h.dir_len
  · rw [hfd, List.length_set]; exact h.fd_len
  · intro j
    rw [hcount j]
    by_cases hj : j = i
    · subst hj
      rw [g2 hil]
      show ((get_dir s j).open_ + 1) % 256 = _
      rw [h.opens j]
      have : (refers j (some ⟨j, 0⟩)).toNat = 1 := by simp [refers]
      rw [this, Nat.mod_eq_of_lt (by omega)]
    · rw [g1 j hj, h.opens j]
      have : (refers j (some ⟨i, 0⟩)).toNat = 0 := by simp [refers, Ne.symm hj]
      rw [this, Nat.add_zero]
  · intro k' d hd
    rw [hfd, getD_of_set] at hd
    have hfields : ∀ j, (get_dir s' j).filename = (get_dir s j).filename ∧
        (get_dir s' j).file_sz = (get_dir s j).file_sz := by
      intro j
      by_cases hj : j = i
      · subst hj
        rw [g2 hil]
        exact ⟨rfl, rfl⟩
      · rw [g1 j hj]
        exact ⟨rfl, rfl⟩
    by_cases hk' : k' = k ∧ k < s.filedes.length
    · rw [if_pos hk'] at hd
      simp only [Option.some.injEq] at hd
      subst hd
      rw [(hfields i).1, (hfields i).2]
      exact ⟨hi, by rw [hin]; exact hname, Nat.zero_le _⟩
    · rw [if_neg hk'] at hd
      rw [(hfields d.file_entry).1, (hfields d.file_entry).2]
      exact h.desc k' d hd

theorem descOk_close (s : FsState) (fd : Int) (h : DescOk s) : DescOk (fs_close s fd).2 := by
  by_cases hv : is_valid_fd s fd = true
  · obtain ⟨h0, h32, hslot, hlt⟩ := fd_slot_of_valid hv
    unfold fd_slot at hslot
    rw [fs_close_at s fd hv]
    generalize hd0 : fd_get s fd = d0 at hslot
    generalize hs' : ({ s with
            root_dir := s.root_dir.set d0.file_entry
              { get_dir s d0.file_entry with
                open_ := ((get_dir s d0.file_entry).open_ + 255) % 256
                flag := FLAG_X }
            filedes := s.filedes.set fd.toNat none
            fd_cnt := s.fd_cnt - 1 } : FsState) = s'
    have hrd : s'.root_dir = s.root_dir.set d0.file_entry
        { get_dir s d0.file_entry with
          open_ := ((get_dir s d0.file_entry).open_ + 255) % 256, flag := FLAG_X } := by
      rw [← hs']
    have hfd : s'.filedes = s.filedes.set fd.toNat none := by rw [← hs']
    show DescOk s'
    obtain ⟨e1, _, _⟩ := h.desc fd.toNat d0 hslot
    obtain ⟨g1, g2, _⟩ := get_dir_of_set s s' d0.file_entry _ hrd
    have hil : d0.file_entry < s.root_dir.length := by rw [h.dir_len]; exact e1
    have hcount : ∀ j, refs s' j + (refers j (some d0)).toNat = refs s j := by
      intro j
      have e := refs_set s fd.toNat none j hlt
      rw [hslot] at e
      unfold refs
      rw [hfd]
      exact e
    have hpos := refs_pos s fd.toNat d0 hslot
    have hle := refs_le s d0.file_entry
    rw [h.fd_len] at hle
    have h32' : FS_OPEN_MAX_COUNT = 32 := rfl
    refine ⟨?_, ?_, ?_, ?_⟩
    · rw [hrd, List.length_set]; exact h.dir_len
    · rw [hfd, List.length_set]; exact h.fd_len
    · intro j
      have hc := hcount j
      by_cases hj : j = d0.file_entry
      · subst hj
        rw [g2 hil]
        show ((get_dir s d0.file_entry).open_ + 255) % 256 = _
        rw [h.opens d0.file_entry]
        have : (refers d0.file_entry (some d0)).toNat = 1 := by simp [refers]
        rw [this] at hc
        omega
      · rw [g1 j hj, h.opens j]
        have : (refers j (some d0)).toNat = 0 := by simp [refers, Ne.symm hj]
        rw [this] at hc
        omega
    · intro k' d hd
      rw [hfd, getD_of_set] at hd
      have hfields : ∀ j, (get_dir s' j).filename = (get_dir s j).filename ∧
          (get_dir s' j).file_sz = (get_dir s j).file_sz := by
        intro j
        by_cases hj : j = d0.file_entry
        · subst hj
          rw [g2 hil]
          exact ⟨rfl, rfl⟩
        · rw [g1 j hj]
          exact ⟨rfl, rfl⟩
      by_cases hk' : k' = fd.toNat ∧ fd.toNat < s.filedes.length
      · rw [if_pos hk'] at hd
        exact absurd hd (by simp)
      · rw [if_neg hk'] at hd
        rw [(hfields d.file_entry).1, (hfields d.file_entry).2]
        exact h.desc k' d hd
  · have hv' : is_valid_fd s fd = false := by simpa using hv
    unfold fs_close
    rw [if_pos hv']
    exact h

theorem descOk_lseek (s : FsState) (fd : Int) (o : Nat) (h : DescOk s) :
    DescOk (fs_lseek s fd o).2 := by
  by_cases hv : is_valid_fd s fd = true
  · by_cases ho : o ≤ (get_dir s (fd_get s fd).file_entry).file_sz
    · obtain ⟨h0, h32, hslot, hlt⟩ := fd_slot_of_valid hv
      unfold fd_slot at hslot
      rw [fs_lseek_of_le hv ho]
      generalize hd0 : fd_get s fd = d0 at hslot ho
      obtain ⟨e1, e2, _⟩ := h.desc fd.toNat d0 hslot
      have hcount : ∀ j, refs (set_fd s fd (some ⟨d0.file_entry, o⟩)) j = refs s j := by
        intro j
        have e := refs_set s fd.toNat (some ⟨d0.file_entry, o⟩) j hlt
        rw [hslot] at e
        have e2 : refers j (some (⟨d0.file_entry, o⟩ : FileDescriptor)) = refers j (some d0) :=
          rfl
        rw [e2] at e
        unfold refs set_fd
        show List.countP (refers j) (s.filedes.set fd.toNat _) = _
        unfold refs at e
        omega
      refine ⟨h.dir_len, ?_, ?_, ?_⟩
      · show (s.filedes.set fd.toNat _).length = _
        rw [List.length_set]; exact h.fd_len
      · intro j
        rw [hcount j]
        exact h.opens j
      · intro k' d hd
        have hd' : (s.filedes.set fd.toNat (some ⟨d0.file_entry, o⟩)).getD k' none = some d := hd
        rw [getD_of_set] at hd'
        show d.file_entry < FS_FILE_MAX_COUNT ∧ (get_dir s d.file_entry).filename ≠ [] ∧
          d.offset ≤ (get_dir s d.file_entry).file_sz
        by_cases hk' : k' = fd.toNat ∧ fd.toNat < s.filedes.length
        · rw [if_pos hk'] at hd'
          simp only [Option.some.injEq] at hd'
          subst hd'
          exact ⟨e1, e2, ho⟩
        · rw [if_neg hk'] at hd'
          exact h.desc k' d hd'
    · rw [fs_lseek_of_gt hv (by omega)]
      exact h
  · have hv' : is_valid_fd s fd = false := by simpa using hv
    unfold fs_lseek
    rw [if_pos hv']
    exact h

theorem descOk_read (s : FsState) (fd : Int) (buf : List Nat) (count : Nat) (r : Int)
    (out : List Nat) (s' : FsState) (h : DescOk s)
    (hr : fs_read s fd buf count = .ok (r, out, s')) : DescOk s' := by
  rcases fs_read_state s fd buf count r out s' hr with hs | ⟨o, hs⟩
  · rw [hs]; exact h
  · rw [hs]; exact descOk_lseek s fd o h

theorem dirKept_refl (s : FsState) (id : Nat) : DirKept s s id :=
  ⟨rfl, rfl, fun _ => rfl, fun _ => rfl, fun _ _ => rfl⟩

theorem dirKept_trans {s s1 s2 : FsState} {id : Nat} (h1 : DirKept s s1 id)
    (h2 : DirKept s1 s2 id) : DirKept s s2 id :=
  ⟨h2.filedes.trans h1.filedes, h2.dir_len.trans h1.dir_len,
    fun j => (h2.name j).trans (h1.name j), fun j => (h2.opens j).trans (h1.opens j),
    fun j hj => (h2.sizes j hj).trans (h1.sizes j hj)⟩

/-- A state whose descriptor table is that of `s` and whose directory is that of `s` with the
entry `id` replaced by one of the same name and open count. -/
theorem dirKept_of_set (s s' : FsState) (id : Nat) (e : RootDirEntry)
    (hfd : s'.filedes = s.filedes) (hrd : s'.root_dir = s.root_dir.set id e)
    (hn : e.filename = (get_dir s id).filename) (ho : e.open_ = (get_dir s id).open_) :
    DirKept s s' id := by
  obtain ⟨g1, g2, g3⟩ := get_dir_of_set s s' id e hrd
  have hall : ∀ j, (get_dir s' j).filename = (get_dir s j).filename ∧
      (get_dir s' j).open_ = (get_dir s j).open_ := by
    intro j
    by_cases hj : j = id
    · subst hj
      by_cases hl : j < s.root_dir.length
      · rw [g2 hl]; exact ⟨hn, ho⟩
      · rw [g3 (by omega)]; exact ⟨rfl, rfl⟩
    · rw [g1 j hj]; exact ⟨rfl, rfl⟩
  exact ⟨hfd, by rw [hrd, List.length_set], fun j => (hall j).1, fun j => (hall j).2,
    fun j hj => by rw [g1 j hj]⟩

theorem dirKept_same_dir (s s' : FsState) (id : Nat) (hfd : s'.filedes = s.filedes)
    (hrd : s'.root_dir = s.root_dir) : DirKept s s' id := by
  have hg : ∀ j, get_dir s' j = get_dir s j := by
    intro j
    unfold get_dir
    rw [hrd]
  exact ⟨hfd, by rw [hrd], fun j => by rw [hg j], fun j => by rw [hg j],
    fun j _ => by rw [hg j]⟩

theorem dirKept_set_flag (s : FsState) (id c : Nat) : DirKept s (set_flag s id c) id :=
  dirKept_of_set s _ id { get_dir s id with flag := c } rfl rfl rfl rfl

theorem dirKept_alloc_first (s : FsState) (id : Nat) (s2 : FsState)
    (h : alloc_first s id = .ok (some s2)) : DirKept s s2 id := by
  unfold alloc_first at h
  by_cases hf : (get_dir s id).first_data_blk = FAT_EOC
  · rw [if_pos hf] at h
    by_cases hg : get_free_blk_idx s < 0
    · rw [if_pos hg] at h
      exact absurd h (by simp)
    · rw [if_neg hg] at h
      simp only [] at h
      cases hgf : get_fat (set_dir s id { get_dir s id with
          first_data_blk := (get_free_blk_idx s).toNat,
          last_data_blk := (get_free_blk_idx s).toNat }) (get_free_blk_idx s).toNat with
      | none =>
        rw [hgf] at h
        exact absurd h (by simp)
      | some p =>
        rw [hgf] at h
        simp only [Except.ok.injEq, Option.some.injEq] at h
        subst h
        exact dirKept_of_set s _ id { get_dir s id with
          first_data_blk := (get_free_blk_idx s).toNat,
          last_data_blk := (get_free_blk_idx s).toNat } rfl rfl rfl rfl
  · rw [if_neg hf] at h
    simp only [Except.ok.injEq, Option.some.injEq] at h
    subst h
    exact dirKept_refl _ id

theorem dirKept_commit (s : FsState) (id count offset : Nat) (l : Int) (nb : List Nat)
    (d : Disk) (r : Int) (s' : FsState)
    (h : fs_write_commit s id count offset l nb d = .ok (r, s')) : DirKept s s' id := by
  unfold fs_write_commit at h
  simp only [] at h
  cases hlink : link_new_blks s nb (get_fat s (get_dir s id).last_data_blk) s.fat
      (get_dir s id).last_data_blk with
  | error e =>
    rw [hlink] at h
    exact absurd h (by simp)
  | ok v =>
    obtain ⟨fat, last⟩ := v
    rw [hlink] at h
    simp only [] at h
    generalize hrc : (if l > 0 then count - l.toNat else count) = rc at h
    generalize hs1 : ({ s with
        root_dir := s.root_dir.set id
          { get_dir s id with
            file_sz := if rc + offset > (get_dir s id).file_sz then (rc + offset) % 4294967296
              else (get_dir s id).file_sz
            last_data_blk := last }
        fat := fat
        sp := { s.sp with fat_used := u16 (s.sp.fat_used + nb.length) }
        disk := d } : FsState) = s1 at h
    have k1 : DirKept s s1 id := by
      refine dirKept_of_set s s1 id { get_dir s id with
            file_sz := if rc + offset > (get_dir s id).file_sz then (rc + offset) % 4294967296
              else (get_dir s id).file_sz
            last_data_blk := last } ?_ ?_ rfl rfl
      · rw [← hs1]
      · rw [← hs1]
    cases hwm : write_meta s1 with
    | error e =>
      rw [hwm] at h
      exact absurd h (by simp)
    | ok w =>
      obtain ⟨rr, sM⟩ := w
      rw [hwm] at h
      simp only [Except.ok.injEq, Prod.mk.injEq] at h
      obtain ⟨_, hs'⟩ := h
      obtain ⟨hrdM, hfdM⟩ := write_meta_ok_frame s1 rr sM hwm
      subst hs'
      exact dirKept_trans k1
        (dirKept_trans (dirKept_same_dir s1 sM id hfdM hrdM) (dirKept_set_flag sM id FLAG_N))

theorem dirKept_alloc (s1 : FsState) (fd : Int) (id : Nat) (buf : List Nat)
    (count offset : Nat) (lc : Int) (r : Int) (s' : FsState)
    (h : fs_write_alloc s1 fd id buf count offset lc (alloc_first s1 id) = .ok (r, s')) :
    DirKept s1 s' id := by
  cases ha : alloc_first s1 id with
  | error e =>
    rw [ha, fs_write_alloc] at h
    exact absurd h (by simp)
  | ok o =>
    cases o with
    | none =>
      rw [ha, fs_write_alloc] at h
      simp only [Except.ok.injEq, Prod.mk.injEq] at h
      obtain ⟨_, hs'⟩ := h
      subst hs'
      exact dirKept_refl _ id
    | some s2 =>
      have kA := dirKept_alloc_first s1 id s2 ha
      rw [ha, fs_write_alloc] at h
      refine dirKept_trans kA ?_
      cases hst : start_blk s2 fd id offset with
      | error e =>
        rw [hst, fs_write_start] at h
        exact absurd h (by simp)
      | ok o2 =>
        cases o2 with
        | none =>
          rw [hst, fs_write_start] at h
          simp only [Except.ok.injEq, Prod.mk.injEq] at h
          obtain ⟨_, hs'⟩ := h
          subst hs'
          exact dirKept_set_flag s2 id FLAG_N
        | some p =>
          obtain ⟨wb, nb⟩ := p
          rw [hst, fs_write_start] at h
          cases hfb : write_first_blk s2 id buf lc wb with
          | none =>
            rw [hfb, fs_write_blocks] at h
            simp only [Except.ok.injEq, Prod.mk.injEq] at h
            obtain ⟨_, hs'⟩ := h
            subst hs'
            exact dirKept_set_flag s2 id FLAG_N
          | some q =>
            obtain ⟨bi, d⟩ := q
            rw [hfb, fs_write_blocks] at h
            cases hloop : fs_write_loop s2 buf (int_sub lc bi).toNat (int_sub lc bi) wb nb bi d with
            | error e =>
              rw [hloop, fs_write_finish] at h
              exact absurd h (by simp)
            | ok w =>
              cases w with
              | failed d1 =>
                rw [hloop, fs_write_finish] at h
                simp only [Except.ok.injEq, Prod.mk.injEq] at h
                obtain ⟨_, hs'⟩ := h
                subst hs'
                exact dirKept_trans
                  (dirKept_same_dir s2 { s2 with disk := d1 } id rfl rfl)
                  (dirKept_set_flag _ id FLAG_N)
              | finished l nb1 d1 =>
                rw [hloop, fs_write_finish] at h
                exact dirKept_commit s2 id count offset l nb1 d1 r s' h

/-- What a call of `fs_write` that returns keeps, and the size it leaves: on a descriptor of an
entry of the directory whose cursor is at most the size, a request that does not take the size
beyond 32 bits leaves the file at least as large as it was. -/
theorem fs_write_kept (s : FsState) (fd : Int) (buf : List Nat) (count : Nat) (r : Int)
    (s' : FsState) (h : fs_write s fd buf count = .ok (r, s')) :
    DirKept s s' (fd_get s fd).file_entry ∧
    (is_valid_fd s fd = true → (fd_get s fd).file_entry < s.root_dir.length →
      (fd_get s fd).offset ≤ (get_dir s (fd_get s fd).file_entry).file_sz →
      (get_dir s (fd_get s fd).file_entry).file_sz + count < 4294967296 →
      (get_dir s (fd_get s fd).file_entry).file_sz
        ≤ (get_dir s' (fd_get s fd).file_entry).file_sz) := by
  generalize hidg : (fd_get s fd).file_entry = id at h ⊢
  unfold fs_write at h
  rw [hidg] at h
  by_cases hv : is_valid_fd s fd = false
  · rw [if_pos hv] at h
    simp only [Except.ok.injEq, Prod.mk.injEq] at h
    rw [← h.2]
    exact ⟨dirKept_refl s id, fun _ _ _ _ => Nat.le_refl _⟩
  rw [if_neg hv] at h
  by_cases hflag : (get_dir s id).flag = FLAG_W
  · rw [if_pos hflag] at h
    simp only [Except.ok.injEq, Prod.mk.injEq] at h
    rw [← h.2]
    exact ⟨dirKept_refl s id, fun _ _ _ _ => Nat.le_refl _⟩
  rw [if_neg hflag] at h
  by_cases hcount : count = 0
  · rw [if_pos hcount] at h
    simp only [Except.ok.injEq, Prod.mk.injEq] at h
    rw [← h.2]
    exact ⟨dirKept_refl s id, fun _ _ _ _ => Nat.le_refl _⟩
  rw [if_neg hcount] at h
  by_cases hoff : (fd_get s fd).offset > (get_dir s id).file_sz
  · rw [if_pos hoff] at h
    simp only [Except.ok.injEq, Prod.mk.injEq] at h
    rw [← h.2]
    exact ⟨dirKept_refl s id, fun _ _ _ _ => Nat.le_refl _⟩
  rw [if_neg hoff] at h
  generalize toInt32 count = lc at h
  generalize hcur : (fd_get s fd).offset = c at h hoff ⊢
  refine ⟨dirKept_trans (dirKept_set_flag s id FLAG_W)
    (dirKept_alloc (set_flag s id FLAG_W) fd id buf count c lc r s' h), ?_⟩
  intro _ hid hc hrange
  obtain ⟨_, hres⟩ := fs_write_alloc_size (set_flag s id FLAG_W) fd id buf count c lc r s'
    (by rw [(set_flag_frame s id FLAG_W).2.1]; exact hid) h
  rw [(set_flag_frame s id FLAG_W).2.2] at hres
  rcases hres with ⟨_, hsz'⟩ | ⟨rc, hrcle, _, hsz'⟩
  · rw [hsz']
  · rw [hsz']
    by_cases hgt : rc + c > (get_dir s id).file_sz
    · rw [if_pos hgt, Nat.mod_eq_of_lt (by omega)]
      omega
    · rw [if_neg hgt]

theorem descOk_write (s : FsState) (fd : Int) (buf : List Nat) (count : Nat) (r : Int)
    (s' : FsState) (h : DescOk s)
    (hok : is_valid_fd s fd = true →
      (get_dir s (fd_get s fd).file_entry).file_sz + count < 4294967296)
    (hr : fs_write s fd buf count = .ok (r, s')) : DescOk s' := by
  obtain ⟨hk, hsz⟩ := fs_write_kept s fd buf count r s' hr
  by_cases hv : is_valid_fd s fd = true
  · obtain ⟨_, _, hslot, _⟩ := fd_slot_of_valid hv
    unfold fd_slot at hslot
    obtain ⟨e1, _, e3⟩ := h.desc fd.toNat (fd_get s fd) hslot
    have hge := hsz hv (by rw [h.dir_len]; exact e1) e3 (hok hv)
    refine ⟨hk.dir_len.trans h.dir_len, by rw [hk.filedes]; exact h.fd_len, ?_, ?_⟩
    · intro j
      rw [hk.opens j, refs_congr hk.filedes]
      exact h.opens j
    · intro k d hd
      rw [hk.filedes] at hd
      obtain ⟨d1, d2, d3⟩ := h.desc k d hd
      refine ⟨d1, by rw [hk.name]; exact d2, ?_⟩
      by_cases hj : d.file_entry = (fd_get s fd).file_entry
      · rw [hj] at d3 ⊢
        omega
      · rw [hk.sizes _ hj]
        exact d3
  · have hv' : is_valid_fd s fd = false := by simpa using hv
    unfold fs_write at hr
    rw [if_pos hv'] at hr
    simp only [Except.ok.injEq, Prod.mk.injEq] at hr
    rw [← hr.2]
    exact h

theorem descOk_run_call (s : FsState) (c : Call) (s' : FsState) (h : DescOk s)
    (hc : call_ok s c) (hr : run_call s c = .ok s') : DescOk s' := by
  cases c with
  | fs_create name =>
    simp only [run_call, Except.ok.injEq] at hr
    rw [← hr]
    exact descOk_create s name h
  | fs_delete name =>
    rw [run_call] at hr
    cases hd : fs_delete s name with
    | error e =>
      rw [hd] at hr
      exact absurd hr (by simp)
    | ok v =>
      obtain ⟨r, s1⟩ := v
      rw [hd] at hr
      simp only [Except.ok.injEq] at hr
      rw [← hr]
      exact descOk_delete s name r s1 h hd
  | fs_open name =>
    simp only [run_call, Except.ok.injEq] at hr
    rw [← hr]
    exact descOk_open s name h hc
  | fs_close fd =>
    simp only [run_call, Except.ok.injEq] at hr
    rw [← hr]
    exact descOk_close s fd h
  | fs_lseek fd o =>
    simp only [run_call, Except.ok.injEq] at hr
    rw [← hr]
    exact descOk_lseek s fd o h
  | fs_read fd n =>
    rw [run_call] at hr
    cases hd : fs_read s fd (List.replicate n 0) n with
    | error e =>
      rw [hd] at hr
      exact absurd hr (by simp)
    | ok v =>
      obtain ⟨r, out, s1⟩ := v
      rw [hd] at hr
      simp only [Except.ok.injEq] at hr
      rw [← hr]
      exact descOk_read s fd _ n r out s1 h hd
  | fs_write fd b n =>
    rw [run_call] at hr
    cases hd : fs_write s fd b n with
    | error e =>
      rw [hd] at hr
      exact absurd hr (by simp)
    | ok v =>
      obtain ⟨r, s1⟩ := v
      rw [hd] at hr
      simp only [Except.ok.injEq] at hr
      rw [← hr]
      exact descOk_write s fd b n r s1 h hc hd

theorem descOk_run_calls :
    ∀ (calls : List Call) (s s' : FsState), DescOk s → calls_ok s calls →
      run_calls s calls = .ok s' → DescOk s' := by
  intro calls
  induction calls with
  | nil =>
    intro s s' h _ hr
    simp only [run_calls, Except.ok.injEq] at hr
    rw [← hr]
    exact h
  | cons c rest ih =>
    intro s s' h hok hr
    rw [run_calls] at hr
    rw [calls_ok] at hok
    obtain ⟨hc, hrest⟩ := hok
    cases h1 : run_call s c with
    | error e =>
      rw [h1] at hr
      exact absurd hr (by simp)
    | ok s1 =>
      rw [h1] at hr hrest
      exact ih s1 s' (descOk_run_call s c s1 h hc h1) hrest hr

theorem entries_of_bytes_length : ∀ (n : Nat) (b : List Nat), (entries_of_bytes n b).length = n := by
  intro n
  induction n with
  | zero => intro b; rfl
  | succ n ih =>
    intro b
    rw [entries_of_bytes, List.length_cons, ih]

/-- The state a successful `fs_mount` leaves: a mounted volume, a directory of 128 entries and
a descriptor table of 32 empty slots. -/
theorem fs_mount_ok (s : FsState) (dev : Option Disk) (s0 : FsState)
    (h : fs_mount s dev = .ok (0, s0)) :
    s0.mounted = true ∧ s0.root_dir.length = FS_FILE_MAX_COUNT ∧
    s0.filedes = List.replicate FS_OPEN_MAX_COUNT none := by
  have hne : ∀ t : FsState, (Except.ok ((-1 : Int), t) : Except Err (Int × FsState))
      ≠ .ok (0, s0) := by
    intro t hc
    simp only [Except.ok.injEq, Prod.mk.injEq] at hc
    exact absurd hc.1 (by decide)
  unfold fs_mount at h
  cases dev with
  | none => exact absurd h (hne _)
  | some d =>
    simp only [] at h
    cases hb0 : block_read d 0 with
    | none =>
      rw [hb0] at h
      exact absurd h (hne _)
    | some b0 =>
      rw [hb0] at h
      simp only [] at h
      by_cases c1 : (sp_of_bytes b0).signature ≠ FS_NAME
      · rw [if_pos c1] at h
        exact absurd h (hne _)
      rw [if_neg c1] at h
      by_cases c2 : block_disk_count d ≠ (sp_of_bytes b0).total_blk_count
      · rw [if_pos c2] at h
        exact absurd h (hne _)
      rw [if_neg c2] at h
      by_cases c3 : (sp_of_bytes b0).data_blk_count > (sp_of_bytes b0).fat_blk_count * BLOCK_SIZE / 2
      · rw [if_pos c3] at h
        exact absurd h (hne _)
      rw [if_neg c3] at h
      cases hbr : block_read d (sp_of_bytes b0).rdir_blk with
      | none =>
        rw [hbr] at h
        exact absurd h (hne _)
      | some br =>
        rw [hbr] at h
        simp only [] at h
        generalize hs1 : sp_setup { s with
            mounted := true
            sp := sp_of_bytes b0
            root_dir := entries_of_bytes FS_FILE_MAX_COUNT br
            disk := d } = s1 at h
        obtain ⟨_, _, _, _, k2, k3, _⟩ := sp_setup_sp { s with
            mounted := true
            sp := sp_of_bytes b0
            root_dir := entries_of_bytes FS_FILE_MAX_COUNT br
            disk := d }
        rw [hs1] at k2 k3
        cases hf : read_fat_blocks d s1.sp.fat_blk_count 0 with
        | none =>
          rw [hf] at h
          exact absurd h (hne _)
        | some fat =>
          rw [hf] at h
          simp only [] at h
          cases hw : write_meta { s1 with
              fat := fat, fd_cnt := 0, filedes := List.replicate FS_OPEN_MAX_COUNT none } with
          | error e =>
            rw [hw] at h
            exact absurd h (by simp)
          | ok w =>
            obtain ⟨rr, s2⟩ := w
            rw [hw] at h
            simp only [Except.ok.injEq, Prod.mk.injEq] at h
            obtain ⟨m1, m2, _, m4, _⟩ := write_meta_ok_keeps _ _ _ hw
            rw [← h.2]
            refine ⟨?_, ?_, m4⟩
            · rw [m1]
              show s1.mounted = true
              rw [k2]
            · rw [m2]
              show s1.root_dir.length = _
              rw [k3]
              exact entries_of_bytes_length _ _

theorem descOk_mount (s : FsState) (dev : Option Disk) (s0 : FsState)
    (h : fs_mount s dev = .ok (0, s0)) (hopen : ∀ i, (get_dir s0 i).open_ = 0) :
    DescOk s0 := by
  obtain ⟨_, hlen, hfd⟩ := fs_mount_ok s dev s0 h
  have hnone : ∀ k, s0.filedes.getD k none = none := by
    intro k
    rw [hfd, List.getD_eq_getElem?_getD, List.getElem?_replicate]
    split <;> rfl
  refine ⟨hlen, by rw [hfd, List.length_replicate], ?_, ?_⟩
  · intro i
    rw [hopen i, refs_zero s0 i]
    intro k d hd
    rw [hnone k] at hd
    exact absurd hd (by simp)
  · intro k d hd
    rw [hnone k] at hd
    exact absurd hd (by simp)

/-- The cursor bound stands up to the calls of `calls_ok`.  From the state that a successful
`fs_mount` leaves of a volume whose stored open counts are all 0, every sequence of calls of
`fs_create`, `fs_delete`, `fs_open`, `fs_close`, `fs_lseek`, `fs_read` and `fs_write` in which
`fs_open` is not given the empty name and no `fs_write` takes a size beyond 32 bits leads, when
its calls return, to a state in which every open descriptor refers to an occupied entry and has
its cursor at most the size of the entry. -/
theorem cursor_bound_kept (s : FsState) (dev : Option Disk) (s0 : FsState)
    (hmount : fs_mount s dev = .ok (0, s0)) (hopen : ∀ i, (get_dir s0 i).open_ = 0)
    (calls : List Call) (hok : calls_ok s0 calls) (s' : FsState)
    (hrun : run_calls s0 calls = .ok s') : CursorBound s' :=
  descOk_cursorBound
    (descOk_run_calls calls s0 s' (descOk_mount s dev s0 hmount hopen) hok hrun)

/-! ## Runs of the code on concrete volumes -/

set_option maxRecDepth 100000 in
/-- C1. The round trip fails on the code.  On a fresh empty file with seven free blocks,
`fs_write` of three blocks (4096 bytes 1, 4096 bytes 2, 4096 bytes 3) returns 12288, `fs_lseek`
to 0 returns 0 and `fs_read` of 12288 bytes returns 12288, but byte 4096 read back is 3 where
the buffer written has 2, and byte 8192 of the output buffer was never filled.  On the file that
holds `0, 1, .., 99`, writing ten bytes 9 at cursor 0 returns 10 and reading them back gives
byte 0 of the old content. -/
theorem round_trip_fails :
    (write_seek_read (vol_open_a 8) 0 three_blocks 0 12288).map
        (fun r => (r.1, r.2.1, r.2.2.1, r.2.2.2.getD 4096 0, r.2.2.2.getD 8192 0))
      = .ok (12288, 0, 12288, 3, 0)
    ∧ three_blocks.getD 4096 0 = 2 ∧ three_blocks.getD 8192 0 = 3
    ∧ (write_seek_read vol_file100 0 (List.replicate 10 9) 0 10).map
        (fun r => (r.1, r.2.1, r.2.2.1, r.2.2.2.getD 0 7)) = .ok (10, 0, 10, 0) := by
  decide!

set_option maxRecDepth 100000 in
/-- C3. Exhaustion does not give a short count on the code.  The volume `vol_open_a 3` has
exactly the two free data blocks 1 and 2; writing 8193 bytes to its fresh empty file returns
8193, not 2 * 4096, and the file size becomes 8193 on a chain of two blocks. -/
theorem exhaustion_returns_full_count :
    free_blks (vol_open_a 3) = [1, 2]
    ∧ (fs_write (vol_open_a 3) 0 (List.replicate 8193 7) 8193).map Prod.fst = .ok 8193
    ∧ fs_stat (after_write (vol_open_a 3) 0 (List.replicate 8193 7)) 0 = 8193
    ∧ (after_write (vol_open_a 3) 0 (List.replicate 8193 7)).fat.take 3 = [0xFFFF, 2, 0xFFFF]
    ∧ (get_dir (after_write (vol_open_a 3) 0 (List.replicate 8193 7)) 0).first_data_blk = 1 := by
  decide!

set_option maxRecDepth 100000 in
/-- C4. Append does not read back on the code.  The file holds `0, 1, .., 99` in one block;
after `fs_lseek(fd, 100)` (returns 0), `fs_write` of ten bytes 9 returns 10 and the size is 110,
but reading the 110 bytes from offset 0 gives 99 at position 99 and 0, not 9, at position 100. -/
theorem append_reads_back_other_bytes :
    fs_stat vol_file100 0 = 100 ∧ (fs_lseek vol_file100 0 100).1 = 0
    ∧ (write_seek_read (fs_lseek vol_file100 0 100).2 0 (List.replicate 10 9) 0 110).map
        (fun r => (r.1, r.2.1, r.2.2.1, r.2.2.2.getD 99 7, r.2.2.2.getD 100 7))
      = .ok (10, 0, 110, 99, 0)
    ∧ fs_stat (after_write (fs_lseek vol_file100 0 100).2 0 (List.replicate 10 9)) 0 = 110 := by
  decide!

set_option maxRecDepth 100000 in
/-- C5. Overwrite is not in place on the code.  The file holds `0, 1, .., 99`; with the cursor
at 10, `fs_write` of ten bytes 200 returns 10 and the size stays 100, but the bytes at
positions 10 and 19 read back are still 10 and 19, not 200. -/
theorem overwrite_misses_the_cursor :
    (fs_lseek vol_file100 0 10).1 = 0
    ∧ (write_seek_read (fs_lseek vol_file100 0 10).2 0 (List.replicate 10 200) 0 100).map
        (fun r => (r.1, r.2.1, r.2.2.1, r.2.2.2.getD 10 7, r.2.2.2.getD 19 7))
      = .ok (10, 0, 100, 10, 19)
    ∧ fs_stat (after_write (fs_lseek vol_file100 0 10).2 0 (List.replicate 10 200)) 0 = 100 := by
  decide!

set_option maxRecDepth 100000 in
/-- C6. Read does not start at the cursor on the code.  The file holds `0, 1, .., 99` (reading
8 bytes at cursor 0 gives `0, .., 7`); with the cursor at 5, `fs_read` of 3 bytes returns 3 and
stores `0, 1, 2`, not `5, 6, 7`. -/
theorem read_ignores_cursor_in_block :
    seek_read vol_file100 0 0 8 = .ok (0, 8, [0, 1, 2, 3, 4, 5, 6, 7])
    ∧ seek_read vol_file100 0 5 3 = .ok (0, 3, [0, 1, 2]) := by
  decide!

set_option maxRecDepth 100000 in
/-- C9. File names do not stay unique on the code.  From an empty directory, `fs_create("a")`,
`fs_create("b")`, `fs_delete("a")` and `fs_create("b")` all return 0: the last call stops its
scan at the empty slot 0 and never sees slot 1, so slots 0 and 1 both hold `"b"`. -/
theorem duplicate_name_created :
    (fs_create (fresh_vol 8) name_a).1 = 0
    ∧ (fs_create (fs_create (fresh_vol 8) name_a).2 name_b).1 = 0
    ∧ (fs_delete dir_ab name_a).map Prod.fst = .ok 0
    ∧ (get_dir dir_b 0).filename = [] ∧ (get_dir dir_b 1).filename = name_b
    ∧ (fs_create dir_b name_b).1 = 0
    ∧ (get_dir (fs_create dir_b name_b).2 0).filename = name_b
    ∧ (get_dir (fs_create dir_b name_b).2 1).filename = name_b := by
  decide!

set_option maxRecDepth 100000 in
/-- C14. Deleting the empty name succeeds on the code.  The volume `dir_a` holds the one file
`"a"` in entry 0 (the empty name is the name of no file), slot 0 of the FAT holds `0xFFFF`,
`fat_used` and `rdir_used` are 1.  `fs_delete("")` returns 0: `get_directory_entry` matches the
empty entry 1, whose first block 0 is not `0xFFFF`, so `erase_fat` zeroes slot 0 of the FAT and
lowers `fat_used` to 0, and `rdir_used` drops to 0 while `"a"` is still there.  On the empty
volume the same call returns 0 and leaves `rdir_used = 65535`. -/
theorem delete_empty_name_succeeds :
    (get_dir dir_a 0).filename = name_a ∧
    (∀ j, j < FS_FILE_MAX_COUNT → j ≠ 0 → (get_dir dir_a j).filename = []) ∧
    fat_at dir_a 0 = 0xFFFF ∧ dir_a.sp.fat_used = 1 ∧ dir_a.sp.rdir_used = 1 ∧
    (fs_delete dir_a []).map (fun r => (r.1, fat_at r.2 0, r.2.sp.fat_used, r.2.sp.rdir_used))
      = .ok (0, 0, 0, 0) ∧
    (get_dir (after_delete dir_a []) 0).filename = name_a ∧
    (fs_delete (fresh_vol 8) []).map
        (fun r => (r.1, fat_at r.2 0, r.2.sp.fat_used, r.2.sp.rdir_used))
      = .ok (0, 0, 0, 65535) := by
  decide!

set_option maxRecDepth 100000 in
/-- C15. Opening the empty name succeeds on the code.  The volume `dir_a` holds the one file
`"a"` in entry 0 and no descriptor is open.  `fs_open("")` returns descriptor 0:
`get_directory_entry` matches the empty entry 1, the descriptor points to that unoccupied
entry, whose open count becomes 1 and whose flag becomes `'o'`, and `fd_cnt` becomes 1. -/
theorem open_empty_name_succeeds :
    (get_dir dir_a 0).filename = name_a ∧ (get_dir dir_a 1).filename = [] ∧
    dir_a.fd_cnt = 0 ∧ fd_slot dir_a 0 = none ∧
    (fs_open dir_a []).1 = 0 ∧
    fd_slot (fs_open dir_a []).2 0 = some { file_entry := 1, offset := 0 } ∧
    (get_dir (fs_open dir_a []).2 1).filename = [] ∧
    (get_dir (fs_open dir_a []).2 1).open_ = 1 ∧
    (get_dir (fs_open dir_a []).2 1).flag = FLAG_O ∧
    (fs_open dir_a []).2.fd_cnt = 1 := by
  decide!

set_option maxRecDepth 100000 in
/-- C25. The writer flag outlives the call on the code.  In the volume `vol_full` no data
block is free; the file `"b"`, open as descriptor 1, is empty and its flag is `'o'`, not `'w'`.
`fs_write(1, buf, 1)` returns 0 and leaves the flag `'w'`: the first block of an empty file is
requested right after the flag is set, and `return 0` follows without the flag being reset.
The next `fs_write` on the file, also one of zero bytes, is rejected with -1. -/
theorem writer_flag_left_set :
    is_valid_fd vol_full 1 = true ∧ (fd_get vol_full 1).file_entry = 1 ∧
    (get_dir vol_full 1).filename = name_b ∧ (get_dir vol_full 1).flag = FLAG_O ∧
    free_blks vol_full = [] ∧
    (fs_write vol_full 1 [8] 1).map (fun r => (r.1, (get_dir r.2 1).flag)) = .ok (0, FLAG_W) ∧
    (fs_write (write_state vol_full 1 [8] 1) 1 [8] 1).map Prod.fst = .ok (-1) ∧
    (fs_write (write_state vol_full 1 [8] 1) 1 [] 0).map Prod.fst = .ok (-1) := by
  decide!

set_option maxRecDepth 100000 in
/-- C29. Block resolution is one block short at the multiples of 4096 on the code.  The file
`"a"` of `vol_two_blocks` has 5000 bytes in the chain 1, 2.  One link from `first_data_blk`
leads to block 2, the block of ordinal `4096 / 4096 = 1`, but `get_offset_blk(fd, 4096)` returns
block 1: it follows `file_blk_count(offset) - 1` links, which is 0 for `offset = 4096`.  For
the offsets 0, 4095 and 4097 it returns the blocks 1, 1 and 2, and 0 for the offset 5000.
Through `fs_read`: with the cursor at 4096 the byte read is 1, byte 0 of the file, where byte
4096 of the file is 2. -/
theorem get_offset_blk_block_short :
    is_valid_fd vol_two_blocks 0 = true ∧ (fd_get vol_two_blocks 0).file_entry = 0 ∧
    (get_dir vol_two_blocks 0).file_sz = 5000 ∧
    IsChain vol_two_blocks (get_dir vol_two_blocks 0).first_data_blk [1, 2] ∧
    walk_fat vol_two_blocks (4096 / BLOCK_SIZE) (get_dir vol_two_blocks 0).first_data_blk
      = .ok 2 ∧
    get_offset_blk vol_two_blocks 0 4096 = .ok 1 ∧
    get_offset_blk vol_two_blocks 0 0 = .ok 1 ∧
    get_offset_blk vol_two_blocks 0 4095 = .ok 1 ∧
    get_offset_blk vol_two_blocks 0 4097 = .ok 2 ∧
    get_offset_blk vol_two_blocks 0 5000 = .ok 0 ∧
    two_blocks.getD 4096 0 = 2 ∧
    seek_read vol_two_blocks 0 4096 1 = .ok (0, 1, [1]) := by
  decide!

set_option maxRecDepth 100000 in
/-- C26. The chain falls short of the size on the code.  In `vol_open_a 8` every file is
empty, so every chain matches its size.  `fs_write` of 12288 bytes to the empty file `"a"`
returns 12288 and the size is 12288, three blocks, but the chain is 1, 2: the loop takes block 2
twice, as the FAT is only updated after the loop.  In the volume with the 100-byte file `"a"`
(chain 1, cursor at 100) every chain matches its size; `fs_write` of ten bytes at the end of
the file returns 10 and the size is 110, one block, but the chain is 1, 2: an append always
takes a fresh block. -/
theorem chain_does_not_match_size :
    (∀ id, ChainMatchesSize (vol_open_a 8) id) ∧
    (fs_write (vol_open_a 8) 0 three_blocks 12288).map Prod.fst = .ok 12288 ∧
    (get_dir vol_three 0).filename = name_a ∧ (get_dir vol_three 0).file_sz = 12288 ∧
    IsChain vol_three (get_dir vol_three 0).first_data_blk [1, 2] ∧
    ¬ ChainMatchesSize vol_three 0 ∧
    (∀ id, ChainMatchesSize (fs_lseek vol_file100 0 100).2 id) ∧
    (fs_write (fs_lseek vol_file100 0 100).2 0 (List.replicate 10 9) 10).map Prod.fst = .ok 10 ∧
    (get_dir vol_appended 0).filename = name_a ∧ (get_dir vol_appended 0).file_sz = 110 ∧
    IsChain vol_appended (get_dir vol_appended 0).first_data_blk [1, 2] ∧
    ¬ ChainMatchesSize vol_appended 0 := by
  have h0 : ∀ id, (get_dir (vol_open_a 8) id).file_sz = 0 := by
    intro id
    by_cases hid : id < 128
    · have hall : ∀ i, i < 128 → (get_dir (vol_open_a 8) i).file_sz = 0 := by decide!
      exact hall id hid
    · have hlen : (vol_open_a 8).root_dir.length = 128 := by decide!
      unfold get_dir
      rw [List.getD_eq_default _ _ (by omega)]
      rfl
  have h1 : ∀ id, id ≠ 0 → (get_dir (fs_lseek vol_file100 0 100).2 id).file_sz = 0 := by
    intro id hne
    by_cases hid : id < 128
    · have hall : ∀ i, i < 128 → i ≠ 0 →
          (get_dir (fs_lseek vol_file100 0 100).2 i).file_sz = 0 := by decide!
      exact hall id hid hne
    · have hlen : (fs_lseek vol_file100 0 100).2.root_dir.length = 128 := by decide!
      unfold get_dir
      rw [List.getD_eq_default _ _ (by omega)]
      rfl
  have c3 : IsChain vol_three (get_dir vol_three 0).first_data_blk [1, 2] := by decide!
  have c4 : IsChain vol_appended (get_dir vol_appended 0).first_data_blk [1, 2] := by decide!
  refine ⟨fun id => chainMatchesSize_of_zero _ id (h0 id), by decide!, by decide!, by decide!,
    c3, ?_, ?_, by decide!, by decide!, by decide!, c4, ?_⟩
  · rw [chainMatchesSize_iff vol_three 0 [1, 2] c3 (by decide!)]
    decide!
  · intro id
    by_cases hid : id = 0
    · subst hid
      have c1 : IsChain (fs_lseek vol_file100 0 100).2
          (get_dir (fs_lseek vol_file100 0 100).2 0).first_data_blk [1] := by decide!
      rw [chainMatchesSize_iff _ 0 [1] c1 (by decide!)]
      decide!
    · exact chainMatchesSize_of_zero _ id (h1 id hid)
  · rw [chainMatchesSize_iff vol_appended 0 [1, 2] c4 (by decide!)]
    decide!

set_option maxRecDepth 100000 in
/-- C27. The counters leave the tables on the code.  `fs_mount` of the disk of `fresh_vol 8`
returns 0 and gives `fresh_vol 8`, an empty volume: no slot of the FAT from 1 on is taken, no
entry is occupied, `fat_used = 1`, `rdir_used = 0`.  After `fs_create("a")`, `fs_open("a")` and
a `fs_write` of 12288 bytes, `fat_used` is 4 while two slots of the FAT are taken (1 + 2 = 3).
After `fs_create("a")`, `fs_open("a")`, a `fs_write` of 100 bytes, a `fs_read` of 100 bytes and
a `fs_write` of 10 bytes, `fat_used` is 3 while `sp_setup`, which `fs_mount` runs, computes 2
from the directory.  After `fs_delete("")` on the fresh volume `fat_used` is 0 and `rdir_used`
is 65535 while no entry is occupied. -/
theorem counters_leave_the_tables :
    (fs_mount (clear (fresh_vol 8)) (some (fresh_vol 8).disk)).map
        (fun r => (r.1, decide (r.2 = fresh_vol 8))) = .ok (0, true) ∧
    used_slots (fresh_vol 8) = 0 ∧ occupied (fresh_vol 8) = 0 ∧
    (fresh_vol 8).sp.fat_used = 1 ∧ (fresh_vol 8).sp.rdir_used = 0 ∧
    (fs_write (vol_open_a 8) 0 three_blocks 12288).map Prod.fst = .ok 12288 ∧
    vol_three.sp.fat_used = 4 ∧ used_slots vol_three = 2 ∧
    vol_three.sp.rdir_used = 1 ∧ occupied vol_three = 1 ∧
    (run_ops vol_file100 0 [.read 100, .write (List.replicate 10 9) 10]).map
        (fun t => (t.sp.fat_used, used_slots t, (sp_setup t).sp.fat_used, (get_dir t 0).file_sz))
      = .ok (3, 2, 2, 110) ∧
    (fs_delete (fresh_vol 8) []).map
        (fun r => (r.1, r.2.sp.fat_used, used_slots r.2, r.2.sp.rdir_used, occupied r.2))
      = .ok (0, 0, 0, 65535, 0) := by
  decide!

set_option maxRecDepth 100000 in
/-- C30 fails as stated.  `fuel` is the number of times the test of the loop
`while((*id) != 0xFFFF)` of `erase_fat` may be made; the outcome `Err.timeout` says that the
loop has not ended by then.  In `vol_cyclic` the slots 1 and 2 of the FAT point to each other
and slot 0 holds 0: from the head 1 the loop has not ended after any number of iterations, in
particular not after `data_blk_count = 8`.  The same holds in `vol_slot0`, the state that
`fs_delete("")` leaves of a fresh volume (slot 0 holds 0), for the head 0, which is the first
block of the empty entry that a second `fs_delete("")` frees. -/
theorem erase_fat_never_ends :
    (∀ fuel, erase_fat fuel vol_cyclic (get_fat vol_cyclic 1) = .error .timeout) ∧
    (fs_delete (fresh_vol 8) []).map Prod.fst = .ok 0 ∧
    get_directory_entry vol_slot0 [] = 0 ∧ (get_dir vol_slot0 0).open_ = 0 ∧
    (get_dir vol_slot0 0).first_data_blk = 0 ∧
    (∀ fuel, erase_fat fuel vol_slot0 (get_fat vol_slot0 (get_dir vol_slot0 0).first_data_blk)
      = .error .timeout) := by
  have hm1 : vol_cyclic.mounted = true := rfl
  have hm2 : vol_slot0.mounted = true := by decide!
  have hd2 : 0 < vol_slot0.sp.data_blk_count := by decide!
  have hf2 : vol_slot0.fat.getD 0 0 = 0 := by decide!
  have hb2 : (get_dir vol_slot0 0).first_data_blk = 0 := by decide!
  refine ⟨?_, by decide!, by decide!, by decide!, hb2, ?_⟩
  · intro fuel
    have hg : get_fat vol_cyclic 1 = some 1 := by decide
    rw [hg]
    unfold erase_fat
    rw [if_neg (by rw [hm1]; decide)]
    simp only []
    rw [erase_fat_loop_cycle vol_cyclic hm1 vol_cyclic.fat 1 2 (by decide) (by decide)
      (by decide) (by decide) (by decide) (by decide) (by decide) (by decide) (by decide)
      (by decide) (by decide!) fuel _]
  · intro fuel
    rw [hb2, get_fat_some hm2 hd2 (by decide)]
    unfold erase_fat
    rw [if_neg (by rw [hm2]; decide)]
    simp only []
    rw [erase_fat_loop_stuck vol_slot0 hm2 hd2 fuel _ _ hf2]

set_option maxRecDepth 100000 in
/-- The volume `fresh_vol 8` is what `fs_mount` makes of its disk. -/
theorem fs_mount_fresh_vol :
    fs_mount (clear (fresh_vol 8)) (some (fresh_vol 8).disk) = .ok (0, fresh_vol 8) := by
  decide!

set_option maxRecDepth 100000 in
/-- C31. The cursor bound fails on the code.  `fs_mount` of the disk of `fresh_vol 8` returns 0
and gives `fresh_vol 8`, an empty volume whose stored open counts are all 0.  After the one call
`fs_open("")`, which returns descriptor 0, that descriptor is open on entry 0, which holds no
file (its name is empty).  After `fs_open("")`, `fs_write(0, buf, 100)`, `fs_lseek(0, 100)` and
`fs_create("a")`, descriptor 0 is open on entry 0, which now holds the file `"a"` of size 0,
and its cursor is 100. -/
theorem cursor_bound_fails :
    fs_mount (clear (fresh_vol 8)) (some (fresh_vol 8).disk) = .ok (0, fresh_vol 8) ∧
    (∀ i, i < FS_FILE_MAX_COUNT → (get_dir (fresh_vol 8) i).open_ = 0) ∧
    (fs_open (fresh_vol 8) []).1 = 0 ∧
    (∃ t, run_calls (fresh_vol 8) [.fs_open []] = .ok t ∧ is_valid_fd t 0 = true ∧
      (fd_get t 0).file_entry = 0 ∧ (get_dir t 0).filename = [] ∧ ¬ CursorBound t) ∧
    (∃ t, run_calls (fresh_vol 8)
        [.fs_open [], .fs_write 0 (List.replicate 100 7) 100, .fs_lseek 0 100,
          .fs_create name_a] = .ok t ∧
      is_valid_fd t 0 = true ∧ (fd_get t 0).file_entry = 0 ∧
      (get_dir t 0).filename = name_a ∧ (get_dir t 0).file_sz = 0 ∧
      (fd_get t 0).offset = 100 ∧ ¬ CursorBound t) := by
  have r1 : (run_calls (fresh_vol 8) [.fs_open []]).map
      (fun t => (is_valid_fd t 0, (fd_get t 0).file_entry, (get_dir t 0).filename))
      = .ok (true, 0, []) := by decide!
  have r2 : (run_calls (fresh_vol 8)
      [.fs_open [], .fs_write 0 (List.replicate 100 7) 100, .fs_lseek 0 100,
        .fs_create name_a]).map
      (fun t => (is_valid_fd t 0, (fd_get t 0).file_entry, (get_dir t 0).filename,
        (get_dir t 0).file_sz, (fd_get t 0).offset))
      = .ok (true, 0, name_a, 0, 100) := by decide!
  refine ⟨fs_mount_fresh_vol, by decide!, by decide!, ?_, ?_⟩
  · cases h : run_calls (fresh_vol 8) [.fs_open []] with
    | error e =>
      rw [h] at r1
      exact absurd r1 (by simp [Except.map])
    | ok t =>
      rw [h] at r1
      simp only [Except.map, Except.ok.injEq, Prod.mk.injEq] at r1
      obtain ⟨a1, a2, a3⟩ := r1
      refine ⟨t, rfl, a1, a2, a3, ?_⟩
      intro hcb
      have := (hcb 0 a1).1
      rw [a2, a3] at this
      exact this rfl
  · cases h : run_calls (fresh_vol 8)
        [.fs_open [], .fs_write 0 (List.replicate 100 7) 100, .fs_lseek 0 100,
          .fs_create name_a] with
    | error e =>
      rw [h] at r2
      exact absurd r2 (by simp [Except.map])
    | ok t =>
      rw [h] at r2
      simp only [Except.map, Except.ok.injEq, Prod.mk.injEq] at r2
      obtain ⟨a1, a2, a3, a4, a5⟩ := r2
      refine ⟨t, rfl, a1, a2, a3, a4, a5, ?_⟩
      intro hcb
      have := (hcb 0 a1).2
      rw [a2, a4, a5] at this
      omega

set_option maxRecDepth 100000 in
/-- A run to which `cursor_bound_kept` applies: from the mounted `fresh_vol 8`, the calls
`fs_create("a")`, `fs_open("a")`, `fs_write(0, buf, 100)` and `fs_lseek(0, 100)` are calls of
`calls_ok`, they return, and descriptor 0 is then open with the cursor bound in force. -/
theorem cursor_bound_kept_run :
    ∃ t, run_calls (fresh_vol 8)
        [.fs_create name_a, .fs_open name_a, .fs_write 0 (List.range 100) 100,
          .fs_lseek 0 100] = .ok t ∧
      is_valid_fd t 0 = true ∧ (fd_get t 0).offset = 100 ∧ CursorBound t := by
  have hm := fs_mount_fresh_vol
  have hopen : ∀ i, (get_dir (fresh_vol 8) i).open_ = 0 := by
    intro i
    by_cases hi : i < 128
    · have hall : ∀ j, j < 128 → (get_dir (fresh_vol 8) j).open_ = 0 := by decide!
      exact hall i hi
    · have hlen : (fresh_vol 8).root_dir.length = 128 := by decide!
      unfold get_dir
      rw [List.getD_eq_default _ _ (by omega)]
      rfl
  have r : (run_calls (fresh_vol 8)
      [.fs_create name_a, .fs_open name_a, .fs_write 0 (List.range 100) 100,
        .fs_lseek 0 100]).map (fun t => (is_valid_fd t 0, (fd_get t 0).offset))
      = .ok (true, 100) := by decide!
  have hw : (fs_write (vol_open_a 8) 0 (List.range 100) 100).map
      (fun v => decide (v.2 = vol_file100)) = .ok true := by decide!
  have hsz : (get_dir (vol_open_a 8) (fd_get (vol_open_a 8) 0).file_entry).file_sz + 100
      < 4294967296 := by decide!
  cases h : run_calls (fresh_vol 8)
      [.fs_create name_a, .fs_open name_a, .fs_write 0 (List.range 100) 100,
        .fs_lseek 0 100] with
  | error e =>
    rw [h] at r
    exact absurd r (by simp [Except.map])
  | ok t =>
    rw [h] at r
    simp only [Except.map, Except.ok.injEq, Prod.mk.injEq] at r
    refine ⟨t, rfl, r.1, r.2, ?_⟩
    refine cursor_bound_kept _ _ _ hm hopen _ ?_ t h
    have e1 : run_call (fresh_vol 8) (.fs_create name_a) = .ok (fs_create (fresh_vol 8) name_a).2 :=
      rfl
    have e2 : run_call (fs_create (fresh_vol 8) name_a).2 (.fs_open name_a)
        = .ok (vol_open_a 8) := rfl
    have e3 : run_call (vol_open_a 8) (.fs_write 0 (List.range 100) 100) = .ok vol_file100 := by
      rw [run_call]
      cases hf : fs_write (vol_open_a 8) 0 (List.range 100) 100 with
      | error e =>
        rw [hf] at hw
        exact absurd hw (by simp [Except.map])
      | ok v =>
        rw [hf] at hw
        simp only [Except.map, Except.ok.injEq, decide_eq_true_eq] at hw
        rw [← hw]
    have e4 : run_call vol_file100 (.fs_lseek 0 100) = .ok (fs_lseek vol_file100 0 100).2 := rfl
    rw [calls_ok, e1]
    refine ⟨trivial, ?_⟩
    show calls_ok _ _
    rw [calls_ok, e2]
    refine ⟨by show name_a ≠ []; decide, ?_⟩
    show calls_ok _ _
    rw [calls_ok, e3]
    refine ⟨fun _ => hsz, ?_⟩
    show calls_ok _ _
    rw [calls_ok, e4]
    exact ⟨trivial, trivial⟩

end LibFS
